import Mathlib

/-!
# Acronis Cyber Cloud sample connector: the synchronisation engine

A shallow embedding of `connector/core/updater` (`utils.go`,
`sync_loop_impl.go`, `reconciliation_impl.go`, `usage_loop_impl.go`,
`config.go`, the constructors of the loops), of the parts of
`connector/accclient` and `connector/core` it relies on, of the requests of
`connector/accclient` over HTTP (`client.go`, `error.go`, the query parameters
and `CustomTime` of `tenant.go`, `user.go`, `offering_items.go`) and of the
readers of `connector/sample-connector/external/external_pull_impl.go`.

* Go code with side effects (HTTP calls to the cloud and to the external
  system, `time.Sleep`) is a function of an explicit world state `σ`.
* The collaborators (`core.ExternalSystemClient`, `accclient.Client`) are
  records of state-passing operations, so that every behaviour of theirs,
  failures included, is a choice of record.
* Unbounded loops and the recursion of `createOrUpdateTenant` take a budget;
  a run that exhausts it yields `none` together with the state reached.
* Errors are their messages (`error.Error()`), `nil` is `none`.
* `time.Time` is the signed distance from the zero instant, so that
  `IsZero` is `= 0`; a `time.Duration` is a signed number of nanoseconds, and
  the products that can leave `int64` wrap around.
-/

namespace Connector

/-! ## Data model (`accclient`, `core`) -/

/-- An instant, `time.Time`: the distance from the zero instant. -/
abbrev Time := Int

/-- The Go method `time.Time.IsZero`. -/
def Time.IsZero (t : Time) : Bool := t == 0

/-- A `time.Duration`: an `int64` count of nanoseconds. -/
abbrev Duration := Int

/-- The constant `time.Second`. -/
def Second : Duration := 1000000000

/-- The Go conversion of an integer value to `int64`: the value modulo 2^64,
taken between -2^63 and 2^63 - 1. -/
def toInt64 (n : Int) : Int := (n + 2 ^ 63) % 2 ^ 64 - 2 ^ 63

/-- The Go expression `time.Second * time.Duration(interval)` for an
`interval` of type `uint`, 64 bits wide: the conversion to `time.Duration` and
the product both wrap around in `int64`. -/
def secondsOf (interval : Nat) : Duration :=
  toInt64 (Second * toInt64 ((interval % 2 ^ 64 : Nat) : Int))

/-- The fields of `accclient.OfferingItem` the engine reads. -/
structure OfferingItem where
  Name : String
  TenantID : String
  Status : Int
deriving DecidableEq

/-- The fields of `accclient.Tenant` the engine reads (`DeletedAt` is a
`CustomTime`, a `time.Time`). -/
structure Tenant where
  ID : String
  ParentID : String
  DeletedAt : Time
  OfferingItems : List OfferingItem
deriving DecidableEq

/-- The fields of `accclient.AccessPolicy` the engine reads (`DeletedAt` is a
`*time.Time`). -/
structure AccessPolicy where
  ID : String
  TrusteeID : String
  DeletedAt : Option Time
deriving DecidableEq

/-- The fields of `accclient.User` the engine reads. -/
structure User where
  ID : String
  TenantID : String
  DeletedAt : Time
  AccessPolicies : List AccessPolicy
deriving DecidableEq

/-- The Go struct `core.OfferingItemID`. -/
structure OfferingItemID where
  OfferingItemName : String
  TenantID : String
deriving DecidableEq

/-- The Go struct `accclient.TenantGetRequest`; a `TenantLOD` is a string. -/
structure TenantGetRequest where
  UUIDs : List String := []
  ParentID : String := ""
  SubTreeRootID : String := ""
  UpdatedSince : Option Time := none
  Limit : Option Nat := none
  After : String := ""
  LevelOfDetail : String := ""
  WithContacts : Option Bool := none
  WithOfferingItems : Option Bool := none
  AllowDeleted : Bool := false
deriving DecidableEq

/-- The fields of `accclient.TenantGetResponse` the engine reads; `After` is
`Paging.Cursors.After`. -/
structure TenantGetResponse where
  After : String
  Timestamp : Time
  Items : List Tenant
deriving DecidableEq

/-- The Go struct `accclient.UserGetRequest`; a `UserLOD` is a string. -/
structure UserGetRequest where
  UUIDs : List String := []
  ExternalIDs : List String := []
  TenantID : String := ""
  SubTreeRootTenantID : String := ""
  UpdatedSince : Option Time := none
  Limit : Option Nat := none
  After : String := ""
  LevelOfDetail : String := ""
  WithAccessPolicies : Option Bool := none
  AllowDeleted : Bool := false
deriving DecidableEq

/-- The fields of `accclient.UserGetResponse` the engine reads. -/
structure UserGetResponse where
  After : String
  Timestamp : Time
  Items : List User
deriving DecidableEq

/-- The Go struct `accclient.Usage`. -/
structure Usage where
  ResourceID : Option String := none
  UsageType : Option String := none
  TenantID : Option String := none
  OfferingItem : Option String := none
  InfraID : Option String := none
  UsageValue : Int := 0
deriving DecidableEq

/-- The Go struct `accclient.UsagesPutRequest`. -/
structure UsagesPutRequest where
  Items : List Usage
deriving DecidableEq

/-- The fields of `accclient.UsagesPutResponse` the engine reads: one entry per
usage of the request the cloud answered for. -/
structure UsagesPutResponse where
  Items : List Usage
deriving DecidableEq

/-! ## Effects -/

/-- A computation over the world state `σ`. The result is `none` when the
budget of a loop or of a recursion ran out before the computation finished;
the state is the one reached. -/
def M (σ α : Type) : Type := σ → Option α × σ

namespace M

variable {σ α β : Type}

/-- A computation that finishes at once with `a`. -/
def ret (a : α) : M σ α := fun s => (some a, s)

/-- Sequencing: an exhausted budget ends the run. -/
def andThen (m : M σ α) (f : α → M σ β) : M σ β := fun s =>
  match m s with
  | (some a, s1) => f a s1
  | (none, s1) => (none, s1)

/-- One total operation of a collaborator. -/
def lift (f : σ → α × σ) : M σ α := fun s => (some (f s).1, (f s).2)

/-- The budget is exhausted. -/
def outOfFuel : M σ α := fun s => (none, s)

instance : Monad (M σ) where
  pure := ret
  bind := andThen

end M

/-- The interface `core.ExternalSystemClient`. A Go result `(v, err)` whose
value is only read when `err == nil` is an `Except`; a plain `error` is an
`Option`. Offsets and limits are never negative. -/
structure ExternalSystemClient (σ : Type) where
  CreateOrUpdateTenant : Tenant → σ → Except String Bool × σ
  DeleteTenant : String → σ → Option String × σ
  GetActiveTenantIDs : Nat → Nat → σ → Except String (List String) × σ
  CheckTenantExist : String → σ → Except String Bool × σ
  CreateOrUpdateOfferingItem : OfferingItem → σ → Except String Bool × σ
  DeleteOfferingItem : OfferingItemID → σ → Option String × σ
  GetActiveOfferingItemIDs : Nat → Nat → σ → Except String (List OfferingItemID) × σ
  CreateOrUpdateUser : User → σ → Except String Bool × σ
  DeleteUser : String → σ → Option String × σ
  GetActiveUserIDs : Nat → Nat → σ → Except String (List String) × σ
  CreateOrUpdateAccessPolicy : AccessPolicy → σ → Except String Bool × σ
  DeleteAccessPolicy : String → σ → Option String × σ
  GetActiveAccessPolicyIDs : Nat → Nat → σ → Except String (List String) × σ
  GetUsages : Nat → Nat → σ → Except String (List Usage) × σ

/-- The methods of `accclient.Client` the engine calls: `GetTenants`,
`GetUsers` and `UpdateUsages`, as seen by the engine (a response, or an
error). -/
structure Client (σ : Type) where
  GetTenants : TenantGetRequest → σ → Except String TenantGetResponse × σ
  GetUsers : UserGetRequest → σ → Except String UserGetResponse × σ
  UpdateUsages : UsagesPutRequest → σ → Except String UsagesPutResponse × σ

/-- What the engine takes from the Go runtime and standard library:
`time.Sleep`, the `%v` rendering of a `Tenant` value by `fmt`, and the order in
which `range` visits a map (any permutation of its entries; `site` tells the
loops apart). -/
structure Runtime (σ : Type) where
  Sleep : Duration → σ → σ
  fmtTenant : Tenant → String
  rangeOrder : (site : Nat) → {α : Type} → List α → List α
  rangeOrder_perm : ∀ (site : Nat) {α : Type} (l : List α), (rangeOrder site l).Perm l

/-- A Go `map[string]V`: its entries, with pairwise distinct keys. -/
structure GoMap (V : Type) where
  entries : List (String × V)
  nodup : (entries.map Prod.fst).Nodup

namespace GoMap

variable {V : Type}

/-- The empty map; the `nil` map reads the same. -/
def empty : GoMap V := ⟨[], List.nodup_nil⟩

instance : EmptyCollection (GoMap V) := ⟨empty⟩

instance : Inhabited (GoMap V) := ⟨empty⟩

/-- The keys of the map. -/
def keys (m : GoMap V) : List String := m.entries.map Prod.fst

/-- The Go expression `v, ok := m[k]`. -/
def get? (m : GoMap V) (k : String) : Option V := List.lookup k m.entries

/-- The entries of `m` under keys other than `k`. -/
def without (m : GoMap V) (k : String) : List (String × V) :=
  m.entries.filter (fun e => e.1 != k)

/-- The Go statement `m[k] = v`. -/
def set (m : GoMap V) (k : String) (v : V) : GoMap V :=
  ⟨(k, v) :: m.without k,
    List.nodup_cons.2
      ⟨by simp [without], m.nodup.sublist ((List.filter_sublist _).map Prod.fst)⟩⟩

/-- The Go statement `delete(m, k)`. -/
def delete (m : GoMap V) (k : String) : GoMap V :=
  ⟨m.without k, m.nodup.sublist ((List.filter_sublist _).map Prod.fst)⟩

end GoMap

/-! ## Observation: the trace of calls

Running the engine against `traced` collaborators leaves the list of the
calls it made, oldest first, each with the state of the world at the moment of
the call. -/

/-- A call on a collaborator. -/
inductive Call where
  | CreateOrUpdateTenant (tenant : Tenant)
  | DeleteTenant (tenantID : String)
  | GetActiveTenantIDs (offset limit : Nat)
  | CheckTenantExist (tenantID : String)
  | CreateOrUpdateOfferingItem (item : OfferingItem)
  | DeleteOfferingItem (itemID : OfferingItemID)
  | GetActiveOfferingItemIDs (offset limit : Nat)
  | CreateOrUpdateUser (user : User)
  | DeleteUser (userID : String)
  | GetActiveUserIDs (offset limit : Nat)
  | CreateOrUpdateAccessPolicy (accessPolicy : AccessPolicy)
  | DeleteAccessPolicy (accessPolicyID : String)
  | GetActiveAccessPolicyIDs (offset limit : Nat)
  | GetUsages (offset limit : Nat)
  | GetTenants (getReq : TenantGetRequest)
  | GetUsers (getReq : UserGetRequest)
  | UpdateUsages (usages : UsagesPutRequest)
  | Sleep (d : Duration)
deriving DecidableEq

/-- A call together with the state of the world when it was made. -/
structure Event (σ : Type) where
  call : Call
  pre : σ
deriving DecidableEq

/-- A world that remembers the calls made on it. -/
abbrev Traced (σ : Type) := σ × List (Event σ)

/-- The calls made so far, oldest first. -/
def calls {σ : Type} (w : Traced σ) : List Call := w.2.map Event.call

/-- Run an operation and append the call to the trace. -/
def record {σ α : Type} (c : Call) (f : σ → α × σ) : Traced σ → α × Traced σ :=
  fun w => ((f w.1).1, ((f w.1).2, w.2 ++ [⟨c, w.1⟩]))

/-- The external system `ext`, with every call recorded. -/
@[simps]
def ExternalSystemClient.traced {σ : Type} (ext : ExternalSystemClient σ) :
    ExternalSystemClient (Traced σ) where
  CreateOrUpdateTenant t := record (.CreateOrUpdateTenant t) (ext.CreateOrUpdateTenant t)
  DeleteTenant id := record (.DeleteTenant id) (ext.DeleteTenant id)
  GetActiveTenantIDs o l := record (.GetActiveTenantIDs o l) (ext.GetActiveTenantIDs o l)
  CheckTenantExist id := record (.CheckTenantExist id) (ext.CheckTenantExist id)
  CreateOrUpdateOfferingItem i :=
    record (.CreateOrUpdateOfferingItem i) (ext.CreateOrUpdateOfferingItem i)
  DeleteOfferingItem id := record (.DeleteOfferingItem id) (ext.DeleteOfferingItem id)
  GetActiveOfferingItemIDs o l :=
    record (.GetActiveOfferingItemIDs o l) (ext.GetActiveOfferingItemIDs o l)
  CreateOrUpdateUser u := record (.CreateOrUpdateUser u) (ext.CreateOrUpdateUser u)
  DeleteUser id := record (.DeleteUser id) (ext.DeleteUser id)
  GetActiveUserIDs o l := record (.GetActiveUserIDs o l) (ext.GetActiveUserIDs o l)
  CreateOrUpdateAccessPolicy p :=
    record (.CreateOrUpdateAccessPolicy p) (ext.CreateOrUpdateAccessPolicy p)
  DeleteAccessPolicy id := record (.DeleteAccessPolicy id) (ext.DeleteAccessPolicy id)
  GetActiveAccessPolicyIDs o l :=
    record (.GetActiveAccessPolicyIDs o l) (ext.GetActiveAccessPolicyIDs o l)
  GetUsages o l := record (.GetUsages o l) (ext.GetUsages o l)

/-- The cloud client `acc`, with every request recorded. -/
@[simps]
def Client.traced {σ : Type} (acc : Client σ) : Client (Traced σ) where
  GetTenants r := record (.GetTenants r) (acc.GetTenants r)
  GetUsers r := record (.GetUsers r) (acc.GetUsers r)
  UpdateUsages r := record (.UpdateUsages r) (acc.UpdateUsages r)

/-- The runtime `rt`, with every sleep recorded. -/
@[simps]
def Runtime.traced {σ : Type} (rt : Runtime σ) : Runtime (Traced σ) where
  Sleep d := fun w => (record (.Sleep d) (fun s => ((), rt.Sleep d s)) w).2
  fmtTenant := rt.fmtTenant
  rangeOrder := rt.rangeOrder
  rangeOrder_perm := rt.rangeOrder_perm

/-! ## `accclient/client.go` -/

/-- The Go method `Client.GetTenantsNextPage`: `(nil, nil)` is `.ok none`. -/
def Client.GetTenantsNextPage {σ : Type} (c : Client σ) (page : TenantGetResponse) :
    M σ (Except String (Option TenantGetResponse)) :=
  if page.After ≠ "" then do
    let r ← M.lift (c.GetTenants { After := page.After })
    match r with
    | .error err =>
      pure (.error ("error fetching GetTenantsNextPage with cursor " ++ page.After ++ ". " ++ err))
    | .ok resp => pure (.ok (some resp))
  else pure (.ok none)

/-- The Go method `Client.GetUsersNextPage`: `(nil, nil)` is `.ok none`. -/
def Client.GetUsersNextPage {σ : Type} (c : Client σ) (page : UserGetResponse) :
    M σ (Except String (Option UserGetResponse)) :=
  if page.After ≠ "" then do
    let r ← M.lift (c.GetUsers { After := page.After })
    match r with
    | .error err =>
      pure (.error
        ("error fetching UserGetResponse next page with cursor " ++ page.After ++ ". " ++ err))
    | .ok resp => pure (.ok (some resp))
  else pure (.ok none)

/-! ## `utils.go` -/

/-- The Go function `getTenantsByUUIDs`. -/
def getTenantsByUUIDs {σ : Type} (accClient : Client σ) (tenantUUIDs : List String) :
    M σ (Except String TenantGetResponse) :=
  M.lift (accClient.GetTenants { UUIDs := tenantUUIDs })

/-- The Go function `createOrUpdateTenant`; `fuel` bounds the depth of the
recursion. The result is the error returned (`none` for `nil`). -/
def createOrUpdateTenant {σ : Type} (rt : Runtime σ) (extClient : ExternalSystemClient σ)
    (accClient : Client σ) : (fuel : Nat) → (tenant : Tenant) → M σ (Option String)
  | 0, _ => M.outOfFuel
  | fuel + 1, tenant => do
    -- the parent check; `some err` is an early `return err`
    let parentErr : Option String ←
      if tenant.ParentID ≠ tenant.ID then do
        let r ← M.lift (extClient.CheckTenantExist tenant.ParentID)
        match r with
        | .error err =>
          pure (some ("failed to check tenant existence for " ++ tenant.ParentID ++
            " from external-system: " ++ err))
        | .ok true => pure none
        | .ok false => do
          let r ← getTenantsByUUIDs accClient [tenant.ParentID]
          match r with
          | .error err =>
            pure (some ("failed to get tenant " ++ tenant.ParentID ++ " from ACC: " ++ err))
          | .ok parentTenantResp =>
            match parentTenantResp.Items with
            | [] => pure (some ("empty tenant response for " ++ tenant.ParentID))
            | parent :: _ => do
              let e ← createOrUpdateTenant rt extClient accClient fuel parent
              match e with
              | some err =>
                pure (some ("failed to create parent tenant with ID " ++ rt.fmtTenant parent ++
                  ": " ++ err))
              | none => pure none
      else pure none
    match parentErr with
    | some err => pure (some err)
    | none => do
      let r ← M.lift (extClient.CreateOrUpdateTenant tenant)
      match r with
      | .error err => pure (some ("failed to upsert tenant with ID " ++ tenant.ID ++ ": " ++ err))
      | .ok _ => pure none

/-- The Go function `createOrUpdateUser`. -/
def createOrUpdateUser {σ : Type} (rt : Runtime σ) (extClient : ExternalSystemClient σ)
    (accClient : Client σ) (fuel : Nat) (user : User) : M σ (Option String) := do
  -- the tenant check; `some err` is an early `return err`
  let tenantErr : Option String ← do
    let r ← M.lift (extClient.CheckTenantExist user.TenantID)
    match r with
    | .error err =>
      pure (some ("failed to check tenant existence for " ++ user.TenantID ++
        " from external-system: " ++ err))
    | .ok true => pure none
    | .ok false => do
      let r ← getTenantsByUUIDs accClient [user.TenantID]
      match r with
      | .error err =>
        pure (some ("failed to get tenant " ++ user.TenantID ++ " from ACC: " ++ err))
      | .ok tenantResp =>
        match tenantResp.Items with
        | [] => pure (some ("empty tenant response for " ++ user.TenantID))
        | tenant :: _ => do
          let e ← createOrUpdateTenant rt extClient accClient fuel tenant
          match e with
          | some err =>
            pure (some ("failed to create tenant with ID " ++ rt.fmtTenant tenant ++ ": " ++ err))
          | none => pure none
  match tenantErr with
  | some err => pure (some err)
  | none => do
    let r ← M.lift (extClient.CreateOrUpdateUser user)
    match r with
    | .error err => pure (some ("failed to update user " ++ user.ID ++ ": " ++ err))
    | .ok _ => pure none


/-- The constant `defaultMaxRetries`. -/
def defaultMaxRetries : Nat := 5

/-- The loop of `retryHelper` from iteration `i` on, with the current
`initialBackOff` and the last `err`; `n` is `defaultMaxRetries - i`, the
iterations left, so that `n = 0` is the loop condition failing. -/
def retryLoop {τ : Type} (sleep : Duration → τ → τ) (userFunction : M τ (Option String)) :
    (n : Nat) → (i : Nat) → (initialBackOff : Duration) → (err : Option String) →
    M τ (Option String)
  | 0, _, _, err =>
    pure (some ("max " ++ toString defaultMaxRetries ++ " retries reached: " ++ err.getD "<nil>"))
  | n + 1, i, initialBackOff, _ => do
    let err ← userFunction
    match err with
    | some e =>
      if i + 1 ≥ defaultMaxRetries then
        pure (some ("max " ++ toString defaultMaxRetries ++ " retries reached: " ++ e))
      else do
        let _ ← M.lift (fun s => ((), sleep initialBackOff s))
        retryLoop sleep userFunction n (i + 1) (initialBackOff * 2) (some e)
    | none => pure none

/-- The Go function `retryHelper`: `for i := 0; i < defaultMaxRetries; i++`.
The state `τ` holds the world and the variables `userFunction` captures. -/
def retryHelper {τ : Type} (sleep : Duration → τ → τ) (userFunction : M τ (Option String)) :
    M τ (Option String) :=
  retryLoop sleep userFunction defaultMaxRetries 0 (1 * Second) none

/-! ## Variables shared between a function body and the closures it builds -/

namespace M

variable {σ α L : Type}

/-- A computation on the world, run where the state also holds variables. -/
def onWorld (m : M σ α) : M (L × σ) α := fun w =>
  match m w.2 with
  | (r, s) => (r, (w.1, s))

/-- Read the variables. -/
def getVars : M (L × σ) L := fun w => (some w.1, w)

/-- Assign to the variables. -/
def modifyVars (f : L → L) : M (L × σ) Unit := fun w => (some (), (f w.1, w.2))

/-- Run a body that starts with the variables `init`. -/
def withVars (init : L) (m : M (L × σ) α) : M σ α := fun s =>
  match m (init, s) with
  | (r, w) => (r, w.2)

end M

/-- The function `time.Sleep` of the runtime, where the state also holds
variables. -/
def Runtime.sleepOnWorld {σ L : Type} (rt : Runtime σ) : Duration → L × σ → L × σ :=
  fun d w => (w.1, rt.Sleep d w.2)

/-! ## `sync_loop_impl.go` -/

/-- The struct `SyncLoopImpl`, without the two fields the loops assign. -/
structure SyncLoopImpl (σ : Type) where
  accClient : Client σ
  tenantID : String
  extClient : ExternalSystemClient σ
  updateInterval : Nat

/-- The two fields of `SyncLoopImpl` that the loops assign (`*time.Time`). -/
structure SyncVars where
  tenantsLoopUpdatedSince : Option Time := none
  usersLoopUpdatedSince : Option Time := none
deriving DecidableEq

namespace SyncLoopImpl

variable {σ : Type}

/-- The Go method `processOfferingItemsChanges`. -/
def processOfferingItemsChanges (loop : SyncLoopImpl σ) : List OfferingItem → M σ Unit
  | [] => pure ()
  | item :: items => do
    if item.Status = 0 then
      let _ ← M.lift (loop.extClient.DeleteOfferingItem
        { OfferingItemName := item.Name, TenantID := item.TenantID })
    else
      let _ ← M.lift (loop.extClient.CreateOrUpdateOfferingItem item)
    processOfferingItemsChanges loop items

/-- The Go method `processTenantsAndOfferingItemsChanges`. -/
def processTenantsAndOfferingItemsChanges (rt : Runtime σ) (loop : SyncLoopImpl σ) (fuel : Nat) :
    List Tenant → M σ Unit
  | [] => pure ()
  | item :: items => do
    let deleteTenantID : String ←
      if item.ID ≠ "" then
        if item.DeletedAt.IsZero then do
          let _ ← createOrUpdateTenant rt loop.extClient loop.accClient fuel item
          pure ""
        else pure item.ID
      else
        match item.OfferingItems with
        | first :: _ => pure first.TenantID
        | [] => pure ""
    processOfferingItemsChanges loop item.OfferingItems
    -- perform tenant deletion after processing offering items
    if deleteTenantID ≠ "" then
      let _ ← M.lift (loop.extClient.DeleteTenant deleteTenantID)
    processTenantsAndOfferingItemsChanges rt loop fuel items

/-- The Go method `processAccessPoliciesChanges`. -/
def processAccessPoliciesChanges (loop : SyncLoopImpl σ) : List AccessPolicy → M σ Unit
  | [] => pure ()
  | item :: items => do
    if item.DeletedAt ≠ none then
      let _ ← M.lift (loop.extClient.DeleteAccessPolicy item.ID)
    else
      let _ ← M.lift (loop.extClient.CreateOrUpdateAccessPolicy item)
    processAccessPoliciesChanges loop items

/-- The Go method `processUsersAndAccessPoliciesChanges`. -/
def processUsersAndAccessPoliciesChanges (rt : Runtime σ) (loop : SyncLoopImpl σ) (fuel : Nat) :
    List User → M σ Unit
  | [] => pure ()
  | item :: items => do
    let deleteUserID : String ←
      if item.ID ≠ "" then
        if item.DeletedAt.IsZero then do
          let _ ← createOrUpdateUser rt loop.extClient loop.accClient fuel item
          pure ""
        else pure item.ID
      else
        match item.AccessPolicies with
        | first :: _ => pure first.TrusteeID
        | [] => pure ""
    processAccessPoliciesChanges loop item.AccessPolicies
    -- perform user deletion after processing access policies
    if deleteUserID ≠ "" then
      let _ ← M.lift (loop.extClient.DeleteUser deleteUserID)
    processUsersAndAccessPoliciesChanges rt loop fuel items

/-- The inner loop of `UpdateTenantsAndOfferingItems`:
`for tenantsResp != nil && tenantsResp.After() != ""`; `pages` bounds the
number of pages fetched. -/
def tenantsNextPages (rt : Runtime σ) (loop : SyncLoopImpl σ) (fuel : Nat) :
    (pages : Nat) → (tenantsResp : TenantGetResponse) → M σ Unit
  | 0, _ => M.outOfFuel
  | pages + 1, tenantsResp =>
    if tenantsResp.After ≠ "" then do
      let r ← loop.accClient.GetTenantsNextPage tenantsResp
      match r with
      | .error _ => pure ()
      | .ok none => pure ()
      | .ok (some next) => do
        processTenantsAndOfferingItemsChanges rt loop fuel next.Items
        tenantsNextPages rt loop fuel pages next
    else pure ()

/-- The request built at the top of the body of the loop of
`UpdateTenantsAndOfferingItems`. -/
def tenantsRequest (loop : SyncLoopImpl σ) (vars : SyncVars) : TenantGetRequest :=
  { SubTreeRootID := loop.tenantID
    Limit := some 100
    WithContacts := some true
    WithOfferingItems := some true
    AllowDeleted := true
    UpdatedSince := vars.tenantsLoopUpdatedSince }

/-- The body of the loop of `UpdateTenantsAndOfferingItems`: one incremental
cycle. -/
def tenantsCycle (rt : Runtime σ) (loop : SyncLoopImpl σ) (fuel : Nat) : M (SyncVars × σ) Unit := do
  let vars ← M.getVars
  let r ← M.onWorld (M.lift (loop.accClient.GetTenants (loop.tenantsRequest vars)))
  match r with
  | .error _ => pure ()
  | .ok tenantsResp => do
    M.modifyVars (fun v => { v with tenantsLoopUpdatedSince := some tenantsResp.Timestamp })
    M.onWorld (processTenantsAndOfferingItemsChanges rt loop fuel tenantsResp.Items)
    M.onWorld (tenantsNextPages rt loop fuel fuel tenantsResp)

/-- The loop `for ; ; time.Sleep(...)` of `UpdateTenantsAndOfferingItems`,
for `n` iterations. The sleep is called with
`time.Second * time.Duration(loop.updateInterval)`, which wraps around for
an interval of 9223372037 seconds or more. -/
def tenantsCycles (rt : Runtime σ) (loop : SyncLoopImpl σ) (fuel : Nat) :
    (n : Nat) → M (SyncVars × σ) Unit
  | 0 => pure ()
  | n + 1 => do
    tenantsCycle rt loop fuel
    let _ ← M.lift (fun w => ((), rt.sleepOnWorld (secondsOf loop.updateInterval) w))
    tenantsCycles rt loop fuel n

/-- The Go method `UpdateTenantsAndOfferingItems`, which never returns: its
first `n` iterations. -/
def UpdateTenantsAndOfferingItems (rt : Runtime σ) (loop : SyncLoopImpl σ) (fuel : Nat)
    (firstUpdatedSince : Time) (n : Nat) : M (SyncVars × σ) Unit := do
  if !firstUpdatedSince.IsZero then
    M.modifyVars (fun v => { v with tenantsLoopUpdatedSince := some firstUpdatedSince })
  tenantsCycles rt loop fuel n

/-- The inner loop of `UpdateUsersAndAccessPolicies`:
`for usersResp != nil && usersResp.After() != ""`. -/
def usersNextPages (rt : Runtime σ) (loop : SyncLoopImpl σ) (fuel : Nat) :
    (pages : Nat) → (usersResp : UserGetResponse) → M σ Unit
  | 0, _ => M.outOfFuel
  | pages + 1, usersResp =>
    if usersResp.After ≠ "" then do
      let r ← loop.accClient.GetUsersNextPage usersResp
      match r with
      | .error _ => pure ()
      | .ok none => pure ()
      | .ok (some next) => do
        processUsersAndAccessPoliciesChanges rt loop fuel next.Items
        usersNextPages rt loop fuel pages next
    else pure ()

/-- The request built at the top of the body of the loop of
`UpdateUsersAndAccessPolicies`. -/
def usersRequest (loop : SyncLoopImpl σ) (vars : SyncVars) : UserGetRequest :=
  { SubTreeRootTenantID := loop.tenantID
    Limit := some 100
    WithAccessPolicies := some true
    AllowDeleted := true
    UpdatedSince := vars.usersLoopUpdatedSince }

/-- The body of the loop of `UpdateUsersAndAccessPolicies`: one incremental
cycle. -/
def usersCycle (rt : Runtime σ) (loop : SyncLoopImpl σ) (fuel : Nat) : M (SyncVars × σ) Unit := do
  let vars ← M.getVars
  let r ← M.onWorld (M.lift (loop.accClient.GetUsers (loop.usersRequest vars)))
  match r with
  | .error _ => pure ()
  | .ok usersResp => do
    M.modifyVars (fun v => { v with usersLoopUpdatedSince := some usersResp.Timestamp })
    M.onWorld (processUsersAndAccessPoliciesChanges rt loop fuel usersResp.Items)
    M.onWorld (usersNextPages rt loop fuel fuel usersResp)

/-- The loop `for ; ; time.Sleep(...)` of `UpdateUsersAndAccessPolicies`, for
`n` iterations. -/
def usersCycles (rt : Runtime σ) (loop : SyncLoopImpl σ) (fuel : Nat) :
    (n : Nat) → M (SyncVars × σ) Unit
  | 0 => pure ()
  | n + 1 => do
    usersCycle rt loop fuel
    let _ ← M.lift (fun w => ((), rt.sleepOnWorld (secondsOf loop.updateInterval) w))
    usersCycles rt loop fuel n

/-- The Go method `UpdateUsersAndAccessPolicies`, which never returns: its
first `n` iterations. -/
def UpdateUsersAndAccessPolicies (rt : Runtime σ) (loop : SyncLoopImpl σ) (fuel : Nat)
    (firstUpdatedSince : Time) (n : Nat) : M (SyncVars × σ) Unit := do
  if !firstUpdatedSince.IsZero then
    M.modifyVars (fun v => { v with usersLoopUpdatedSince := some firstUpdatedSince })
  usersCycles rt loop fuel n

end SyncLoopImpl

/-! ## `reconciliation_impl.go` -/

/-- The constant `accPageSize`. -/
def accPageSize : Nat := 100

/-- The constant `externalSystemPageSize`. -/
def externalSystemPageSize : Nat := 100

/-- The struct `ReconciliationLoop` (without its logging context). -/
structure ReconciliationLoop (σ : Type) where
  accClient : Client σ
  tenantID : String
  extClient : ExternalSystemClient σ
  reconciliationInterval : Nat

/-- The variables of `reconcileTenantsAndOfferingItems`, which its closures
assign. -/
structure TenantsVars where
  accTenants : GoMap Tenant := {}
  nextUpdateTimestamp : Time := 0
  externalTenantIDs : GoMap Unit := {}
  externalOIs : List OfferingItemID := []

/-- The variables of `reconcileUsersAndAccessPolicies`, which its closures
assign. -/
structure UsersVars where
  accUsers : GoMap User := {}
  nextUpdateTimestamp : Time := 0
  externalUserIDs : GoMap Unit := {}
  externalAPs : GoMap Unit := {}

/-- The loops `for i := range items { if items[i].DeletedAt.IsZero() {
accTenants[items[i].ID] = &items[i] } }` of
`getACCTenantsAndOfferingItemsForReconciliation`. -/
def addTenants (accTenants : GoMap Tenant) (items : List Tenant) : GoMap Tenant :=
  items.foldl (fun m item => if item.DeletedAt.IsZero then m.set item.ID item else m) accTenants

/-- The loops `for i := range items { if items[i].DeletedAt.IsZero() &&
items[i].ID != "" { accUsers[items[i].ID] = &items[i] } }` of
`getACCUsersAndAccessPoliciesForReconciliation`. -/
def addUsers (accUsers : GoMap User) (items : List User) : GoMap User :=
  items.foldl
    (fun m item => if item.DeletedAt.IsZero && item.ID != "" then m.set item.ID item else m)
    accUsers

/-- The loops `for i := range page { ids[page[i]] = struct{}{} }` of the
external readers. -/
def addIDs (ids : GoMap Unit) (page : List String) : GoMap Unit :=
  page.foldl (fun m id => m.set id ()) ids

/-- The loop `for ; ; offset += externalSystemPageSize` shared by the four
external readers: `fetch` is the client call, `add` what the body does with a
page, `msg` the prefix of the error; `fuel` bounds the number of pages. The
result is the pair the Go function returns (`nil` is `empty`). -/
def externalPages {σ I A : Type} (fetch : Nat → Nat → σ → Except String (List I) × σ)
    (add : A → List I → A) (empty : A) (msg : String) :
    (fuel : Nat) → (offset : Nat) → (acc : A) → M σ (A × Option String)
  | 0, _, _ => M.outOfFuel
  | fuel + 1, offset, acc => do
    let r ← M.lift (fetch offset externalSystemPageSize)
    match r with
    | .error err => pure (empty, some (msg ++ err))
    | .ok page =>
      if page.length < externalSystemPageSize then
        -- last page
        pure (add acc page, none)
      else
        externalPages fetch add empty msg fuel (offset + externalSystemPageSize) (add acc page)

namespace ReconciliationLoop

variable {σ : Type}

/-- The loop `for tenantsResp != nil` of
`getACCTenantsAndOfferingItemsForReconciliation`; `pages` bounds the number
of pages fetched. -/
def tenantsRestPages (loop : ReconciliationLoop σ) (nextUpdateTimestamp : Time) :
    (pages : Nat) → (tenantsResp : TenantGetResponse) → (accTenants : GoMap Tenant) →
    M σ (GoMap Tenant × Time × Option String)
  | 0, _, _ => M.outOfFuel
  | pages + 1, tenantsResp, accTenants => do
    let r ← loop.accClient.GetTenantsNextPage tenantsResp
    match r with
    | .error err => pure ({}, 0, some err)
    | .ok none => pure (accTenants, nextUpdateTimestamp, none)
    | .ok (some next) =>
      tenantsRestPages loop nextUpdateTimestamp pages next (addTenants accTenants next.Items)

/-- The Go method `getACCTenantsAndOfferingItemsForReconciliation`. -/
def getACCTenantsAndOfferingItemsForReconciliation (loop : ReconciliationLoop σ) (fuel : Nat) :
    M σ (GoMap Tenant × Time × Option String) := do
  let tenantsRequest : TenantGetRequest :=
    { SubTreeRootID := loop.tenantID
      Limit := some accPageSize
      WithContacts := some true
      WithOfferingItems := some true
      AllowDeleted := false }
  let r ← M.lift (loop.accClient.GetTenants tenantsRequest)
  match r with
  | .error err => pure ({}, 0, some err)
  | .ok tenantsResp =>
    let nextUpdateTimestamp := tenantsResp.Timestamp
    let accTenants := addTenants {} tenantsResp.Items
    if tenantsResp.After = "" then
      -- no second page
      pure (accTenants, nextUpdateTimestamp, none)
    else
      tenantsRestPages loop nextUpdateTimestamp fuel tenantsResp accTenants

/-- The Go method `getExternalSystemTenantIDs`. -/
def getExternalSystemTenantIDs (loop : ReconciliationLoop σ) (fuel : Nat) :
    M σ (GoMap Unit × Option String) :=
  externalPages loop.extClient.GetActiveTenantIDs addIDs {}
    "failed to get tenants from external system: " fuel 0 {}

/-- The Go method `getExternalSystemOfferingItems`. -/
def getExternalSystemOfferingItems (loop : ReconciliationLoop σ) (fuel : Nat) :
    M σ (List OfferingItemID × Option String) :=
  externalPages loop.extClient.GetActiveOfferingItemIDs (fun acc page => acc ++ page) []
    "failed to get tenants from external system: " fuel 0 []

/-- The decision of one iteration of `deleteInactiveOfferingItems`: the value
of `deleteOI` after the inner loop. -/
def deleteOI (accTenants : GoMap Tenant) (externalOI : OfferingItemID) : Bool :=
  match accTenants.get? externalOI.TenantID with
  | some accOIs =>
    match accOIs.OfferingItems.find? (fun oi => oi.Name == externalOI.OfferingItemName) with
    | some oi => oi.Status == 0
    | none => true
  | none => true

/-- The Go method `deleteInactiveOfferingItems`. -/
def deleteInactiveOfferingItems (loop : ReconciliationLoop σ) (accTenants : GoMap Tenant) :
    (externalOIs : List OfferingItemID) → M σ Unit
  | [] => pure ()
  | externalOI :: rest => do
    if deleteOI accTenants externalOI then
      let _ ← M.lift (loop.extClient.DeleteOfferingItem externalOI)
    deleteInactiveOfferingItems loop accTenants rest

/-- The inner loop of `updateOfferingItemsOnExternalSystem`, over the offering
items of one tenant. -/
def updateOfferingItemsOfTenant (loop : ReconciliationLoop σ) : List OfferingItem → M σ Unit
  | [] => pure ()
  | item :: items => do
    if item.Status > 0 then
      let _ ← M.lift (loop.extClient.CreateOrUpdateOfferingItem item)
    updateOfferingItemsOfTenant loop items

/-- The outer loop of `updateOfferingItemsOnExternalSystem`, over the entries
of the map in the order `range` yields them. -/
def updateOfferingItemsOfTenants (loop : ReconciliationLoop σ) :
    List (String × Tenant) → M σ Unit
  | [] => pure ()
  | (_, tenant) :: rest => do
    updateOfferingItemsOfTenant loop tenant.OfferingItems
    updateOfferingItemsOfTenants loop rest

/-- The Go method `updateOfferingItemsOnExternalSystem`. -/
def updateOfferingItemsOnExternalSystem (rt : Runtime σ) (loop : ReconciliationLoop σ)
    (accTenants : GoMap Tenant) : M σ Unit :=
  updateOfferingItemsOfTenants loop (rt.rangeOrder 2 accTenants.entries)

/-- Step 3 of `reconcileTenantsAndOfferingItems`: the loop
`for externalTenantID := range externalTenantIDs`, over the keys in the order
`range` yields them. -/
def removeNonExistingTenants (loop : ReconciliationLoop σ) (accTenants : GoMap Tenant) :
    List String → M σ Unit
  | [] => pure ()
  | externalTenantID :: rest => do
    if (accTenants.get? externalTenantID).isNone then
      let _ ← M.lift (loop.extClient.DeleteTenant externalTenantID)
    removeNonExistingTenants loop accTenants rest

/-- Step 4 of `reconcileTenantsAndOfferingItems`: the loop
`for accTenantID, accTenant := range accTenants`, over the entries in the order
`range` yields them. -/
def createOrUpdateTenants (rt : Runtime σ) (loop : ReconciliationLoop σ) (fuel : Nat) :
    List (String × Tenant) → M σ Unit
  | [] => pure ()
  | (_, accTenant) :: rest => do
    let _ ← createOrUpdateTenant rt loop.extClient loop.accClient fuel accTenant
    createOrUpdateTenants rt loop fuel rest

/-- Step 5 of `reconcileTenantsAndOfferingItems`: the closure given to
`retryHelper`. -/
def readExternalOIs (loop : ReconciliationLoop σ) (fuel : Nat) :
    M (TenantsVars × σ) (Option String) := do
  let r ← M.onWorld (getExternalSystemOfferingItems loop fuel)
  M.modifyVars (fun v => { v with externalOIs := r.1 })
  pure r.2

/-- Steps 4 to 7 of `reconcileTenantsAndOfferingItems`. -/
def upsertTenantsAndOfferingItems (rt : Runtime σ) (loop : ReconciliationLoop σ) (fuel : Nat) :
    M (TenantsVars × σ) Time := do
  let v ← M.getVars
  -- 4. create or update tenant
  M.onWorld (createOrUpdateTenants rt loop fuel (rt.rangeOrder 1 v.accTenants.entries))
  -- 5. get external offering items
  let err ← retryHelper rt.sleepOnWorld (readExternalOIs loop fuel)
  match err with
  | some _ => do
    let v ← M.getVars
    pure v.nextUpdateTimestamp
  | none => do
    let v ← M.getVars
    -- 6. remove non existing offering items
    M.onWorld (deleteInactiveOfferingItems loop v.accTenants v.externalOIs)
    -- 7. create or update OI
    M.onWorld (updateOfferingItemsOnExternalSystem rt loop v.accTenants)
    pure v.nextUpdateTimestamp

/-- Steps 3 to 7 of `reconcileTenantsAndOfferingItems`, after both reads. -/
def applyTenants (rt : Runtime σ) (loop : ReconciliationLoop σ) (fuel : Nat) :
    M (TenantsVars × σ) Time := do
  let v ← M.getVars
  -- 3. remove non-existing tenants
  M.onWorld (removeNonExistingTenants loop v.accTenants
    ((rt.rangeOrder 0 v.externalTenantIDs.entries).map Prod.fst))
  upsertTenantsAndOfferingItems rt loop fuel

/-- Step 1 of `reconcileTenantsAndOfferingItems`: the closure given to
`retryHelper`. -/
def readACCTenants (loop : ReconciliationLoop σ) (fuel : Nat) :
    M (TenantsVars × σ) (Option String) := do
  let r ← M.onWorld (getACCTenantsAndOfferingItemsForReconciliation loop fuel)
  M.modifyVars (fun v => { v with accTenants := r.1, nextUpdateTimestamp := r.2.1 })
  pure r.2.2

/-- Step 2 of `reconcileTenantsAndOfferingItems`: the closure given to
`retryHelper`. -/
def readExternalTenantIDs (loop : ReconciliationLoop σ) (fuel : Nat) :
    M (TenantsVars × σ) (Option String) := do
  let r ← M.onWorld (getExternalSystemTenantIDs loop fuel)
  M.modifyVars (fun v => { v with externalTenantIDs := r.1 })
  pure r.2

/-- The body of `reconcileTenantsAndOfferingItems`, on its variables. -/
def reconcileTenantsBody (rt : Runtime σ) (loop : ReconciliationLoop σ) (fuel : Nat) :
    M (TenantsVars × σ) Time := do
  -- 1. Get tenants from ACC
  let err ← retryHelper rt.sleepOnWorld (readACCTenants loop fuel)
  match err with
  | some _ => do
    let v ← M.getVars
    pure v.nextUpdateTimestamp
  | none => do
    -- 2. Get tenants from External System
    let err ← retryHelper rt.sleepOnWorld (readExternalTenantIDs loop fuel)
    match err with
    | some _ => do
      let v ← M.getVars
      pure v.nextUpdateTimestamp
    | none => applyTenants rt loop fuel

/-- The Go method `reconcileTenantsAndOfferingItems`: one reconciliation
cycle. -/
def reconcileTenantsAndOfferingItems (rt : Runtime σ) (loop : ReconciliationLoop σ)
    (fuel : Nat) : M σ Time :=
  M.withVars {} (reconcileTenantsBody rt loop fuel)

/-- The loop `for usersResp != nil` of
`getACCUsersAndAccessPoliciesForReconciliation`. -/
def usersRestPages (loop : ReconciliationLoop σ) (nextUpdateTimestamp : Time) :
    (pages : Nat) → (usersResp : UserGetResponse) → (accUsers : GoMap User) →
    M σ (GoMap User × Time × Option String)
  | 0, _, _ => M.outOfFuel
  | pages + 1, usersResp, accUsers => do
    let r ← loop.accClient.GetUsersNextPage usersResp
    match r with
    | .error err => pure ({}, 0, some err)
    | .ok none => pure (accUsers, nextUpdateTimestamp, none)
    | .ok (some next) =>
      usersRestPages loop nextUpdateTimestamp pages next (addUsers accUsers next.Items)

/-- The Go method `getACCUsersAndAccessPoliciesForReconciliation`. -/
def getACCUsersAndAccessPoliciesForReconciliation (loop : ReconciliationLoop σ) (fuel : Nat) :
    M σ (GoMap User × Time × Option String) := do
  let usersRequest : UserGetRequest :=
    { SubTreeRootTenantID := loop.tenantID
      WithAccessPolicies := some true
      Limit := some accPageSize }
  let r ← M.lift (loop.accClient.GetUsers usersRequest)
  match r with
  | .error err => pure ({}, 0, some err)
  | .ok usersResp =>
    let nextUpdateTimestamp := usersResp.Timestamp
    let accUsers := addUsers {} usersResp.Items
    if usersResp.After = "" then
      -- no second page
      pure (accUsers, nextUpdateTimestamp, none)
    else
      usersRestPages loop nextUpdateTimestamp fuel usersResp accUsers

/-- The Go method `getExternalSystemUserIDs`. -/
def getExternalSystemUserIDs (loop : ReconciliationLoop σ) (fuel : Nat) :
    M σ (GoMap Unit × Option String) :=
  externalPages loop.extClient.GetActiveUserIDs addIDs {}
    "failed to get users from external system: " fuel 0 {}

/-- The Go method `getExternalSystemAccessPolicies`. -/
def getExternalSystemAccessPolicies (loop : ReconciliationLoop σ) (fuel : Nat) :
    M σ (GoMap Unit × Option String) :=
  externalPages loop.extClient.GetActiveAccessPolicyIDs addIDs {}
    "failed to get users from external system: " fuel 0 {}

/-- The inner loop of the first loop of `deleteInactiveAccessPolicies`, over
the access policies of one user. -/
def keepActivePolicies (externalAPs : GoMap Unit) (policies : List AccessPolicy) : GoMap Unit :=
  policies.foldl (fun m p => if p.DeletedAt ≠ none then m else m.delete p.ID) externalAPs

/-- The second loop of `deleteInactiveAccessPolicies`. -/
def deleteAccessPolicies (loop : ReconciliationLoop σ) : List String → M σ Unit
  | [] => pure ()
  | extPolicyID :: rest => do
    let _ ← M.lift (loop.extClient.DeleteAccessPolicy extPolicyID)
    deleteAccessPolicies loop rest

/-- The Go method `deleteInactiveAccessPolicies`. -/
def deleteInactiveAccessPolicies (rt : Runtime σ) (loop : ReconciliationLoop σ)
    (accUsers : GoMap User) (externalAPs : GoMap Unit) : M σ Unit :=
  let externalAPs := (rt.rangeOrder 3 accUsers.entries).foldl
    (fun m entry => keepActivePolicies m entry.2.AccessPolicies) externalAPs
  deleteAccessPolicies loop ((rt.rangeOrder 4 externalAPs.entries).map Prod.fst)

/-- The inner loop of `updateAccessPoliciesOnExternalSystem`, over the access
policies of one user. -/
def updateAccessPoliciesOfUser (loop : ReconciliationLoop σ) : List AccessPolicy → M σ Unit
  | [] => pure ()
  | item :: items => do
    if item.DeletedAt = none then
      let _ ← M.lift (loop.extClient.CreateOrUpdateAccessPolicy item)
    updateAccessPoliciesOfUser loop items

/-- The outer loop of `updateAccessPoliciesOnExternalSystem`. -/
def updateAccessPoliciesOfUsers (loop : ReconciliationLoop σ) :
    List (String × User) → M σ Unit
  | [] => pure ()
  | (_, user) :: rest => do
    updateAccessPoliciesOfUser loop user.AccessPolicies
    updateAccessPoliciesOfUsers loop rest

/-- The Go method `updateAccessPoliciesOnExternalSystem`. -/
def updateAccessPoliciesOnExternalSystem (rt : Runtime σ) (loop : ReconciliationLoop σ)
    (accUsers : GoMap User) : M σ Unit :=
  updateAccessPoliciesOfUsers loop (rt.rangeOrder 5 accUsers.entries)

/-- Step 3 of `reconcileUsersAndAccessPolicies`: the loop
`for externalUserID := range externalUserIDs`. -/
def removeNonExistingUsers (loop : ReconciliationLoop σ) (accUsers : GoMap User) :
    List String → M σ Unit
  | [] => pure ()
  | externalUserID :: rest => do
    if (accUsers.get? externalUserID).isNone then
      let _ ← M.lift (loop.extClient.DeleteUser externalUserID)
    removeNonExistingUsers loop accUsers rest

/-- Step 4 of `reconcileUsersAndAccessPolicies`: the loop
`for accUserID, accUser := range accUsers`. -/
def createOrUpdateUsers (rt : Runtime σ) (loop : ReconciliationLoop σ) (fuel : Nat) :
    List (String × User) → M σ Unit
  | [] => pure ()
  | (_, accUser) :: rest => do
    let _ ← createOrUpdateUser rt loop.extClient loop.accClient fuel accUser
    createOrUpdateUsers rt loop fuel rest

/-- Step 5 of `reconcileUsersAndAccessPolicies`: the closure given to
`retryHelper`. -/
def readExternalAPs (loop : ReconciliationLoop σ) (fuel : Nat) :
    M (UsersVars × σ) (Option String) := do
  let r ← M.onWorld (getExternalSystemAccessPolicies loop fuel)
  M.modifyVars (fun v => { v with externalAPs := r.1 })
  pure r.2

/-- Steps 4 to 7 of `reconcileUsersAndAccessPolicies`. -/
def upsertUsersAndAccessPolicies (rt : Runtime σ) (loop : ReconciliationLoop σ) (fuel : Nat) :
    M (UsersVars × σ) Time := do
  let v ← M.getVars
  -- 4. create or update users
  M.onWorld (createOrUpdateUsers rt loop fuel (rt.rangeOrder 7 v.accUsers.entries))
  -- 5. get external access policies
  let err ← retryHelper rt.sleepOnWorld (readExternalAPs loop fuel)
  match err with
  | some _ => do
    let v ← M.getVars
    pure v.nextUpdateTimestamp
  | none => do
    let v ← M.getVars
    -- 6. remove non existing access policies
    M.onWorld (deleteInactiveAccessPolicies rt loop v.accUsers v.externalAPs)
    -- 7. create or update access policies
    M.onWorld (updateAccessPoliciesOnExternalSystem rt loop v.accUsers)
    pure v.nextUpdateTimestamp

/-- Steps 3 to 7 of `reconcileUsersAndAccessPolicies`, after both reads. -/
def applyUsers (rt : Runtime σ) (loop : ReconciliationLoop σ) (fuel : Nat) :
    M (UsersVars × σ) Time := do
  let v ← M.getVars
  -- 3. remove non-existing users
  M.onWorld (removeNonExistingUsers loop v.accUsers
    ((rt.rangeOrder 6 v.externalUserIDs.entries).map Prod.fst))
  upsertUsersAndAccessPolicies rt loop fuel

/-- Step 1 of `reconcileUsersAndAccessPolicies`: the closure given to
`retryHelper`. -/
def readACCUsers (loop : ReconciliationLoop σ) (fuel : Nat) :
    M (UsersVars × σ) (Option String) := do
  let r ← M.onWorld (getACCUsersAndAccessPoliciesForReconciliation loop fuel)
  M.modifyVars (fun v => { v with accUsers := r.1, nextUpdateTimestamp := r.2.1 })
  pure r.2.2

/-- Step 2 of `reconcileUsersAndAccessPolicies`: the closure given to
`retryHelper`. -/
def readExternalUserIDs (loop : ReconciliationLoop σ) (fuel : Nat) :
    M (UsersVars × σ) (Option String) := do
  let r ← M.onWorld (getExternalSystemUserIDs loop fuel)
  M.modifyVars (fun v => { v with externalUserIDs := r.1 })
  pure r.2

/-- The body of `reconcileUsersAndAccessPolicies`, on its variables. -/
def reconcileUsersBody (rt : Runtime σ) (loop : ReconciliationLoop σ) (fuel : Nat) :
    M (UsersVars × σ) Time := do
  -- 1. Get users from ACC with embedded access policies
  let err ← retryHelper rt.sleepOnWorld (readACCUsers loop fuel)
  match err with
  | some _ => do
    let v ← M.getVars
    pure v.nextUpdateTimestamp
  | none => do
    -- 2. Get users from External System
    let err ← retryHelper rt.sleepOnWorld (readExternalUserIDs loop fuel)
    match err with
    | some _ => do
      let v ← M.getVars
      pure v.nextUpdateTimestamp
    | none => applyUsers rt loop fuel

/-- The Go method `reconcileUsersAndAccessPolicies`: one reconciliation
cycle. -/
def reconcileUsersAndAccessPolicies (rt : Runtime σ) (loop : ReconciliationLoop σ)
    (fuel : Nat) : M σ Time :=
  M.withVars {} (reconcileUsersBody rt loop fuel)

end ReconciliationLoop

/-- The loop `loop`, run on traced collaborators. -/
@[simps]
def SyncLoopImpl.traced {σ : Type} (loop : SyncLoopImpl σ) : SyncLoopImpl (Traced σ) where
  accClient := loop.accClient.traced
  tenantID := loop.tenantID
  extClient := loop.extClient.traced
  updateInterval := loop.updateInterval

/-- The loop `loop`, run on traced collaborators. -/
@[simps]
def ReconciliationLoop.traced {σ : Type} (loop : ReconciliationLoop σ) :
    ReconciliationLoop (Traced σ) where
  accClient := loop.accClient.traced
  tenantID := loop.tenantID
  extClient := loop.extClient.traced
  reconciliationInterval := loop.reconciliationInterval

/-! ## Vocabulary of the properties -/

/-- The one call the incremental loop makes for an offering item: a delete
of `(name, tenant_id)` if its status is 0, an upsert otherwise. -/
def offeringItemCall (item : OfferingItem) : Call :=
  if item.Status = 0 then
    .DeleteOfferingItem { OfferingItemName := item.Name, TenantID := item.TenantID }
  else .CreateOrUpdateOfferingItem item

/-- The one call the incremental loop makes for an access policy: a delete
of its id if `deleted_at` is non-null, an upsert otherwise. -/
def accessPolicyCall (item : AccessPolicy) : Call :=
  if item.DeletedAt.isSome then .DeleteAccessPolicy item.ID
  else .CreateOrUpdateAccessPolicy item

/-- The entity delete of an item of a tenants page: the item's id if it is
non-empty and `deleted_at` is non-zero; the `tenant_id` of the first offering
item if the id is empty, there is a first offering item and that `tenant_id` is
non-empty; none otherwise. -/
def tenantDeleteCalls (item : Tenant) : List Call :=
  if item.ID ≠ "" then
    if item.DeletedAt = 0 then [] else [.DeleteTenant item.ID]
  else
    match item.OfferingItems with
    | first :: _ => if first.TenantID ≠ "" then [.DeleteTenant first.TenantID] else []
    | [] => []

/-- The entity delete of an item of a users page: as `tenantDeleteCalls`, with
the `trustee_id` of the first access policy. -/
def userDeleteCalls (item : User) : List Call :=
  if item.ID ≠ "" then
    if item.DeletedAt = 0 then [] else [.DeleteUser item.ID]
  else
    match item.AccessPolicies with
    | first :: _ => if first.TrusteeID ≠ "" then [.DeleteUser first.TrusteeID] else []
    | [] => []

/-- The offering-item orphan rule: the cloud map has no tenant with the
item's `tenant_id`, or it has one and that tenant's `offering_items[]` has no
entry with the item's name, or the first entry with that name has status 0. -/
def OrphanOfferingItem (accTenants : GoMap Tenant) (e : OfferingItemID) : Prop :=
  accTenants.get? e.TenantID = none ∨
  ∃ t ∈ accTenants.get? e.TenantID,
    (∀ oi ∈ t.OfferingItems, oi.Name ≠ e.OfferingItemName) ∨
    ∃ oi ∈ t.OfferingItems.find? (fun oi => oi.Name == e.OfferingItemName), oi.Status = 0

instance (accTenants : GoMap Tenant) (e : OfferingItemID) :
    Decidable (OrphanOfferingItem accTenants e) := by
  unfold OrphanOfferingItem
  infer_instance

/-- The external system seen as a set of tenant ids, `ids s` in the state `s`,
and the cloud as a lookup by uuid: a positive answer of `CheckTenantExist` means
membership, a successful `CreateOrUpdateTenant X` puts `X.ID` in the set, no
call made by the upsert helpers removes a member, and the first item of the
answer to a request for one uuid is the tenant with that id. -/
structure TenantSetModel {σ : Type} (ext : ExternalSystemClient σ) (acc : Client σ)
    (ids : σ → String → Prop) : Prop where
  check_member : ∀ id s, (ext.CheckTenantExist id s).1 = .ok true → ids s id
  check_keeps : ∀ id s x, ids s x → ids (ext.CheckTenantExist id s).2 x
  upsert_adds : ∀ X s b, (ext.CreateOrUpdateTenant X s).1 = .ok b →
    ids (ext.CreateOrUpdateTenant X s).2 X.ID
  upsert_keeps : ∀ X s x, ids s x → ids (ext.CreateOrUpdateTenant X s).2 x
  lookup : ∀ uuid s resp, (acc.GetTenants { UUIDs := [uuid] } s).1 = .ok resp →
    ∀ t ∈ resp.Items.head?, t.ID = uuid
  lookup_keeps : ∀ r s x, ids s x → ids (acc.GetTenants r s).2 x

/-- What the proofs about the upsert helpers use of a model of the external
tenants as a set: as `TenantSetModel`, with the lookup read as "if the first
item of the answer is in the set, so is the requested uuid". -/
structure GrowingTenantSet {σ : Type} (ext : ExternalSystemClient σ) (acc : Client σ)
    (ids : σ → String → Prop) : Prop where
  check_member : ∀ id s, (ext.CheckTenantExist id s).1 = .ok true → ids s id
  check_keeps : ∀ id s x, ids s x → ids (ext.CheckTenantExist id s).2 x
  upsert_adds : ∀ X s b, (ext.CreateOrUpdateTenant X s).1 = .ok b →
    ids (ext.CreateOrUpdateTenant X s).2 X.ID
  upsert_keeps : ∀ X s x, ids s x → ids (ext.CreateOrUpdateTenant X s).2 x
  lookup_member : ∀ uuid s resp, (acc.GetTenants { UUIDs := [uuid] } s).1 = .ok resp →
    ∀ t ∈ resp.Items.head?, ∀ s1, ids s1 t.ID → ids s1 uuid
  lookup_keeps : ∀ r s x, ids s x → ids (acc.GetTenants r s).2 x

/-- An event of the tenant upsert helper: a check of existence, a request to
the cloud, or a tenant upsert made when the tenant was its own parent or its
parent was in the external set. -/
def UpsertEvent {σ : Type} (ids : σ → String → Prop) (ev : Event σ) : Prop :=
  match ev.call with
  | .CheckTenantExist _ => True
  | .GetTenants _ => True
  | .CreateOrUpdateTenant X => X.ParentID = X.ID ∨ ids ev.pre X.ParentID
  | _ => False

/-- What the tenant upsert helper guarantees, from the state `w` to the
outcome `out`, for the tenant `id`: the trace grows by events of the helper,
the external set does not shrink, and after a success `id` is in the external
set. -/
def UpsertSpec {σ : Type} (ids : σ → String → Prop) (w : Traced σ) (id : String)
    (out : Option (Option String) × Traced σ) : Prop :=
  (∃ evs, out.2.2 = w.2 ++ evs ∧ ∀ ev ∈ evs, UpsertEvent ids ev) ∧
  (∀ x, ids w.1 x → ids out.2.1 x) ∧
  (out.1 = some none → ids out.2.1 id)

/-- The order of watermarks: an unset watermark (`nil`, no `updated_since`
filter) is below every instant. -/
def watermarkLE : Option Time → Option Time → Prop
  | none, _ => True
  | some _, none => False
  | some a, some b => a ≤ b

instance : DecidableRel watermarkLE := fun a b => by
  cases a <;> cases b <;> unfold watermarkLE <;> infer_instance

/-- The computation `m` only appends to the trace, read off the state by
`tr`, and every call it appends satisfies `P`. -/
def Emits {τ σ α : Type} (tr : τ → List (Event σ)) (P : Call → Prop) (m : M τ α) : Prop :=
  ∀ w, ∃ evs, tr (m w).2 = tr w ++ evs ∧ ∀ ev ∈ evs, P ev.call

/-- The trace of a traced world. -/
def worldTrace {σ : Type} (w : Traced σ) : List (Event σ) := w.2

/-- The trace of a traced world that comes with variables. -/
def varsTrace {σ L : Type} (w : L × Traced σ) : List (Event σ) := w.2.2

/-- The calls of the tenant upsert helper: existence checks, requests for
tenants to the cloud, tenant upserts. -/
def Call.ofTenantUpsert : Call → Prop
  | .CheckTenantExist _ => True
  | .GetTenants _ => True
  | .CreateOrUpdateTenant _ => True
  | _ => False

/-- The calls of the user upsert helper: those of the tenant upsert helper
and user upserts. -/
def Call.ofUserUpsert : Call → Prop
  | .CheckTenantExist _ => True
  | .GetTenants _ => True
  | .CreateOrUpdateTenant _ => True
  | .CreateOrUpdateUser _ => True
  | _ => False

/-- The calls of the paged reads of the cloud. -/
def Call.ofCloudRead : Call → Prop
  | .GetTenants _ => True
  | .GetUsers _ => True
  | _ => False

/-- The calls of the paged reads of the external system. -/
def Call.ofExternalRead : Call → Prop
  | .GetActiveTenantIDs _ _ => True
  | .GetActiveOfferingItemIDs _ _ => True
  | .GetActiveUserIDs _ _ => True
  | .GetActiveAccessPolicyIDs _ _ => True
  | _ => False

/-- The writes of offering items. -/
def Call.ofOfferingItemWrite : Call → Prop
  | .CreateOrUpdateOfferingItem _ => True
  | .DeleteOfferingItem _ => True
  | _ => False

/-- The writes of access policies. -/
def Call.ofAccessPolicyWrite : Call → Prop
  | .CreateOrUpdateAccessPolicy _ => True
  | .DeleteAccessPolicy _ => True
  | _ => False

/-- The calls that delete no tenant and no user. -/
def Call.notEntityDelete : Call → Prop
  | .DeleteTenant _ => False
  | .DeleteUser _ => False
  | _ => True

/-- The calls of the incremental loop over tenants and offering items. -/
def Call.ofTenantsSync : Call → Prop
  | .GetTenants _ => True
  | .CheckTenantExist _ => True
  | .CreateOrUpdateTenant _ => True
  | .DeleteTenant _ => True
  | .CreateOrUpdateOfferingItem _ => True
  | .DeleteOfferingItem _ => True
  | _ => False

/-- The calls of the incremental loop over users and access policies. -/
def Call.ofUsersSync : Call → Prop
  | .GetUsers _ => True
  | .GetTenants _ => True
  | .CheckTenantExist _ => True
  | .CreateOrUpdateTenant _ => True
  | .CreateOrUpdateUser _ => True
  | .DeleteUser _ => True
  | .CreateOrUpdateAccessPolicy _ => True
  | .DeleteAccessPolicy _ => True
  | _ => False

/-- The calls of a read wrapped in `retryHelper`: the reads and the sleeps
between the attempts. -/
def Call.ofRetriedRead : Call → Prop
  | .GetTenants _ => True
  | .GetUsers _ => True
  | .GetActiveTenantIDs _ _ => True
  | .GetActiveOfferingItemIDs _ _ => True
  | .GetActiveUserIDs _ _ => True
  | .GetActiveAccessPolicyIDs _ _ => True
  | .Sleep _ => True
  | _ => False

/-! ## Concrete collaborators: an in-memory external system and a fixed cloud -/

/-- The state of an in-memory external system: the ids it holds. -/
structure Store where
  tenants : List String := []
  offeringItems : List OfferingItemID := []
  users : List String := []
  accessPolicies : List String := []
  usages : List Usage := []
deriving DecidableEq

/-- Add `a` to `l` unless it is there. -/
def addOnce {α : Type} [DecidableEq α] (l : List α) (a : α) : List α :=
  if a ∈ l then l else l ++ [a]

/-- An in-memory external system in which every call succeeds:
create-or-update adds the id, delete removes it, the readers page through the
ids held. -/
def memExt : ExternalSystemClient Store where
  CreateOrUpdateTenant t s :=
    (.ok (decide (t.ID ∉ s.tenants)), { s with tenants := addOnce s.tenants t.ID })
  DeleteTenant id s := (none, { s with tenants := s.tenants.filter (fun x => x != id) })
  GetActiveTenantIDs o l s := (.ok ((s.tenants.drop o).take l), s)
  CheckTenantExist id s := (.ok (decide (id ∈ s.tenants)), s)
  CreateOrUpdateOfferingItem i s :=
    (.ok (decide (({ OfferingItemName := i.Name, TenantID := i.TenantID } : OfferingItemID)
        ∉ s.offeringItems)),
      { s with offeringItems :=
          addOnce s.offeringItems { OfferingItemName := i.Name, TenantID := i.TenantID } })
  DeleteOfferingItem id s :=
    (none, { s with offeringItems := s.offeringItems.filter (fun x => x != id) })
  GetActiveOfferingItemIDs o l s := (.ok ((s.offeringItems.drop o).take l), s)
  CreateOrUpdateUser u s :=
    (.ok (decide (u.ID ∉ s.users)), { s with users := addOnce s.users u.ID })
  DeleteUser id s := (none, { s with users := s.users.filter (fun x => x != id) })
  GetActiveUserIDs o l s := (.ok ((s.users.drop o).take l), s)
  CreateOrUpdateAccessPolicy p s :=
    (.ok (decide (p.ID ∉ s.accessPolicies)),
      { s with accessPolicies := addOnce s.accessPolicies p.ID })
  DeleteAccessPolicy id s :=
    (none, { s with accessPolicies := s.accessPolicies.filter (fun x => x != id) })
  GetActiveAccessPolicyIDs o l s := (.ok ((s.accessPolicies.drop o).take l), s)
  GetUsages o l s := (.ok ((s.usages.drop o).take l), s)

/-- A cloud that holds the tenants `tenants` and the users `users` and answers
every request with one page stamped `timestamp`: the entities with the
requested uuids, or all of them when no uuid is requested. It accepts every
usage report. -/
def fixedCloud {σ : Type} (tenants : List Tenant) (users : List User) (timestamp : Time) :
    Client σ where
  GetTenants r s :=
    (.ok { After := "", Timestamp := timestamp,
           Items := if r.UUIDs = [] then tenants else tenants.filter (fun t => t.ID ∈ r.UUIDs) }, s)
  GetUsers r s :=
    (.ok { After := "", Timestamp := timestamp,
           Items := if r.UUIDs = [] then users else users.filter (fun u => u.ID ∈ r.UUIDs) }, s)
  UpdateUsages r s := (.ok { Items := r.Items }, s)

/-- A runtime whose sleep does nothing, which renders a tenant as its id and
whose `range` visits a map in the order of its entries. -/
def plainRuntime {σ : Type} : Runtime σ where
  Sleep _ s := s
  fmtTenant t := t.ID
  rangeOrder _ _ l := l
  rangeOrder_perm _ _ l := List.Perm.refl l

/-- An incremental loop between the in-memory external system and a fixed
cloud. -/
def demoSyncLoop (tenants : List Tenant) (users : List User) (timestamp : Time) :
    SyncLoopImpl Store where
  accClient := fixedCloud tenants users timestamp
  tenantID := "root"
  extClient := memExt
  updateInterval := 5

/-- A reconciliation loop between the in-memory external system and a fixed
cloud. -/
def demoReconciliationLoop (tenants : List Tenant) (users : List User) (timestamp : Time) :
    ReconciliationLoop Store where
  accClient := fixedCloud tenants users timestamp
  tenantID := "root"
  extClient := memExt
  reconciliationInterval := 3600

/-! ## Observation of `retryHelper` -/

/-- What `retryHelper` does with its argument: an attempt with the error it
returned, or a sleep. -/
inductive RetryEvent where
  | attempt (err : Option String)
  | sleep (d : Duration)
deriving DecidableEq

/-- The operation `userFunction`, with every attempt that returns recorded. -/
def observedOp {τ : Type} (userFunction : M τ (Option String)) :
    M (τ × List RetryEvent) (Option String) := fun w =>
  match userFunction w.1 with
  | (some err, s) => (some err, (s, w.2 ++ [.attempt err]))
  | (none, s) => (none, (s, w.2))

/-- The function `sleep`, with every sleep recorded. -/
def observedSleep {τ : Type} (sleep : Duration → τ → τ) :
    Duration → τ × List RetryEvent → τ × List RetryEvent :=
  fun d w => (sleep d w.1, w.2 ++ [.sleep d])

/-- The trace of attempts that failed with the errors `es`, each followed by
its sleep, the first sleep lasting `d` and each next one twice the previous. -/
def backoffTrace : List String → Duration → List RetryEvent
  | [], _ => []
  | e :: es, d => .attempt (some e) :: .sleep d :: backoffTrace es (d * 2)

/-- The attempts of a trace. -/
def attempts (tr : List RetryEvent) : List (Option String) :=
  tr.filterMap (fun e => match e with | .attempt r => some r | .sleep _ => none)

/-- The sleeps of a trace. -/
def sleeps (tr : List RetryEvent) : List Duration :=
  tr.filterMap (fun e => match e with | .attempt _ => none | .sleep d => some d)

/-- The three ways a run of the loop of `retryHelper` ends, `n` iterations
before the bound, with backoff `b`, from a trace `tr`. -/
def RetryOutcome {τ : Type} (n : Nat) (b : Duration) (tr : List RetryEvent)
    (out : Option (Option String) × (τ × List RetryEvent)) : Prop :=
  (∃ es : List String, es.length < n ∧ out.1 = some none ∧
      out.2.2 = tr ++ backoffTrace es b ++ [.attempt none]) ∨
  (∃ (es : List String) (e : String), es.length + 1 = n ∧
      out.1 = some (some ("max 5 retries reached: " ++ e)) ∧
      out.2.2 = tr ++ backoffTrace es b ++ [.attempt (some e)]) ∨
  (∃ es : List String, es.length < n ∧ out.1 = none ∧ out.2.2 = tr ++ backoffTrace es b)

/-! ## Vocabulary of the reconciliation steps -/

/-- The rule of `deleteInactiveAccessPolicies`, in the words of the spec: `id`
is the id of an access policy with a null `deleted_at` of some user of the
cloud map. -/
def AliveAccessPolicy (accUsers : GoMap User) (id : String) : Prop :=
  ∃ e ∈ accUsers.entries, ∃ p ∈ e.2.AccessPolicies, p.DeletedAt = none ∧ p.ID = id

instance (accUsers : GoMap User) (id : String) : Decidable (AliveAccessPolicy accUsers id) := by
  unfold AliveAccessPolicy
  infer_instance

/-- The offering items the reconciliation upserts, in the words of the spec:
the offering items with `status > 0` of each tenant in the cloud map. -/
def activeOfferingItems (accTenants : GoMap Tenant) : List OfferingItem :=
  accTenants.entries.flatMap (fun e => e.2.OfferingItems.filter (fun item => item.Status > 0))

/-- The access policies the reconciliation upserts, in the words of the spec:
the access policies with an unset `deleted_at` of each user in the cloud map. -/
def activeAccessPolicies (accUsers : GoMap User) : List AccessPolicy :=
  accUsers.entries.flatMap (fun e => e.2.AccessPolicies.filter (fun p => p.DeletedAt = none))

/-- The calls `DeleteTenant`. -/
def Call.isDeleteTenant : Call → Prop
  | .DeleteTenant _ => True
  | _ => False

/-- The calls `CreateOrUpdateTenant`. -/
def Call.isUpsertTenant : Call → Prop
  | .CreateOrUpdateTenant _ => True
  | _ => False

/-- The calls `DeleteOfferingItem`. -/
def Call.isDeleteOfferingItem : Call → Prop
  | .DeleteOfferingItem _ => True
  | _ => False

/-- The calls `CreateOrUpdateOfferingItem`. -/
def Call.isUpsertOfferingItem : Call → Prop
  | .CreateOrUpdateOfferingItem _ => True
  | _ => False

/-- The calls `DeleteUser`. -/
def Call.isDeleteUser : Call → Prop
  | .DeleteUser _ => True
  | _ => False

/-- The calls `CreateOrUpdateUser`. -/
def Call.isUpsertUser : Call → Prop
  | .CreateOrUpdateUser _ => True
  | _ => False

/-- The calls `DeleteAccessPolicy`. -/
def Call.isDeleteAccessPolicy : Call → Prop
  | .DeleteAccessPolicy _ => True
  | _ => False

/-- The calls `CreateOrUpdateAccessPolicy`. -/
def Call.isUpsertAccessPolicy : Call → Prop
  | .CreateOrUpdateAccessPolicy _ => True
  | _ => False

/-- The in-memory external system, with the reads of the children (offering
items, access policies) out of order. -/
def childReadsDown : ExternalSystemClient Store :=
  { memExt with
    GetActiveOfferingItemIDs := fun _ _ s => (.error "unavailable", s)
    GetActiveAccessPolicyIDs := fun _ _ s => (.error "unavailable", s) }

/-- The in-memory external system, with every upsert of a child refused. -/
def childUpsertsRefused : ExternalSystemClient Store :=
  { memExt with
    CreateOrUpdateOfferingItem := fun _ s => (.error "refused", s)
    CreateOrUpdateAccessPolicy := fun _ s => (.error "refused", s) }

/-- The last tenant with the id `id` in a list of tenants. -/
def lastTenantWithID (items : List Tenant) (id : String) : Option Tenant :=
  items.reverse.find? (fun t => t.ID == id)

/-- The last user with the id `id` in a list of users. -/
def lastUserWithID (items : List User) (id : String) : Option User :=
  items.reverse.find? (fun u => u.ID == id)

/-- The items of a sequence of pages that the tenants reader of the
reconciliation accumulates, in page order: those that pass the test of its
loops, `DeletedAt.IsZero()`. -/
def accumulatedTenants (pages : List TenantGetResponse) : List Tenant :=
  (pages.flatMap (fun page => page.Items)).filter (fun t => t.DeletedAt.IsZero)

/-- The items of a sequence of pages that the users reader of the
reconciliation accumulates, in page order: those that pass the test of its
loops, `DeletedAt.IsZero() && ID != ""`. -/
def accumulatedUsers (pages : List UserGetResponse) : List User :=
  (pages.flatMap (fun page => page.Items)).filter (fun u => u.DeletedAt.IsZero && u.ID != "")

/-- The pages that follow a page of tenants: in the state `s`, the cloud `acc`
continues `page` by the pages `rest`, each requested with the `after` cursor of
the page before it, the last one with an empty cursor; the requests leave the
cloud in the state `s1`. -/
inductive TenantPagesFrom {σ : Type} (acc : Client σ) :
    σ → TenantGetResponse → List TenantGetResponse → σ → Prop
  | last (s : σ) (page : TenantGetResponse) : page.After = "" → TenantPagesFrom acc s page [] s
  | next (s s1 s2 : σ) (page nxt : TenantGetResponse) (rest : List TenantGetResponse) :
      page.After ≠ "" → acc.GetTenants { After := page.After } s = (.ok nxt, s1) →
      TenantPagesFrom acc s1 nxt rest s2 → TenantPagesFrom acc s page (nxt :: rest) s2

/-- The pages that follow a page of users, as `TenantPagesFrom`. -/
inductive UserPagesFrom {σ : Type} (acc : Client σ) :
    σ → UserGetResponse → List UserGetResponse → σ → Prop
  | last (s : σ) (page : UserGetResponse) : page.After = "" → UserPagesFrom acc s page [] s
  | next (s s1 s2 : σ) (page nxt : UserGetResponse) (rest : List UserGetResponse) :
      page.After ≠ "" → acc.GetUsers { After := page.After } s = (.ok nxt, s1) →
      UserPagesFrom acc s1 nxt rest s2 → UserPagesFrom acc s page (nxt :: rest) s2

/-- A cloud whose tenants and users come in pages: the request with the
cursor `c` (the first request has the cursor `""`) is answered with the page
filed under `c`. It accepts every usage report. -/
def pagedCloud {σ : Type} (tenantPages : List (String × TenantGetResponse))
    (userPages : List (String × UserGetResponse)) : Client σ where
  GetTenants r s :=
    match tenantPages.lookup r.After with
    | some page => (.ok page, s)
    | none => (.error "no such page", s)
  GetUsers r s :=
    match userPages.lookup r.After with
    | some page => (.ok page, s)
    | none => (.error "no such page", s)
  UpdateUsages r s := (.ok { Items := r.Items }, s)

/-- The request `tenantsRequest` of
`getACCTenantsAndOfferingItemsForReconciliation`, for the first page. -/
def ReconciliationLoop.tenantsRequest {σ : Type} (loop : ReconciliationLoop σ) :
    TenantGetRequest :=
  { SubTreeRootID := loop.tenantID
    Limit := some accPageSize
    WithContacts := some true
    WithOfferingItems := some true
    AllowDeleted := false }

/-- The request `usersRequest` of
`getACCUsersAndAccessPoliciesForReconciliation`, for the first page. -/
def ReconciliationLoop.usersRequest {σ : Type} (loop : ReconciliationLoop σ) : UserGetRequest :=
  { SubTreeRootTenantID := loop.tenantID
    WithAccessPolicies := some true
    Limit := some accPageSize }

/-- The walk of an external paged reader through the answers of `fetch`, as
the spec describes it: from the offset `offset`, in the state `s`, the requests
with limit 100 at `offset`, `offset + 100`, ... are answered with the pages
`full`, each of at least 100 entries, and then with `last`: a page of fewer
than 100 entries or a failure; the requests leave the state `s1`. -/
inductive PageWalk {σ I : Type} (fetch : Nat → Nat → σ → Except String (List I) × σ) :
    Nat → σ → List (List I) → Except String (List I) → σ → Prop
  | short (offset : Nat) (s s1 : σ) (page : List I) :
      fetch offset 100 s = (.ok page, s1) → page.length < 100 →
      PageWalk fetch offset s [] (.ok page) s1
  | failed (offset : Nat) (s s1 : σ) (err : String) :
      fetch offset 100 s = (.error err, s1) → PageWalk fetch offset s [] (.error err) s1
  | full (offset : Nat) (s s1 s2 : σ) (page : List I) (rest : List (List I))
      (last : Except String (List I)) :
      fetch offset 100 s = (.ok page, s1) → ¬ page.length < 100 →
      PageWalk fetch (offset + 100) s1 rest last s2 →
      PageWalk fetch offset s (page :: rest) last s2

/-- What an external paged reader returns at the end of a walk, in the words
of the spec: after a last page, the entries of all the pages fetched, added by
`add` to `acc`; after a failure, an error and no entries. -/
def walkResult {I A : Type} (add : A → List I → A) (empty : A) (msg : String) (acc : A)
    (full : List (List I)) : Except String (List I) → A × Option String
  | .ok page => (add (full.foldl add acc) page, none)
  | .error err => (empty, some (msg ++ err))

/-- The requests of a walk over `n + 1` pages: offsets 0, 100, 200, ..., limit
100. -/
def pageRequests (mk : Nat → Nat → Call) (n : Nat) : List Call :=
  (List.range (n + 1)).map (fun i => mk (100 * i) 100)

/-- An external system that holds 100 tenants `a` and one tenant `b`, and
fails to list its users beyond the first page. -/
def twoPagesExt : ExternalSystemClient Store :=
  { memExt with
    GetActiveTenantIDs := fun o l s =>
      (.ok (((List.replicate 100 "a" ++ ["b"]).drop o).take l), s)
    GetActiveUserIDs := fun o _ s =>
      if o = 0 then (.ok (List.replicate 100 "u"), s) else (.error "unavailable", s) }

/-- In the list of calls `l`, every call that satisfies `P` precedes every
call that satisfies `Q`. -/
def Precedes (P Q : Call → Prop) (l : List Call) : Prop :=
  ∀ (i j : Nat) (hi : i < l.length) (hj : j < l.length), P l[i] → Q l[j] → i < j

/-- The order of two calls, `a` before `b`, that the reconciliation keeps:
`a` is not an upsert of a kind of which `b` is a delete. -/
def writesInOrder (a b : Call) : Prop :=
  ¬ (a.isUpsertTenant ∧ b.isDeleteTenant) ∧ ¬ (a.isUpsertUser ∧ b.isDeleteUser) ∧
  ¬ (a.isUpsertOfferingItem ∧ b.isDeleteOfferingItem) ∧
  ¬ (a.isUpsertAccessPolicy ∧ b.isDeleteAccessPolicy)

/-- The computation `m` only appends to the trace calls that satisfy `P`, any
two of them in the order `R`. -/
def EmitsOrdered {τ σ α : Type} (tr : τ → List (Event σ)) (R : Call → Call → Prop)
    (P : Call → Prop) (m : M τ α) : Prop :=
  ∀ w, ∃ evs, tr (m w).2 = tr w ++ evs ∧ (∀ ev ∈ evs, P ev.call) ∧
    (evs.map Event.call).Pairwise R

/-- The calls that upsert nothing. -/
def Call.notUpsert : Call → Prop
  | .CreateOrUpdateTenant _ => False
  | .CreateOrUpdateUser _ => False
  | .CreateOrUpdateOfferingItem _ => False
  | .CreateOrUpdateAccessPolicy _ => False
  | _ => True

/-- The calls that upsert no child (offering item, access policy). -/
def Call.notChildUpsert : Call → Prop
  | .CreateOrUpdateOfferingItem _ => False
  | .CreateOrUpdateAccessPolicy _ => False
  | _ => True

/-- The calls that delete nothing. -/
def Call.notDelete : Call → Prop
  | .DeleteTenant _ => False
  | .DeleteUser _ => False
  | .DeleteOfferingItem _ => False
  | .DeleteAccessPolicy _ => False
  | _ => True

/-- Two stores that differ at most in their tenants. -/
def Store.EqOffTenants (a b : Store) : Prop :=
  a.offeringItems = b.offeringItems ∧ a.users = b.users ∧
  a.accessPolicies = b.accessPolicies ∧ a.usages = b.usages

/-- Two stores that differ at most in their offering items. -/
def Store.EqOffOfferingItems (a b : Store) : Prop :=
  a.tenants = b.tenants ∧ a.users = b.users ∧
  a.accessPolicies = b.accessPolicies ∧ a.usages = b.usages

/-- A cloud whose tenants the upsert helper can climb: every tenant is live,
is its own parent or has its parent among the tenants, and `height` decreases
from a tenant to every tenant that carries its parent's id, so that the chain
of parents of a tenant reaches a root after at most `height` steps. -/
structure ClosedForest (tenants : List Tenant) (height : Tenant → Nat) : Prop where
  live : ∀ t ∈ tenants, t.DeletedAt = 0
  parent : ∀ t ∈ tenants, t.ParentID = t.ID ∨ ∃ p ∈ tenants, p.ID = t.ParentID
  climbs : ∀ t ∈ tenants, ∀ p ∈ tenants, t.ParentID ≠ t.ID → p.ID = t.ParentID →
    height p < height t

/-- The id under which the in-memory external system files an offering
item. -/
def OfferingItem.externalID (item : OfferingItem) : OfferingItemID :=
  { OfferingItemName := item.Name, TenantID := item.TenantID }

/-- The writes of tenants. -/
def Call.isTenantWrite : Call → Bool
  | .DeleteTenant _ => true
  | .CreateOrUpdateTenant _ => true
  | _ => false

/-- The value of `deleteTenantID` at the end of an iteration of
`processTenantsAndOfferingItemsChanges`: the tenant the item deletes, `""` for
none. -/
def deleteTenantIDOf (item : Tenant) : String :=
  if item.ID ≠ "" then
    if item.DeletedAt.IsZero then "" else item.ID
  else
    match item.OfferingItems with
    | first :: _ => first.TenantID
    | [] => ""

/-- What a list of offering items decides for the external offering item `e`:
the last item filed under `e` deletes it if its status is 0 and upserts it
otherwise. -/
def offeringItemVerdictOfItems : List OfferingItem → OfferingItemID → Option Bool
  | [], _ => none
  | item :: rest, e =>
    (offeringItemVerdictOfItems rest e).or
      (if item.externalID = e then some (decide (item.Status ≠ 0)) else none)

/-- What a tenants page decides for the external offering item `e`. -/
def offeringItemVerdict : List Tenant → OfferingItemID → Option Bool
  | [], _ => none
  | item :: rest, e =>
    (offeringItemVerdict rest e).or (offeringItemVerdictOfItems item.OfferingItems e)

/-- Membership after a verdict: in after an upsert, out after a delete, as
before otherwise. -/
def Verdict.holds (v : Option Bool) (before : Prop) : Prop :=
  v = some true ∨ (v = none ∧ before)

/-! ## `usage_loop_impl.go` -/

/-- The struct `UsageLoop`. -/
structure UsageLoop (σ : Type) where
  accClient : Client σ
  extClient : ExternalSystemClient σ
  updateInterval : Nat

namespace UsageLoop

variable {σ : Type}

/-- The Go method `sendACCUsageReport`. -/
def sendACCUsageReport (loop : UsageLoop σ) (extUsages : List Usage) : M σ (Option String) := do
  let usageReq : UsagesPutRequest := { Items := extUsages }
  let r ← M.lift (loop.accClient.UpdateUsages usageReq)
  match r with
  | .error err => pure (some err)
  | .ok _ => pure none

/-- The inner loop `for ; ; offset += externalSystemPageSize` of
`UpdateUsages`: one usage-push cycle from the offset `offset`; `fuel` bounds
the number of pages read. -/
def usagePages (loop : UsageLoop σ) : (fuel : Nat) → (offset : Nat) → M σ Unit
  | 0, _ => M.outOfFuel
  | fuel + 1, offset => do
    -- 1. Get usages from external-system
    let r ← M.lift (loop.extClient.GetUsages offset externalSystemPageSize)
    match r with
    | .error _ => pure ()
    | .ok pageUsages =>
      if pageUsages.length = 0 then
        -- No usages to send
        pure ()
      else do
        -- 2. Push usage report to ACC
        let _ ← sendACCUsageReport loop pageUsages
        if pageUsages.length < externalSystemPageSize then
          -- last page
          pure ()
        else usagePages loop fuel (offset + externalSystemPageSize)

/-- The body of the outer loop of `UpdateUsages`: one usage-push cycle. -/
def usageCycle (loop : UsageLoop σ) (fuel : Nat) : M σ Unit :=
  usagePages loop fuel 0

/-- The Go method `UpdateUsages`, which never returns: the first `n`
iterations of its loop `for ; ; time.Sleep(...)`. -/
def UpdateUsages (rt : Runtime σ) (loop : UsageLoop σ) (fuel : Nat) : (n : Nat) → M σ Unit
  | 0 => pure ()
  | n + 1 => do
    usageCycle loop fuel
    let _ ← M.lift (fun s => ((), rt.Sleep (secondsOf loop.updateInterval) s))
    UpdateUsages rt loop fuel n

end UsageLoop

/-- The loop `loop`, run on traced collaborators. -/
@[simps]
def UsageLoop.traced {σ : Type} (loop : UsageLoop σ) : UsageLoop (Traced σ) where
  accClient := loop.accClient.traced
  extClient := loop.extClient.traced
  updateInterval := loop.updateInterval

/-- The run of one usage-push cycle, in the words of the spec. From the offset
`offset`, in the state `s`, the external system is asked for the usages at
`offset` with limit 100:
* the read fails, or the page is empty: the cycle ends there, nothing is
  submitted;
* the page is not empty: it is submitted to the cloud, once, as one batch that
  holds the usages of the page; whatever the cloud answers, the cycle ends if
  the page has fewer than 100 usages and goes on at `offset + 100` otherwise.
The events are the calls made, each with the state it was made in; `s1` is the
state at the end. -/
inductive UsageCycleRun {σ : Type} (ext : ExternalSystemClient σ) (acc : Client σ) :
    Nat → σ → List (Event σ) → σ → Prop
  | failed (offset : Nat) (s s1 : σ) (err : String) :
      ext.GetUsages offset 100 s = (.error err, s1) →
      UsageCycleRun ext acc offset s [⟨.GetUsages offset 100, s⟩] s1
  | empty (offset : Nat) (s s1 : σ) :
      ext.GetUsages offset 100 s = (.ok [], s1) →
      UsageCycleRun ext acc offset s [⟨.GetUsages offset 100, s⟩] s1
  | short (offset : Nat) (s s1 : σ) (page : List Usage) :
      ext.GetUsages offset 100 s = (.ok page, s1) → page ≠ [] → page.length < 100 →
      UsageCycleRun ext acc offset s
        [⟨.GetUsages offset 100, s⟩, ⟨.UpdateUsages { Items := page }, s1⟩]
        (acc.UpdateUsages { Items := page } s1).2
  | full (offset : Nat) (s s1 s2 : σ) (page : List Usage) (rest : List (Event σ)) :
      ext.GetUsages offset 100 s = (.ok page, s1) → ¬ page.length < 100 →
      UsageCycleRun ext acc (offset + 100) (acc.UpdateUsages { Items := page } s1).2 rest s2 →
      UsageCycleRun ext acc offset s
        (⟨.GetUsages offset 100, s⟩ :: ⟨.UpdateUsages { Items := page }, s1⟩ :: rest) s2

/-- The number of reads of usages among the events. -/
def usageReads {σ : Type} (evs : List (Event σ)) : Nat :=
  (evs.filter (fun ev => match ev.call with | .GetUsages _ _ => true | _ => false)).length

/-- The reads of usages among the events, in order. -/
def usageReadCalls {σ : Type} (evs : List (Event σ)) : List Call :=
  (evs.map Event.call).filter (fun c => match c with | .GetUsages _ _ => true | _ => false)

/-- The non-empty pages that the reads of usages among the events were
answered with, in order. -/
def usagePagesRead {σ : Type} (ext : ExternalSystemClient σ) (evs : List (Event σ)) :
    List (List Usage) :=
  evs.filterMap (fun ev =>
    match ev.call with
    | .GetUsages offset limit =>
      match (ext.GetUsages offset limit ev.pre).1 with
      | .ok page => if page = [] then none else some page
      | .error _ => none
    | _ => none)

/-- The batches submitted to the cloud among the events, in order. -/
def usageBatches {σ : Type} (evs : List (Event σ)) : List (List Usage) :=
  evs.filterMap (fun ev =>
    match ev.call with
    | .UpdateUsages usages => some usages.Items
    | _ => none)

/-- A cloud that holds nothing and refuses every usage report. -/
def usagesRefused {σ : Type} : Client σ :=
  { fixedCloud [] [] 0 with UpdateUsages := fun _ s => (.error "refused", s) }

/-- A usage sample of the tenant `tenant`. -/
def usageOf (tenant : String) : Usage :=
  { TenantID := some tenant, OfferingItem := some "storage", UsageValue := 1 }

/-! ## `accclient`: the requests over HTTP (`error.go`, `client.go`, `tenant.go`, `user.go`,
`offering_items.go`)

The engine sees the cloud through `Client`; here is how `accclient` answers
these calls over HTTP. The transport (`http.Client.Do`) is a state-passing
operation; what comes from `encoding/json`, `net/url`, `net/http` and `time`
is a record of functions. The draining and closing of response bodies is left
out. -/

/-- The Go statement `if c { params.Set(key, value) }`. -/
def setIf (c : Prop) [Decidable c] (key value : String) (params : GoMap String) : GoMap String :=
  if c then params.set key value else params

/-- The Go statement `if p != nil { params.Set(key, render(*p)) }`. -/
def setIfSome {α : Type} (p : Option α) (key : String) (render : α → String)
    (params : GoMap String) : GoMap String :=
  match p with
  | some a => params.set key (render a)
  | none => params

/-- The Go method `TenantGetRequest.getQueryParam`. -/
def TenantGetRequest.getQueryParam (format : Time → String) (t : TenantGetRequest) :
    GoMap String :=
  ({} : GoMap String)
    |> setIf (t.UUIDs.length > 0) "uuids" (",".intercalate t.UUIDs)
    |> setIf (t.ParentID ≠ "") "parent_id" t.ParentID
    |> setIf (t.SubTreeRootID ≠ "") "subtree_root_id" t.SubTreeRootID
    |> setIfSome t.UpdatedSince "updated_since" format
    |> setIfSome t.Limit "limit" toString
    |> setIf (t.After ≠ "") "after" t.After
    |> setIf (t.LevelOfDetail ≠ "") "lod" t.LevelOfDetail
    |> setIfSome t.WithContacts "with_contacts" toString
    |> setIfSome t.WithOfferingItems "with_offering_items" toString
    |> fun params => params.set "allow_deleted" (toString t.AllowDeleted)

/-- The Go method `UserGetRequest.getQueryParam`. -/
def UserGetRequest.getQueryParam (format : Time → String) (u : UserGetRequest) : GoMap String :=
  ({} : GoMap String)
    |> setIf (u.UUIDs.length > 0) "uuids" (",".intercalate u.UUIDs)
    |> setIf (u.ExternalIDs.length > 0) "external_ids" (",".intercalate u.ExternalIDs)
    |> setIf (u.TenantID ≠ "") "tenant_id" u.TenantID
    |> setIf (u.SubTreeRootTenantID ≠ "") "subtree_root_tenant_id" u.SubTreeRootTenantID
    |> setIfSome u.UpdatedSince "updated_since" format
    |> setIfSome u.Limit "limit" toString
    |> setIf (u.After ≠ "") "after" u.After
    |> setIf (u.LevelOfDetail ≠ "") "lod" u.LevelOfDetail
    |> setIfSome u.WithAccessPolicies "with_access_policies" toString
    |> fun params => params.set "allow_deleted" (toString u.AllowDeleted)

namespace accclient

/-- The Go struct `accclient.Error` (without `Context`, a map of untyped
values); `Details` is `Details.Info`. -/
structure Error where
  Code : String := ""
  Domain : Option String := none
  Message : String := ""
  Details : Option String := none
  Data : Option (List String) := none
deriving DecidableEq

/-- A Go `error`, as far as `accclient` builds one: a value of type
`accclient.Error`, a pointer to one, `fmt.Errorf(msg + "%w", err)`, or any
other error, known by its message. -/
inductive GoError where
  | accError (e : Error)
  | accErrorPtr (e : Error)
  | wrap (msg : String) (err : GoError)
  | other (msg : String)
deriving DecidableEq

/-- The Go function `getStrPtrValue`. -/
def getStrPtrValue (v : Option String) : String :=
  match v with
  | some s => s
  | none => "null"

/-- The Go method `Error.Error`. -/
def Error.message (e : Error) : String :=
  "accclient error: domain: " ++ getStrPtrValue e.Domain ++ ", reason: " ++ e.Code

/-- The method `Error` of a Go `error`: its message. -/
def GoError.message : GoError → String
  | .accError e => e.message
  | .accErrorPtr e => e.message
  | .wrap msg err => msg ++ err.message
  | .other msg => msg

/-- The Go call `errors.As(err, &clientErr)` with `var clientErr Error`: the
first error of the chain of `err` whose type is `accclient.Error`. -/
def GoError.asError : GoError → Option Error
  | .accError e => some e
  | .accErrorPtr _ => none
  | .wrap _ err => err.asError
  | .other _ => none

/-- The fields of `http.Request` that `accclient` sets. -/
structure HTTPRequest where
  Method : String
  URL : String
  Body : Option String
  Header : List (String × String)
deriving DecidableEq

/-- The fields of `http.Response` that `accclient` reads. -/
structure HTTPResponse where
  StatusCode : Nat
  Body : String := ""
deriving DecidableEq

/-- A Go result `(v, err)`: `.ok v` when `err == nil`, otherwise the error with
the value returned along with it, if any. -/
abbrev Result (α : Type) := Except (Option α × GoError) α

/-- The Go struct `accclient.OfferingItemsGetRequest`. -/
structure OfferingItemsGetRequest where
  SubTreeRootTenantID : String := ""
  UsageNames : List String := []
  Editions : List String := []
  UpdatedSince : Option Time := none
  Limit : Option Nat := none
  After : String := ""
deriving DecidableEq

/-- The fields of `accclient.OfferingItemsGetResponse` that are read. -/
structure OfferingItemsGetResponse where
  After : String
  Timestamp : Time
  Items : List OfferingItem
deriving DecidableEq

/-- What `accclient` takes from the Go standard library: `url.QueryEscape`,
`Time.Format(time.RFC3339)`, the error of `http.NewRequest` for a method and a
URL (`none` for `nil`), `json.Marshal` of a usage report and the decoding of
the bodies by `json.NewDecoder(r.Body).Decode`. -/
structure Lib where
  QueryEscape : String → String
  FormatRFC3339 : Time → String
  NewRequestError : String → String → Option GoError
  MarshalUsages : UsagesPutRequest → Except GoError String
  DecodeError : String → Except GoError Error
  DecodeTenants : String → Except GoError TenantGetResponse
  DecodeUsers : String → Except GoError UserGetResponse
  DecodeOfferingItems : String → Except GoError OfferingItemsGetResponse
  DecodeUsages : String → Except GoError UsagesPutResponse

/-- The order of Go strings, on their characters: `a <= b`. -/
def charsLE : List Char → List Char → Bool
  | [], _ => true
  | _ :: _, [] => false
  | a :: as, b :: bs => a.toNat < b.toNat || (a.toNat == b.toNat && charsLE as bs)

/-- The Go method `url.Values.Encode` on values made with `Set` only: the
pairs `key=value`, escaped, sorted by key, joined by `&`. -/
def Encode (escape : String → String) (params : GoMap String) : String :=
  "&".intercalate
    ((params.entries.insertionSort (fun a b => charsLE a.1.data b.1.data)).map
      (fun e => escape e.1 ++ "=" ++ escape e.2))

/-- The Go method `OfferingItemsGetRequest.getQueryParam`. -/
def OfferingItemsGetRequest.getQueryParam (format : Time → String)
    (o : OfferingItemsGetRequest) : GoMap String :=
  ({} : GoMap String)
    |> setIf (o.SubTreeRootTenantID ≠ "") "subtree_root_tenant_id" o.SubTreeRootTenantID
    |> setIf (o.UsageNames.length > 0) "usage_names" (",".intercalate o.UsageNames)
    |> setIf (o.Editions.length > 0) "editions" (",".intercalate o.Editions)
    |> setIfSome o.UpdatedSince "updated_since" format
    |> setIfSome o.Limit "limit" toString
    |> setIf (o.After ≠ "") "after" o.After

/-- The Go function `makeError`. -/
def makeError (lib : Lib) (r : HTTPResponse) : GoError :=
  if r.StatusCode ≥ 400 then
    .accError { Code := toString r.StatusCode }
  else
    -- Other errors we decode the json error body
    match lib.DecodeError r.Body with
    | .error err => err
    | .ok e => .accErrorPtr e

/-- The Go struct `accclient.Client`: `HTTPClient` is `c.HTTPClient.Do`. -/
structure Client (σ : Type) where
  APIURL : String
  HTTPClient : HTTPRequest → σ → Except GoError HTTPResponse × σ

namespace Client

variable {σ : Type}

/-- The Go method `Client.Do`; `body` is the request body, marshalled, or the
error of `json.Marshal` (`none` for a `nil` body). -/
def Do (lib : Lib) (c : Client σ) (method url : String) (body : Option (Except GoError String))
    (headers : List (String × String)) (s : σ) : Result HTTPResponse × σ :=
  let reader : Except GoError (Option String) :=
    match body with
    | some (.error err) => .error err
    | some (.ok reqBody) => .ok (some reqBody)
    | none => .ok none
  match reader with
  | .error err => (.error (none, .wrap "failed to create http request body. " err), s)
  | .ok reader =>
    match lib.NewRequestError method url with
    | some err => (.error (none, .wrap "failed to create http request. " err), s)
    | none =>
      match c.HTTPClient { Method := method, URL := url, Body := reader, Header := headers } s with
      | (.error err, s1) => (.error (none, .wrap "error connecting to api server. " err), s1)
      | (.ok resp, s1) =>
        if resp.StatusCode ≥ 400 then (.error (some resp, makeError lib resp), s1)
        else (.ok resp, s1)

/-- The Go method `Client.DoGet`. -/
def DoGet (lib : Lib) (c : Client σ) (url : String) : σ → Result HTTPResponse × σ :=
  c.Do lib "GET" url none []

/-- The Go method `Client.DoPut`. -/
def DoPut (lib : Lib) (c : Client σ) (url : String) (body : Option (Except GoError String))
    (headers : List (String × String)) : σ → Result HTTPResponse × σ :=
  c.Do lib "PUT" url body headers

/-- The `apiPath` of `Client.GetTenants`. -/
def tenantsPath (lib : Lib) (c : Client σ) (getReq : TenantGetRequest) : String :=
  c.APIURL ++ "/tenants" ++ "?" ++
    Encode lib.QueryEscape (getReq.getQueryParam lib.FormatRFC3339)

/-- The `apiPath` of `Client.GetUsers`. -/
def usersPath (lib : Lib) (c : Client σ) (getReq : UserGetRequest) : String :=
  c.APIURL ++ "/users" ++ "?" ++ Encode lib.QueryEscape (getReq.getQueryParam lib.FormatRFC3339)

/-- The `apiPath` of `Client.GetOfferingItems`. -/
def offeringItemsPath (lib : Lib) (c : Client σ) (getReq : OfferingItemsGetRequest) : String :=
  c.APIURL ++ "/tenants/offering_items" ++ "?" ++
    Encode lib.QueryEscape (getReq.getQueryParam lib.FormatRFC3339)

/-- The part shared by `GetTenants`, `GetUsers`, `GetOfferingItems` and
`UpdateUsages` after the request: wrap the error of the request, parse the
body, check the status. -/
def parsed {α : Type} (name : String) (decode : String → Except GoError α)
    (r : Result HTTPResponse × σ) : Result α × σ :=
  match r with
  | (.error (_, err), s1) => (.error (none, .wrap ("error in http request " ++ name ++ ". ") err), s1)
  | (.ok resp, s1) =>
    match decode resp.Body with
    | .error err => (.error (none, .wrap ("error parsing response " ++ name ++ ". ") err), s1)
    | .ok v =>
      if resp.StatusCode ≠ 200 then
        (.error (some v,
          .other ("invalid status code " ++ toString resp.StatusCode ++ " from " ++ name)), s1)
      else (.ok v, s1)

/-- The Go method `Client.GetTenants`. -/
def GetTenants (lib : Lib) (c : Client σ) (getReq : TenantGetRequest) (s : σ) :
    Result TenantGetResponse × σ :=
  parsed "GetTenants" lib.DecodeTenants (c.DoGet lib (c.tenantsPath lib getReq) s)

/-- The Go method `Client.GetUsers`. -/
def GetUsers (lib : Lib) (c : Client σ) (getReq : UserGetRequest) (s : σ) :
    Result UserGetResponse × σ :=
  parsed "GetUsers" lib.DecodeUsers (c.DoGet lib (c.usersPath lib getReq) s)

/-- The Go method `Client.GetOfferingItems`. -/
def GetOfferingItems (lib : Lib) (c : Client σ) (getReq : OfferingItemsGetRequest) (s : σ) :
    Result OfferingItemsGetResponse × σ :=
  parsed "GetOfferingItems" lib.DecodeOfferingItems
    (c.DoGet lib (c.offeringItemsPath lib getReq) s)

/-- The Go method `Client.UpdateUsages`. -/
def UpdateUsages (lib : Lib) (c : Client σ) (usages : UsagesPutRequest) (s : σ) :
    Result UsagesPutResponse × σ :=
  parsed "UpdateUsages" lib.DecodeUsages
    (c.DoPut lib (c.APIURL ++ "/tenants/usages") (some (lib.MarshalUsages usages)) [] s)

/-- The Go method `Client.GetOfferingItemsNextPage`; `(nil, nil)` is
`.ok none`. -/
def GetOfferingItemsNextPage (lib : Lib) (c : Client σ) (page : OfferingItemsGetResponse)
    (s : σ) : Result (Option OfferingItemsGetResponse) × σ :=
  if page.After ≠ "" then
    match c.GetOfferingItems lib { After := page.After } s with
    | (.error (resp, err), s1) =>
      (.error (resp.map some,
        .wrap ("error fetching OfferingItemsGetResponse next page with cursor " ++ page.After ++
          ". ") err), s1)
    | (.ok resp, s1) => (.ok (some resp), s1)
  else (.ok none, s)

/-- The cloud client as the engine sees it: a response, or the message of the
error. -/
def engine (lib : Lib) (c : Client σ) : Connector.Client σ where
  GetTenants r s :=
    match c.GetTenants lib r s with
    | (.ok resp, s1) => (.ok resp, s1)
    | (.error (_, err), s1) => (.error err.message, s1)
  GetUsers r s :=
    match c.GetUsers lib r s with
    | (.ok resp, s1) => (.ok resp, s1)
    | (.error (_, err), s1) => (.error err.message, s1)
  UpdateUsages r s :=
    match c.UpdateUsages lib r s with
    | (.ok resp, s1) => (.ok resp, s1)
    | (.error (_, err), s1) => (.error err.message, s1)

end Client

/-- A library whose escaping changes nothing, that renders an instant as its
number, accepts every request, marshals a usage report as the number of its
usages and decodes every body as an empty answer. -/
def plainLib : Lib where
  QueryEscape s := s
  FormatRFC3339 t := toString t
  NewRequestError _ _ := none
  MarshalUsages r := .ok (toString r.Items.length)
  DecodeError _ := .ok {}
  DecodeTenants _ := .ok { After := "", Timestamp := 0, Items := [] }
  DecodeUsers _ := .ok { After := "", Timestamp := 0, Items := [] }
  DecodeOfferingItems _ := .ok { After := "", Timestamp := 0, Items := [] }
  DecodeUsages _ := .ok { Items := [] }

/-- A cloud at `https://cloud` that answers every request with the status
`status` and an empty body, and keeps the requests it received. -/
def statusCloud (status : Nat) : Client (List HTTPRequest) where
  APIURL := "https://cloud/api/2"
  HTTPClient req s := (.ok { StatusCode := status }, s ++ [req])

end accclient

/-! ## `sample-connector/external/external_pull_impl.go` -/

namespace external

/-- The fields of `models.OfferingItem`, an offering item of the external
system, that the connector reads. -/
structure OfferingItem where
  Name : String
  TenantID : String
  Status : Int
deriving DecidableEq

/-- The fields of `models.Tenant`, a tenant of the external system, that the
connector reads. -/
structure Tenant where
  IDNo : String
deriving DecidableEq

/-- The struct `SampleExternalSystem`: the methods of its `client` that the
readers of tenants and of offering items call. -/
structure SampleExternalSystem (σ : Type) where
  GetTenants : Nat → Nat → σ → Except String (List Tenant) × σ
  GetOfferingItems : Nat → Nat → σ → Except String (List OfferingItem) × σ

namespace SampleExternalSystem

variable {σ : Type}

/-- The Go method `SampleExternalSystem.GetActiveTenantIDs`: the slice made
with `make([]string, len(extTenants))` is filled index by index. -/
def GetActiveTenantIDs (ext : SampleExternalSystem σ) (offset limit : Nat) (s : σ) :
    Except String (List String) × σ :=
  match ext.GetTenants offset limit s with
  | (.error err, s1) => (.error err, s1)
  | (.ok extTenants, s1) =>
    let accTenants : List String := List.replicate extTenants.length ""
    (.ok ((List.range extTenants.length).foldl
      (fun acc i => acc.set i (extTenants.getD i ⟨""⟩).IDNo) accTenants), s1)

/-- The Go method `SampleExternalSystem.GetActiveOfferingItemIDs`: the slice
made with `make([]core.OfferingItemID, len(extOIs))` holds `len(extOIs)` zero
values, and `append` adds after them. -/
def GetActiveOfferingItemIDs (ext : SampleExternalSystem σ) (offset limit : Nat) (s : σ) :
    Except String (List OfferingItemID) × σ :=
  match ext.GetOfferingItems offset limit s with
  | (.error err, s1) => (.error err, s1)
  | (.ok extOIs, s1) =>
    let OIs : List OfferingItemID :=
      List.replicate extOIs.length { OfferingItemName := "", TenantID := "" }
    (.ok (extOIs.foldl
      (fun OIs item =>
        if item.Status > 0 then
          OIs ++ [{ OfferingItemName := item.Name, TenantID := item.TenantID }]
        else OIs)
      OIs), s1)

end SampleExternalSystem

/-- The pairs of the active items of a page, in the words of the spec: one
`(name, tenant id)` for each item of the page whose status is above 0, in page
order. -/
def activePairs (page : List OfferingItem) : List OfferingItemID :=
  (page.filter (fun item => item.Status > 0)).map
    (fun item => { OfferingItemName := item.Name, TenantID := item.TenantID })

/-- An external system that answers every request with the page `tenants` and
the page `items`. -/
def fixedPages (tenants : List Tenant) (items : List OfferingItem) : SampleExternalSystem Unit where
  GetTenants _ _ s := (.ok tenants, s)
  GetOfferingItems _ _ s := (.ok items, s)

end external

/-! ## `accclient/tenant.go`: `CustomTime` -/

/-- The constant `customLayout`. -/
def customLayout : String := "2006-01-02T15:04:05"

/-- The constant `nullString`. -/
def nullString : String := "null"

/-- The constant `time.RFC3339`. -/
def RFC3339 : String := "2006-01-02T15:04:05Z07:00"

/-- The double quote. -/
def quote : Char := Char.ofNat 34

/-- The backslash. -/
def backslash : Char := Char.ofNat 92

/-- The Go call `strings.Trim(s, "\"")`: `s` without its leading and trailing
double quotes. -/
def trimQuotes (s : String) : String :=
  ⟨(s.data.dropWhile (fun c => c == quote)).rdropWhile (fun c => c == quote)⟩

/-- The Go method `CustomTime.UnmarshalJSON`: the time stored in the receiver
and the error returned (`none` for `nil`). `parse` is `time.Parse`, given the
layout and the value. -/
def CustomTime.UnmarshalJSON (parse : String → String → Time × Option String) (b : String) :
    Time × Option String :=
  let s := trimQuotes b
  if s = nullString then (0, none)
  else
    match parse RFC3339 s with
    | (t, none) => (t, none)
    | (_, some _) => parse customLayout s

/-- The text `s` between double quotes. -/
def quoted (s : String) : String := ⟨quote :: s.data ++ [quote]⟩

/-- A JSON string, as far as its quotes go: an opening quote, characters among
which every double quote comes right after a backslash, a closing quote. -/
def JSONString (b : String) : Prop :=
  ∃ inner : List Char, b.data = quote :: inner ++ [quote] ∧
    ∀ pre post, inner = pre ++ quote :: post → pre.getLast? = some backslash

/-- A JSON value, as handed to `UnmarshalJSON` by `encoding/json`, as far as
its quotes go: a JSON string, or a value that neither starts nor ends with a
double quote (`null`, `true`, `false`, a number, an array, an object). -/
def JSONValue (b : String) : Prop :=
  JSONString b ∨ (b.data.head? ≠ some quote ∧ b.data.getLast? ≠ some quote)

/-- What `UnmarshalJSON` does with a text that is not `null`, in the words of
the spec: the text is parsed as RFC3339 and, if that fails, as
`YYYY-MM-DDTHH:MM:SS`; the error is that of the second parse. -/
def parsedByLayouts (parse : String → String → Time × Option String) (s : String) :
    Time × Option String :=
  if (parse RFC3339 s).2 = none then ((parse RFC3339 s).1, none) else parse customLayout s

/-- A stand-in for `time.Parse` that knows one instant in each layout. -/
def toyParse (layout value : String) : Time × Option String :=
  if layout = RFC3339 ∧ value = "2021-03-04T05:06:07Z" then (1614834367, none)
  else if layout = customLayout ∧ value = "2021-03-04T05:06:07" then (1614834367, none)
  else (0, some ("parsing time " ++ value ++ " as " ++ layout))

/-! ## `core/updater/config.go` -/

/-- The Go struct `logs.LogConfig`. -/
structure LogConfig where
  LoggingLib : String
  LogLevel : String
  WithJSONFormatter : Bool
deriving DecidableEq

/-- The Go struct `AuthConfig`. -/
structure AuthConfig where
  ClientID : String
  ClientSecret : String
deriving DecidableEq

/-- The Go struct `APIServerConfig`. -/
structure APIServerConfig where
  BaseURL : String
deriving DecidableEq

/-- The Go struct `Config` of the updater. -/
structure Config where
  LogSettings : LogConfig
  AuthSettings : AuthConfig
  APIServerSettings : APIServerConfig
  UpdateInterval : Nat
  ReconciliationInterval : Nat
  UsageReportInterval : Nat
deriving DecidableEq

/-- The Go function `NewDefaultConfig`. -/
def NewDefaultConfig : Config :=
  { LogSettings := { LoggingLib := "logrus", WithJSONFormatter := true, LogLevel := "debug" }
    AuthSettings := { ClientID := "", ClientSecret := "" }
    APIServerSettings := { BaseURL := "" }
    UpdateInterval := 5
    ReconciliationInterval := 86400
    UsageReportInterval := 21600 }

/-- The slash. -/
def slash : Char := Char.ofNat 47

/-- The Go call `strings.TrimRight(s, "/")`: `s` without its trailing
slashes. -/
def trimRightSlashes (s : String) : String :=
  ⟨s.data.rdropWhile (fun c => c == slash)⟩

/-- The log levels that the `switch` of `Config.Validate` accepts. -/
def logLevels : List String := ["trace", "debug", "info", "warn", "error", "fatal", "panic"]

/-- The Go method `Config.Validate`: the error returned (`none` for `nil`) and
the configuration it leaves. `parseRequestURI` is the error of
`url.ParseRequestURI`. -/
def Config.Validate (parseRequestURI : String → Option String) (c : Config) :
    Option String × Config :=
  if c.LogSettings.LogLevel ∈ logLevels then
    -- Remove trailing slash
    let c := { c with
      APIServerSettings := { BaseURL := trimRightSlashes c.APIServerSettings.BaseURL } }
    match parseRequestURI c.APIServerSettings.BaseURL with
    | some _ =>
      (some ("error validating API server base url: " ++ c.APIServerSettings.BaseURL), c)
    | none => (none, c)
  else (some ("invalid logging level: " ++ c.LogSettings.LogLevel), c)

/-- A stand-in for `url.ParseRequestURI` that rejects the empty string and
nothing else. -/
def nonEmptyURI (rawURL : String) : Option String :=
  if rawURL = "" then some "empty url" else none

/-! ## The constructors of the loops -/

/-- The Go function `NewSyncLoop`: the struct it returns, its two watermarks
unset; an option is a function on the struct. -/
def NewSyncLoop {σ : Type} (accClient : Client σ) (tenantID : String)
    (extClient : ExternalSystemClient σ)
    (options : List (SyncLoopImpl σ × SyncVars → SyncLoopImpl σ × SyncVars)) :
    SyncLoopImpl σ × SyncVars :=
  let syncLoop : SyncLoopImpl σ × SyncVars :=
    ({ accClient := accClient
       tenantID := tenantID
       extClient := extClient
       updateInterval := 5 }, -- default
     { tenantsLoopUpdatedSince := none, usersLoopUpdatedSince := none })
  options.foldl (fun loop option => option loop) syncLoop

/-- The Go function `WithUpdateInterval`. -/
def WithUpdateInterval {σ : Type} (updateInterval : Nat) :
    SyncLoopImpl σ × SyncVars → SyncLoopImpl σ × SyncVars :=
  fun loop => ({ loop.1 with updateInterval := updateInterval }, loop.2)

/-- The Go function `NewReconciliationLoop`. -/
def NewReconciliationLoop {σ : Type} (accClient : Client σ) (tenantID : String)
    (extClient : ExternalSystemClient σ)
    (options : List (ReconciliationLoop σ → ReconciliationLoop σ)) : ReconciliationLoop σ :=
  let loop : ReconciliationLoop σ :=
    { accClient := accClient
      tenantID := tenantID
      extClient := extClient
      reconciliationInterval := 3600 } -- default
  options.foldl (fun loop option => option loop) loop

/-- The Go function `WithReconciliationInterval`. -/
def WithReconciliationInterval {σ : Type} (interval : Nat) :
    ReconciliationLoop σ → ReconciliationLoop σ :=
  fun loop => { loop with reconciliationInterval := interval }

/-- The Go function `NewUsageLoop`. -/
def NewUsageLoop {σ : Type} (accClient : Client σ) (extClient : ExternalSystemClient σ)
    (options : List (UsageLoop σ → UsageLoop σ)) : UsageLoop σ :=
  let loop : UsageLoop σ :=
    { accClient := accClient
      extClient := extClient
      updateInterval := 21600 } -- default
  options.foldl (fun loop option => option loop) loop

/-- The Go function `WithUsageUpdateInterval`. -/
def WithUsageUpdateInterval {σ : Type} (interval : Nat) : UsageLoop σ → UsageLoop σ :=
  fun loop => { loop with updateInterval := interval }

/-- The loops that `NewUpdater` builds from a configuration: each constructor
is given the interval of the configuration as an option. -/
def NewUpdaterLoops {σ : Type} (config : Config) (accClient : Client σ) (tenantID : String)
    (externalClient : ExternalSystemClient σ) :
    (SyncLoopImpl σ × SyncVars) × ReconciliationLoop σ × UsageLoop σ :=
  (NewSyncLoop accClient tenantID externalClient [WithUpdateInterval config.UpdateInterval],
   NewReconciliationLoop accClient tenantID externalClient
     [WithReconciliationInterval config.ReconciliationInterval],
   NewUsageLoop accClient externalClient [WithUsageUpdateInterval config.UsageReportInterval])

/-- The number of calls `CreateOrUpdateTenant` among the events. -/
def tenantUpserts {σ : Type} (evs : List (Event σ)) : Nat :=
  (evs.filter
    (fun ev => match ev.call with | .CreateOrUpdateTenant _ => true | _ => false)).length

/-- The calls on the external system: the methods of
`core.ExternalSystemClient`. -/
def Call.onExternalSystem : Call → Prop
  | .GetTenants _ => False
  | .GetUsers _ => False
  | .UpdateUsages _ => False
  | .Sleep _ => False
  | _ => True

/-- The calls of a retried read of the cloud: requests for tenants or users,
and the sleeps between the attempts. -/
def Call.ofRetriedCloudRead : Call → Prop
  | .GetTenants _ => True
  | .GetUsers _ => True
  | .Sleep _ => True
  | _ => False

/-- A cloud that is down: every request fails. -/
def cloudDown {σ : Type} : Client σ where
  GetTenants _ s := (.error "unavailable", s)
  GetUsers _ s := (.error "unavailable", s)
  UpdateUsages _ s := (.error "unavailable", s)

/-- The in-memory external system, with the reads of the ids of tenants and
of users out of order. -/
def idReadsDown : ExternalSystemClient Store :=
  { memExt with
    GetActiveTenantIDs := fun _ _ s => (.error "unavailable", s)
    GetActiveUserIDs := fun _ _ s => (.error "unavailable", s) }

/-- The first request of the incremental loop of tenants when its watermark
is `since`. -/
def firstTenantsRequest (tenantID : String) (since : Option Time) : TenantGetRequest :=
  { SubTreeRootID := tenantID
    Limit := some 100
    WithContacts := some true
    WithOfferingItems := some true
    AllowDeleted := true
    UpdatedSince := since }

/-- The first request of the incremental loop of users when its watermark is
`since`. -/
def firstUsersRequest (tenantID : String) (since : Option Time) : UserGetRequest :=
  { SubTreeRootTenantID := tenantID
    Limit := some 100
    WithAccessPolicies := some true
    AllowDeleted := true
    UpdatedSince := since }

/-! ## The upsert helper on the in-memory external system, as sets of ids

What `createOrUpdateTenant` does between `memExt` and `fixedCloud` depends on
the external tenants only as a set of ids. `Climbs` and `ClimbFails` tell its
two outcomes on that set (`memExt_createOrUpdateTenant_climbs` shows that the
code follows them), `Runs` the outcome of a sequence of upserts and
deletions. -/

/-- The tenant with which the fixed cloud answers a request for the uuid `id`,
as `createOrUpdateTenant` reads the answer: the first item of the page, if
any. -/
def cloudTenant (tenants : List Tenant) (id : String) : Option Tenant :=
  (tenants.filter (fun t => decide (t.ID = id))).head?

/-- The ancestry of the tenants `ups` in the cloud that holds `tenants`: the
parent of a tenant of `ups` that is not its own parent, and, along the answers
of the cloud, the parent of the tenant returned for an id of the ancestry. -/
inductive Ancestry (tenants ups : List Tenant) : String → Prop
  | parent (T : Tenant) : T ∈ ups → T.ParentID ≠ T.ID → Ancestry tenants ups T.ParentID
  | up (y : String) (t : Tenant) : Ancestry tenants ups y → cloudTenant tenants y = some t →
      t.ParentID ≠ t.ID → Ancestry tenants ups t.ParentID

/-- Over the external tenants `σ`, `createOrUpdateTenant` returns an error for
`T` and upserts nothing: `T` is not its own parent, its parent is not in `σ`,
and the cloud does not know the parent or the helper returns an error for the
parent the cloud returns. -/
inductive ClimbFails (tenants : List Tenant) (σ : Set String) : Tenant → Prop
  | unknown (T : Tenant) : T.ParentID ≠ T.ID → T.ParentID ∉ σ →
      cloudTenant tenants T.ParentID = none → ClimbFails tenants σ T
  | parent (T P : Tenant) : T.ParentID ≠ T.ID → T.ParentID ∉ σ →
      cloudTenant tenants T.ParentID = some P → ClimbFails tenants σ P → ClimbFails tenants σ T

/-- Over the external tenants `σ`, `createOrUpdateTenant` returns `nil` for
`T` and leaves the external tenants `σ1`: `T` is its own parent or its parent
is in `σ`, and `T` is added; or the helper first succeeds for the parent the
cloud returns, and then `T` is added. -/
inductive Climbs (tenants : List Tenant) (σ : Set String) : Tenant → Set String → Prop
  | here (T : Tenant) : T.ParentID = T.ID ∨ T.ParentID ∈ σ → Climbs tenants σ T (insert T.ID σ)
  | parent (T P : Tenant) (σ1 : Set String) : T.ParentID ≠ T.ID → T.ParentID ∉ σ →
      cloudTenant tenants T.ParentID = some P → Climbs tenants σ P σ1 →
      Climbs tenants σ T (insert T.ID σ1)

/-- A write of a tenant that the engine decides on: the upsert of a tenant by
`createOrUpdateTenant`, or the deletion of an id. -/
inductive TenantOp where
  | upsert (T : Tenant)
  | delete (id : String)
deriving DecidableEq

/-- The writes `ops`, made in turn on the in-memory external system that holds
the tenants `σ`, leave the tenants `σ1`. -/
inductive Runs (tenants : List Tenant) : List TenantOp → Set String → Set String → Prop
  | nil (σ : Set String) : Runs tenants [] σ σ
  | fails (T : Tenant) (ops : List TenantOp) (σ σ1 : Set String) : ClimbFails tenants σ T →
      Runs tenants ops σ σ1 → Runs tenants (.upsert T :: ops) σ σ1
  | climbs (T : Tenant) (ops : List TenantOp) (σ σ1 σ2 : Set String) : Climbs tenants σ T σ1 →
      Runs tenants ops σ1 σ2 → Runs tenants (.upsert T :: ops) σ σ2
  | delete (d : String) (ops : List TenantOp) (σ σ1 : Set String) :
      Runs tenants ops (σ \ {d}) σ1 → Runs tenants (.delete d :: ops) σ σ1

/-- The cloud returns for `x` a tenant that is its own parent or whose parent
is in `σ`. -/
def ParentOK (tenants : List Tenant) (σ : Set String) (x : String) : Prop :=
  ∃ t, cloudTenant tenants x = some t ∧ (t.ParentID = t.ID ∨ t.ParentID ∈ σ)

/-- The id `x` was pulled into the external tenants `A` by the upsert of a
tenant of `E`: it is the parent of a tenant of `E` that is in `A`, or the
parent of the tenant the cloud returns for a pulled id of the ancestry. -/
inductive Built (tenants E : List Tenant) (A : Set String) : String → Prop
  | parentOfEntry (T : Tenant) : T ∈ E → T.ID ∈ A → T.ParentID ≠ T.ID → T.ParentID ∈ A →
      Built tenants E A T.ParentID
  | up (y : String) (t : Tenant) : Built tenants E A y → y ∈ A → Ancestry tenants E y →
      cloudTenant tenants y = some t → t.ParentID ≠ t.ID → t.ParentID ∈ A →
      Built tenants E A t.ParentID

/-- From `σ` to `σ1` the ids of the ancestry of `E` are kept, and those that
came were added under a parent that is there. -/
def Later (tenants E : List Tenant) (σ σ1 : Set String) : Prop :=
  (∀ x, Ancestry tenants E x → x ∈ σ → x ∈ σ1) ∧
  (∀ x, Ancestry tenants E x → x ∈ σ1 → x ∈ σ ∨ ParentOK tenants σ1 x)

/-- One of the writes `ops` decides on the id `x`: a deletion of `x`, or the
upsert of a tenant with the id `x` for which the helper does not fail over
`A`. -/
def Touched (tenants : List Tenant) (A : Set String) (ops : List TenantOp) (x : String) : Prop :=
  ∃ op ∈ ops, op = .delete x ∨ ∃ T, op = .upsert T ∧ T.ID = x ∧ ¬ ClimbFails tenants A T

/-- Every tenant of `E` that is on the ancestry of `E` is known to the cloud
under its id with the same parent. -/
def AncestorsKnown (tenants E : List Tenant) : Prop :=
  ∀ T ∈ E, Ancestry tenants E T.ID →
    ∃ c, cloudTenant tenants T.ID = some c ∧ c.ParentID = T.ParentID

/-- The ancestry of the tenants `E` can be climbed within the budget: the
height `hgt` decreases from an id of the ancestry to the parent of the tenant
the cloud returns for it, so that no chain of parents turns in a circle, and
the budget exceeds the height of the parent of every tenant of `E` by more than
one. -/
structure AncestryDescends (tenants E : List Tenant) (hgt : String → Nat) (fuel : Nat) :
    Prop where
  descends : ∀ id t, Ancestry tenants E id → cloudTenant tenants id = some t →
    t.ParentID ≠ t.ID → hgt t.ParentID < hgt id
  budget : ∀ T ∈ E, hgt T.ParentID + 1 < fuel

/-- The tenant ids that the in-memory external system holds, as a set. -/
def tenantSet (s : Store) : Set String := {x | x ∈ s.tenants}

/-- The tenants of the cloud map that the reconciliation reader builds from
the answer of the fixed cloud: the tenants the cycle upserts. -/
def cloudMapTenants (tenants : List Tenant) : List Tenant :=
  (addTenants {} tenants).entries.map Prod.snd

/-- The tenants that `processTenantsAndOfferingItemsChanges` upserts for a
page: the items with an id and no deletion time. -/
def upsertedTenants (page : List Tenant) : List Tenant :=
  page.filter (fun item => decide (item.ID ≠ "") && item.DeletedAt.IsZero)

/-- The writes of tenants that `processTenantsAndOfferingItemsChanges` decides
on for a page, in order: for each item, its upsert if it has an id and no
deletion time, then the deletion of `deleteTenantID` if that is not empty. -/
def tenantOpsOfPage : List Tenant → List TenantOp
  | [] => []
  | item :: rest =>
    (if item.ID ≠ "" ∧ item.DeletedAt.IsZero = true then [TenantOp.upsert item] else []) ++
    (if deleteTenantIDOf item ≠ "" then [TenantOp.delete (deleteTenantIDOf item)] else []) ++
    tenantOpsOfPage rest

/-- A cloud for the examples: the root `R`, `P` under `R`, `T` under `P`
with an active offering item `x`, a deleted root `D`, `X` under `D`, and `Y`
under a tenant `U` that the cloud does not hold. -/
def sampleTenants : List Tenant :=
  [{ ID := "R", ParentID := "R", DeletedAt := 0, OfferingItems := [] },
   { ID := "P", ParentID := "R", DeletedAt := 0, OfferingItems := [] },
   { ID := "T", ParentID := "P", DeletedAt := 0,
     OfferingItems := [{ Name := "x", TenantID := "T", Status := 1 }] },
   { ID := "D", ParentID := "D", DeletedAt := 5, OfferingItems := [] },
   { ID := "X", ParentID := "D", DeletedAt := 0, OfferingItems := [] },
   { ID := "Y", ParentID := "U", DeletedAt := 0, OfferingItems := [] }]

/-- A page for the examples: it upserts `T` and deletes `Z`. -/
def samplePage : List Tenant :=
  [{ ID := "T", ParentID := "P", DeletedAt := 0, OfferingItems := [] },
   { ID := "Z", ParentID := "R", DeletedAt := 5, OfferingItems := [] }]

/-! # Properties -/

section Basics

variable {σ α β : Type}

@[simp] theorem M.pure_apply (a : α) (s : σ) : (pure a : M σ α) s = (some a, s) := rfl

@[simp] theorem M.bind_apply (m : M σ α) (f : α → M σ β) (s : σ) :
    (m >>= f) s = match m s with
      | (some a, s1) => f a s1
      | (none, s1) => (none, s1) := rfl

@[simp] theorem M.lift_apply (f : σ → α × σ) (s : σ) :
    M.lift f s = (some (f s).1, (f s).2) := rfl

@[simp] theorem M.outOfFuel_apply (s : σ) : (M.outOfFuel : M σ α) s = (none, s) := rfl

@[simp] theorem M.onWorld_apply {L : Type} (m : M σ α) (w : L × σ) :
    (M.onWorld m : M (L × σ) α) w = ((m w.2).1, (w.1, (m w.2).2)) := rfl

@[simp] theorem M.getVars_apply {L : Type} (w : L × σ) :
    (M.getVars : M (L × σ) L) w = (some w.1, w) := rfl

@[simp] theorem M.modifyVars_apply {L : Type} (f : L → L) (w : L × σ) :
    (M.modifyVars f : M (L × σ) Unit) w = (some (), (f w.1, w.2)) := rfl

@[simp] theorem M.withVars_apply {L : Type} (init : L) (m : M (L × σ) α) (s : σ) :
    M.withVars init m s = ((m (init, s)).1, (m (init, s)).2.2) := rfl

@[simp] theorem record_fst (c : Call) (f : σ → α × σ) (w : Traced σ) :
    (record c f w).1 = (f w.1).1 := rfl

@[simp] theorem record_snd (c : Call) (f : σ → α × σ) (w : Traced σ) :
    (record c f w).2 = ((f w.1).2, w.2 ++ [⟨c, w.1⟩]) := rfl

@[simp] theorem calls_mk (s : σ) (tr : List (Event σ)) :
    calls (s, tr) = tr.map Event.call := rfl

end Basics

section EmitsBasics

variable {τ σ α β L : Type} {tr : τ → List (Event σ)} {P Q : Call → Prop}

theorem Emits.pure (a : α) : Emits tr P (pure a : M τ α) :=
  fun _ => ⟨[], by simp, by simp⟩

theorem Emits.outOfFuel : Emits tr P (M.outOfFuel : M τ α) :=
  fun _ => ⟨[], by simp, by simp⟩

theorem Emits.bind {m : M τ α} {f : α → M τ β} (hm : Emits tr P m)
    (hf : ∀ a, Emits tr P (f a)) : Emits tr P (m >>= f) := by
  intro w
  obtain ⟨evs, he, hp⟩ := hm w
  rcases hrun : m w with ⟨r, w1⟩
  rw [hrun] at he
  cases r with
  | none => exact ⟨evs, by simpa [hrun] using he, hp⟩
  | some a =>
    obtain ⟨evs2, he2, hp2⟩ := hf a w1
    refine ⟨evs ++ evs2, ?_, ?_⟩
    · simp only [M.bind_apply, hrun]
      rw [he2, he, List.append_assoc]
    · intro ev hev
      rcases List.mem_append.1 hev with h | h
      · exact hp ev h
      · exact hp2 ev h

theorem Emits.mono {m : M τ α} (h : ∀ c, P c → Q c) (hm : Emits tr P m) : Emits tr Q m := by
  intro w
  obtain ⟨evs, he, hp⟩ := hm w
  exact ⟨evs, he, fun ev hev => h _ (hp ev hev)⟩

theorem Emits.record (c : Call) (f : σ → α × σ) (hc : P c) :
    Emits worldTrace P (M.lift (record c f)) :=
  fun w => ⟨[⟨c, w.1⟩], by simp [worldTrace], by simpa using hc⟩

theorem Emits.onWorld {m : M (Traced σ) α} (hm : Emits worldTrace P m) :
    Emits (varsTrace (L := L)) P (M.onWorld m) := by
  intro w
  obtain ⟨evs, he, hp⟩ := hm w.2
  exact ⟨evs, by simpa [varsTrace, worldTrace] using he, hp⟩

theorem Emits.getVars : Emits (varsTrace (L := L) (σ := σ)) P M.getVars :=
  fun _ => ⟨[], by simp, by simp⟩

theorem Emits.modifyVars (f : L → L) : Emits (varsTrace (L := L) (σ := σ)) P (M.modifyVars f) :=
  fun _ => ⟨[], by simp [varsTrace], by simp⟩

theorem Emits.sleepOnWorld (rt : Runtime σ) (d : Duration) (hs : P (.Sleep d)) :
    Emits (varsTrace (L := L)) P
      (M.lift (fun w => ((), rt.traced.sleepOnWorld d w))) :=
  fun w => ⟨[⟨.Sleep d, w.2.1⟩], by simp [varsTrace, Runtime.sleepOnWorld], by simpa using hs⟩

theorem Emits.retryLoop (sleep : Duration → τ → τ) (userFunction : M τ (Option String))
    (hop : Emits tr P userFunction)
    (hsleep : ∀ d, Emits tr P (M.lift (fun w => ((), sleep d w)))) :
    ∀ (n i : Nat) (b : Duration) (err : Option String),
      Emits tr P (retryLoop sleep userFunction n i b err) := by
  intro n
  induction n with
  | zero => intro i b err; exact Emits.pure _
  | succ n ih =>
    intro i b err
    unfold Connector.retryLoop
    refine Emits.bind hop (fun r => ?_)
    cases r with
    | none => exact Emits.pure _
    | some e =>
      simp only
      split
      · exact Emits.pure _
      · exact Emits.bind (hsleep b) (fun _ => ih _ _ _)

theorem Emits.retryHelper (sleep : Duration → τ → τ) (userFunction : M τ (Option String))
    (hop : Emits tr P userFunction)
    (hsleep : ∀ d, Emits tr P (M.lift (fun w => ((), sleep d w)))) :
    Emits tr P (retryHelper sleep userFunction) :=
  Emits.retryLoop sleep userFunction hop hsleep _ _ _ _

end EmitsBasics

section Retry

variable {τ : Type}

theorem maxRetries_message (e : String) :
    "max " ++ toString defaultMaxRetries ++ " retries reached: " ++ e
      = "max 5 retries reached: " ++ e := by
  have h : "max " ++ toString defaultMaxRetries ++ " retries reached: "
      = "max 5 retries reached: " := by decide
  rw [h]

theorem retryLoop_outcome (sleep : Duration → τ → τ) (userFunction : M τ (Option String)) :
    ∀ (n i : Nat) (b : Duration) (err : Option String) (s : τ) (tr : List RetryEvent),
      0 < n → i + n = defaultMaxRetries →
      RetryOutcome n b tr
        (retryLoop (observedSleep sleep) (observedOp userFunction) n i b err (s, tr)) := by
  intro n
  induction n with
  | zero => intro i b err s tr h; omega
  | succ n ih =>
    intro i b err s tr _ hi
    simp only [retryLoop, M.bind_apply, observedOp]
    rcases hop : userFunction s with ⟨r, s1⟩
    rcases r with _ | r
    · -- the operation did not return
      right; right
      exact ⟨[], by simp, by simp, by simp [backoffTrace]⟩
    · rcases r with _ | e
      · left
        exact ⟨[], by simp, by simp, by simp [backoffTrace]⟩
      · by_cases hlast : i + 1 ≥ defaultMaxRetries
        · right; left
          refine ⟨[], e, ?_, ?_, ?_⟩
          · simp [defaultMaxRetries] at *; omega
          · simp [hlast, maxRetries_message]
          · simp [hlast, backoffTrace]
        · have hn : 0 < n := by simp [defaultMaxRetries] at *; omega
          have := ih (i + 1) (b * 2) (some e) (sleep b s1)
            (tr ++ [.attempt (some e)] ++ [.sleep b]) hn (by omega)
          simp only [List.append_assoc, List.singleton_append] at this
          simp only [hlast, if_false, M.bind_apply, M.lift_apply, observedSleep,
            List.append_assoc, List.singleton_append]
          rcases this with ⟨es, h1, h2, h3⟩ | ⟨es, e5, h1, h2, h3⟩ | ⟨es, h1, h2, h3⟩
          · left
            exact ⟨e :: es, by simp; omega, h2, by simpa [backoffTrace] using h3⟩
          · right; left
            exact ⟨e :: es, e5, by simp; omega, h2, by simpa [backoffTrace] using h3⟩
          · right; right
            exact ⟨e :: es, by simp; omega, h2, by simpa [backoffTrace] using h3⟩

theorem retryHelper_outcome (sleep : Duration → τ → τ) (userFunction : M τ (Option String))
    (s : τ) :
    RetryOutcome 5 Second []
      (retryHelper (observedSleep sleep) (observedOp userFunction) (s, [])) := by
  have := retryLoop_outcome sleep userFunction 5 0 (1 * Second) none s [] (by decide) (by decide)
  simpa [retryHelper, defaultMaxRetries] using this

theorem attempts_append (a b : List RetryEvent) : attempts (a ++ b) = attempts a ++ attempts b := by
  simp [attempts, List.filterMap_append]

theorem sleeps_append (a b : List RetryEvent) : sleeps (a ++ b) = sleeps a ++ sleeps b := by
  simp [sleeps, List.filterMap_append]

theorem attempts_single (r : Option String) : attempts [.attempt r] = [r] := rfl

theorem sleeps_single (r : Option String) : sleeps [.attempt r] = [] := rfl

theorem attempts_backoffTrace (es : List String) (d : Duration) :
    attempts (backoffTrace es d) = es.map some := by
  induction es generalizing d with
  | nil => rfl
  | cons e es ih =>
    have := ih (d * 2)
    simp [attempts, backoffTrace] at this ⊢
    exact this

theorem sleeps_backoffTrace_length (es : List String) (d : Duration) :
    (sleeps (backoffTrace es d)).length = es.length := by
  induction es generalizing d with
  | nil => rfl
  | cons e es ih =>
    have := ih (d * 2)
    simp [sleeps, backoffTrace] at this ⊢
    exact this

theorem failures_then_success_unique :
    ∀ (es es1 : List String) (rest : List (Option String)),
      es1.map some ++ [none] = es.map some ++ none :: rest → es1 = es ∧ rest = [] := by
  intro es
  induction es with
  | nil =>
    intro es1 rest h
    cases es1 with
    | nil => simpa using h.symm
    | cons a t => simp at h
  | cons e es ih =>
    intro es1 rest h
    cases es1 with
    | nil => simp at h
    | cons a t =>
      simp only [List.map_cons, List.cons_append, List.cons.injEq, Option.some.injEq] at h
      obtain ⟨h1, h2⟩ := ih t rest h.2
      exact ⟨by rw [h.1, h1], h2⟩

theorem no_success_among_failures (es es1 : List String) (rest : List (Option String)) :
    es1.map some ≠ es.map some ++ none :: rest := by
  intro h
  have : (none : Option String) ∈ es1.map some := by rw [h]; simp
  simp at this

/-- C8 (retry bound and backoff). Whatever the operation does, `retryHelper`
calls it at most 5 times; and when five calls were made and all of them failed,
the run is exactly: call, sleep 1 s, call, sleep 2 s, call, sleep 4 s, call,
sleep 8 s, call; that is four sleeps of 1, 2, 4 and 8 s (15 s in total), one
after each of the first four failures and none after the fifth. -/
theorem retryHelper_at_most_five_calls_and_backoff (sleep : Duration → τ → τ)
    (userFunction : M τ (Option String)) (s : τ) :
    (attempts (retryHelper (observedSleep sleep) (observedOp userFunction) (s, [])).2.2).length ≤ 5 ∧
    ((attempts (retryHelper (observedSleep sleep) (observedOp userFunction) (s, [])).2.2).length = 5 →
     (∀ r ∈ attempts (retryHelper (observedSleep sleep) (observedOp userFunction) (s, [])).2.2,
        r ≠ none) →
     (∃ e1 e2 e3 e4 e5 : String,
        (retryHelper (observedSleep sleep) (observedOp userFunction) (s, [])).2.2 =
          [.attempt (some e1), .sleep (1 * Second), .attempt (some e2), .sleep (2 * Second),
           .attempt (some e3), .sleep (4 * Second), .attempt (some e4), .sleep (8 * Second),
           .attempt (some e5)]) ∧
     sleeps (retryHelper (observedSleep sleep) (observedOp userFunction) (s, [])).2.2 =
        [1 * Second, 2 * Second, 4 * Second, 8 * Second] ∧
     (sleeps (retryHelper (observedSleep sleep) (observedOp userFunction) (s, [])).2.2).sum =
        15 * Second) := by
  have hout := retryHelper_outcome sleep userFunction s
  generalize retryHelper (observedSleep sleep) (observedOp userFunction) (s, []) = out at hout ⊢
  rcases hout with ⟨es, h1, _, h3⟩ | ⟨es, e, h1, _, h3⟩ | ⟨es, h1, _, h3⟩
  · have ha : attempts out.2.2 = es.map some ++ [none] := by
      simp only [h3, List.nil_append, attempts_append, attempts_backoffTrace, attempts_single,
        List.append_nil]
    refine ⟨by rw [ha]; simp; omega, fun _ hall => ?_⟩
    exact absurd rfl (hall none (by rw [ha]; simp))
  · have ha : attempts out.2.2 = es.map some ++ [some e] := by
      simp only [h3, List.nil_append, attempts_append, attempts_backoffTrace, attempts_single,
        List.append_nil]
    refine ⟨by rw [ha]; simp; omega, fun _ _ => ?_⟩
    match es, h1 with
    | [e1, e2, e3, e4], _ =>
      refine ⟨⟨e1, e2, e3, e4, e, ?_⟩, ?_, ?_⟩
      · rw [h3]; simp [backoffTrace, Second]
      · rw [h3]; simp [backoffTrace, sleeps, Second]
      · rw [h3]; simp [backoffTrace, sleeps, Second]
  · have ha : attempts out.2.2 = es.map some := by
      simp only [h3, List.nil_append, attempts_append, attempts_backoffTrace, attempts_single,
        List.append_nil]
    refine ⟨by rw [ha]; simp; omega, fun h5 _ => ?_⟩
    rw [ha] at h5; simp at h5; omega

/-- An operation that always fails with `boom`, and a sleep that does nothing:
five calls are made, all fail, and the run has the four sleeps. -/
theorem retryHelper_at_most_five_calls_and_backoff_witness :
    sleeps (retryHelper (observedSleep (fun _ (u : Unit) => u))
        (observedOp (fun u => (some (some "boom"), u))) ((), [])).2.2 =
      [1 * Second, 2 * Second, 4 * Second, 8 * Second] :=
  ((retryHelper_at_most_five_calls_and_backoff (fun _ (u : Unit) => u)
      (fun u => (some (some "boom"), u)) ()).2 (by decide) (by decide)).2.1

/-- C9 (retry result). `retryHelper` returns an error exactly when five calls
were made and all failed, and the message is then `max 5 retries reached: `
followed by the message of the last error; and if the `k`-th call is the first
that succeeds (after the failures `es`, `k = es.length + 1`), then `k ≤ 5`,
`retryHelper` returns `nil`, and the run is the `k - 1` failures, each followed
by its sleep, and the successful call, with nothing after it. -/
theorem retryHelper_error_iff_five_failures (sleep : Duration → τ → τ)
    (userFunction : M τ (Option String)) (s : τ) :
    ((∃ msg, (retryHelper (observedSleep sleep) (observedOp userFunction) (s, [])).1
        = some (some msg)) ↔
      ((attempts (retryHelper (observedSleep sleep) (observedOp userFunction) (s, [])).2.2).length
          = 5 ∧
        ∀ r ∈ attempts (retryHelper (observedSleep sleep) (observedOp userFunction) (s, [])).2.2,
          r ≠ none)) ∧
    (∀ msg, (retryHelper (observedSleep sleep) (observedOp userFunction) (s, [])).1
        = some (some msg) →
      ∃ e, (attempts (retryHelper (observedSleep sleep) (observedOp userFunction)
              (s, [])).2.2).getLast? = some (some e) ∧
        msg = "max 5 retries reached: " ++ e) ∧
    (∀ (es : List String) (rest : List (Option String)),
      attempts (retryHelper (observedSleep sleep) (observedOp userFunction) (s, [])).2.2
        = es.map some ++ none :: rest →
      es.length + 1 ≤ 5 ∧
      (retryHelper (observedSleep sleep) (observedOp userFunction) (s, [])).1 = some none ∧
      (retryHelper (observedSleep sleep) (observedOp userFunction) (s, [])).2.2
        = backoffTrace es Second ++ [.attempt none] ∧
      (attempts (retryHelper (observedSleep sleep) (observedOp userFunction) (s, [])).2.2).length
        = es.length + 1 ∧
      (sleeps (retryHelper (observedSleep sleep) (observedOp userFunction) (s, [])).2.2).length
        = es.length) := by
  have hout := retryHelper_outcome sleep userFunction s
  generalize retryHelper (observedSleep sleep) (observedOp userFunction) (s, []) = out at hout ⊢
  rcases hout with ⟨es1, h1, h2, h3⟩ | ⟨es1, e, h1, h2, h3⟩ | ⟨es1, h1, h2, h3⟩
  · have ha : attempts out.2.2 = es1.map some ++ [none] := by
      simp only [h3, List.nil_append, attempts_append, attempts_backoffTrace, attempts_single,
        List.append_nil]
    refine ⟨⟨fun ⟨msg, hm⟩ => by rw [h2] at hm; simp at hm, fun ⟨_, hall⟩ => ?_⟩, ?_, ?_⟩
    · exact absurd rfl (hall none (by rw [ha]; simp))
    · intro msg hm; rw [h2] at hm; simp at hm
    · intro es rest hes
      rw [ha] at hes
      obtain ⟨hEq, hrest⟩ := failures_then_success_unique es es1 rest hes
      subst hEq
      refine ⟨by omega, h2, by simpa using h3, by rw [ha]; simp, ?_⟩
      simp only [h3, List.nil_append, sleeps_append, sleeps_single, List.append_nil,
        sleeps_backoffTrace_length]
  · have ha : attempts out.2.2 = es1.map some ++ [some e] := by
      simp only [h3, List.nil_append, attempts_append, attempts_backoffTrace, attempts_single,
        List.append_nil]
    refine ⟨⟨fun _ => ⟨by rw [ha]; simp; omega, ?_⟩, fun _ => ⟨_, h2⟩⟩, ?_, ?_⟩
    · intro r hr; rw [ha] at hr; simp at hr
      rcases hr with ⟨a, _, rfl⟩ | rfl <;> simp
    · intro msg hm
      rw [h2] at hm
      refine ⟨e, by rw [ha]; simp, ?_⟩
      simpa using hm.symm
    · intro es rest hes
      rw [ha] at hes
      have : es1.map some ++ [some e] = (es1 ++ [e]).map some := by simp
      rw [this] at hes
      exact absurd hes (no_success_among_failures es (es1 ++ [e]) rest)
  · have ha : attempts out.2.2 = es1.map some := by
      simp only [h3, List.nil_append, attempts_append, attempts_backoffTrace, attempts_single,
        List.append_nil]
    refine ⟨⟨fun ⟨msg, hm⟩ => by rw [h2] at hm; simp at hm, fun ⟨h5, _⟩ => ?_⟩, ?_, ?_⟩
    · rw [ha] at h5; simp at h5; omega
    · intro msg hm; rw [h2] at hm; simp at hm
    · intro es rest hes
      rw [ha] at hes
      exact absurd hes (no_success_among_failures es es1 rest)

/-- An operation over a counter that fails twice and then succeeds: the third
call is the first to succeed, `retryHelper` returns `nil` after three calls and
two sleeps. -/
theorem retryHelper_error_iff_five_failures_witness :
    (retryHelper (observedSleep (fun _ (n : Nat) => n))
        (observedOp (fun n => (some (if n < 2 then some "down" else none), n + 1))) (0, [])).1
      = some none ∧
    (sleeps (retryHelper (observedSleep (fun _ (n : Nat) => n))
        (observedOp (fun n => (some (if n < 2 then some "down" else none), n + 1)))
        (0, [])).2.2).length = 2 :=
  have h := (retryHelper_error_iff_five_failures (fun _ (n : Nat) => n)
      (fun n => (some (if n < 2 then some "down" else none), n + 1)) 0).2.2
      ["down", "down"] [] (by decide)
  ⟨h.2.1, h.2.2.2.2⟩

end Retry

section IncrementalChildren

variable {σ : Type}

theorem processOfferingItemsChanges_trace (loop : SyncLoopImpl σ) :
    ∀ (items : List OfferingItem) (w : Traced σ),
      (loop.traced.processOfferingItemsChanges items w).1 = some () ∧
      calls (loop.traced.processOfferingItemsChanges items w).2
        = calls w ++ items.map offeringItemCall := by
  intro items
  induction items with
  | nil => intro w; simp [SyncLoopImpl.processOfferingItemsChanges]
  | cons item items ih =>
    intro w
    by_cases h : item.Status = 0
    · have := ih (((loop.extClient.DeleteOfferingItem
          { OfferingItemName := item.Name, TenantID := item.TenantID } w.1).2,
          w.2 ++ [⟨.DeleteOfferingItem
            { OfferingItemName := item.Name, TenantID := item.TenantID }, w.1⟩]))
      simpa [SyncLoopImpl.processOfferingItemsChanges, h, offeringItemCall,
        calls] using this
    · have := ih (((loop.extClient.CreateOrUpdateOfferingItem item w.1).2,
          w.2 ++ [⟨.CreateOrUpdateOfferingItem item, w.1⟩]))
      simpa [SyncLoopImpl.processOfferingItemsChanges, h, offeringItemCall,
        calls] using this

theorem processAccessPoliciesChanges_trace (loop : SyncLoopImpl σ) :
    ∀ (items : List AccessPolicy) (w : Traced σ),
      (loop.traced.processAccessPoliciesChanges items w).1 = some () ∧
      calls (loop.traced.processAccessPoliciesChanges items w).2
        = calls w ++ items.map accessPolicyCall := by
  intro items
  induction items with
  | nil => intro w; simp [SyncLoopImpl.processAccessPoliciesChanges]
  | cons item items ih =>
    intro w
    by_cases h : item.DeletedAt = none
    · have := ih (((loop.extClient.CreateOrUpdateAccessPolicy item w.1).2,
          w.2 ++ [⟨.CreateOrUpdateAccessPolicy item, w.1⟩]))
      simpa [SyncLoopImpl.processAccessPoliciesChanges, h, accessPolicyCall,
        calls] using this
    · have := ih (((loop.extClient.DeleteAccessPolicy item.ID w.1).2,
          w.2 ++ [⟨.DeleteAccessPolicy item.ID, w.1⟩]))
      have hs : item.DeletedAt.isSome = true := by
        cases hd : item.DeletedAt with
        | none => exact absurd hd h
        | some _ => rfl
      simpa [SyncLoopImpl.processAccessPoliciesChanges, h, hs, accessPolicyCall,
        calls] using this

/-- C5 (children of the incremental loop). For every list of offering items
and every list of access policies, whatever the external system answers
(failures included), the incremental loop finishes and makes exactly one
external call per child, in list order: for an offering item
`DeleteOfferingItem (name, tenant_id)` if its status is 0 and
`CreateOrUpdateOfferingItem` otherwise; for an access policy
`DeleteAccessPolicy id` if `deleted_at` is non-null and
`CreateOrUpdateAccessPolicy` otherwise. -/
theorem incremental_children_one_call_each_in_order (loop : SyncLoopImpl σ) (s : σ) :
    (∀ items : List OfferingItem,
      (loop.traced.processOfferingItemsChanges items (s, [])).1 = some () ∧
      calls (loop.traced.processOfferingItemsChanges items (s, [])).2
        = items.map (fun item =>
            if item.Status = 0 then
              Call.DeleteOfferingItem { OfferingItemName := item.Name, TenantID := item.TenantID }
            else Call.CreateOrUpdateOfferingItem item)) ∧
    (∀ items : List AccessPolicy,
      (loop.traced.processAccessPoliciesChanges items (s, [])).1 = some () ∧
      calls (loop.traced.processAccessPoliciesChanges items (s, [])).2
        = items.map (fun item =>
            if item.DeletedAt ≠ none then Call.DeleteAccessPolicy item.ID
            else Call.CreateOrUpdateAccessPolicy item)) := by
  refine ⟨fun items => ?_, fun items => ?_⟩
  · have := processOfferingItemsChanges_trace loop items (s, [])
    refine ⟨this.1, ?_⟩
    rw [this.2]
    simp [offeringItemCall]
  · have := processAccessPoliciesChanges_trace loop items (s, [])
    refine ⟨this.1, ?_⟩
    rw [this.2]
    simp only [calls_mk, List.map_nil, List.nil_append]
    apply List.map_congr_left
    intro item _
    cases h : item.DeletedAt <;> simp [accessPolicyCall, h]

end IncrementalChildren

section IncrementalItems

variable {σ α β : Type}

theorem Time.IsZero_iff (t : Time) : t.IsZero = true ↔ t = 0 := by
  simp [Time.IsZero]

theorem M.bind_eq_of_eq {m : M σ α} {f : α → M σ β} {s s1 : σ} {a : α}
    (h : m s = (some a, s1)) : (m >>= f) s = f a s1 := by
  simp [h]

theorem processOfferingItemsChanges_run (loop : SyncLoopImpl σ) (items : List OfferingItem)
    (w : Traced σ) :
    ∃ w2, loop.traced.processOfferingItemsChanges items w = (some (), w2) ∧
      calls w2 = calls w ++ items.map offeringItemCall := by
  have h := processOfferingItemsChanges_trace loop items w
  exact ⟨(loop.traced.processOfferingItemsChanges items w).2, Prod.ext h.1 rfl, h.2⟩

theorem processTenants_item (rt : Runtime σ) (loop : SyncLoopImpl σ) (fuel : Nat) (item : Tenant)
    (w : Traced σ)
    (hret : item.ID ≠ "" → item.DeletedAt = 0 →
      (createOrUpdateTenant rt.traced loop.extClient.traced loop.accClient.traced fuel item w).1
        ≠ none) :
    ∃ w3, loop.traced.processTenantsAndOfferingItemsChanges rt.traced fuel [item] w = (some (), w3) ∧
      calls w3 = calls (if item.ID ≠ "" ∧ item.DeletedAt = 0 then
          (createOrUpdateTenant rt.traced loop.extClient.traced loop.accClient.traced fuel item w).2
          else w) ++ item.OfferingItems.map offeringItemCall ++ tenantDeleteCalls item ∧
      ∀ items, loop.traced.processTenantsAndOfferingItemsChanges rt.traced fuel (item :: items) w
        = loop.traced.processTenantsAndOfferingItemsChanges rt.traced fuel items w3 := by
  by_cases hid : item.ID = ""
  · cases hoi : item.OfferingItems with
    | nil =>
      refine ⟨w, ?_, ?_, ?_⟩
      · simp [SyncLoopImpl.processTenantsAndOfferingItemsChanges, hid, hoi,
          SyncLoopImpl.processOfferingItemsChanges]
      · simp [hid, hoi, tenantDeleteCalls]
      · intro items
        simp [SyncLoopImpl.processTenantsAndOfferingItemsChanges, hid, hoi,
          SyncLoopImpl.processOfferingItemsChanges]
    | cons first tail =>
      obtain ⟨w2, h2, hc2⟩ := processOfferingItemsChanges_run loop (first :: tail) w
      by_cases hf : first.TenantID = ""
      · refine ⟨w2, ?_, ?_, ?_⟩
        · simp [SyncLoopImpl.processTenantsAndOfferingItemsChanges, hid, hoi, h2, hf]
        · simp [hid, hoi, tenantDeleteCalls, hf, hc2]
        · intro items
          simp [SyncLoopImpl.processTenantsAndOfferingItemsChanges, hid, hoi, h2, hf]
      · refine ⟨((loop.extClient.DeleteTenant first.TenantID w2.1).2,
            w2.2 ++ [⟨.DeleteTenant first.TenantID, w2.1⟩]), ?_, ?_, ?_⟩
        · simp [SyncLoopImpl.processTenantsAndOfferingItemsChanges, hid, hoi, h2, hf]
        · have hc2' : w2.2.map Event.call = _ := hc2
          simp [hid, hoi, tenantDeleteCalls, hf, hc2']
        · intro items
          simp [SyncLoopImpl.processTenantsAndOfferingItemsChanges, hid, hoi, h2, hf]
  · by_cases hdel : item.DeletedAt = 0
    · have hz : item.DeletedAt.IsZero = true := (Time.IsZero_iff _).2 hdel
      rcases hup : createOrUpdateTenant rt.traced loop.extClient.traced loop.accClient.traced
        fuel item w with ⟨r, w1⟩
      have hr := hret hid hdel
      rw [hup] at hr
      obtain ⟨e, rfl⟩ := Option.ne_none_iff_exists'.1 hr
      obtain ⟨w2, h2, hc2⟩ := processOfferingItemsChanges_run loop item.OfferingItems w1
      refine ⟨w2, ?_, ?_, ?_⟩
      · simp [SyncLoopImpl.processTenantsAndOfferingItemsChanges, hid, hz, hup, h2]
      · simp [hid, hdel, tenantDeleteCalls, hc2]
      · intro items
        simp [SyncLoopImpl.processTenantsAndOfferingItemsChanges, hid, hz, hup, h2]
    · have hz : ¬ item.DeletedAt.IsZero = true := fun h => hdel ((Time.IsZero_iff _).1 h)
      obtain ⟨w2, h2, hc2⟩ := processOfferingItemsChanges_run loop item.OfferingItems w
      refine ⟨((loop.extClient.DeleteTenant item.ID w2.1).2,
            w2.2 ++ [⟨.DeleteTenant item.ID, w2.1⟩]), ?_, ?_, ?_⟩
      · simp [SyncLoopImpl.processTenantsAndOfferingItemsChanges, hid, hz, h2]
      · have hc2' : w2.2.map Event.call = _ := hc2
        simp [hid, hdel, tenantDeleteCalls, hc2']
      · intro items
        simp [SyncLoopImpl.processTenantsAndOfferingItemsChanges, hid, hz, h2]

theorem processAccessPoliciesChanges_run (loop : SyncLoopImpl σ) (items : List AccessPolicy)
    (w : Traced σ) :
    ∃ w2, loop.traced.processAccessPoliciesChanges items w = (some (), w2) ∧
      calls w2 = calls w ++ items.map accessPolicyCall := by
  have h := processAccessPoliciesChanges_trace loop items w
  exact ⟨(loop.traced.processAccessPoliciesChanges items w).2, Prod.ext h.1 rfl, h.2⟩

theorem processUsers_item (rt : Runtime σ) (loop : SyncLoopImpl σ) (fuel : Nat) (item : User)
    (w : Traced σ)
    (hret : item.ID ≠ "" → item.DeletedAt = 0 →
      (createOrUpdateUser rt.traced loop.extClient.traced loop.accClient.traced fuel item w).1
        ≠ none) :
    ∃ w3, loop.traced.processUsersAndAccessPoliciesChanges rt.traced fuel [item] w = (some (), w3) ∧
      calls w3 = calls (if item.ID ≠ "" ∧ item.DeletedAt = 0 then
          (createOrUpdateUser rt.traced loop.extClient.traced loop.accClient.traced fuel item w).2
          else w) ++ item.AccessPolicies.map accessPolicyCall ++ userDeleteCalls item ∧
      ∀ items, loop.traced.processUsersAndAccessPoliciesChanges rt.traced fuel (item :: items) w
        = loop.traced.processUsersAndAccessPoliciesChanges rt.traced fuel items w3 := by
  by_cases hid : item.ID = ""
  · cases hoi : item.AccessPolicies with
    | nil =>
      refine ⟨w, ?_, ?_, ?_⟩
      · simp [SyncLoopImpl.processUsersAndAccessPoliciesChanges, hid, hoi,
          SyncLoopImpl.processAccessPoliciesChanges]
      · simp [hid, hoi, userDeleteCalls]
      · intro items
        simp [SyncLoopImpl.processUsersAndAccessPoliciesChanges, hid, hoi,
          SyncLoopImpl.processAccessPoliciesChanges]
    | cons first tail =>
      obtain ⟨w2, h2, hc2⟩ := processAccessPoliciesChanges_run loop (first :: tail) w
      by_cases hf : first.TrusteeID = ""
      · refine ⟨w2, ?_, ?_, ?_⟩
        · simp [SyncLoopImpl.processUsersAndAccessPoliciesChanges, hid, hoi, h2, hf]
        · simp [hid, hoi, userDeleteCalls, hf, hc2]
        · intro items
          simp [SyncLoopImpl.processUsersAndAccessPoliciesChanges, hid, hoi, h2, hf]
      · refine ⟨((loop.extClient.DeleteUser first.TrusteeID w2.1).2,
            w2.2 ++ [⟨.DeleteUser first.TrusteeID, w2.1⟩]), ?_, ?_, ?_⟩
        · simp [SyncLoopImpl.processUsersAndAccessPoliciesChanges, hid, hoi, h2, hf]
        · have hc2' : w2.2.map Event.call = _ := hc2
          simp [hid, hoi, userDeleteCalls, hf, hc2']
        · intro items
          simp [SyncLoopImpl.processUsersAndAccessPoliciesChanges, hid, hoi, h2, hf]
  · by_cases hdel : item.DeletedAt = 0
    · have hz : item.DeletedAt.IsZero = true := (Time.IsZero_iff _).2 hdel
      rcases hup : createOrUpdateUser rt.traced loop.extClient.traced loop.accClient.traced
        fuel item w with ⟨r, w1⟩
      have hr := hret hid hdel
      rw [hup] at hr
      obtain ⟨e, rfl⟩ := Option.ne_none_iff_exists'.1 hr
      obtain ⟨w2, h2, hc2⟩ := processAccessPoliciesChanges_run loop item.AccessPolicies w1
      refine ⟨w2, ?_, ?_, ?_⟩
      · simp [SyncLoopImpl.processUsersAndAccessPoliciesChanges, hid, hz, hup, h2]
      · simp [hid, hdel, userDeleteCalls, hc2]
      · intro items
        simp [SyncLoopImpl.processUsersAndAccessPoliciesChanges, hid, hz, hup, h2]
    · have hz : ¬ item.DeletedAt.IsZero = true := fun h => hdel ((Time.IsZero_iff _).1 h)
      obtain ⟨w2, h2, hc2⟩ := processAccessPoliciesChanges_run loop item.AccessPolicies w
      refine ⟨((loop.extClient.DeleteUser item.ID w2.1).2,
            w2.2 ++ [⟨.DeleteUser item.ID, w2.1⟩]), ?_, ?_, ?_⟩
      · simp [SyncLoopImpl.processUsersAndAccessPoliciesChanges, hid, hz, h2]
      · have hc2' : w2.2.map Event.call = _ := hc2
        simp [hid, hdel, userDeleteCalls, hc2']
      · intro items
        simp [SyncLoopImpl.processUsersAndAccessPoliciesChanges, hid, hz, h2]

/-- C4 (as stated, refuted). A carrier row, with an empty id, whose first
offering item has an empty `tenant_id`: the child list is non-empty, yet the
only external call is the delete of the offering item; no `DeleteTenant` is
issued. -/
theorem incremental_carrier_with_empty_tenant_id_is_not_deleted :
    calls ((demoSyncLoop [] [] 0).traced.processTenantsAndOfferingItemsChanges
        plainRuntime.traced 1
        [{ ID := "", ParentID := "", DeletedAt := 0,
           OfferingItems := [{ Name := "storage", TenantID := "", Status := 0 }] }]
        ({}, [])).2
      = [.DeleteOfferingItem { OfferingItemName := "storage", TenantID := "" }] ∧
    Call.DeleteTenant "" ∉
      calls ((demoSyncLoop [] [] 0).traced.processTenantsAndOfferingItemsChanges
        plainRuntime.traced 1
        [{ ID := "", ParentID := "", DeletedAt := 0,
           OfferingItems := [{ Name := "storage", TenantID := "", Status := 0 }] }]
        ({}, [])).2 := by
  decide

/-- C4 (as amended). For every item of a page handled by the incremental
loop, tenants and users alike, in any state and whatever the collaborators
answer: the upsert helper is run on the item if and only if its id is non-empty
and its `deleted_at` is zero, and then before every child call; provided that
run returns, the children are processed next, one call each in list order; the
entity delete comes last, once: with the item's id when the id is non-empty and
`deleted_at` is non-zero, with the `tenant_id` (`trustee_id`) of the first
child when the id is empty, the child list is non-empty and that id is
non-empty, and not at all otherwise; so an item with an empty id and no
children causes no call. The rest of the page is then processed from the state
reached. -/
theorem incremental_item_upsert_children_then_delete (rt : Runtime σ) (loop : SyncLoopImpl σ)
    (fuel : Nat) (w : Traced σ) :
    (∀ item : Tenant,
      (item.ID ≠ "" → item.DeletedAt = 0 →
        (createOrUpdateTenant rt.traced loop.extClient.traced loop.accClient.traced
          fuel item w).1 ≠ none) →
      ∃ w3,
        loop.traced.processTenantsAndOfferingItemsChanges rt.traced fuel [item] w
          = (some (), w3) ∧
        calls w3 =
          calls (if item.ID ≠ "" ∧ item.DeletedAt = 0 then
              (createOrUpdateTenant rt.traced loop.extClient.traced loop.accClient.traced
                fuel item w).2
            else w)
          ++ item.OfferingItems.map offeringItemCall ++ tenantDeleteCalls item ∧
        ∀ items,
          loop.traced.processTenantsAndOfferingItemsChanges rt.traced fuel (item :: items) w
            = loop.traced.processTenantsAndOfferingItemsChanges rt.traced fuel items w3) ∧
    (∀ item : User,
      (item.ID ≠ "" → item.DeletedAt = 0 →
        (createOrUpdateUser rt.traced loop.extClient.traced loop.accClient.traced
          fuel item w).1 ≠ none) →
      ∃ w3,
        loop.traced.processUsersAndAccessPoliciesChanges rt.traced fuel [item] w
          = (some (), w3) ∧
        calls w3 =
          calls (if item.ID ≠ "" ∧ item.DeletedAt = 0 then
              (createOrUpdateUser rt.traced loop.extClient.traced loop.accClient.traced
                fuel item w).2
            else w)
          ++ item.AccessPolicies.map accessPolicyCall ++ userDeleteCalls item ∧
        ∀ items,
          loop.traced.processUsersAndAccessPoliciesChanges rt.traced fuel (item :: items) w
            = loop.traced.processUsersAndAccessPoliciesChanges rt.traced fuel items w3) :=
  ⟨fun item hret => processTenants_item rt loop fuel item w hret,
   fun item hret => processUsers_item rt loop fuel item w hret⟩

/-- The carrier row of the first end-to-end scenario: no tenant upsert, the
delete of the offering item `storage` of `T1`, then the delete of `T1`. -/
theorem incremental_item_upsert_children_then_delete_witness :
    ∃ w3,
      (demoSyncLoop [] [] 0).traced.processTenantsAndOfferingItemsChanges plainRuntime.traced 1
          [{ ID := "", ParentID := "", DeletedAt := 0,
             OfferingItems := [{ Name := "storage", TenantID := "T1", Status := 0 }] }]
          ({}, [])
        = (some (), w3) ∧
      calls w3 = [.DeleteOfferingItem { OfferingItemName := "storage", TenantID := "T1" },
                  .DeleteTenant "T1"] := by
  obtain ⟨w3, h1, h2, _⟩ :=
    (incremental_item_upsert_children_then_delete plainRuntime (demoSyncLoop [] [] 0) 1
      ({}, [])).1
      { ID := "", ParentID := "", DeletedAt := 0,
        OfferingItems := [{ Name := "storage", TenantID := "T1", Status := 0 }] }
      (fun h => absurd rfl h)
  refine ⟨w3, h1, ?_⟩
  rw [h2]
  decide

end IncrementalItems

section OfferingItemOrphans

variable {σ : Type}

theorem deleteOI_iff (accTenants : GoMap Tenant) (e : OfferingItemID) :
    ReconciliationLoop.deleteOI accTenants e = true ↔ OrphanOfferingItem accTenants e := by
  unfold ReconciliationLoop.deleteOI OrphanOfferingItem
  cases hget : accTenants.get? e.TenantID with
  | none => simp
  | some t =>
    cases hfind : t.OfferingItems.find? (fun oi => oi.Name == e.OfferingItemName) with
    | none =>
      have := List.find?_eq_none.1 hfind
      simp only [hfind, Option.mem_def, Option.some.injEq, exists_eq_left', reduceCtorEq,
        false_or, true_iff]
      left
      intro oi hoi
      simpa using this oi hoi
    | some oi =>
      have hname : oi.Name = e.OfferingItemName := by
        simpa using List.find?_some hfind
      have hmem : oi ∈ t.OfferingItems := List.mem_of_find?_eq_some hfind
      simp only [hfind, Option.mem_def, Option.some.injEq, exists_eq_left', reduceCtorEq,
        false_or, beq_iff_eq]
      constructor
      · intro h; exact Or.inr h
      · rintro (h | h)
        · exact absurd hname (h oi hmem)
        · exact h

theorem deleteInactiveOfferingItems_trace (loop : ReconciliationLoop σ)
    (accTenants : GoMap Tenant) :
    ∀ (externalOIs : List OfferingItemID) (w : Traced σ),
      (loop.traced.deleteInactiveOfferingItems accTenants externalOIs w).1 = some () ∧
      calls (loop.traced.deleteInactiveOfferingItems accTenants externalOIs w).2
        = calls w ++ (externalOIs.filter
            (fun e => decide (OrphanOfferingItem accTenants e))).map Call.DeleteOfferingItem := by
  intro externalOIs
  induction externalOIs with
  | nil => intro w; simp [ReconciliationLoop.deleteInactiveOfferingItems]
  | cons e rest ih =>
    intro w
    by_cases h : OrphanOfferingItem accTenants e
    · have hd := (deleteOI_iff accTenants e).2 h
      have := ih ((loop.extClient.DeleteOfferingItem e w.1).2,
        w.2 ++ [⟨.DeleteOfferingItem e, w.1⟩])
      simpa [ReconciliationLoop.deleteInactiveOfferingItems, hd, h, calls] using this
    · have hd : ¬ ReconciliationLoop.deleteOI accTenants e = true :=
        fun hd => h ((deleteOI_iff accTenants e).1 hd)
      have := ih w
      simpa [ReconciliationLoop.deleteInactiveOfferingItems, hd, h, calls] using this

/-- C10 (offering-item orphans). For every cloud map and every list of
external offering items, whatever the external system answers,
`deleteInactiveOfferingItems` finishes and its calls are exactly the
`DeleteOfferingItem` of the external items that satisfy the orphan rule (no
tenant with that `tenant_id` in the cloud map, or no entry with that name among
the tenant's offering items, or the first entry with that name has status 0),
in list order; so `DeleteOfferingItem` is called for an item if and only if it
is an external item and satisfies the rule. With cloud tenant `T` holding
`x` (status 1) and `y` (status 0) and external items `x`, `y`, `z` of `T`,
exactly `y` and `z` are deleted. -/
theorem deleteInactiveOfferingItems_deletes_exactly_orphans (loop : ReconciliationLoop σ)
    (s : σ) :
    (∀ (accTenants : GoMap Tenant) (externalOIs : List OfferingItemID),
      (loop.traced.deleteInactiveOfferingItems accTenants externalOIs (s, [])).1 = some () ∧
      calls (loop.traced.deleteInactiveOfferingItems accTenants externalOIs (s, [])).2
        = (externalOIs.filter
            (fun e => decide (OrphanOfferingItem accTenants e))).map Call.DeleteOfferingItem ∧
      ∀ e, Call.DeleteOfferingItem e ∈
            calls (loop.traced.deleteInactiveOfferingItems accTenants externalOIs (s, [])).2
          ↔ e ∈ externalOIs ∧ OrphanOfferingItem accTenants e) ∧
    calls (loop.traced.deleteInactiveOfferingItems
        (GoMap.empty.set "T"
          ({ ID := "T", ParentID := "T", DeletedAt := 0,
             OfferingItems := [{ Name := "x", TenantID := "T", Status := 1 },
                               { Name := "y", TenantID := "T", Status := 0 }] } : Tenant))
        [{ OfferingItemName := "x", TenantID := "T" },
         { OfferingItemName := "y", TenantID := "T" },
         { OfferingItemName := "z", TenantID := "T" }] (s, [])).2
      = [.DeleteOfferingItem { OfferingItemName := "y", TenantID := "T" },
         .DeleteOfferingItem { OfferingItemName := "z", TenantID := "T" }] := by
  refine ⟨fun accTenants externalOIs => ?_, ?_⟩
  · have h := deleteInactiveOfferingItems_trace loop accTenants externalOIs (s, [])
    have hc : calls (loop.traced.deleteInactiveOfferingItems accTenants externalOIs (s, [])).2
        = (externalOIs.filter
            (fun e => decide (OrphanOfferingItem accTenants e))).map Call.DeleteOfferingItem := by
      simpa using h.2
    refine ⟨h.1, hc, fun e => ?_⟩
    rw [hc]
    simp [List.mem_filter]
  · have h := (deleteInactiveOfferingItems_trace loop
        (GoMap.empty.set "T"
          ({ ID := "T", ParentID := "T", DeletedAt := 0,
             OfferingItems := [{ Name := "x", TenantID := "T", Status := 1 },
                               { Name := "y", TenantID := "T", Status := 0 }] } : Tenant))
        [{ OfferingItemName := "x", TenantID := "T" },
         { OfferingItemName := "y", TenantID := "T" },
         { OfferingItemName := "z", TenantID := "T" }] (s, [])).2
    rw [h]
    simp only [calls_mk, List.map_nil, List.nil_append]
    decide

end OfferingItemOrphans

section Upsert

variable {σ : Type}

theorem TenantSetModel.growing {ext : ExternalSystemClient σ} {acc : Client σ}
    {ids : σ → String → Prop} (hm : TenantSetModel ext acc ids) : GrowingTenantSet ext acc ids where
  check_member := hm.check_member
  check_keeps := hm.check_keeps
  upsert_adds := hm.upsert_adds
  upsert_keeps := hm.upsert_keeps
  lookup_member := fun uuid s resp h t ht _ hs1 => hm.lookup uuid s resp h t ht ▸ hs1
  lookup_keeps := hm.lookup_keeps

theorem UpsertSpec.stay (ids : σ → String → Prop) (w : Traced σ) (id : String)
    (r : Option (Option String)) (hr : r ≠ some none) : UpsertSpec ids w id (r, w) :=
  ⟨⟨[], by simp, by simp⟩, fun _ hx => hx, fun h => absurd h hr⟩

theorem UpsertSpec.prepend {ids : σ → String → Prop} {w w1 : Traced σ} {id : String}
    {out : Option (Option String) × Traced σ} (evs0 : List (Event σ))
    (h1 : w1.2 = w.2 ++ evs0) (h2 : ∀ ev ∈ evs0, UpsertEvent ids ev)
    (h3 : ∀ x, ids w.1 x → ids w1.1 x) (h : UpsertSpec ids w1 id out) :
    UpsertSpec ids w id out := by
  obtain ⟨⟨evs, he, hg⟩, hk, hs⟩ := h
  refine ⟨⟨evs0 ++ evs, by rw [he, h1, List.append_assoc], ?_⟩, fun x hx => hk x (h3 x hx), hs⟩
  intro ev hev
  rcases List.mem_append.1 hev with h | h
  · exact h2 ev h
  · exact hg ev h

theorem UpsertSpec.after {ids : σ → String → Prop} {w w1 : Traced σ} {id0 id : String}
    {r0 : Option (Option String)} {out : Option (Option String) × Traced σ}
    (h0 : UpsertSpec ids w id0 (r0, w1)) (h : UpsertSpec ids w1 id out) :
    UpsertSpec ids w id out := by
  obtain ⟨⟨evs0, he0, hg0⟩, hk0, _⟩ := h0
  exact UpsertSpec.prepend evs0 he0 hg0 hk0 h

theorem createOrUpdateTenant_spec (rt : Runtime σ) (ext : ExternalSystemClient σ)
    (acc : Client σ) (ids : σ → String → Prop) (hm : GrowingTenantSet ext acc ids) :
    ∀ (fuel : Nat) (tenant : Tenant) (w : Traced σ),
      UpsertSpec ids w tenant.ID
        (createOrUpdateTenant rt.traced ext.traced acc.traced fuel tenant w) := by
  intro fuel
  induction fuel with
  | zero =>
    intro tenant w
    exact ⟨⟨[], by simp [createOrUpdateTenant], by simp⟩, fun x hx => hx,
      by simp [createOrUpdateTenant]⟩
  | succ fuel ih =>
    intro tenant w
    -- the final upsert, from a state in which the parent is present
    have tail : ∀ w1 : Traced σ,
        (tenant.ParentID = tenant.ID ∨ ids w1.1 tenant.ParentID) →
        UpsertSpec ids w1 tenant.ID
          ((do
            let r ← M.lift (ext.traced.CreateOrUpdateTenant tenant)
            match r with
            | .error err =>
              pure (some ("failed to upsert tenant with ID " ++ tenant.ID ++ ": " ++ err))
            | .ok _ => pure none : M (Traced σ) (Option String)) w1) := by
      intro w1 hp
      rcases hcu : (ext.CreateOrUpdateTenant tenant w1.1).1 with err | b
      · refine ⟨⟨[⟨.CreateOrUpdateTenant tenant, w1.1⟩], by simp [hcu], ?_⟩, ?_, ?_⟩
        · intro ev hev
          simp at hev; subst hev; exact hp
        · intro x hx; simpa [hcu] using hm.upsert_keeps tenant w1.1 x hx
        · simp [hcu]
      · refine ⟨⟨[⟨.CreateOrUpdateTenant tenant, w1.1⟩], by simp [hcu], ?_⟩, ?_, ?_⟩
        · intro ev hev
          simp at hev; subst hev; exact hp
        · intro x hx; simpa [hcu] using hm.upsert_keeps tenant w1.1 x hx
        · intro _; simpa [hcu] using hm.upsert_adds tenant w1.1 b hcu
    by_cases hroot : tenant.ParentID = tenant.ID
    · simpa [createOrUpdateTenant, hroot] using tail w (Or.inl hroot)
    · rcases hchk : (ext.CheckTenantExist tenant.ParentID w.1).1 with err | b
      · refine ⟨⟨[⟨.CheckTenantExist tenant.ParentID, w.1⟩],
            by simp [createOrUpdateTenant, hroot, hchk], ?_⟩, ?_, ?_⟩
        · intro ev hev
          simp at hev; subst hev; trivial
        · intro x hx
          simpa [createOrUpdateTenant, hroot, hchk] using hm.check_keeps tenant.ParentID w.1 x hx
        · simp [createOrUpdateTenant, hroot, hchk]
      · -- the state after the check
        have hstep1 : UpsertSpec ids
            ((ext.CheckTenantExist tenant.ParentID w.1).2,
              w.2 ++ [⟨.CheckTenantExist tenant.ParentID, w.1⟩]) tenant.ID
            (createOrUpdateTenant rt.traced ext.traced acc.traced (fuel + 1) tenant w) →
            UpsertSpec ids w tenant.ID
            (createOrUpdateTenant rt.traced ext.traced acc.traced (fuel + 1) tenant w) := by
          intro h
          refine UpsertSpec.prepend [⟨.CheckTenantExist tenant.ParentID, w.1⟩] rfl ?_
            (fun x hx => hm.check_keeps tenant.ParentID w.1 x hx) h
          intro ev hev
          simp at hev; subst hev
          trivial
        apply hstep1
        cases b with
        | true =>
          have hin : ids (ext.CheckTenantExist tenant.ParentID w.1).2 tenant.ParentID :=
            hm.check_keeps _ _ _ (hm.check_member _ _ hchk)
          simpa only [createOrUpdateTenant, hroot, hchk, M.bind_apply, M.lift_apply, M.pure_apply,
            ExternalSystemClient.traced_CheckTenantExist,
            ExternalSystemClient.traced_CreateOrUpdateTenant, record_fst, record_snd, ne_eq,
            not_false_eq_true, if_true] using
            tail ((ext.CheckTenantExist tenant.ParentID w.1).2,
              w.2 ++ [⟨.CheckTenantExist tenant.ParentID, w.1⟩]) (Or.inr hin)
        | false =>
          -- the state after the request to the cloud
          have hstep2 : UpsertSpec ids
              ((acc.GetTenants { UUIDs := [tenant.ParentID] }
                  (ext.CheckTenantExist tenant.ParentID w.1).2).2,
                w.2 ++ [⟨.CheckTenantExist tenant.ParentID, w.1⟩] ++
                  [⟨.GetTenants { UUIDs := [tenant.ParentID] },
                    (ext.CheckTenantExist tenant.ParentID w.1).2⟩]) tenant.ID
              (createOrUpdateTenant rt.traced ext.traced acc.traced (fuel + 1) tenant w) →
              UpsertSpec ids ((ext.CheckTenantExist tenant.ParentID w.1).2,
                w.2 ++ [⟨.CheckTenantExist tenant.ParentID, w.1⟩]) tenant.ID
              (createOrUpdateTenant rt.traced ext.traced acc.traced (fuel + 1) tenant w) := by
            intro h
            refine UpsertSpec.prepend [⟨.GetTenants { UUIDs := [tenant.ParentID] },
                (ext.CheckTenantExist tenant.ParentID w.1).2⟩] rfl ?_
              (fun x hx => hm.lookup_keeps _ _ x hx) h
            intro ev hev
            simp at hev; subst hev
            trivial
          apply hstep2
          rcases hget : (acc.GetTenants { UUIDs := [tenant.ParentID] }
              (ext.CheckTenantExist tenant.ParentID w.1).2).1 with err | resp
          · have : createOrUpdateTenant rt.traced ext.traced acc.traced (fuel + 1) tenant w
                = (some (some ("failed to get tenant " ++ tenant.ParentID ++ " from ACC: " ++ err)),
                  ((acc.GetTenants { UUIDs := [tenant.ParentID] }
                      (ext.CheckTenantExist tenant.ParentID w.1).2).2,
                    w.2 ++ [⟨.CheckTenantExist tenant.ParentID, w.1⟩] ++
                      [⟨.GetTenants { UUIDs := [tenant.ParentID] },
                        (ext.CheckTenantExist tenant.ParentID w.1).2⟩])) := by
              simp only [createOrUpdateTenant, getTenantsByUUIDs, hroot, hchk, hget, M.bind_apply,
                M.lift_apply, M.pure_apply, ExternalSystemClient.traced_CheckTenantExist,
                Client.traced_GetTenants, record_fst, record_snd, ne_eq,
                not_false_eq_true, if_true]
            rw [this]
            exact UpsertSpec.stay ids _ _ _ (by simp)
          · cases hitems : resp.Items with
            | nil =>
              have : createOrUpdateTenant rt.traced ext.traced acc.traced (fuel + 1) tenant w
                  = (some (some ("empty tenant response for " ++ tenant.ParentID)),
                    ((acc.GetTenants { UUIDs := [tenant.ParentID] }
                        (ext.CheckTenantExist tenant.ParentID w.1).2).2,
                      w.2 ++ [⟨.CheckTenantExist tenant.ParentID, w.1⟩] ++
                        [⟨.GetTenants { UUIDs := [tenant.ParentID] },
                          (ext.CheckTenantExist tenant.ParentID w.1).2⟩])) := by
                simp only [createOrUpdateTenant, getTenantsByUUIDs, hroot, hchk, hget, hitems,
                  M.bind_apply, M.lift_apply, M.pure_apply,
                  ExternalSystemClient.traced_CheckTenantExist,
                  Client.traced_GetTenants, record_fst, record_snd, ne_eq,
                  not_false_eq_true, if_true]
              rw [this]
              exact UpsertSpec.stay ids _ _ _ (by simp)
            | cons parent rest =>
              have hpid : ∀ s1, ids s1 parent.ID → ids s1 tenant.ParentID :=
                hm.lookup_member tenant.ParentID _ resp hget parent (by simp [hitems])
              have hrec := ih parent
                ((acc.GetTenants { UUIDs := [tenant.ParentID] }
                    (ext.CheckTenantExist tenant.ParentID w.1).2).2,
                  w.2 ++ [⟨.CheckTenantExist tenant.ParentID, w.1⟩] ++
                    [⟨.GetTenants { UUIDs := [tenant.ParentID] },
                      (ext.CheckTenantExist tenant.ParentID w.1).2⟩])
              rcases hrun : createOrUpdateTenant rt.traced ext.traced acc.traced fuel parent
                ((acc.GetTenants { UUIDs := [tenant.ParentID] }
                    (ext.CheckTenantExist tenant.ParentID w.1).2).2,
                  w.2 ++ [⟨.CheckTenantExist tenant.ParentID, w.1⟩] ++
                    [⟨.GetTenants { UUIDs := [tenant.ParentID] },
                      (ext.CheckTenantExist tenant.ParentID w.1).2⟩]) with ⟨r, w3⟩
              rw [hrun] at hrec
              rcases r with _ | _ | err
              · -- the recursion did not return
                have : createOrUpdateTenant rt.traced ext.traced acc.traced (fuel + 1) tenant w
                    = (none, w3) := by
                  simp only [createOrUpdateTenant, getTenantsByUUIDs, hroot, hchk, hget, hitems,
                    hrun, M.bind_apply, M.lift_apply, M.pure_apply,
                    ExternalSystemClient.traced_CheckTenantExist,
                    Client.traced_GetTenants, record_fst, record_snd, ne_eq,
                    not_false_eq_true, if_true]
                rw [this]
                exact UpsertSpec.after hrec (UpsertSpec.stay ids _ _ _ (by simp))
              · -- the parent was created
                have hin : ids w3.1 tenant.ParentID := hpid _ (hrec.2.2 rfl)
                have := tail w3 (Or.inr hin)
                refine UpsertSpec.after hrec ?_
                simpa only [createOrUpdateTenant, getTenantsByUUIDs, hroot, hchk, hget, hitems,
                  hrun, M.bind_apply, M.lift_apply, M.pure_apply,
                  ExternalSystemClient.traced_CheckTenantExist,
                  ExternalSystemClient.traced_CreateOrUpdateTenant,
                  Client.traced_GetTenants, record_fst, record_snd, ne_eq,
                  not_false_eq_true, if_true] using this
              · have : createOrUpdateTenant rt.traced ext.traced acc.traced (fuel + 1) tenant w
                    = (some (some ("failed to create parent tenant with ID " ++
                        rt.fmtTenant parent ++ ": " ++ err)), w3) := by
                  simp only [createOrUpdateTenant, getTenantsByUUIDs, hroot, hchk, hget, hitems,
                    hrun, M.bind_apply, M.lift_apply, M.pure_apply,
                    ExternalSystemClient.traced_CheckTenantExist,
                    Client.traced_GetTenants, record_fst, record_snd, ne_eq,
                    not_false_eq_true, if_true, Runtime.traced_fmtTenant]
                rw [this]
                exact UpsertSpec.after hrec (UpsertSpec.stay ids _ _ _ (by simp))

theorem UpsertEvent.not_user {ids : σ → String → Prop} {ev : Event σ}
    (h : UpsertEvent ids ev) (U : User) : ev.call ≠ .CreateOrUpdateUser U := by
  intro hc
  simp [UpsertEvent, hc] at h

theorem UpsertEvent.parent_present {ids : σ → String → Prop} {ev : Event σ}
    (h : UpsertEvent ids ev) (X : Tenant) (hc : ev.call = .CreateOrUpdateTenant X) :
    X.ParentID = X.ID ∨ ids ev.pre X.ParentID := by
  simpa [UpsertEvent, hc] using h

theorem memExt_tenantSetModel (tenants : List Tenant) (users : List User) (timestamp : Time) :
    TenantSetModel memExt (fixedCloud tenants users timestamp) (fun s x => x ∈ s.tenants) where
  check_member := by intro id s h; simpa [memExt] using h
  check_keeps := by intro id s x hx; simpa [memExt] using hx
  upsert_adds := by
    intro X s b _
    simp only [memExt, addOnce]
    split <;> simp_all
  upsert_keeps := by
    intro X s x hx
    simp only [memExt, addOnce]
    split <;> simp_all
  lookup := by
    intro uuid s resp h t ht
    simp only [fixedCloud] at h
    injection h with h
    subst h
    simp only [List.cons_ne_nil, if_false, Option.mem_def] at ht
    have := List.mem_of_mem_head? ht
    simpa using (List.mem_filter.1 this).2
  lookup_keeps := by intro r s x hx; simpa [fixedCloud] using hx

/-- C2 (parent precedes child). With the external system seen as a set of
tenant ids and the cloud as a lookup by uuid, for every call
`createOrUpdateTenant(T)`, whatever the budget of the recursion and whether or
not the calls fail: every `CreateOrUpdateTenant(X)` it issues, for `T` or for
an ancestor it repairs, is issued in a state in which `X.parent_id == X.id` or
`X.parent_id` is in the external set. -/
theorem createOrUpdateTenant_parent_present (rt : Runtime σ) (ext : ExternalSystemClient σ)
    (acc : Client σ) (ids : σ → String → Prop) (hm : TenantSetModel ext acc ids)
    (fuel : Nat) (T : Tenant) (s : σ) :
    ∀ ev ∈ (createOrUpdateTenant rt.traced ext.traced acc.traced fuel T (s, [])).2.2,
      ∀ X, ev.call = .CreateOrUpdateTenant X → X.ParentID = X.ID ∨ ids ev.pre X.ParentID := by
  obtain ⟨⟨evs, he, hg⟩, _, _⟩ := createOrUpdateTenant_spec rt ext acc ids hm.growing fuel T (s, [])
  intro ev hev X hX
  rw [he] at hev
  exact (hg ev (by simpa using hev)).parent_present X hX

/-- The second end-to-end scenario: the cloud holds the root `R`, its child
`P` and `C`, child of `P`; the external system is empty. The upsert of `C` by
`createOrUpdateTenant(C)` is made when `R` and `P` are in place. -/
theorem createOrUpdateTenant_parent_present_witness :
    ∃ ev ∈ (createOrUpdateTenant plainRuntime.traced memExt.traced
        (fixedCloud
          [{ ID := "R", ParentID := "R", DeletedAt := 0, OfferingItems := [] },
           { ID := "P", ParentID := "R", DeletedAt := 0, OfferingItems := [] },
           { ID := "C", ParentID := "P", DeletedAt := 0, OfferingItems := [] }] [] 0).traced 3
        { ID := "C", ParentID := "P", DeletedAt := 0, OfferingItems := [] } ({}, [])).2.2,
      ev.call = .CreateOrUpdateTenant
          { ID := "C", ParentID := "P", DeletedAt := 0, OfferingItems := [] } ∧
      ev.pre.tenants = ["R", "P"] ∧
      ("P" = "C" ∨ "P" ∈ ev.pre.tenants) := by
  refine ⟨⟨.CreateOrUpdateTenant
      { ID := "C", ParentID := "P", DeletedAt := 0, OfferingItems := [] },
      { tenants := ["R", "P"] }⟩, by decide, rfl, rfl, ?_⟩
  exact createOrUpdateTenant_parent_present plainRuntime memExt
    (fixedCloud
      [{ ID := "R", ParentID := "R", DeletedAt := 0, OfferingItems := [] },
       { ID := "P", ParentID := "R", DeletedAt := 0, OfferingItems := [] },
       { ID := "C", ParentID := "P", DeletedAt := 0, OfferingItems := [] }] [] 0)
    (fun s x => x ∈ s.tenants) (memExt_tenantSetModel _ [] 0) 3
    { ID := "C", ParentID := "P", DeletedAt := 0, OfferingItems := [] } {}
    ⟨.CreateOrUpdateTenant { ID := "C", ParentID := "P", DeletedAt := 0, OfferingItems := [] },
      { tenants := ["R", "P"] }⟩ (by decide)
    { ID := "C", ParentID := "P", DeletedAt := 0, OfferingItems := [] } rfl

/-- The end of `createOrUpdateUser`: the call `CreateOrUpdateUser(user)`, from
the state `w`. -/
theorem createOrUpdateUser_tail (ext : ExternalSystemClient σ) (user : User) (w : Traced σ) :
    ((do
      let r ← M.lift (ext.traced.CreateOrUpdateUser user)
      match r with
      | .error err => pure (some ("failed to update user " ++ user.ID ++ ": " ++ err))
      | .ok _ => pure none : M (Traced σ) (Option String)) w).2.2
      = w.2 ++ [⟨.CreateOrUpdateUser user, w.1⟩] := by
  rcases hcu : (ext.CreateOrUpdateUser user w.1).1 with err | b <;> simp [hcu]

/-- C3 (user requires tenant). With the external system seen as a set of
tenant ids and the cloud as a lookup by uuid, for every call
`createOrUpdateUser(U)`: the only user upsert it issues is
`CreateOrUpdateUser(U)`, and it is issued in a state in which `U.tenant_id` is
in the external tenant set; and if the check found the tenant missing and the
user upsert was issued, then the tenant had been fetched from the cloud by its
uuid and `createOrUpdateTenant` had been run on it and had returned `nil`,
right before the user upsert. -/
theorem createOrUpdateUser_tenant_present (rt : Runtime σ) (ext : ExternalSystemClient σ)
    (acc : Client σ) (ids : σ → String → Prop) (hm : TenantSetModel ext acc ids)
    (fuel : Nat) (U : User) (s : σ) :
    (∀ ev ∈ (createOrUpdateUser rt.traced ext.traced acc.traced fuel U (s, [])).2.2,
      ∀ X, ev.call = .CreateOrUpdateUser X → X = U ∧ ids ev.pre U.TenantID) ∧
    ((ext.CheckTenantExist U.TenantID s).1 = .ok false →
      (∃ ev ∈ (createOrUpdateUser rt.traced ext.traced acc.traced fuel U (s, [])).2.2,
        ev.call = .CreateOrUpdateUser U) →
      ∃ resp t w3,
        (acc.GetTenants { UUIDs := [U.TenantID] } (ext.CheckTenantExist U.TenantID s).2).1
          = .ok resp ∧
        resp.Items.head? = some t ∧
        createOrUpdateTenant rt.traced ext.traced acc.traced fuel t
          ((acc.GetTenants { UUIDs := [U.TenantID] } (ext.CheckTenantExist U.TenantID s).2).2,
            [⟨.CheckTenantExist U.TenantID, s⟩,
             ⟨.GetTenants { UUIDs := [U.TenantID] }, (ext.CheckTenantExist U.TenantID s).2⟩])
          = (some none, w3) ∧
        (createOrUpdateUser rt.traced ext.traced acc.traced fuel U (s, [])).2.2
          = w3.2 ++ [⟨.CreateOrUpdateUser U, w3.1⟩]) := by
  have hg := hm.growing
  rcases hchk : (ext.CheckTenantExist U.TenantID s).1 with err | b
  · -- the check failed
    have hrun : (createOrUpdateUser rt.traced ext.traced acc.traced fuel U (s, [])).2.2
        = [⟨.CheckTenantExist U.TenantID, s⟩] := by
      simp [createOrUpdateUser, hchk]
    rw [hrun]
    refine ⟨?_, fun h => by simp at h⟩
    intro ev hev X hX
    simp at hev; subst hev; simp at hX
  · cases b with
    | true =>
      have hin : ids (ext.CheckTenantExist U.TenantID s).2 U.TenantID :=
        hm.check_keeps _ _ _ (hm.check_member _ _ hchk)
      have hrun : (createOrUpdateUser rt.traced ext.traced acc.traced fuel U (s, [])).2.2
          = [⟨.CheckTenantExist U.TenantID, s⟩,
             ⟨.CreateOrUpdateUser U, (ext.CheckTenantExist U.TenantID s).2⟩] := by
        have := createOrUpdateUser_tail ext U
          ((ext.CheckTenantExist U.TenantID s).2, [⟨.CheckTenantExist U.TenantID, s⟩])
        simpa only [createOrUpdateUser, hchk, M.bind_apply, M.lift_apply, M.pure_apply,
          ExternalSystemClient.traced_CheckTenantExist,
          ExternalSystemClient.traced_CreateOrUpdateUser, record_fst, record_snd,
          List.nil_append, List.singleton_append] using this
      rw [hrun]
      refine ⟨?_, fun h => by simp at h⟩
      intro ev hev X hX
      simp at hev
      rcases hev with rfl | rfl
      · simp at hX
      · simp at hX; subst hX; exact ⟨rfl, hin⟩
    | false =>
      -- a run that issues no user upsert satisfies both parts
      have quiet : ∀ tr : List (Event σ),
          (createOrUpdateUser rt.traced ext.traced acc.traced fuel U (s, [])).2.2 = tr →
          (∀ ev ∈ tr, ∀ X, ev.call ≠ .CreateOrUpdateUser X) →
          (∀ ev ∈ (createOrUpdateUser rt.traced ext.traced acc.traced fuel U (s, [])).2.2,
            ∀ X, ev.call = .CreateOrUpdateUser X → X = U ∧ ids ev.pre U.TenantID) ∧
          ¬ (∃ ev ∈ (createOrUpdateUser rt.traced ext.traced acc.traced fuel U (s, [])).2.2,
              ev.call = .CreateOrUpdateUser U) := by
        intro tr htr hno
        rw [htr]
        exact ⟨fun ev hev X hX => absurd hX (hno ev hev X),
          fun ⟨ev, hev, hX⟩ => absurd hX (hno ev hev U)⟩
      have hpre : ∀ ev ∈ [(⟨.CheckTenantExist U.TenantID, s⟩ : Event σ),
            ⟨.GetTenants { UUIDs := [U.TenantID] }, (ext.CheckTenantExist U.TenantID s).2⟩],
          ∀ X, ev.call ≠ .CreateOrUpdateUser X := by
        intro ev hev X
        simp at hev
        rcases hev with rfl | rfl <;> simp
      rcases hget : (acc.GetTenants { UUIDs := [U.TenantID] }
          (ext.CheckTenantExist U.TenantID s).2).1 with err | resp
      · have hq := quiet _ (by simp [createOrUpdateUser, getTenantsByUUIDs, hchk, hget]) hpre
        exact ⟨hq.1, fun _ h => absurd h hq.2⟩
      · cases hitems : resp.Items with
        | nil =>
          have hq := quiet _
            (by simp [createOrUpdateUser, getTenantsByUUIDs, hchk, hget, hitems]) hpre
          exact ⟨hq.1, fun _ h => absurd h hq.2⟩
        | cons t rest =>
          have hrec := createOrUpdateTenant_spec rt ext acc ids hg fuel t
            ((acc.GetTenants { UUIDs := [U.TenantID] } (ext.CheckTenantExist U.TenantID s).2).2,
              [⟨.CheckTenantExist U.TenantID, s⟩,
               ⟨.GetTenants { UUIDs := [U.TenantID] }, (ext.CheckTenantExist U.TenantID s).2⟩])
          rcases hrun : createOrUpdateTenant rt.traced ext.traced acc.traced fuel t
            ((acc.GetTenants { UUIDs := [U.TenantID] } (ext.CheckTenantExist U.TenantID s).2).2,
              [⟨.CheckTenantExist U.TenantID, s⟩,
               ⟨.GetTenants { UUIDs := [U.TenantID] }, (ext.CheckTenantExist U.TenantID s).2⟩])
            with ⟨r, w3⟩
          rw [hrun] at hrec
          obtain ⟨⟨evs, he, hev⟩, _, hsucc⟩ := hrec
          have hw3 : ∀ ev ∈ w3.2, ∀ X, ev.call ≠ .CreateOrUpdateUser X := by
            intro ev hmem X
            simp only at he
            rw [he] at hmem
            rcases List.mem_append.1 hmem with h | h
            · exact hpre ev h X
            · exact (hev ev h).not_user X
          rcases r with _ | _ | err
          · have hq := quiet w3.2 (by
              simp only [createOrUpdateUser, getTenantsByUUIDs, hchk, hget, hitems, M.bind_apply,
                M.lift_apply, M.pure_apply, ExternalSystemClient.traced_CheckTenantExist,
                Client.traced_GetTenants, record_fst, record_snd, List.nil_append,
                List.singleton_append, hrun]) hw3
            exact ⟨hq.1, fun _ h => absurd h hq.2⟩
          · -- the tenant was created
            have hin : ids w3.1 U.TenantID :=
              hg.lookup_member U.TenantID _ resp hget t (by simp [hitems]) _ (hsucc rfl)
            have htail := createOrUpdateUser_tail ext U w3
            have hrunU : (createOrUpdateUser rt.traced ext.traced acc.traced fuel U (s, [])).2.2
                = w3.2 ++ [⟨.CreateOrUpdateUser U, w3.1⟩] := by
              simpa only [createOrUpdateUser, getTenantsByUUIDs, hchk, hget, hitems, M.bind_apply,
                M.lift_apply, M.pure_apply, ExternalSystemClient.traced_CheckTenantExist,
                ExternalSystemClient.traced_CreateOrUpdateUser,
                Client.traced_GetTenants, record_fst, record_snd, List.nil_append,
                List.singleton_append, hrun] using htail
            refine ⟨?_, fun _ _ => ⟨resp, t, w3, rfl, by simp [hitems], hrun, hrunU⟩⟩
            intro ev hmem X hX
            rw [hrunU] at hmem
            rcases List.mem_append.1 hmem with h | h
            · exact absurd hX (hw3 ev h X)
            · simp at h; subst h; simp at hX; subst hX; exact ⟨rfl, hin⟩
          · have hq := quiet w3.2 (by
              simp only [createOrUpdateUser, getTenantsByUUIDs, hchk, hget, hitems, M.bind_apply,
                M.lift_apply, M.pure_apply, ExternalSystemClient.traced_CheckTenantExist,
                Client.traced_GetTenants, record_fst, record_snd, List.nil_append,
                List.singleton_append, hrun]) hw3
            exact ⟨hq.1, fun _ h => absurd h hq.2⟩

/-- A user of the root tenant `T`, which the cloud holds and the external
system does not: the user upsert is issued once `T` is in the external set. -/
theorem createOrUpdateUser_tenant_present_witness :
    ∃ ev ∈ (createOrUpdateUser plainRuntime.traced memExt.traced
        (fixedCloud [{ ID := "T", ParentID := "T", DeletedAt := 0, OfferingItems := [] }]
          [] 0).traced 2
        { ID := "U", TenantID := "T", DeletedAt := 0, AccessPolicies := [] } ({}, [])).2.2,
      ev.call = .CreateOrUpdateUser
          { ID := "U", TenantID := "T", DeletedAt := 0, AccessPolicies := [] } ∧
      "T" ∈ ev.pre.tenants := by
  refine ⟨⟨.CreateOrUpdateUser
      { ID := "U", TenantID := "T", DeletedAt := 0, AccessPolicies := [] },
      { tenants := ["T"] }⟩, by decide, rfl, ?_⟩
  exact ((createOrUpdateUser_tenant_present plainRuntime memExt
    (fixedCloud [{ ID := "T", ParentID := "T", DeletedAt := 0, OfferingItems := [] }] [] 0)
    (fun s x => x ∈ s.tenants) (memExt_tenantSetModel _ [] 0) 2
    { ID := "U", TenantID := "T", DeletedAt := 0, AccessPolicies := [] } {}).1
    ⟨.CreateOrUpdateUser { ID := "U", TenantID := "T", DeletedAt := 0, AccessPolicies := [] },
      { tenants := ["T"] }⟩ (by decide)
    { ID := "U", TenantID := "T", DeletedAt := 0, AccessPolicies := [] } rfl).2

end Upsert

section EmitsEngine

variable {σ : Type}

theorem getTenantsByUUIDs_emits (acc : Client σ) (uuids : List String) :
    Emits worldTrace Call.ofTenantUpsert (getTenantsByUUIDs acc.traced uuids) :=
  Emits.record _ _ trivial

theorem createOrUpdateTenant_emits (rt : Runtime σ) (ext : ExternalSystemClient σ)
    (acc : Client σ) :
    ∀ (fuel : Nat) (tenant : Tenant),
      Emits worldTrace Call.ofTenantUpsert
        (createOrUpdateTenant rt.traced ext.traced acc.traced fuel tenant) := by
  intro fuel
  induction fuel with
  | zero => intro tenant; exact Emits.outOfFuel
  | succ fuel ih =>
    intro tenant
    unfold createOrUpdateTenant
    dsimp only
    repeat' first
      | exact Emits.pure _
      | exact Emits.record _ _ (by trivial)
      | exact getTenantsByUUIDs_emits acc _
      | exact ih _
      | refine Emits.bind ?_ (fun _ => ?_)
      | split

theorem createOrUpdateUser_emits (rt : Runtime σ) (ext : ExternalSystemClient σ)
    (acc : Client σ) (fuel : Nat) (user : User) :
    Emits worldTrace Call.ofUserUpsert
      (createOrUpdateUser rt.traced ext.traced acc.traced fuel user) := by
  have hmono : ∀ c, Call.ofTenantUpsert c → Call.ofUserUpsert c := by
    intro c; cases c <;> simp [Call.ofTenantUpsert, Call.ofUserUpsert]
  unfold createOrUpdateUser
  dsimp only
  repeat' first
    | exact Emits.pure _
    | exact Emits.record _ _ (by trivial)
    | exact (getTenantsByUUIDs_emits acc _).mono hmono
    | exact (createOrUpdateTenant_emits rt ext acc _ _).mono hmono
    | refine Emits.bind ?_ (fun _ => ?_)
    | split

theorem processOfferingItemsChanges_emits (loop : SyncLoopImpl σ) :
    ∀ items : List OfferingItem,
      Emits worldTrace Call.ofOfferingItemWrite
        (loop.traced.processOfferingItemsChanges items) := by
  intro items
  induction items with
  | nil => exact Emits.pure _
  | cons item items ih =>
    unfold SyncLoopImpl.processOfferingItemsChanges
    dsimp only
    repeat' first
      | exact Emits.pure _
      | exact Emits.record _ _ (by trivial)
      | exact ih
      | refine Emits.bind ?_ (fun _ => ?_)
      | split

theorem processAccessPoliciesChanges_emits (loop : SyncLoopImpl σ) :
    ∀ items : List AccessPolicy,
      Emits worldTrace Call.ofAccessPolicyWrite
        (loop.traced.processAccessPoliciesChanges items) := by
  intro items
  induction items with
  | nil => exact Emits.pure _
  | cons item items ih =>
    unfold SyncLoopImpl.processAccessPoliciesChanges
    dsimp only
    repeat' first
      | exact Emits.pure _
      | exact Emits.record _ _ (by trivial)
      | exact ih
      | refine Emits.bind ?_ (fun _ => ?_)
      | split

theorem processTenantsAndOfferingItemsChanges_emits (rt : Runtime σ) (loop : SyncLoopImpl σ)
    (fuel : Nat) :
    ∀ items : List Tenant,
      Emits worldTrace Call.ofTenantsSync
        (loop.traced.processTenantsAndOfferingItemsChanges rt.traced fuel items) := by
  have h1 : ∀ c, Call.ofTenantUpsert c → Call.ofTenantsSync c := by
    intro c; cases c <;> simp [Call.ofTenantUpsert, Call.ofTenantsSync]
  have h2 : ∀ c, Call.ofOfferingItemWrite c → Call.ofTenantsSync c := by
    intro c; cases c <;> simp [Call.ofOfferingItemWrite, Call.ofTenantsSync]
  intro items
  induction items with
  | nil => exact Emits.pure _
  | cons item items ih =>
    unfold SyncLoopImpl.processTenantsAndOfferingItemsChanges
    dsimp only
    repeat' first
      | exact Emits.pure _
      | exact Emits.record _ _ (by trivial)
      | exact ih
      | exact (createOrUpdateTenant_emits rt _ _ _ _).mono h1
      | exact (processOfferingItemsChanges_emits loop _).mono h2
      | refine Emits.bind ?_ (fun _ => ?_)
      | split

theorem processUsersAndAccessPoliciesChanges_emits (rt : Runtime σ) (loop : SyncLoopImpl σ)
    (fuel : Nat) :
    ∀ items : List User,
      Emits worldTrace Call.ofUsersSync
        (loop.traced.processUsersAndAccessPoliciesChanges rt.traced fuel items) := by
  have h1 : ∀ c, Call.ofUserUpsert c → Call.ofUsersSync c := by
    intro c; cases c <;> simp [Call.ofUserUpsert, Call.ofUsersSync]
  have h2 : ∀ c, Call.ofAccessPolicyWrite c → Call.ofUsersSync c := by
    intro c; cases c <;> simp [Call.ofAccessPolicyWrite, Call.ofUsersSync]
  intro items
  induction items with
  | nil => exact Emits.pure _
  | cons item items ih =>
    unfold SyncLoopImpl.processUsersAndAccessPoliciesChanges
    dsimp only
    repeat' first
      | exact Emits.pure _
      | exact Emits.record _ _ (by trivial)
      | exact ih
      | exact (createOrUpdateUser_emits rt _ _ _ _).mono h1
      | exact (processAccessPoliciesChanges_emits loop _).mono h2
      | refine Emits.bind ?_ (fun _ => ?_)
      | split

theorem GetTenantsNextPage_emits (acc : Client σ) (page : TenantGetResponse) :
    Emits worldTrace Call.ofCloudRead (acc.traced.GetTenantsNextPage page) := by
  unfold Client.GetTenantsNextPage
  repeat' first
    | exact Emits.pure _
    | exact Emits.record _ _ (by trivial)
    | refine Emits.bind ?_ (fun _ => ?_)
    | split

theorem GetUsersNextPage_emits (acc : Client σ) (page : UserGetResponse) :
    Emits worldTrace Call.ofCloudRead (acc.traced.GetUsersNextPage page) := by
  unfold Client.GetUsersNextPage
  repeat' first
    | exact Emits.pure _
    | exact Emits.record _ _ (by trivial)
    | refine Emits.bind ?_ (fun _ => ?_)
    | split

theorem tenantsNextPages_emits (rt : Runtime σ) (loop : SyncLoopImpl σ) (fuel : Nat) :
    ∀ (pages : Nat) (tenantsResp : TenantGetResponse),
      Emits worldTrace Call.ofTenantsSync
        (loop.traced.tenantsNextPages rt.traced fuel pages tenantsResp) := by
  intro pages
  induction pages with
  | zero => intro _; exact Emits.outOfFuel
  | succ pages ih =>
    intro tenantsResp
    unfold SyncLoopImpl.tenantsNextPages
    split
    · refine Emits.bind ?_ (fun r => ?_)
      · unfold Client.GetTenantsNextPage
        repeat' first
          | exact Emits.pure _
          | exact Emits.record _ _ (by trivial)
          | refine Emits.bind ?_ (fun _ => ?_)
          | split
      · repeat' first
          | exact Emits.pure _
          | exact ih _
          | exact processTenantsAndOfferingItemsChanges_emits rt loop fuel _
          | refine Emits.bind ?_ (fun _ => ?_)
          | split
    · exact Emits.pure _

theorem usersNextPages_emits (rt : Runtime σ) (loop : SyncLoopImpl σ) (fuel : Nat) :
    ∀ (pages : Nat) (usersResp : UserGetResponse),
      Emits worldTrace Call.ofUsersSync
        (loop.traced.usersNextPages rt.traced fuel pages usersResp) := by
  intro pages
  induction pages with
  | zero => intro _; exact Emits.outOfFuel
  | succ pages ih =>
    intro usersResp
    unfold SyncLoopImpl.usersNextPages
    split
    · refine Emits.bind ?_ (fun r => ?_)
      · unfold Client.GetUsersNextPage
        repeat' first
          | exact Emits.pure _
          | exact Emits.record _ _ (by trivial)
          | refine Emits.bind ?_ (fun _ => ?_)
          | split
      · repeat' first
          | exact Emits.pure _
          | exact ih _
          | exact processUsersAndAccessPoliciesChanges_emits rt loop fuel _
          | refine Emits.bind ?_ (fun _ => ?_)
          | split
    · exact Emits.pure _

end EmitsEngine

section Watermark

variable {σ : Type}

@[simp] theorem SyncLoopImpl.traced_tenantsRequest (loop : SyncLoopImpl σ) (vars : SyncVars) :
    loop.traced.tenantsRequest vars = loop.tenantsRequest vars := rfl

@[simp] theorem SyncLoopImpl.traced_usersRequest (loop : SyncLoopImpl σ) (vars : SyncVars) :
    loop.traced.usersRequest vars = loop.usersRequest vars := rfl

theorem onWorld_pair_vars {L α β : Type} (a : M (Traced σ) α) (b : M (Traced σ) β)
    (st : L × Traced σ) :
    ((M.onWorld a >>= fun _ => M.onWorld b) st).2.1 = st.1 := by
  simp only [M.bind_apply, M.onWorld_apply]
  rcases (a st.2).1 with _ | x <;> rfl

theorem onWorld_pair_emits {L α β : Type} {P : Call → Prop} (a : M (Traced σ) α)
    (b : M (Traced σ) β) (ha : Emits worldTrace P a) (hb : Emits worldTrace P b) :
    Emits (varsTrace (L := L)) P (M.onWorld a >>= fun _ => M.onWorld b) :=
  Emits.bind ha.onWorld (fun _ => hb.onWorld)

theorem tenantsCycle_ok (rt : Runtime σ) (loop : SyncLoopImpl σ) (fuel : Nat) (vars : SyncVars)
    (w : Traced σ) (resp : TenantGetResponse)
    (h : (loop.accClient.GetTenants (loop.tenantsRequest vars) w.1).1 = .ok resp) :
    loop.traced.tenantsCycle rt.traced fuel (vars, w)
      = (M.onWorld (loop.traced.processTenantsAndOfferingItemsChanges rt.traced fuel resp.Items)
          >>= fun _ => M.onWorld (loop.traced.tenantsNextPages rt.traced fuel fuel resp))
        ({ vars with tenantsLoopUpdatedSince := some resp.Timestamp },
          ((loop.accClient.GetTenants (loop.tenantsRequest vars) w.1).2,
            w.2 ++ [⟨.GetTenants (loop.tenantsRequest vars), w.1⟩])) := by
  simp [SyncLoopImpl.tenantsCycle, h]

theorem tenantsCycle_error (rt : Runtime σ) (loop : SyncLoopImpl σ) (fuel : Nat) (vars : SyncVars)
    (w : Traced σ) (err : String)
    (h : (loop.accClient.GetTenants (loop.tenantsRequest vars) w.1).1 = .error err) :
    loop.traced.tenantsCycle rt.traced fuel (vars, w)
      = (some (), (vars, ((loop.accClient.GetTenants (loop.tenantsRequest vars) w.1).2,
            w.2 ++ [⟨.GetTenants (loop.tenantsRequest vars), w.1⟩]))) := by
  simp [SyncLoopImpl.tenantsCycle, h]

theorem tenantsCycle_first_call (rt : Runtime σ) (loop : SyncLoopImpl σ) (fuel : Nat)
    (vars : SyncVars) (w : Traced σ) :
    ∃ evs, varsTrace (loop.traced.tenantsCycle rt.traced fuel (vars, w)).2
      = w.2 ++ ⟨.GetTenants (loop.tenantsRequest vars), w.1⟩ :: evs := by
  rcases h : (loop.accClient.GetTenants (loop.tenantsRequest vars) w.1).1 with err | resp
  · exact ⟨[], by rw [tenantsCycle_error rt loop fuel vars w err h]; simp [varsTrace]⟩
  · rw [tenantsCycle_ok rt loop fuel vars w resp h]
    obtain ⟨evs, he, _⟩ := onWorld_pair_emits (L := SyncVars) _ _
      (processTenantsAndOfferingItemsChanges_emits rt loop fuel resp.Items)
      (tenantsNextPages_emits rt loop fuel fuel resp)
      ({ vars with tenantsLoopUpdatedSince := some resp.Timestamp },
        ((loop.accClient.GetTenants (loop.tenantsRequest vars) w.1).2,
          w.2 ++ [⟨.GetTenants (loop.tenantsRequest vars), w.1⟩]))
    exact ⟨evs, by rw [he]; simp [varsTrace]⟩

theorem usersCycle_ok (rt : Runtime σ) (loop : SyncLoopImpl σ) (fuel : Nat) (vars : SyncVars)
    (w : Traced σ) (resp : UserGetResponse)
    (h : (loop.accClient.GetUsers (loop.usersRequest vars) w.1).1 = .ok resp) :
    loop.traced.usersCycle rt.traced fuel (vars, w)
      = (M.onWorld (loop.traced.processUsersAndAccessPoliciesChanges rt.traced fuel resp.Items)
          >>= fun _ => M.onWorld (loop.traced.usersNextPages rt.traced fuel fuel resp))
        ({ vars with usersLoopUpdatedSince := some resp.Timestamp },
          ((loop.accClient.GetUsers (loop.usersRequest vars) w.1).2,
            w.2 ++ [⟨.GetUsers (loop.usersRequest vars), w.1⟩])) := by
  simp [SyncLoopImpl.usersCycle, h]

theorem usersCycle_error (rt : Runtime σ) (loop : SyncLoopImpl σ) (fuel : Nat) (vars : SyncVars)
    (w : Traced σ) (err : String)
    (h : (loop.accClient.GetUsers (loop.usersRequest vars) w.1).1 = .error err) :
    loop.traced.usersCycle rt.traced fuel (vars, w)
      = (some (), (vars, ((loop.accClient.GetUsers (loop.usersRequest vars) w.1).2,
            w.2 ++ [⟨.GetUsers (loop.usersRequest vars), w.1⟩]))) := by
  simp [SyncLoopImpl.usersCycle, h]

theorem usersCycle_first_call (rt : Runtime σ) (loop : SyncLoopImpl σ) (fuel : Nat)
    (vars : SyncVars) (w : Traced σ) :
    ∃ evs, varsTrace (loop.traced.usersCycle rt.traced fuel (vars, w)).2
      = w.2 ++ ⟨.GetUsers (loop.usersRequest vars), w.1⟩ :: evs := by
  rcases h : (loop.accClient.GetUsers (loop.usersRequest vars) w.1).1 with err | resp
  · exact ⟨[], by rw [usersCycle_error rt loop fuel vars w err h]; simp [varsTrace]⟩
  · rw [usersCycle_ok rt loop fuel vars w resp h]
    obtain ⟨evs, he, _⟩ := onWorld_pair_emits (L := SyncVars) _ _
      (processUsersAndAccessPoliciesChanges_emits rt loop fuel resp.Items)
      (usersNextPages_emits rt loop fuel fuel resp)
      ({ vars with usersLoopUpdatedSince := some resp.Timestamp },
        ((loop.accClient.GetUsers (loop.usersRequest vars) w.1).2,
          w.2 ++ [⟨.GetUsers (loop.usersRequest vars), w.1⟩]))
    exact ⟨evs, by rw [he]; simp [varsTrace]⟩

theorem toInt64_of_small (n : Int) (h0 : -9223372036854775808 ≤ n)
    (h1 : n ≤ 9223372036854775807) : toInt64 n = n := by
  unfold toInt64
  norm_num
  omega

/-- Below the wrap-around the sleep of the incremental loops and of the usage
loop lasts `interval` seconds. -/
theorem secondsOf_small (interval : Nat) (h : interval ≤ 9223372036) :
    secondsOf interval = Second * interval := by
  unfold secondsOf
  have h1 : interval % 2 ^ 64 = interval := Nat.mod_eq_of_lt (by norm_num; omega)
  have h2 : toInt64 (interval : Int) = interval := toInt64_of_small _ (by omega) (by omega)
  rw [h1, h2]
  have h3 : Second * (interval : Int) = 1000000000 * (interval : Int) := rfl
  rw [h3]
  exact toInt64_of_small _ (by omega) (by omega)

/-- At 9223372037 seconds the product has left `int64`: `time.Sleep` is
called with a negative duration. -/
theorem secondsOf_wraps : secondsOf 9223372037 = -9223372036709551616 := by
  rfl

/-- C6 (watermark assignment). In every incremental cycle, of tenants and of
users alike, from any state and whatever the collaborators answer afterwards.
If the first-page request succeeds with timestamp `t`: the rest of the cycle
(the items of the page, then the further pages) is run from a state in which
the watermark is already `t`; the watermark at the end of the cycle is `t`,
also when a later page fails or the cycle does not finish; and a cycle started
with the variables the cycle leaves opens with a request whose `UpdatedSince`
is `t`. If the first-page request fails: the cycle ends there with the
variables unchanged, and a cycle started with them opens with the very request
that failed. The next iteration of the loop is such a cycle: it starts with the
variables the cycle leaves, in the world after the call of `time.Sleep` with
`time.Second * time.Duration(updateInterval)`, a product taken in `int64`
(`secondsOf`: the interval in seconds up to 9223372036, wrapped around
above). -/
theorem incremental_cycle_sets_watermark_first (rt : Runtime σ) (loop : SyncLoopImpl σ)
    (fuel : Nat) (vars : SyncVars) (w : Traced σ) :
    ((∀ resp, (loop.accClient.GetTenants (loop.tenantsRequest vars) w.1).1 = .ok resp →
        loop.traced.tenantsCycle rt.traced fuel (vars, w)
          = (M.onWorld
                (loop.traced.processTenantsAndOfferingItemsChanges rt.traced fuel resp.Items)
              >>= fun _ => M.onWorld (loop.traced.tenantsNextPages rt.traced fuel fuel resp))
            ({ vars with tenantsLoopUpdatedSince := some resp.Timestamp },
              ((loop.accClient.GetTenants (loop.tenantsRequest vars) w.1).2,
                w.2 ++ [⟨.GetTenants (loop.tenantsRequest vars), w.1⟩])) ∧
        (loop.traced.tenantsCycle rt.traced fuel (vars, w)).2.1
          = { vars with tenantsLoopUpdatedSince := some resp.Timestamp } ∧
        ∀ w1 : Traced σ, ∃ r evs, r.UpdatedSince = some resp.Timestamp ∧
          varsTrace (loop.traced.tenantsCycle rt.traced fuel
              ((loop.traced.tenantsCycle rt.traced fuel (vars, w)).2.1, w1)).2
            = w1.2 ++ ⟨.GetTenants r, w1.1⟩ :: evs) ∧
     (∀ err, (loop.accClient.GetTenants (loop.tenantsRequest vars) w.1).1 = .error err →
        loop.traced.tenantsCycle rt.traced fuel (vars, w)
          = (some (), (vars, ((loop.accClient.GetTenants (loop.tenantsRequest vars) w.1).2,
              w.2 ++ [⟨.GetTenants (loop.tenantsRequest vars), w.1⟩]))) ∧
        ∀ w1 : Traced σ, ∃ evs,
          varsTrace (loop.traced.tenantsCycle rt.traced fuel
              ((loop.traced.tenantsCycle rt.traced fuel (vars, w)).2.1, w1)).2
            = w1.2 ++ ⟨.GetTenants (loop.tenantsRequest vars), w1.1⟩ :: evs) ∧
     (∀ n, loop.traced.tenantsCycles rt.traced fuel (n + 1) (vars, w)
        = match loop.traced.tenantsCycle rt.traced fuel (vars, w) with
          | (some _, st) =>
            loop.traced.tenantsCycles rt.traced fuel n
              (st.1, rt.traced.Sleep (secondsOf loop.updateInterval) st.2)
          | (none, st) => (none, st))) ∧
    ((∀ resp, (loop.accClient.GetUsers (loop.usersRequest vars) w.1).1 = .ok resp →
        loop.traced.usersCycle rt.traced fuel (vars, w)
          = (M.onWorld
                (loop.traced.processUsersAndAccessPoliciesChanges rt.traced fuel resp.Items)
              >>= fun _ => M.onWorld (loop.traced.usersNextPages rt.traced fuel fuel resp))
            ({ vars with usersLoopUpdatedSince := some resp.Timestamp },
              ((loop.accClient.GetUsers (loop.usersRequest vars) w.1).2,
                w.2 ++ [⟨.GetUsers (loop.usersRequest vars), w.1⟩])) ∧
        (loop.traced.usersCycle rt.traced fuel (vars, w)).2.1
          = { vars with usersLoopUpdatedSince := some resp.Timestamp } ∧
        ∀ w1 : Traced σ, ∃ r evs, r.UpdatedSince = some resp.Timestamp ∧
          varsTrace (loop.traced.usersCycle rt.traced fuel
              ((loop.traced.usersCycle rt.traced fuel (vars, w)).2.1, w1)).2
            = w1.2 ++ ⟨.GetUsers r, w1.1⟩ :: evs) ∧
     (∀ err, (loop.accClient.GetUsers (loop.usersRequest vars) w.1).1 = .error err →
        loop.traced.usersCycle rt.traced fuel (vars, w)
          = (some (), (vars, ((loop.accClient.GetUsers (loop.usersRequest vars) w.1).2,
              w.2 ++ [⟨.GetUsers (loop.usersRequest vars), w.1⟩]))) ∧
        ∀ w1 : Traced σ, ∃ evs,
          varsTrace (loop.traced.usersCycle rt.traced fuel
              ((loop.traced.usersCycle rt.traced fuel (vars, w)).2.1, w1)).2
            = w1.2 ++ ⟨.GetUsers (loop.usersRequest vars), w1.1⟩ :: evs) ∧
     (∀ n, loop.traced.usersCycles rt.traced fuel (n + 1) (vars, w)
        = match loop.traced.usersCycle rt.traced fuel (vars, w) with
          | (some _, st) =>
            loop.traced.usersCycles rt.traced fuel n
              (st.1, rt.traced.Sleep (secondsOf loop.updateInterval) st.2)
          | (none, st) => (none, st))) := by
  refine ⟨⟨fun resp h => ?_, fun err h => ?_, fun n => ?_⟩,
    ⟨fun resp h => ?_, fun err h => ?_, fun n => ?_⟩⟩
  · have hv : (loop.traced.tenantsCycle rt.traced fuel (vars, w)).2.1
        = { vars with tenantsLoopUpdatedSince := some resp.Timestamp } := by
      rw [tenantsCycle_ok rt loop fuel vars w resp h]
      exact onWorld_pair_vars _ _ _
    refine ⟨tenantsCycle_ok rt loop fuel vars w resp h, hv, fun w1 => ?_⟩
    rw [hv]
    obtain ⟨evs, he⟩ := tenantsCycle_first_call rt loop fuel
      { vars with tenantsLoopUpdatedSince := some resp.Timestamp } w1
    exact ⟨_, evs, rfl, he⟩
  · have hrun := tenantsCycle_error rt loop fuel vars w err h
    refine ⟨hrun, fun w1 => ?_⟩
    rw [hrun]
    exact tenantsCycle_first_call rt loop fuel vars w1
  · simp only [SyncLoopImpl.tenantsCycles, M.bind_apply, M.lift_apply, Runtime.sleepOnWorld,
      SyncLoopImpl.traced_updateInterval]
    rcases loop.traced.tenantsCycle rt.traced fuel (vars, w) with ⟨_ | _, st⟩ <;> rfl
  · have hv : (loop.traced.usersCycle rt.traced fuel (vars, w)).2.1
        = { vars with usersLoopUpdatedSince := some resp.Timestamp } := by
      rw [usersCycle_ok rt loop fuel vars w resp h]
      exact onWorld_pair_vars _ _ _
    refine ⟨usersCycle_ok rt loop fuel vars w resp h, hv, fun w1 => ?_⟩
    rw [hv]
    obtain ⟨evs, he⟩ := usersCycle_first_call rt loop fuel
      { vars with usersLoopUpdatedSince := some resp.Timestamp } w1
    exact ⟨_, evs, rfl, he⟩
  · have hrun := usersCycle_error rt loop fuel vars w err h
    refine ⟨hrun, fun w1 => ?_⟩
    rw [hrun]
    exact usersCycle_first_call rt loop fuel vars w1
  · simp only [SyncLoopImpl.usersCycles, M.bind_apply, M.lift_apply, Runtime.sleepOnWorld,
      SyncLoopImpl.traced_updateInterval]
    rcases loop.traced.usersCycle rt.traced fuel (vars, w) with ⟨_ | _, st⟩ <;> rfl

/-- A cycle of the tenants loop against a cloud that stamps its answers 42:
the watermark, unset before, is 42 after. -/
theorem incremental_cycle_sets_watermark_first_witness :
    ((demoSyncLoop [] [] 42).traced.tenantsCycle plainRuntime.traced 1 ({}, ({}, []))).2.1
      = { tenantsLoopUpdatedSince := some 42 } :=
  ((incremental_cycle_sets_watermark_first plainRuntime (demoSyncLoop [] [] 42) 1 {}
    ({}, [])).1.1 { After := "", Timestamp := 42, Items := [] } rfl).2.1

/-- C7 (as stated, refuted). The tenants loop holds the watermark 10 and the
cloud stamps its answer 5: after the cycle the watermark is 5, below the one
before. -/
theorem incremental_cycle_watermark_moves_back :
    ((demoSyncLoop [] [] 5).traced.tenantsCycle plainRuntime.traced 1
        ({ tenantsLoopUpdatedSince := some 10 }, ({}, []))).2.1.tenantsLoopUpdatedSince
      = some 5 ∧
    ¬ watermarkLE (some 10)
      ((demoSyncLoop [] [] 5).traced.tenantsCycle plainRuntime.traced 1
        ({ tenantsLoopUpdatedSince := some 10 }, ({}, []))).2.1.tenantsLoopUpdatedSince := by
  decide

/-- C7 (as amended). For every incremental cycle of the tenants loop and of
the users loop: if the first-page request fails the watermark is unchanged; if
it succeeds with timestamp `t` the watermark after the cycle is `t`, whatever
the watermark before, and so it is greater than or equal to the watermark
before whenever `t` is. -/
theorem incremental_cycle_watermark_follows_cloud (rt : Runtime σ) (loop : SyncLoopImpl σ)
    (fuel : Nat) (vars : SyncVars) (w : Traced σ) :
    (∀ resp, (loop.accClient.GetTenants (loop.tenantsRequest vars) w.1).1 = .ok resp →
      (loop.traced.tenantsCycle rt.traced fuel (vars, w)).2.1.tenantsLoopUpdatedSince
        = some resp.Timestamp ∧
      (watermarkLE vars.tenantsLoopUpdatedSince (some resp.Timestamp) →
        watermarkLE vars.tenantsLoopUpdatedSince
          (loop.traced.tenantsCycle rt.traced fuel (vars, w)).2.1.tenantsLoopUpdatedSince)) ∧
    (∀ err, (loop.accClient.GetTenants (loop.tenantsRequest vars) w.1).1 = .error err →
      (loop.traced.tenantsCycle rt.traced fuel (vars, w)).2.1.tenantsLoopUpdatedSince
        = vars.tenantsLoopUpdatedSince) ∧
    (∀ resp, (loop.accClient.GetUsers (loop.usersRequest vars) w.1).1 = .ok resp →
      (loop.traced.usersCycle rt.traced fuel (vars, w)).2.1.usersLoopUpdatedSince
        = some resp.Timestamp ∧
      (watermarkLE vars.usersLoopUpdatedSince (some resp.Timestamp) →
        watermarkLE vars.usersLoopUpdatedSince
          (loop.traced.usersCycle rt.traced fuel (vars, w)).2.1.usersLoopUpdatedSince)) ∧
    (∀ err, (loop.accClient.GetUsers (loop.usersRequest vars) w.1).1 = .error err →
      (loop.traced.usersCycle rt.traced fuel (vars, w)).2.1.usersLoopUpdatedSince
        = vars.usersLoopUpdatedSince) := by
  refine ⟨fun resp h => ?_, fun err h => ?_, fun resp h => ?_, fun err h => ?_⟩
  · have hv : (loop.traced.tenantsCycle rt.traced fuel (vars, w)).2.1.tenantsLoopUpdatedSince
        = some resp.Timestamp := by
      rw [tenantsCycle_ok rt loop fuel vars w resp h, onWorld_pair_vars]
    exact ⟨hv, fun hle => hv ▸ hle⟩
  · rw [tenantsCycle_error rt loop fuel vars w err h]
  · have hv : (loop.traced.usersCycle rt.traced fuel (vars, w)).2.1.usersLoopUpdatedSince
        = some resp.Timestamp := by
      rw [usersCycle_ok rt loop fuel vars w resp h, onWorld_pair_vars]
    exact ⟨hv, fun hle => hv ▸ hle⟩
  · rw [usersCycle_error rt loop fuel vars w err h]

/-- Two cycles' worth of timestamps in order: the tenants loop holds the
watermark 5 and the cloud stamps its answer 42; the watermark does not move
back. -/
theorem incremental_cycle_watermark_follows_cloud_witness :
    watermarkLE (some 5)
      ((demoSyncLoop [] [] 42).traced.tenantsCycle plainRuntime.traced 1
        ({ tenantsLoopUpdatedSince := some 5 }, ({}, []))).2.1.tenantsLoopUpdatedSince :=
  ((incremental_cycle_watermark_follows_cloud plainRuntime (demoSyncLoop [] [] 42) 1
    { tenantsLoopUpdatedSince := some 5 } ({}, [])).1
    { After := "", Timestamp := 42, Items := [] } rfl).2 (by decide)

end Watermark

section EmitsReconcile

variable {σ : Type}

theorem ofCloudRead_retried {c : Call} (h : c.ofCloudRead) : c.ofRetriedRead := by
  cases c <;> simp_all [Call.ofCloudRead, Call.ofRetriedRead]

theorem ofExternalRead_retried {c : Call} (h : c.ofExternalRead) : c.ofRetriedRead := by
  cases c <;> simp_all [Call.ofExternalRead, Call.ofRetriedRead]

theorem ofRetriedRead_notEntityDelete {c : Call} (h : c.ofRetriedRead) :
    c.notEntityDelete := by
  cases c <;> simp_all [Call.ofRetriedRead, Call.notEntityDelete]

theorem ofTenantUpsert_notEntityDelete {c : Call} (h : c.ofTenantUpsert) :
    c.notEntityDelete := by
  cases c <;> simp_all [Call.ofTenantUpsert, Call.notEntityDelete]

theorem ofUserUpsert_notEntityDelete {c : Call} (h : c.ofUserUpsert) :
    c.notEntityDelete := by
  cases c <;> simp_all [Call.ofUserUpsert, Call.notEntityDelete]

theorem ofOfferingItemWrite_notEntityDelete {c : Call} (h : c.ofOfferingItemWrite) :
    c.notEntityDelete := by
  cases c <;> simp_all [Call.ofOfferingItemWrite, Call.notEntityDelete]

theorem ofAccessPolicyWrite_notEntityDelete {c : Call} (h : c.ofAccessPolicyWrite) :
    c.notEntityDelete := by
  cases c <;> simp_all [Call.ofAccessPolicyWrite, Call.notEntityDelete]

theorem tenantsRestPages_emits (loop : ReconciliationLoop σ) (ts : Time) :
    ∀ (pages : Nat) (tenantsResp : TenantGetResponse) (accTenants : GoMap Tenant),
      Emits worldTrace Call.ofCloudRead
        (loop.traced.tenantsRestPages ts pages tenantsResp accTenants) := by
  intro pages
  induction pages with
  | zero => intro _ _; exact Emits.outOfFuel
  | succ pages ih =>
    intro tenantsResp accTenants
    unfold ReconciliationLoop.tenantsRestPages
    refine Emits.bind (GetTenantsNextPage_emits _ _) (fun r => ?_)
    repeat' first
      | exact Emits.pure _
      | exact ih _ _
      | split

theorem usersRestPages_emits (loop : ReconciliationLoop σ) (ts : Time) :
    ∀ (pages : Nat) (usersResp : UserGetResponse) (accUsers : GoMap User),
      Emits worldTrace Call.ofCloudRead
        (loop.traced.usersRestPages ts pages usersResp accUsers) := by
  intro pages
  induction pages with
  | zero => intro _ _; exact Emits.outOfFuel
  | succ pages ih =>
    intro usersResp accUsers
    unfold ReconciliationLoop.usersRestPages
    refine Emits.bind (GetUsersNextPage_emits _ _) (fun r => ?_)
    repeat' first
      | exact Emits.pure _
      | exact ih _ _
      | split

theorem getACCTenants_emits (loop : ReconciliationLoop σ) (fuel : Nat) :
    Emits worldTrace Call.ofCloudRead
      (loop.traced.getACCTenantsAndOfferingItemsForReconciliation fuel) := by
  unfold ReconciliationLoop.getACCTenantsAndOfferingItemsForReconciliation
  dsimp only
  repeat' first
    | exact Emits.pure _
    | exact Emits.record _ _ (by trivial)
    | exact tenantsRestPages_emits loop _ _ _ _
    | refine Emits.bind ?_ (fun _ => ?_)
    | split

theorem getACCUsers_emits (loop : ReconciliationLoop σ) (fuel : Nat) :
    Emits worldTrace Call.ofCloudRead
      (loop.traced.getACCUsersAndAccessPoliciesForReconciliation fuel) := by
  unfold ReconciliationLoop.getACCUsersAndAccessPoliciesForReconciliation
  dsimp only
  repeat' first
    | exact Emits.pure _
    | exact Emits.record _ _ (by trivial)
    | exact usersRestPages_emits loop _ _ _ _
    | refine Emits.bind ?_ (fun _ => ?_)
    | split

theorem externalPages_emits {I A : Type} {P : Call → Prop}
    (fetch : Nat → Nat → Traced σ → Except String (List I) × Traced σ)
    (hf : ∀ o l, Emits worldTrace P (M.lift (fetch o l)))
    (add : A → List I → A) (empty : A) (msg : String) :
    ∀ (fuel offset : Nat) (acc : A),
      Emits worldTrace P (externalPages fetch add empty msg fuel offset acc) := by
  intro fuel
  induction fuel with
  | zero => intro _ _; exact Emits.outOfFuel
  | succ fuel ih =>
    intro offset acc
    unfold externalPages
    refine Emits.bind (hf _ _) (fun r => ?_)
    repeat' first
      | exact Emits.pure _
      | exact ih _ _
      | split

theorem getExternalSystemTenantIDs_emits (loop : ReconciliationLoop σ) (fuel : Nat) :
    Emits worldTrace Call.ofExternalRead (loop.traced.getExternalSystemTenantIDs fuel) :=
  externalPages_emits _ (fun _ _ => Emits.record _ _ (by trivial)) _ _ _ _ _ _

theorem getExternalSystemOfferingItems_emits (loop : ReconciliationLoop σ) (fuel : Nat) :
    Emits worldTrace Call.ofExternalRead (loop.traced.getExternalSystemOfferingItems fuel) :=
  externalPages_emits _ (fun _ _ => Emits.record _ _ (by trivial)) _ _ _ _ _ _

theorem getExternalSystemUserIDs_emits (loop : ReconciliationLoop σ) (fuel : Nat) :
    Emits worldTrace Call.ofExternalRead (loop.traced.getExternalSystemUserIDs fuel) :=
  externalPages_emits _ (fun _ _ => Emits.record _ _ (by trivial)) _ _ _ _ _ _

theorem getExternalSystemAccessPolicies_emits (loop : ReconciliationLoop σ) (fuel : Nat) :
    Emits worldTrace Call.ofExternalRead (loop.traced.getExternalSystemAccessPolicies fuel) :=
  externalPages_emits _ (fun _ _ => Emits.record _ _ (by trivial)) _ _ _ _ _ _

theorem retriedRead_emits {L : Type} (rt : Runtime σ) (op : M (L × Traced σ) (Option String))
    (hop : Emits varsTrace Call.ofRetriedRead op) :
    Emits varsTrace Call.ofRetriedRead (retryHelper rt.traced.sleepOnWorld op) :=
  Emits.retryHelper _ _ hop (fun d => Emits.sleepOnWorld rt d (by trivial))

theorem readACCTenants_emits (loop : ReconciliationLoop σ) (fuel : Nat) :
    Emits varsTrace Call.ofRetriedRead (loop.traced.readACCTenants fuel) := by
  unfold ReconciliationLoop.readACCTenants
  exact Emits.bind ((getACCTenants_emits loop fuel).mono (fun _ h => ofCloudRead_retried h)).onWorld
    (fun _ => Emits.bind (Emits.modifyVars _) (fun _ => Emits.pure _))

theorem readExternalTenantIDs_emits (loop : ReconciliationLoop σ) (fuel : Nat) :
    Emits varsTrace Call.ofRetriedRead (loop.traced.readExternalTenantIDs fuel) := by
  unfold ReconciliationLoop.readExternalTenantIDs
  exact Emits.bind
    ((getExternalSystemTenantIDs_emits loop fuel).mono (fun _ h => ofExternalRead_retried h)).onWorld
    (fun _ => Emits.bind (Emits.modifyVars _) (fun _ => Emits.pure _))

theorem readExternalOIs_emits (loop : ReconciliationLoop σ) (fuel : Nat) :
    Emits varsTrace Call.ofRetriedRead (loop.traced.readExternalOIs fuel) := by
  unfold ReconciliationLoop.readExternalOIs
  exact Emits.bind
    ((getExternalSystemOfferingItems_emits loop fuel).mono (fun _ h => ofExternalRead_retried h)).onWorld
    (fun _ => Emits.bind (Emits.modifyVars _) (fun _ => Emits.pure _))

theorem readACCUsers_emits (loop : ReconciliationLoop σ) (fuel : Nat) :
    Emits varsTrace Call.ofRetriedRead (loop.traced.readACCUsers fuel) := by
  unfold ReconciliationLoop.readACCUsers
  exact Emits.bind ((getACCUsers_emits loop fuel).mono (fun _ h => ofCloudRead_retried h)).onWorld
    (fun _ => Emits.bind (Emits.modifyVars _) (fun _ => Emits.pure _))

theorem readExternalUserIDs_emits (loop : ReconciliationLoop σ) (fuel : Nat) :
    Emits varsTrace Call.ofRetriedRead (loop.traced.readExternalUserIDs fuel) := by
  unfold ReconciliationLoop.readExternalUserIDs
  exact Emits.bind
    ((getExternalSystemUserIDs_emits loop fuel).mono (fun _ h => ofExternalRead_retried h)).onWorld
    (fun _ => Emits.bind (Emits.modifyVars _) (fun _ => Emits.pure _))

theorem readExternalAPs_emits (loop : ReconciliationLoop σ) (fuel : Nat) :
    Emits varsTrace Call.ofRetriedRead (loop.traced.readExternalAPs fuel) := by
  unfold ReconciliationLoop.readExternalAPs
  exact Emits.bind
    ((getExternalSystemAccessPolicies_emits loop fuel).mono (fun _ h => ofExternalRead_retried h)).onWorld
    (fun _ => Emits.bind (Emits.modifyVars _) (fun _ => Emits.pure _))

theorem createOrUpdateTenants_emits (rt : Runtime σ) (loop : ReconciliationLoop σ) (fuel : Nat) :
    ∀ entries : List (String × Tenant),
      Emits worldTrace Call.ofTenantUpsert
        (loop.traced.createOrUpdateTenants rt.traced fuel entries) := by
  intro entries
  induction entries with
  | nil => exact Emits.pure _
  | cons e rest ih =>
    unfold ReconciliationLoop.createOrUpdateTenants
    exact Emits.bind (createOrUpdateTenant_emits rt _ _ _ _) (fun _ => ih)

theorem createOrUpdateUsers_emits (rt : Runtime σ) (loop : ReconciliationLoop σ) (fuel : Nat) :
    ∀ entries : List (String × User),
      Emits worldTrace Call.ofUserUpsert
        (loop.traced.createOrUpdateUsers rt.traced fuel entries) := by
  intro entries
  induction entries with
  | nil => exact Emits.pure _
  | cons e rest ih =>
    unfold ReconciliationLoop.createOrUpdateUsers
    exact Emits.bind (createOrUpdateUser_emits rt _ _ _ _) (fun _ => ih)

theorem deleteInactiveOfferingItems_emits (loop : ReconciliationLoop σ)
    (accTenants : GoMap Tenant) :
    ∀ externalOIs : List OfferingItemID,
      Emits worldTrace Call.ofOfferingItemWrite
        (loop.traced.deleteInactiveOfferingItems accTenants externalOIs) := by
  intro externalOIs
  induction externalOIs with
  | nil => exact Emits.pure _
  | cons e rest ih =>
    unfold ReconciliationLoop.deleteInactiveOfferingItems
    dsimp only
    repeat' first
      | exact Emits.pure _
      | exact Emits.record _ _ (by trivial)
      | exact ih
      | refine Emits.bind ?_ (fun _ => ?_)
      | split

theorem updateOfferingItemsOfTenant_emits (loop : ReconciliationLoop σ) :
    ∀ items : List OfferingItem,
      Emits worldTrace Call.ofOfferingItemWrite (loop.traced.updateOfferingItemsOfTenant items) := by
  intro items
  induction items with
  | nil => exact Emits.pure _
  | cons e rest ih =>
    unfold ReconciliationLoop.updateOfferingItemsOfTenant
    dsimp only
    repeat' first
      | exact Emits.pure _
      | exact Emits.record _ _ (by trivial)
      | exact ih
      | refine Emits.bind ?_ (fun _ => ?_)
      | split

theorem updateOfferingItemsOfTenants_emits (loop : ReconciliationLoop σ) :
    ∀ entries : List (String × Tenant),
      Emits worldTrace Call.ofOfferingItemWrite
        (loop.traced.updateOfferingItemsOfTenants entries) := by
  intro entries
  induction entries with
  | nil => exact Emits.pure _
  | cons e rest ih =>
    unfold ReconciliationLoop.updateOfferingItemsOfTenants
    exact Emits.bind (updateOfferingItemsOfTenant_emits loop _) (fun _ => ih)

theorem deleteAccessPolicies_emits (loop : ReconciliationLoop σ) :
    ∀ ids : List String,
      Emits worldTrace Call.ofAccessPolicyWrite (loop.traced.deleteAccessPolicies ids) := by
  intro ids
  induction ids with
  | nil => exact Emits.pure _
  | cons e rest ih =>
    unfold ReconciliationLoop.deleteAccessPolicies
    exact Emits.bind (Emits.record _ _ (by trivial)) (fun _ => ih)

theorem updateAccessPoliciesOfUser_emits (loop : ReconciliationLoop σ) :
    ∀ items : List AccessPolicy,
      Emits worldTrace Call.ofAccessPolicyWrite (loop.traced.updateAccessPoliciesOfUser items) := by
  intro items
  induction items with
  | nil => exact Emits.pure _
  | cons e rest ih =>
    unfold ReconciliationLoop.updateAccessPoliciesOfUser
    dsimp only
    repeat' first
      | exact Emits.pure _
      | exact Emits.record _ _ (by trivial)
      | exact ih
      | refine Emits.bind ?_ (fun _ => ?_)
      | split

theorem updateAccessPoliciesOfUsers_emits (loop : ReconciliationLoop σ) :
    ∀ entries : List (String × User),
      Emits worldTrace Call.ofAccessPolicyWrite
        (loop.traced.updateAccessPoliciesOfUsers entries) := by
  intro entries
  induction entries with
  | nil => exact Emits.pure _
  | cons e rest ih =>
    unfold ReconciliationLoop.updateAccessPoliciesOfUsers
    exact Emits.bind (updateAccessPoliciesOfUser_emits loop _) (fun _ => ih)

theorem upsertTenantsAndOfferingItems_emits (rt : Runtime σ) (loop : ReconciliationLoop σ)
    (fuel : Nat) :
    Emits varsTrace Call.notEntityDelete
      (loop.traced.upsertTenantsAndOfferingItems rt.traced fuel) := by
  unfold ReconciliationLoop.upsertTenantsAndOfferingItems
  refine Emits.bind Emits.getVars (fun v => ?_)
  refine Emits.bind
    ((createOrUpdateTenants_emits rt loop fuel _).mono
      (fun _ h => ofTenantUpsert_notEntityDelete h)).onWorld
    (fun _ => ?_)
  refine Emits.bind
    ((retriedRead_emits rt _ (readExternalOIs_emits loop fuel)).mono
      (fun _ h => ofRetriedRead_notEntityDelete h)) (fun err => ?_)
  split
  · exact Emits.bind Emits.getVars (fun _ => Emits.pure _)
  · refine Emits.bind Emits.getVars (fun v => ?_)
    refine Emits.bind
      ((deleteInactiveOfferingItems_emits loop _ _).mono
        (fun _ h => ofOfferingItemWrite_notEntityDelete h)).onWorld (fun _ => ?_)
    refine Emits.bind
      ((updateOfferingItemsOfTenants_emits loop _).mono
        (fun _ h => ofOfferingItemWrite_notEntityDelete h)).onWorld (fun _ => Emits.pure _)

theorem upsertUsersAndAccessPolicies_emits (rt : Runtime σ) (loop : ReconciliationLoop σ)
    (fuel : Nat) :
    Emits varsTrace Call.notEntityDelete
      (loop.traced.upsertUsersAndAccessPolicies rt.traced fuel) := by
  unfold ReconciliationLoop.upsertUsersAndAccessPolicies
  refine Emits.bind Emits.getVars (fun v => ?_)
  refine Emits.bind
    ((createOrUpdateUsers_emits rt loop fuel _).mono
      (fun _ h => ofUserUpsert_notEntityDelete h)).onWorld
    (fun _ => ?_)
  refine Emits.bind
    ((retriedRead_emits rt _ (readExternalAPs_emits loop fuel)).mono
      (fun _ h => ofRetriedRead_notEntityDelete h)) (fun err => ?_)
  split
  · exact Emits.bind Emits.getVars (fun _ => Emits.pure _)
  · refine Emits.bind Emits.getVars (fun v => ?_)
    refine Emits.bind
      ((deleteAccessPolicies_emits loop _).mono
        (fun _ h => ofAccessPolicyWrite_notEntityDelete h)).onWorld (fun _ => ?_)
    refine Emits.bind
      ((updateAccessPoliciesOfUsers_emits loop _).mono
        (fun _ h => ofAccessPolicyWrite_notEntityDelete h)).onWorld (fun _ => Emits.pure _)

end EmitsReconcile

section Orphans

variable {σ : Type}

theorem GoMap.get?_isNone_iff {V : Type} (m : GoMap V) (k : String) :
    (m.get? k).isNone = true ↔ k ∉ m.keys := by
  simp only [GoMap.get?, GoMap.keys, Option.isNone_iff_eq_none, List.lookup_eq_none_iff,
    List.mem_map, not_exists, not_and]
  constructor
  · intro h e he hk
    have := h e he
    rw [hk] at this
    simp at this
  · intro h e he
    have := h e he
    rw [bne_iff_ne]
    exact fun hk => this hk.symm

theorem removeNonExistingTenants_trace (loop : ReconciliationLoop σ) (accTenants : GoMap Tenant) :
    ∀ (ids : List String) (w : Traced σ),
      (loop.traced.removeNonExistingTenants accTenants ids w).1 = some () ∧
      calls (loop.traced.removeNonExistingTenants accTenants ids w).2
        = calls w ++ (ids.filter (fun id => decide (id ∉ accTenants.keys))).map Call.DeleteTenant := by
  intro ids
  induction ids with
  | nil => intro w; simp [ReconciliationLoop.removeNonExistingTenants]
  | cons id rest ih =>
    intro w
    by_cases h : id ∈ accTenants.keys
    · have hn : ¬ (accTenants.get? id).isNone = true :=
        fun hn => ((GoMap.get?_isNone_iff _ _).1 hn) h
      have := ih w
      simpa [ReconciliationLoop.removeNonExistingTenants, hn, h, calls] using this
    · have hn : (accTenants.get? id).isNone = true := (GoMap.get?_isNone_iff _ _).2 h
      have := ih ((loop.extClient.DeleteTenant id w.1).2, w.2 ++ [⟨.DeleteTenant id, w.1⟩])
      simpa [ReconciliationLoop.removeNonExistingTenants, hn, h, calls] using this

theorem removeNonExistingUsers_trace (loop : ReconciliationLoop σ) (accUsers : GoMap User) :
    ∀ (ids : List String) (w : Traced σ),
      (loop.traced.removeNonExistingUsers accUsers ids w).1 = some () ∧
      calls (loop.traced.removeNonExistingUsers accUsers ids w).2
        = calls w ++ (ids.filter (fun id => decide (id ∉ accUsers.keys))).map Call.DeleteUser := by
  intro ids
  induction ids with
  | nil => intro w; simp [ReconciliationLoop.removeNonExistingUsers]
  | cons id rest ih =>
    intro w
    by_cases h : id ∈ accUsers.keys
    · have hn : ¬ (accUsers.get? id).isNone = true :=
        fun hn => ((GoMap.get?_isNone_iff _ _).1 hn) h
      have := ih w
      simpa [ReconciliationLoop.removeNonExistingUsers, hn, h, calls] using this
    · have hn : (accUsers.get? id).isNone = true := (GoMap.get?_isNone_iff _ _).2 h
      have := ih ((loop.extClient.DeleteUser id w.1).2, w.2 ++ [⟨.DeleteUser id, w.1⟩])
      simpa [ReconciliationLoop.removeNonExistingUsers, hn, h, calls] using this

/-- The number of times `k` is visited by a `range` over a map, among the keys
that pass `p`. -/
theorem count_rangeOrder_filter {V : Type} (rt : Runtime σ) (site : Nat) (m : GoMap V)
    (p : String → Bool) (k : String) :
    (((rt.rangeOrder site m.entries).map Prod.fst).filter p).count k
      = if k ∈ m.keys ∧ p k = true then 1 else 0 := by
  have hperm : ((rt.rangeOrder site m.entries).map Prod.fst).Perm m.keys :=
    (rt.rangeOrder_perm site m.entries).map Prod.fst
  have hnodup : ((rt.rangeOrder site m.entries).map Prod.fst).Nodup :=
    hperm.nodup_iff.2 m.nodup
  have hmem : k ∈ (rt.rangeOrder site m.entries).map Prod.fst ↔ k ∈ m.keys := hperm.mem_iff
  rw [List.count_eq_of_nodup (hnodup.filter _)]
  simp only [List.mem_filter, hmem]

theorem count_calls_eq_zero (evs : List (Event σ)) (c : Call) (P : Call → Prop)
    (h : ∀ ev ∈ evs, P ev.call) (hc : ¬ P c) : (evs.map Event.call).count c = 0 := by
  rw [List.count_eq_zero]
  intro hmem
  obtain ⟨ev, hev, rfl⟩ := List.mem_map.1 hmem
  exact hc (h ev hev)

theorem retryLoop_preserves {τ : Type} (I : τ → Prop) (sleep : Duration → τ → τ)
    (userFunction : M τ (Option String)) (hop : ∀ s, I s → I (userFunction s).2)
    (hsleep : ∀ d s, I s → I (sleep d s)) :
    ∀ (n i : Nat) (b : Duration) (err : Option String) (s : τ),
      I s → I (retryLoop sleep userFunction n i b err s).2 := by
  intro n
  induction n with
  | zero => intro i b err s hs; simpa [retryLoop] using hs
  | succ n ih =>
    intro i b err s hs
    have h1 := hop s hs
    simp only [retryLoop, M.bind_apply]
    rcases hrun : userFunction s with ⟨r, s1⟩
    rw [hrun] at h1
    rcases r with _ | _ | e
    · exact h1
    · exact h1
    · simp only
      split
      · exact h1
      · exact ih _ _ _ _ (hsleep _ _ h1)

theorem retryHelper_preserves {τ : Type} (I : τ → Prop) (sleep : Duration → τ → τ)
    (userFunction : M τ (Option String)) (hop : ∀ s, I s → I (userFunction s).2)
    (hsleep : ∀ d s, I s → I (sleep d s)) (s : τ) (hs : I s) :
    I (retryHelper sleep userFunction s).2 :=
  retryLoop_preserves I sleep userFunction hop hsleep _ _ _ _ s hs

theorem readExternalTenantIDs_keeps_accTenants (loop : ReconciliationLoop σ) (fuel : Nat)
    (st : TenantsVars × σ) :
    (loop.readExternalTenantIDs fuel st).2.1.accTenants = st.1.accTenants := by
  simp only [ReconciliationLoop.readExternalTenantIDs, M.bind_apply, M.onWorld_apply]
  rcases (loop.getExternalSystemTenantIDs fuel st.2).1 with _ | r <;> rfl

theorem readExternalUserIDs_keeps_accUsers (loop : ReconciliationLoop σ) (fuel : Nat)
    (st : UsersVars × σ) :
    (loop.readExternalUserIDs fuel st).2.1.accUsers = st.1.accUsers := by
  simp only [ReconciliationLoop.readExternalUserIDs, M.bind_apply, M.onWorld_apply]
  rcases (loop.getExternalSystemUserIDs fuel st.2).1 with _ | r <;> rfl

theorem reconcileTenants_deletes (rt : Runtime σ) (loop : ReconciliationLoop σ) (fuel : Nat)
    (s : σ) (v1 v2 : TenantsVars) (w1 w2 : Traced σ)
    (h1 : retryHelper rt.traced.sleepOnWorld (loop.traced.readACCTenants fuel) ({}, (s, []))
      = (some none, (v1, w1)))
    (h2 : retryHelper rt.traced.sleepOnWorld (loop.traced.readExternalTenantIDs fuel) (v1, w1)
      = (some none, (v2, w2))) :
    v2.accTenants = v1.accTenants ∧
    ∀ id, (calls (loop.traced.reconcileTenantsAndOfferingItems rt.traced fuel (s, [])).2).count
        (.DeleteTenant id)
      = if id ∈ v2.externalTenantIDs.keys ∧ id ∉ v1.accTenants.keys then 1 else 0 := by
  -- the second read leaves the cloud map alone
  have hacc : v2.accTenants = v1.accTenants := by
    have := retryHelper_preserves (fun st : TenantsVars × Traced σ => st.1.accTenants = v1.accTenants)
      rt.traced.sleepOnWorld (loop.traced.readExternalTenantIDs fuel)
      (fun st hst => (readExternalTenantIDs_keeps_accTenants _ fuel st).trans hst)
      (fun _ _ hst => hst) (v1, w1) rfl
    rw [h2] at this
    exact this
  refine ⟨hacc, fun id => ?_⟩
  -- the reads only read
  obtain ⟨evs1, he1, hp1⟩ := retriedRead_emits rt _ (readACCTenants_emits loop fuel)
    (({} : TenantsVars), ((s, []) : Traced σ))
  rw [h1] at he1
  obtain ⟨evs2, he2, hp2⟩ := retriedRead_emits rt _ (readExternalTenantIDs_emits loop fuel) (v1, w1)
  rw [h2] at he2
  simp only [varsTrace, List.nil_append] at he1 he2
  -- step 3
  have h3 := removeNonExistingTenants_trace loop v2.accTenants
    ((rt.rangeOrder 0 v2.externalTenantIDs.entries).map Prod.fst) w2
  rcases hrm : loop.traced.removeNonExistingTenants v2.accTenants
    ((rt.rangeOrder 0 v2.externalTenantIDs.entries).map Prod.fst) w2 with ⟨r, w3⟩
  rw [hrm] at h3
  obtain ⟨hfin, hcalls⟩ := h3
  simp only at hfin hcalls
  subst hfin
  -- steps 4 to 7
  obtain ⟨evs4, he4, hp4⟩ := upsertTenantsAndOfferingItems_emits rt loop fuel (v2, w3)
  simp only [varsTrace] at he4
  have hrun : (loop.traced.reconcileTenantsAndOfferingItems rt.traced fuel (s, [])).2
      = (loop.traced.upsertTenantsAndOfferingItems rt.traced fuel (v2, w3)).2.2 := by
    simp [ReconciliationLoop.reconcileTenantsAndOfferingItems,
      ReconciliationLoop.reconcileTenantsBody, ReconciliationLoop.applyTenants, h1, h2, hrm]
  have hall : calls (loop.traced.reconcileTenantsAndOfferingItems rt.traced fuel (s, [])).2
      = (evs1 ++ evs2).map Event.call
        ++ (((rt.rangeOrder 0 v2.externalTenantIDs.entries).map Prod.fst).filter
              (fun id => decide (id ∉ v2.accTenants.keys))).map Call.DeleteTenant
        ++ evs4.map Event.call := by
    have hc3 : w3.2.map Event.call = _ := hcalls
    rw [hrun]
    simp only [calls, he4, List.map_append, hc3, he2, he1]
  rw [hall, List.count_append, List.count_append,
    count_calls_eq_zero (evs1 ++ evs2) (.DeleteTenant id) Call.ofRetriedRead
      (fun ev hev => (List.mem_append.1 hev).elim (hp1 ev) (hp2 ev))
      (by simp [Call.ofRetriedRead]),
    count_calls_eq_zero evs4 (.DeleteTenant id) Call.notEntityDelete hp4
      (by simp [Call.notEntityDelete]),
    List.count_map_of_injective _ _ (fun a b h => by injection h),
    count_rangeOrder_filter, hacc]
  simp

theorem reconcileUsers_deletes (rt : Runtime σ) (loop : ReconciliationLoop σ) (fuel : Nat)
    (s : σ) (v1 v2 : UsersVars) (w1 w2 : Traced σ)
    (h1 : retryHelper rt.traced.sleepOnWorld (loop.traced.readACCUsers fuel) ({}, (s, []))
      = (some none, (v1, w1)))
    (h2 : retryHelper rt.traced.sleepOnWorld (loop.traced.readExternalUserIDs fuel) (v1, w1)
      = (some none, (v2, w2))) :
    v2.accUsers = v1.accUsers ∧
    ∀ id, (calls (loop.traced.reconcileUsersAndAccessPolicies rt.traced fuel (s, [])).2).count
        (.DeleteUser id)
      = if id ∈ v2.externalUserIDs.keys ∧ id ∉ v1.accUsers.keys then 1 else 0 := by
  -- the second read leaves the cloud map alone
  have hacc : v2.accUsers = v1.accUsers := by
    have := retryHelper_preserves (fun st : UsersVars × Traced σ => st.1.accUsers = v1.accUsers)
      rt.traced.sleepOnWorld (loop.traced.readExternalUserIDs fuel)
      (fun st hst => (readExternalUserIDs_keeps_accUsers _ fuel st).trans hst)
      (fun _ _ hst => hst) (v1, w1) rfl
    rw [h2] at this
    exact this
  refine ⟨hacc, fun id => ?_⟩
  -- the reads only read
  obtain ⟨evs1, he1, hp1⟩ := retriedRead_emits rt _ (readACCUsers_emits loop fuel)
    (({} : UsersVars), ((s, []) : Traced σ))
  rw [h1] at he1
  obtain ⟨evs2, he2, hp2⟩ := retriedRead_emits rt _ (readExternalUserIDs_emits loop fuel) (v1, w1)
  rw [h2] at he2
  simp only [varsTrace, List.nil_append] at he1 he2
  -- step 3
  have h3 := removeNonExistingUsers_trace loop v2.accUsers
    ((rt.rangeOrder 6 v2.externalUserIDs.entries).map Prod.fst) w2
  rcases hrm : loop.traced.removeNonExistingUsers v2.accUsers
    ((rt.rangeOrder 6 v2.externalUserIDs.entries).map Prod.fst) w2 with ⟨r, w3⟩
  rw [hrm] at h3
  obtain ⟨hfin, hcalls⟩ := h3
  simp only at hfin hcalls
  subst hfin
  -- steps 4 to 7
  obtain ⟨evs4, he4, hp4⟩ := upsertUsersAndAccessPolicies_emits rt loop fuel (v2, w3)
  simp only [varsTrace] at he4
  have hrun : (loop.traced.reconcileUsersAndAccessPolicies rt.traced fuel (s, [])).2
      = (loop.traced.upsertUsersAndAccessPolicies rt.traced fuel (v2, w3)).2.2 := by
    simp [ReconciliationLoop.reconcileUsersAndAccessPolicies,
      ReconciliationLoop.reconcileUsersBody, ReconciliationLoop.applyUsers, h1, h2, hrm]
  have hall : calls (loop.traced.reconcileUsersAndAccessPolicies rt.traced fuel (s, [])).2
      = (evs1 ++ evs2).map Event.call
        ++ (((rt.rangeOrder 6 v2.externalUserIDs.entries).map Prod.fst).filter
              (fun id => decide (id ∉ v2.accUsers.keys))).map Call.DeleteUser
        ++ evs4.map Event.call := by
    have hc3 : w3.2.map Event.call = _ := hcalls
    rw [hrun]
    simp only [calls, he4, List.map_append, hc3, he2, he1]
  rw [hall, List.count_append, List.count_append,
    count_calls_eq_zero (evs1 ++ evs2) (.DeleteUser id) Call.ofRetriedRead
      (fun ev hev => (List.mem_append.1 hev).elim (hp1 ev) (hp2 ev))
      (by simp [Call.ofRetriedRead]),
    count_calls_eq_zero evs4 (.DeleteUser id) Call.notEntityDelete hp4
      (by simp [Call.notEntityDelete]),
    List.count_map_of_injective _ _ (fun a b h => by injection h),
    count_rangeOrder_filter, hacc]
  simp

/-- C1 (orphan deletion). For every reconciliation cycle, of tenants and of
users alike, whatever the collaborators answer and whatever order `range`
follows: if the cloud read succeeds, leaving the cloud map, and the external id
read succeeds, leaving the set of external ids, then over the whole cycle the
external delete (`DeleteTenant`, `DeleteUser`) is called exactly once for each
external id that is not a key of the cloud map and never for any other id.
Deletes may fail: the count holds for every external system. -/
theorem reconcile_deletes_exactly_the_orphans (rt : Runtime σ) (loop : ReconciliationLoop σ)
    (fuel : Nat) (s : σ) :
    (∀ (v1 v2 : TenantsVars) (w1 w2 : Traced σ),
      retryHelper rt.traced.sleepOnWorld (loop.traced.readACCTenants fuel) ({}, (s, []))
        = (some none, (v1, w1)) →
      retryHelper rt.traced.sleepOnWorld (loop.traced.readExternalTenantIDs fuel) (v1, w1)
        = (some none, (v2, w2)) →
      v2.accTenants = v1.accTenants ∧
      ∀ id, (calls (loop.traced.reconcileTenantsAndOfferingItems rt.traced fuel (s, [])).2).count
          (.DeleteTenant id)
        = if id ∈ v2.externalTenantIDs.keys ∧ id ∉ v1.accTenants.keys then 1 else 0) ∧
    (∀ (v1 v2 : UsersVars) (w1 w2 : Traced σ),
      retryHelper rt.traced.sleepOnWorld (loop.traced.readACCUsers fuel) ({}, (s, []))
        = (some none, (v1, w1)) →
      retryHelper rt.traced.sleepOnWorld (loop.traced.readExternalUserIDs fuel) (v1, w1)
        = (some none, (v2, w2)) →
      v2.accUsers = v1.accUsers ∧
      ∀ id, (calls (loop.traced.reconcileUsersAndAccessPolicies rt.traced fuel (s, [])).2).count
          (.DeleteUser id)
        = if id ∈ v2.externalUserIDs.keys ∧ id ∉ v1.accUsers.keys then 1 else 0) :=
  ⟨fun v1 v2 w1 w2 h1 h2 => reconcileTenants_deletes rt loop fuel s v1 v2 w1 w2 h1 h2,
   fun v1 v2 w1 w2 h1 h2 => reconcileUsers_deletes rt loop fuel s v1 v2 w1 w2 h1 h2⟩

/-- The third end-to-end scenario: the external system holds the tenants `A`,
`B` and `C`, the cloud only `A` and `B`: the cycle deletes `C` once. -/
theorem reconcile_deletes_exactly_the_orphans_witness :
    (calls ((demoReconciliationLoop
        [{ ID := "A", ParentID := "A", DeletedAt := 0, OfferingItems := [] },
         { ID := "B", ParentID := "A", DeletedAt := 0, OfferingItems := [] }] [] 7).traced
        |>.reconcileTenantsAndOfferingItems plainRuntime.traced 3
          ({ tenants := ["A", "B", "C"] }, [])).2).count (.DeleteTenant "C") = 1 := by
  have h := ((reconcile_deletes_exactly_the_orphans plainRuntime
      (demoReconciliationLoop
        [{ ID := "A", ParentID := "A", DeletedAt := 0, OfferingItems := [] },
         { ID := "B", ParentID := "A", DeletedAt := 0, OfferingItems := [] }] [] 7) 3
      { tenants := ["A", "B", "C"] }).1
      _ _ _ _ (Prod.ext (by decide) rfl) (Prod.ext (by decide) rfl)).2 "C"
  rw [h]
  decide

end Orphans

section AccessPolicyOrphans

variable {σ : Type}

theorem GoMap.mem_keys_delete {V : Type} (m : GoMap V) (k x : String) :
    x ∈ (m.delete k).keys ↔ x ∈ m.keys ∧ x ≠ k := by
  simp only [GoMap.delete, GoMap.keys, GoMap.without, List.mem_map, List.mem_filter,
    bne_iff_ne, ne_eq]
  constructor
  · rintro ⟨e, ⟨he, hk⟩, rfl⟩
    exact ⟨⟨e, he, rfl⟩, hk⟩
  · rintro ⟨⟨e, he, rfl⟩, hk⟩
    exact ⟨e, ⟨he, hk⟩, rfl⟩

theorem mem_keys_keepActivePolicies (policies : List AccessPolicy) :
    ∀ (m : GoMap Unit) (x : String),
      x ∈ (ReconciliationLoop.keepActivePolicies m policies).keys
        ↔ x ∈ m.keys ∧ ¬ ∃ p ∈ policies, p.DeletedAt = none ∧ p.ID = x := by
  induction policies with
  | nil => intro m x; simp [ReconciliationLoop.keepActivePolicies]
  | cons p rest ih =>
    intro m x
    have hstep : ReconciliationLoop.keepActivePolicies m (p :: rest)
        = ReconciliationLoop.keepActivePolicies
            (if p.DeletedAt ≠ none then m else m.delete p.ID) rest := rfl
    rw [hstep, ih]
    by_cases hp : p.DeletedAt = none
    · simp only [hp, ne_eq, not_true_eq_false, if_false, GoMap.mem_keys_delete,
        List.mem_cons, exists_eq_or_imp, true_and, not_or]
      constructor
      · rintro ⟨⟨h1, h2⟩, h3⟩
        exact ⟨h1, fun h => h2 h.symm, h3⟩
      · rintro ⟨h1, h2, h3⟩
        exact ⟨⟨h1, fun h => h2 h.symm⟩, h3⟩
    · simp [hp]

theorem mem_keys_keepActivePolicies_users (users : List (String × User)) :
    ∀ (m : GoMap Unit) (x : String),
      x ∈ (users.foldl (fun m entry =>
              ReconciliationLoop.keepActivePolicies m entry.2.AccessPolicies) m).keys
        ↔ x ∈ m.keys ∧ ¬ ∃ e ∈ users, ∃ p ∈ e.2.AccessPolicies, p.DeletedAt = none ∧ p.ID = x := by
  induction users with
  | nil => intro m x; simp
  | cons e rest ih =>
    intro m x
    rw [List.foldl_cons, ih, mem_keys_keepActivePolicies]
    simp only [List.mem_cons, exists_eq_or_imp, not_or, and_assoc]

theorem deleteAccessPolicies_trace (loop : ReconciliationLoop σ) :
    ∀ (ids : List String) (w : Traced σ),
      (loop.traced.deleteAccessPolicies ids w).1 = some () ∧
      calls (loop.traced.deleteAccessPolicies ids w).2
        = calls w ++ ids.map Call.DeleteAccessPolicy := by
  intro ids
  induction ids with
  | nil => intro w; simp [ReconciliationLoop.deleteAccessPolicies]
  | cons id rest ih =>
    intro w
    have := ih ((loop.extClient.DeleteAccessPolicy id w.1).2,
      w.2 ++ [⟨.DeleteAccessPolicy id, w.1⟩])
    simpa [ReconciliationLoop.deleteAccessPolicies, calls] using this

/-- C11 (access-policy orphans). For every cloud map of users and every set of
external access-policy ids, whatever the external system answers and whatever
order `range` follows, `deleteInactiveAccessPolicies` finishes, calls nothing
but `DeleteAccessPolicy`, and calls it exactly once for each external policy
id that is not the id of an access policy with a null `deleted_at` of some
user of the cloud map, and never for any other id. -/
theorem deleteInactiveAccessPolicies_deletes_exactly_inactive (rt : Runtime σ)
    (loop : ReconciliationLoop σ) (s : σ) (accUsers : GoMap User) (externalAPs : GoMap Unit) :
    (loop.traced.deleteInactiveAccessPolicies rt.traced accUsers externalAPs (s, [])).1
      = some () ∧
    (∀ c ∈ calls (loop.traced.deleteInactiveAccessPolicies rt.traced accUsers externalAPs
        (s, [])).2, ∃ id, c = .DeleteAccessPolicy id) ∧
    ∀ id, (calls (loop.traced.deleteInactiveAccessPolicies rt.traced accUsers externalAPs
        (s, [])).2).count (.DeleteAccessPolicy id)
      = if id ∈ externalAPs.keys ∧ ¬ AliveAccessPolicy accUsers id then 1 else 0 := by
  have h := deleteAccessPolicies_trace loop
    ((rt.rangeOrder 4 ((rt.rangeOrder 3 accUsers.entries).foldl
      (fun m entry => ReconciliationLoop.keepActivePolicies m entry.2.AccessPolicies)
      externalAPs).entries).map Prod.fst) (s, [])
  have hc : calls (loop.traced.deleteInactiveAccessPolicies rt.traced accUsers externalAPs
        (s, [])).2
      = ((rt.rangeOrder 4 ((rt.rangeOrder 3 accUsers.entries).foldl
          (fun m entry => ReconciliationLoop.keepActivePolicies m entry.2.AccessPolicies)
          externalAPs).entries).map Prod.fst).map Call.DeleteAccessPolicy := by
    simpa [ReconciliationLoop.deleteInactiveAccessPolicies] using h.2
  refine ⟨h.1, ?_, fun id => ?_⟩
  · intro c hcm
    rw [hc] at hcm
    obtain ⟨id, -, rfl⟩ := List.mem_map.1 hcm
    exact ⟨id, rfl⟩
  · rw [hc, List.count_map_of_injective _ _ (fun a b hab => by injection hab)]
    have hcount := count_rangeOrder_filter rt 4 ((rt.rangeOrder 3 accUsers.entries).foldl
      (fun m entry => ReconciliationLoop.keepActivePolicies m entry.2.AccessPolicies)
      externalAPs) (fun _ => true) id
    rw [List.filter_true] at hcount
    rw [hcount]
    have hmem : ∀ e, e ∈ rt.rangeOrder 3 accUsers.entries ↔ e ∈ accUsers.entries :=
      fun e => (rt.rangeOrder_perm 3 accUsers.entries).mem_iff
    simp only [mem_keys_keepActivePolicies_users, hmem, AliveAccessPolicy, and_true]

end AccessPolicyOrphans

section ReconcileRuns

variable {σ : Type}

theorem removeNonExistingTenants_total (loop : ReconciliationLoop σ) (accTenants : GoMap Tenant) :
    ∀ (ids : List String) (s : σ), (loop.removeNonExistingTenants accTenants ids s).1 = some () := by
  intro ids
  induction ids with
  | nil => intro s; rfl
  | cons id rest ih =>
    intro s
    unfold ReconciliationLoop.removeNonExistingTenants
    split <;> simp [ih]

theorem removeNonExistingUsers_total (loop : ReconciliationLoop σ) (accUsers : GoMap User) :
    ∀ (ids : List String) (s : σ), (loop.removeNonExistingUsers accUsers ids s).1 = some () := by
  intro ids
  induction ids with
  | nil => intro s; rfl
  | cons id rest ih =>
    intro s
    unfold ReconciliationLoop.removeNonExistingUsers
    split <;> simp [ih]

theorem deleteInactiveOfferingItems_total (loop : ReconciliationLoop σ)
    (accTenants : GoMap Tenant) :
    ∀ (ois : List OfferingItemID) (s : σ),
      (loop.deleteInactiveOfferingItems accTenants ois s).1 = some () := by
  intro ois
  induction ois with
  | nil => intro s; rfl
  | cons e rest ih =>
    intro s
    unfold ReconciliationLoop.deleteInactiveOfferingItems
    split <;> simp [ih]

theorem updateOfferingItemsOfTenant_total (loop : ReconciliationLoop σ) :
    ∀ (items : List OfferingItem) (s : σ),
      (loop.updateOfferingItemsOfTenant items s).1 = some () := by
  intro items
  induction items with
  | nil => intro s; rfl
  | cons e rest ih =>
    intro s
    unfold ReconciliationLoop.updateOfferingItemsOfTenant
    split <;> simp [ih]

theorem updateOfferingItemsOfTenants_total (loop : ReconciliationLoop σ) :
    ∀ (entries : List (String × Tenant)) (s : σ),
      (loop.updateOfferingItemsOfTenants entries s).1 = some () := by
  intro entries
  induction entries with
  | nil => intro s; rfl
  | cons e rest ih =>
    intro s
    have h := updateOfferingItemsOfTenant_total loop e.2.OfferingItems s
    rcases hrun : loop.updateOfferingItemsOfTenant e.2.OfferingItems s with ⟨r, s1⟩
    rw [hrun] at h
    simp only at h
    subst h
    simp [ReconciliationLoop.updateOfferingItemsOfTenants, hrun, ih]

theorem deleteAccessPolicies_total (loop : ReconciliationLoop σ) :
    ∀ (ids : List String) (s : σ), (loop.deleteAccessPolicies ids s).1 = some () := by
  intro ids
  induction ids with
  | nil => intro s; rfl
  | cons id rest ih =>
    intro s
    simp [ReconciliationLoop.deleteAccessPolicies, ih]

theorem updateAccessPoliciesOfUser_total (loop : ReconciliationLoop σ) :
    ∀ (items : List AccessPolicy) (s : σ),
      (loop.updateAccessPoliciesOfUser items s).1 = some () := by
  intro items
  induction items with
  | nil => intro s; rfl
  | cons e rest ih =>
    intro s
    unfold ReconciliationLoop.updateAccessPoliciesOfUser
    split <;> simp [ih]

theorem updateAccessPoliciesOfUsers_total (loop : ReconciliationLoop σ) :
    ∀ (entries : List (String × User)) (s : σ),
      (loop.updateAccessPoliciesOfUsers entries s).1 = some () := by
  intro entries
  induction entries with
  | nil => intro s; rfl
  | cons e rest ih =>
    intro s
    have h := updateAccessPoliciesOfUser_total loop e.2.AccessPolicies s
    rcases hrun : loop.updateAccessPoliciesOfUser e.2.AccessPolicies s with ⟨r, s1⟩
    rw [hrun] at h
    simp only at h
    subst h
    simp [ReconciliationLoop.updateAccessPoliciesOfUsers, hrun, ih]

/-- A total computation, as a pair. -/
theorem M.eq_of_total {α : Type} {m : M σ α} {s : σ} {a : α} (h : (m s).1 = some a) :
    m s = (some a, (m s).2) :=
  Prod.ext h rfl

theorem readExternalTenantIDs_keeps (loop : ReconciliationLoop σ) (fuel : Nat)
    (st : TenantsVars × σ) :
    (loop.readExternalTenantIDs fuel st).2.1.accTenants = st.1.accTenants ∧
    (loop.readExternalTenantIDs fuel st).2.1.nextUpdateTimestamp = st.1.nextUpdateTimestamp := by
  simp only [ReconciliationLoop.readExternalTenantIDs, M.bind_apply, M.onWorld_apply]
  rcases (loop.getExternalSystemTenantIDs fuel st.2).1 with _ | r <;> exact ⟨rfl, rfl⟩

theorem readExternalOIs_keeps (loop : ReconciliationLoop σ) (fuel : Nat)
    (st : TenantsVars × σ) :
    (loop.readExternalOIs fuel st).2.1.accTenants = st.1.accTenants ∧
    (loop.readExternalOIs fuel st).2.1.nextUpdateTimestamp = st.1.nextUpdateTimestamp := by
  simp only [ReconciliationLoop.readExternalOIs, M.bind_apply, M.onWorld_apply]
  rcases (loop.getExternalSystemOfferingItems fuel st.2).1 with _ | r <;> exact ⟨rfl, rfl⟩

theorem readExternalUserIDs_keeps (loop : ReconciliationLoop σ) (fuel : Nat)
    (st : UsersVars × σ) :
    (loop.readExternalUserIDs fuel st).2.1.accUsers = st.1.accUsers ∧
    (loop.readExternalUserIDs fuel st).2.1.nextUpdateTimestamp = st.1.nextUpdateTimestamp := by
  simp only [ReconciliationLoop.readExternalUserIDs, M.bind_apply, M.onWorld_apply]
  rcases (loop.getExternalSystemUserIDs fuel st.2).1 with _ | r <;> exact ⟨rfl, rfl⟩

theorem readExternalAPs_keeps (loop : ReconciliationLoop σ) (fuel : Nat)
    (st : UsersVars × σ) :
    (loop.readExternalAPs fuel st).2.1.accUsers = st.1.accUsers ∧
    (loop.readExternalAPs fuel st).2.1.nextUpdateTimestamp = st.1.nextUpdateTimestamp := by
  simp only [ReconciliationLoop.readExternalAPs, M.bind_apply, M.onWorld_apply]
  rcases (loop.getExternalSystemAccessPolicies fuel st.2).1 with _ | r <;> exact ⟨rfl, rfl⟩

/-- What a retried read of the external system leaves of the variables of a
tenants cycle. -/
theorem retried_keeps_tenants (rt : Runtime σ) (op : M (TenantsVars × σ) (Option String))
    (hop : ∀ st, (op st).2.1.accTenants = st.1.accTenants ∧
      (op st).2.1.nextUpdateTimestamp = st.1.nextUpdateTimestamp)
    (st : TenantsVars × σ) :
    (retryHelper rt.sleepOnWorld op st).2.1.accTenants = st.1.accTenants ∧
    (retryHelper rt.sleepOnWorld op st).2.1.nextUpdateTimestamp = st.1.nextUpdateTimestamp :=
  retryHelper_preserves
    (fun x : TenantsVars × σ => x.1.accTenants = st.1.accTenants ∧
      x.1.nextUpdateTimestamp = st.1.nextUpdateTimestamp)
    rt.sleepOnWorld op
    (fun x hx => ⟨(hop x).1.trans hx.1, (hop x).2.trans hx.2⟩)
    (fun _ _ hx => hx) st ⟨rfl, rfl⟩

theorem retried_keeps_users (rt : Runtime σ) (op : M (UsersVars × σ) (Option String))
    (hop : ∀ st, (op st).2.1.accUsers = st.1.accUsers ∧
      (op st).2.1.nextUpdateTimestamp = st.1.nextUpdateTimestamp)
    (st : UsersVars × σ) :
    (retryHelper rt.sleepOnWorld op st).2.1.accUsers = st.1.accUsers ∧
    (retryHelper rt.sleepOnWorld op st).2.1.nextUpdateTimestamp = st.1.nextUpdateTimestamp :=
  retryHelper_preserves
    (fun x : UsersVars × σ => x.1.accUsers = st.1.accUsers ∧
      x.1.nextUpdateTimestamp = st.1.nextUpdateTimestamp)
    rt.sleepOnWorld op
    (fun x hx => ⟨(hop x).1.trans hx.1, (hop x).2.trans hx.2⟩)
    (fun _ _ hx => hx) st ⟨rfl, rfl⟩

/-- A tenants cycle whose three reads succeed and whose step 4 returns, as
the composition of its steps. -/
theorem reconcileTenants_run (rt : Runtime σ) (loop : ReconciliationLoop σ) (fuel : Nat)
    (s : σ) (v1 v2 v5 : TenantsVars) (s1 s2 s4 s5 : σ)
    (h1 : retryHelper rt.sleepOnWorld (loop.readACCTenants fuel) ({}, s) = (some none, (v1, s1)))
    (h2 : retryHelper rt.sleepOnWorld (loop.readExternalTenantIDs fuel) (v1, s1)
      = (some none, (v2, s2)))
    (h4 : loop.createOrUpdateTenants rt fuel (rt.rangeOrder 1 v2.accTenants.entries)
        (loop.removeNonExistingTenants v2.accTenants
          ((rt.rangeOrder 0 v2.externalTenantIDs.entries).map Prod.fst) s2).2 = (some (), s4))
    (h5 : retryHelper rt.sleepOnWorld (loop.readExternalOIs fuel) (v2, s4)
      = (some none, (v5, s5))) :
    v5.accTenants = v1.accTenants ∧ v5.nextUpdateTimestamp = v1.nextUpdateTimestamp ∧
    loop.reconcileTenantsAndOfferingItems rt fuel s
      = (some v1.nextUpdateTimestamp,
          (loop.updateOfferingItemsOnExternalSystem rt v1.accTenants
            (loop.deleteInactiveOfferingItems v1.accTenants v5.externalOIs s5).2).2) := by
  have k2 := retried_keeps_tenants rt _ (readExternalTenantIDs_keeps loop fuel) (v1, s1)
  rw [h2] at k2
  have k5 := retried_keeps_tenants rt _ (readExternalOIs_keeps loop fuel) (v2, s4)
  rw [h5] at k5
  simp only at k2 k5
  have hacc : v5.accTenants = v1.accTenants := k5.1.trans k2.1
  have hts : v5.nextUpdateTimestamp = v1.nextUpdateTimestamp := k5.2.trans k2.2
  refine ⟨hacc, hts, ?_⟩
  have h3 := removeNonExistingTenants_total loop v2.accTenants
    ((rt.rangeOrder 0 v2.externalTenantIDs.entries).map Prod.fst) s2
  have h6 := deleteInactiveOfferingItems_total loop v5.accTenants v5.externalOIs s5
  have h7 := updateOfferingItemsOfTenants_total loop (rt.rangeOrder 2 v5.accTenants.entries)
    (loop.deleteInactiveOfferingItems v5.accTenants v5.externalOIs s5).2
  rw [← hacc, ← hts]
  simp only [ReconciliationLoop.reconcileTenantsAndOfferingItems,
    ReconciliationLoop.reconcileTenantsBody, ReconciliationLoop.applyTenants,
    ReconciliationLoop.upsertTenantsAndOfferingItems,
    ReconciliationLoop.updateOfferingItemsOnExternalSystem,
    M.withVars_apply, M.bind_apply, M.onWorld_apply, M.getVars_apply, M.pure_apply, h1, h2, h3,
    h4, h5, h6, h7]

/-- A users cycle whose three reads succeed and whose step 4 returns, as the
composition of its steps. -/
theorem reconcileUsers_run (rt : Runtime σ) (loop : ReconciliationLoop σ) (fuel : Nat)
    (s : σ) (v1 v2 v5 : UsersVars) (s1 s2 s4 s5 : σ)
    (h1 : retryHelper rt.sleepOnWorld (loop.readACCUsers fuel) ({}, s) = (some none, (v1, s1)))
    (h2 : retryHelper rt.sleepOnWorld (loop.readExternalUserIDs fuel) (v1, s1)
      = (some none, (v2, s2)))
    (h4 : loop.createOrUpdateUsers rt fuel (rt.rangeOrder 7 v2.accUsers.entries)
        (loop.removeNonExistingUsers v2.accUsers
          ((rt.rangeOrder 6 v2.externalUserIDs.entries).map Prod.fst) s2).2 = (some (), s4))
    (h5 : retryHelper rt.sleepOnWorld (loop.readExternalAPs fuel) (v2, s4)
      = (some none, (v5, s5))) :
    v5.accUsers = v1.accUsers ∧ v5.nextUpdateTimestamp = v1.nextUpdateTimestamp ∧
    loop.reconcileUsersAndAccessPolicies rt fuel s
      = (some v1.nextUpdateTimestamp,
          (loop.updateAccessPoliciesOnExternalSystem rt v1.accUsers
            (loop.deleteInactiveAccessPolicies rt v1.accUsers v5.externalAPs s5).2).2) := by
  have k2 := retried_keeps_users rt _ (readExternalUserIDs_keeps loop fuel) (v1, s1)
  rw [h2] at k2
  have k5 := retried_keeps_users rt _ (readExternalAPs_keeps loop fuel) (v2, s4)
  rw [h5] at k5
  simp only at k2 k5
  have hacc : v5.accUsers = v1.accUsers := k5.1.trans k2.1
  have hts : v5.nextUpdateTimestamp = v1.nextUpdateTimestamp := k5.2.trans k2.2
  refine ⟨hacc, hts, ?_⟩
  have h3 := removeNonExistingUsers_total loop v2.accUsers
    ((rt.rangeOrder 6 v2.externalUserIDs.entries).map Prod.fst) s2
  have h6 : ∀ x, (loop.deleteInactiveAccessPolicies rt v5.accUsers v5.externalAPs x).1
      = some () := fun x => deleteAccessPolicies_total loop _ x
  have h7 := updateAccessPoliciesOfUsers_total loop (rt.rangeOrder 5 v5.accUsers.entries)
    (loop.deleteInactiveAccessPolicies rt v5.accUsers v5.externalAPs s5).2
  rw [← hacc, ← hts]
  simp only [ReconciliationLoop.reconcileUsersAndAccessPolicies,
    ReconciliationLoop.reconcileUsersBody, ReconciliationLoop.applyUsers,
    ReconciliationLoop.upsertUsersAndAccessPolicies,
    ReconciliationLoop.updateAccessPoliciesOnExternalSystem,
    M.withVars_apply, M.bind_apply, M.onWorld_apply, M.getVars_apply, M.pure_apply, h1, h2, h3,
    h4, h5, h6, h7]

end ReconcileRuns

section StepCalls

variable {σ : Type}

theorem Emits.count_world {α : Type} {P : Call → Prop} {m : M (Traced σ) α}
    (hm : Emits worldTrace P m) (c : Call) (hc : ¬ P c) (w : Traced σ) :
    (calls (m w).2).count c = (calls w).count c := by
  obtain ⟨evs, he, hp⟩ := hm w
  simp only [worldTrace] at he
  simp only [calls, he, List.map_append, List.count_append, count_calls_eq_zero evs c P hp hc,
    Nat.add_zero]

theorem Emits.count_vars {α L : Type} {P : Call → Prop} {m : M (L × Traced σ) α}
    (hm : Emits varsTrace P m) (c : Call) (hc : ¬ P c) (st : L × Traced σ) :
    (calls (m st).2.2).count c = (calls st.2).count c := by
  obtain ⟨evs, he, hp⟩ := hm st
  simp only [varsTrace] at he
  simp only [calls, he, List.map_append, List.count_append, count_calls_eq_zero evs c P hp hc,
    Nat.add_zero]

theorem removeNonExistingTenants_emits (loop : ReconciliationLoop σ) (accTenants : GoMap Tenant) :
    ∀ ids : List String,
      Emits worldTrace Call.isDeleteTenant (loop.traced.removeNonExistingTenants accTenants ids) := by
  intro ids
  induction ids with
  | nil => exact Emits.pure _
  | cons e rest ih =>
    unfold ReconciliationLoop.removeNonExistingTenants
    dsimp only
    repeat' first
      | exact Emits.pure _
      | exact Emits.record _ _ (by trivial)
      | exact ih
      | refine Emits.bind ?_ (fun _ => ?_)
      | split

theorem removeNonExistingUsers_emits (loop : ReconciliationLoop σ) (accUsers : GoMap User) :
    ∀ ids : List String,
      Emits worldTrace Call.isDeleteUser (loop.traced.removeNonExistingUsers accUsers ids) := by
  intro ids
  induction ids with
  | nil => exact Emits.pure _
  | cons e rest ih =>
    unfold ReconciliationLoop.removeNonExistingUsers
    dsimp only
    repeat' first
      | exact Emits.pure _
      | exact Emits.record _ _ (by trivial)
      | exact ih
      | refine Emits.bind ?_ (fun _ => ?_)
      | split

theorem deleteInactiveOfferingItems_emits_deletes (loop : ReconciliationLoop σ)
    (accTenants : GoMap Tenant) :
    ∀ externalOIs : List OfferingItemID,
      Emits worldTrace Call.isDeleteOfferingItem
        (loop.traced.deleteInactiveOfferingItems accTenants externalOIs) := by
  intro externalOIs
  induction externalOIs with
  | nil => exact Emits.pure _
  | cons e rest ih =>
    unfold ReconciliationLoop.deleteInactiveOfferingItems
    dsimp only
    repeat' first
      | exact Emits.pure _
      | exact Emits.record _ _ (by trivial)
      | exact ih
      | refine Emits.bind ?_ (fun _ => ?_)
      | split

theorem updateOfferingItemsOfTenant_emits_upserts (loop : ReconciliationLoop σ) :
    ∀ items : List OfferingItem,
      Emits worldTrace Call.isUpsertOfferingItem
        (loop.traced.updateOfferingItemsOfTenant items) := by
  intro items
  induction items with
  | nil => exact Emits.pure _
  | cons e rest ih =>
    unfold ReconciliationLoop.updateOfferingItemsOfTenant
    dsimp only
    repeat' first
      | exact Emits.pure _
      | exact Emits.record _ _ (by trivial)
      | exact ih
      | refine Emits.bind ?_ (fun _ => ?_)
      | split

theorem updateOfferingItemsOfTenants_emits_upserts (loop : ReconciliationLoop σ) :
    ∀ entries : List (String × Tenant),
      Emits worldTrace Call.isUpsertOfferingItem
        (loop.traced.updateOfferingItemsOfTenants entries) := by
  intro entries
  induction entries with
  | nil => exact Emits.pure _
  | cons e rest ih =>
    unfold ReconciliationLoop.updateOfferingItemsOfTenants
    exact Emits.bind (updateOfferingItemsOfTenant_emits_upserts loop _) (fun _ => ih)

theorem deleteAccessPolicies_emits_deletes (loop : ReconciliationLoop σ) :
    ∀ ids : List String,
      Emits worldTrace Call.isDeleteAccessPolicy (loop.traced.deleteAccessPolicies ids) := by
  intro ids
  induction ids with
  | nil => exact Emits.pure _
  | cons e rest ih =>
    unfold ReconciliationLoop.deleteAccessPolicies
    exact Emits.bind (Emits.record _ _ (by trivial)) (fun _ => ih)

theorem updateAccessPoliciesOfUser_emits_upserts (loop : ReconciliationLoop σ) :
    ∀ items : List AccessPolicy,
      Emits worldTrace Call.isUpsertAccessPolicy
        (loop.traced.updateAccessPoliciesOfUser items) := by
  intro items
  induction items with
  | nil => exact Emits.pure _
  | cons e rest ih =>
    unfold ReconciliationLoop.updateAccessPoliciesOfUser
    dsimp only
    repeat' first
      | exact Emits.pure _
      | exact Emits.record _ _ (by trivial)
      | exact ih
      | refine Emits.bind ?_ (fun _ => ?_)
      | split

theorem updateAccessPoliciesOfUsers_emits_upserts (loop : ReconciliationLoop σ) :
    ∀ entries : List (String × User),
      Emits worldTrace Call.isUpsertAccessPolicy
        (loop.traced.updateAccessPoliciesOfUsers entries) := by
  intro entries
  induction entries with
  | nil => exact Emits.pure _
  | cons e rest ih =>
    unfold ReconciliationLoop.updateAccessPoliciesOfUsers
    exact Emits.bind (updateAccessPoliciesOfUser_emits_upserts loop _) (fun _ => ih)

theorem updateOfferingItemsOfTenant_trace (loop : ReconciliationLoop σ) :
    ∀ (items : List OfferingItem) (w : Traced σ),
      calls (loop.traced.updateOfferingItemsOfTenant items w).2
        = calls w ++ (items.filter (fun item => item.Status > 0)).map
            Call.CreateOrUpdateOfferingItem := by
  intro items
  induction items with
  | nil => intro w; simp [ReconciliationLoop.updateOfferingItemsOfTenant]
  | cons item rest ih =>
    intro w
    by_cases h : item.Status > 0
    · have := ih ((loop.extClient.CreateOrUpdateOfferingItem item w.1).2,
        w.2 ++ [⟨.CreateOrUpdateOfferingItem item, w.1⟩])
      simpa [ReconciliationLoop.updateOfferingItemsOfTenant, h, calls] using this
    · have := ih w
      simpa [ReconciliationLoop.updateOfferingItemsOfTenant, h, calls] using this

theorem updateOfferingItemsOfTenants_trace (loop : ReconciliationLoop σ) :
    ∀ (entries : List (String × Tenant)) (w : Traced σ),
      calls (loop.traced.updateOfferingItemsOfTenants entries w).2
        = calls w ++ (entries.flatMap
            (fun e => e.2.OfferingItems.filter (fun item => item.Status > 0))).map
            Call.CreateOrUpdateOfferingItem := by
  intro entries
  induction entries with
  | nil => intro w; simp [ReconciliationLoop.updateOfferingItemsOfTenants]
  | cons e rest ih =>
    intro w
    have h1 := updateOfferingItemsOfTenant_trace loop e.2.OfferingItems w
    have ht := updateOfferingItemsOfTenant_total loop.traced e.2.OfferingItems w
    rcases hrun : loop.traced.updateOfferingItemsOfTenant e.2.OfferingItems w with ⟨r, w1⟩
    rw [hrun] at h1 ht
    simp only at h1 ht
    subst ht
    have h2 := ih w1
    simp only [ReconciliationLoop.updateOfferingItemsOfTenants, M.bind_apply, hrun, h2, h1,
      List.flatMap_cons, List.map_append, List.append_assoc]

theorem updateAccessPoliciesOfUser_trace (loop : ReconciliationLoop σ) :
    ∀ (items : List AccessPolicy) (w : Traced σ),
      calls (loop.traced.updateAccessPoliciesOfUser items w).2
        = calls w ++ (items.filter (fun p => p.DeletedAt = none)).map
            Call.CreateOrUpdateAccessPolicy := by
  intro items
  induction items with
  | nil => intro w; simp [ReconciliationLoop.updateAccessPoliciesOfUser]
  | cons item rest ih =>
    intro w
    by_cases h : item.DeletedAt = none
    · have := ih ((loop.extClient.CreateOrUpdateAccessPolicy item w.1).2,
        w.2 ++ [⟨.CreateOrUpdateAccessPolicy item, w.1⟩])
      simpa [ReconciliationLoop.updateAccessPoliciesOfUser, h, calls] using this
    · have := ih w
      simpa [ReconciliationLoop.updateAccessPoliciesOfUser, h, calls] using this

theorem updateAccessPoliciesOfUsers_trace (loop : ReconciliationLoop σ) :
    ∀ (entries : List (String × User)) (w : Traced σ),
      calls (loop.traced.updateAccessPoliciesOfUsers entries w).2
        = calls w ++ (entries.flatMap
            (fun e => e.2.AccessPolicies.filter (fun p => p.DeletedAt = none))).map
            Call.CreateOrUpdateAccessPolicy := by
  intro entries
  induction entries with
  | nil => intro w; simp [ReconciliationLoop.updateAccessPoliciesOfUsers]
  | cons e rest ih =>
    intro w
    have h1 := updateAccessPoliciesOfUser_trace loop e.2.AccessPolicies w
    have ht := updateAccessPoliciesOfUser_total loop.traced e.2.AccessPolicies w
    rcases hrun : loop.traced.updateAccessPoliciesOfUser e.2.AccessPolicies w with ⟨r, w1⟩
    rw [hrun] at h1 ht
    simp only at h1 ht
    subst ht
    have h2 := ih w1
    simp only [ReconciliationLoop.updateAccessPoliciesOfUsers, M.bind_apply, hrun, h2, h1,
      List.flatMap_cons, List.map_append, List.append_assoc]

end StepCalls

section ChildUpserts

variable {σ : Type}

theorem reconcileTenants_child_upserts (rt : Runtime σ) (loop : ReconciliationLoop σ)
    (fuel : Nat) (s : σ) (v1 v2 v5 : TenantsVars) (w1 w2 w4 w5 : Traced σ)
    (h1 : retryHelper rt.traced.sleepOnWorld (loop.traced.readACCTenants fuel) ({}, (s, []))
      = (some none, (v1, w1)))
    (h2 : retryHelper rt.traced.sleepOnWorld (loop.traced.readExternalTenantIDs fuel) (v1, w1)
      = (some none, (v2, w2)))
    (h4 : loop.traced.createOrUpdateTenants rt.traced fuel (rt.rangeOrder 1 v2.accTenants.entries)
        (loop.traced.removeNonExistingTenants v2.accTenants
          ((rt.rangeOrder 0 v2.externalTenantIDs.entries).map Prod.fst) w2).2 = (some (), w4))
    (h5 : retryHelper rt.traced.sleepOnWorld (loop.traced.readExternalOIs fuel) (v2, w4)
      = (some none, (v5, w5))) (item : OfferingItem) :
    (calls (loop.traced.reconcileTenantsAndOfferingItems rt.traced fuel (s, [])).2).count
        (.CreateOrUpdateOfferingItem item)
      = (activeOfferingItems v1.accTenants).count item := by
  obtain ⟨-, -, hrun⟩ := reconcileTenants_run rt.traced loop.traced fuel (s, []) v1 v2 v5
    w1 w2 w4 w5 h1 h2 h4 h5
  -- the steps before step 6 upsert no offering item
  have c1 := Emits.count_vars (retriedRead_emits rt _ (readACCTenants_emits loop fuel))
    (.CreateOrUpdateOfferingItem item) (fun h => h) (({} : TenantsVars), ((s, []) : Traced σ))
  have c2 := Emits.count_vars (retriedRead_emits rt _ (readExternalTenantIDs_emits loop fuel))
    (.CreateOrUpdateOfferingItem item) (fun h => h) (v1, w1)
  have c3 := Emits.count_world (removeNonExistingTenants_emits loop v2.accTenants
    ((rt.rangeOrder 0 v2.externalTenantIDs.entries).map Prod.fst))
    (.CreateOrUpdateOfferingItem item) (fun h => h) w2
  have c4 := Emits.count_world (createOrUpdateTenants_emits rt loop fuel
    (rt.rangeOrder 1 v2.accTenants.entries))
    (.CreateOrUpdateOfferingItem item) (fun h => h)
    (loop.traced.removeNonExistingTenants v2.accTenants
          ((rt.rangeOrder 0 v2.externalTenantIDs.entries).map Prod.fst) w2).2
  have c5 := Emits.count_vars (retriedRead_emits rt _ (readExternalOIs_emits loop fuel))
    (.CreateOrUpdateOfferingItem item) (fun h => h) (v2, w4)
  have c6 := Emits.count_world (deleteInactiveOfferingItems_emits_deletes loop v1.accTenants
    v5.externalOIs) (.CreateOrUpdateOfferingItem item) (fun h => h) w5
  rw [h1] at c1
  rw [h2] at c2
  rw [h4] at c4
  rw [h5] at c5
  simp only [calls_mk, List.map_nil, List.count_nil] at c1
  have hperm := (rt.rangeOrder_perm 2 v1.accTenants.entries).flatMap_right
    (fun e => e.2.OfferingItems.filter (fun item => item.Status > 0))
  rw [hrun]
  simp only [ReconciliationLoop.updateOfferingItemsOnExternalSystem,
    updateOfferingItemsOfTenants_trace, Runtime.traced_rangeOrder, List.count_append, c6, c5, c4,
    c3, c2, c1, Nat.zero_add]
  rw [List.count_map_of_injective _ _ (fun a b hab => by injection hab)]
  exact hperm.count_eq item

theorem reconcileUsers_child_upserts (rt : Runtime σ) (loop : ReconciliationLoop σ)
    (fuel : Nat) (s : σ) (v1 v2 v5 : UsersVars) (w1 w2 w4 w5 : Traced σ)
    (h1 : retryHelper rt.traced.sleepOnWorld (loop.traced.readACCUsers fuel) ({}, (s, []))
      = (some none, (v1, w1)))
    (h2 : retryHelper rt.traced.sleepOnWorld (loop.traced.readExternalUserIDs fuel) (v1, w1)
      = (some none, (v2, w2)))
    (h4 : loop.traced.createOrUpdateUsers rt.traced fuel (rt.rangeOrder 7 v2.accUsers.entries)
        (loop.traced.removeNonExistingUsers v2.accUsers
          ((rt.rangeOrder 6 v2.externalUserIDs.entries).map Prod.fst) w2).2 = (some (), w4))
    (h5 : retryHelper rt.traced.sleepOnWorld (loop.traced.readExternalAPs fuel) (v2, w4)
      = (some none, (v5, w5))) (policy : AccessPolicy) :
    (calls (loop.traced.reconcileUsersAndAccessPolicies rt.traced fuel (s, [])).2).count
        (.CreateOrUpdateAccessPolicy policy)
      = (activeAccessPolicies v1.accUsers).count policy := by
  obtain ⟨-, -, hrun⟩ := reconcileUsers_run rt.traced loop.traced fuel (s, []) v1 v2 v5
    w1 w2 w4 w5 h1 h2 h4 h5
  -- the steps before step 7 upsert no access policy
  have c1 := Emits.count_vars (retriedRead_emits rt _ (readACCUsers_emits loop fuel))
    (.CreateOrUpdateAccessPolicy policy) (fun h => h) (({} : UsersVars), ((s, []) : Traced σ))
  have c2 := Emits.count_vars (retriedRead_emits rt _ (readExternalUserIDs_emits loop fuel))
    (.CreateOrUpdateAccessPolicy policy) (fun h => h) (v1, w1)
  have c3 := Emits.count_world (removeNonExistingUsers_emits loop v2.accUsers
    ((rt.rangeOrder 6 v2.externalUserIDs.entries).map Prod.fst))
    (.CreateOrUpdateAccessPolicy policy) (fun h => h) w2
  have c4 := Emits.count_world (createOrUpdateUsers_emits rt loop fuel
    (rt.rangeOrder 7 v2.accUsers.entries))
    (.CreateOrUpdateAccessPolicy policy) (fun h => h)
    (loop.traced.removeNonExistingUsers v2.accUsers
          ((rt.rangeOrder 6 v2.externalUserIDs.entries).map Prod.fst) w2).2
  have c5 := Emits.count_vars (retriedRead_emits rt _ (readExternalAPs_emits loop fuel))
    (.CreateOrUpdateAccessPolicy policy) (fun h => h) (v2, w4)
  have c6 := Emits.count_world (deleteAccessPolicies_emits_deletes loop
    ((rt.rangeOrder 4 ((rt.rangeOrder 3 v1.accUsers.entries).foldl
      (fun m entry => ReconciliationLoop.keepActivePolicies m entry.2.AccessPolicies)
      v5.externalAPs).entries).map Prod.fst))
    (.CreateOrUpdateAccessPolicy policy) (fun h => h) w5
  rw [h1] at c1
  rw [h2] at c2
  rw [h4] at c4
  rw [h5] at c5
  simp only [calls_mk, List.map_nil, List.count_nil] at c1
  have hperm := (rt.rangeOrder_perm 5 v1.accUsers.entries).flatMap_right
    (fun e => e.2.AccessPolicies.filter (fun p => p.DeletedAt = none))
  rw [hrun]
  simp only [ReconciliationLoop.updateAccessPoliciesOnExternalSystem,
    ReconciliationLoop.deleteInactiveAccessPolicies,
    updateAccessPoliciesOfUsers_trace, Runtime.traced_rangeOrder, List.count_append, c6, c5, c4,
    c3, c2, c1, Nat.zero_add]
  rw [List.count_map_of_injective _ _ (fun a b hab => by injection hab)]
  exact hperm.count_eq policy

/-- C12, as the claim states it, fails: a reconciliation cycle whose read of
the external offering items fails returns before it upserts any. The cloud
holds the tenant `T` with the offering item `x` of status 1, so `x` is an
active offering item of the cloud map, but the cycle never calls
`CreateOrUpdateOfferingItem` for it. -/
theorem reconcile_without_child_read_upserts_no_child :
    activeOfferingItems
        (retryHelper plainRuntime.sleepOnWorld
          (ReconciliationLoop.readACCTenants
            { demoReconciliationLoop
                [{ ID := "T", ParentID := "T", DeletedAt := 0,
                   OfferingItems := [{ Name := "x", TenantID := "T", Status := 1 }] }] [] 7 with
              extClient := childReadsDown } 3) ({}, {})).2.1.accTenants
      = [{ Name := "x", TenantID := "T", Status := 1 }] ∧
    (calls (({ demoReconciliationLoop
                [{ ID := "T", ParentID := "T", DeletedAt := 0,
                   OfferingItems := [{ Name := "x", TenantID := "T", Status := 1 }] }] [] 7 with
              extClient := childReadsDown } : ReconciliationLoop Store).traced
        |>.reconcileTenantsAndOfferingItems plainRuntime.traced 3 ({}, [])).2).count
      (.CreateOrUpdateOfferingItem { Name := "x", TenantID := "T", Status := 1 }) = 0 := by
  decide

/-- C12 (upsert of the active children), amended. For every reconciliation
cycle, of tenants and of users alike, whatever the collaborators answer and
whatever order `range` follows: if the cloud read, the external id read and the
external child read succeed and step 4 returns, then over the whole cycle
`CreateOrUpdateOfferingItem` is called for an offering item exactly as many
times as it occurs with `status > 0` among the offering items of the tenants of
the cloud map (once for each, never for any other), and
`CreateOrUpdateAccessPolicy` for an access policy exactly as many times as it
occurs with an unset `deleted_at` among the access policies of the users of
the cloud map. The count holds for every external system, so for one whose
upserts fail: a failing upsert does not stop the remaining ones. -/
theorem reconcile_upserts_exactly_the_active_children (rt : Runtime σ)
    (loop : ReconciliationLoop σ) (fuel : Nat) (s : σ) :
    (∀ (v1 v2 v5 : TenantsVars) (w1 w2 w4 w5 : Traced σ),
      retryHelper rt.traced.sleepOnWorld (loop.traced.readACCTenants fuel) ({}, (s, []))
        = (some none, (v1, w1)) →
      retryHelper rt.traced.sleepOnWorld (loop.traced.readExternalTenantIDs fuel) (v1, w1)
        = (some none, (v2, w2)) →
      loop.traced.createOrUpdateTenants rt.traced fuel (rt.rangeOrder 1 v2.accTenants.entries)
        (loop.traced.removeNonExistingTenants v2.accTenants
          ((rt.rangeOrder 0 v2.externalTenantIDs.entries).map Prod.fst) w2).2 = (some (), w4) →
      retryHelper rt.traced.sleepOnWorld (loop.traced.readExternalOIs fuel) (v2, w4)
        = (some none, (v5, w5)) →
      ∀ item, (calls (loop.traced.reconcileTenantsAndOfferingItems rt.traced fuel (s, [])).2).count
          (.CreateOrUpdateOfferingItem item)
        = (activeOfferingItems v1.accTenants).count item) ∧
    (∀ (v1 v2 v5 : UsersVars) (w1 w2 w4 w5 : Traced σ),
      retryHelper rt.traced.sleepOnWorld (loop.traced.readACCUsers fuel) ({}, (s, []))
        = (some none, (v1, w1)) →
      retryHelper rt.traced.sleepOnWorld (loop.traced.readExternalUserIDs fuel) (v1, w1)
        = (some none, (v2, w2)) →
      loop.traced.createOrUpdateUsers rt.traced fuel (rt.rangeOrder 7 v2.accUsers.entries)
        (loop.traced.removeNonExistingUsers v2.accUsers
          ((rt.rangeOrder 6 v2.externalUserIDs.entries).map Prod.fst) w2).2 = (some (), w4) →
      retryHelper rt.traced.sleepOnWorld (loop.traced.readExternalAPs fuel) (v2, w4)
        = (some none, (v5, w5)) →
      ∀ policy,
        (calls (loop.traced.reconcileUsersAndAccessPolicies rt.traced fuel (s, [])).2).count
          (.CreateOrUpdateAccessPolicy policy)
        = (activeAccessPolicies v1.accUsers).count policy) :=
  ⟨fun v1 v2 v5 w1 w2 w4 w5 h1 h2 h4 h5 item =>
      reconcileTenants_child_upserts rt loop fuel s v1 v2 v5 w1 w2 w4 w5 h1 h2 h4 h5 item,
   fun v1 v2 v5 w1 w2 w4 w5 h1 h2 h4 h5 policy =>
      reconcileUsers_child_upserts rt loop fuel s v1 v2 v5 w1 w2 w4 w5 h1 h2 h4 h5 policy⟩

/-- The cloud holds the tenant `T` with the offering items `x` (status 1),
`y` (status 0) and `z` (status 2), and the external system refuses every
upsert of a child: the cycle still calls `CreateOrUpdateOfferingItem` once
for `z`, after the refused upsert of `x`. -/
theorem reconcile_upserts_exactly_the_active_children_witness :
    (calls (({ demoReconciliationLoop
                [{ ID := "T", ParentID := "T", DeletedAt := 0,
                   OfferingItems := [{ Name := "x", TenantID := "T", Status := 1 },
                                     { Name := "y", TenantID := "T", Status := 0 },
                                     { Name := "z", TenantID := "T", Status := 2 }] }] [] 7 with
              extClient := childUpsertsRefused } : ReconciliationLoop Store).traced
        |>.reconcileTenantsAndOfferingItems plainRuntime.traced 3 ({}, [])).2).count
      (.CreateOrUpdateOfferingItem { Name := "z", TenantID := "T", Status := 2 }) = 1 := by
  have h := (reconcile_upserts_exactly_the_active_children plainRuntime
      ({ demoReconciliationLoop
                [{ ID := "T", ParentID := "T", DeletedAt := 0,
                   OfferingItems := [{ Name := "x", TenantID := "T", Status := 1 },
                                     { Name := "y", TenantID := "T", Status := 0 },
                                     { Name := "z", TenantID := "T", Status := 2 }] }] [] 7 with
              extClient := childUpsertsRefused } : ReconciliationLoop Store) 3 {}).1
      _ _ _ _ _ _ _ (Prod.ext (by decide) rfl) (Prod.ext (by decide) rfl)
      (Prod.ext (by decide) rfl) (Prod.ext (by decide) rfl)
      { Name := "z", TenantID := "T", Status := 2 }
  rw [h]
  decide

end ChildUpserts

section CloudReader

variable {σ : Type}

theorem lookup_filter_ne {V : Type} (k x : String) (h : x ≠ k) :
    ∀ l : List (String × V), List.lookup x (l.filter (fun e => e.1 != k)) = List.lookup x l := by
  intro l
  induction l with
  | nil => rfl
  | cons e rest ih =>
    rcases e with ⟨a, b⟩
    by_cases ha : a = k
    · have hak : (a != k) = false := by rw [ha]; exact bne_self_eq_false k
      have hxa : (x == a) = false := by rw [ha]; exact beq_false_of_ne h
      rw [List.filter_cons_of_neg (by simpa using hak), List.lookup_cons, hxa, ih]
    · have hak : (a != k) = true := bne_iff_ne.2 ha
      rw [List.filter_cons_of_pos (by simpa using hak), List.lookup_cons, List.lookup_cons, ih]

theorem GoMap.get?_set {V : Type} (m : GoMap V) (k x : String) (v : V) :
    (m.set k v).get? x = if x = k then some v else m.get? x := by
  simp only [GoMap.get?, GoMap.set, GoMap.without, List.lookup_cons]
  by_cases h : x = k
  · rw [if_pos h, h, beq_self_eq_true]
  · rw [if_neg h, beq_false_of_ne h]
    exact lookup_filter_ne k x h m.entries

theorem GoMap.mem_keys_iff {V : Type} (m : GoMap V) (k : String) :
    k ∈ m.keys ↔ ∃ v, m.get? k = some v := by
  have h := GoMap.get?_isNone_iff m k
  cases hg : m.get? k with
  | none =>
    rw [hg] at h
    simp only [Option.isNone_none, true_iff] at h
    simp [h]
  | some v =>
    rw [hg] at h
    simp only [Option.isNone_some, Bool.false_eq_true, false_iff, not_not] at h
    simp [h]

theorem lastTenantWithID_cons (t : Tenant) (items : List Tenant) (id : String) :
    lastTenantWithID (t :: items) id
      = (lastTenantWithID items id).or (if t.ID = id then some t else none) := by
  simp only [lastTenantWithID, List.reverse_cons, List.find?_append, List.find?_cons,
    List.find?_nil]
  by_cases h : t.ID = id
  · rw [if_pos h, h, beq_self_eq_true]
  · rw [if_neg h, beq_false_of_ne h, Option.or_none]

theorem lastUserWithID_cons (u : User) (items : List User) (id : String) :
    lastUserWithID (u :: items) id
      = (lastUserWithID items id).or (if u.ID = id then some u else none) := by
  simp only [lastUserWithID, List.reverse_cons, List.find?_append, List.find?_cons,
    List.find?_nil]
  by_cases h : u.ID = id
  · rw [if_pos h, h, beq_self_eq_true]
  · rw [if_neg h, beq_false_of_ne h, Option.or_none]

theorem get?_addTenants (items : List Tenant) :
    ∀ (m : GoMap Tenant) (id : String),
      (addTenants m items).get? id
        = (lastTenantWithID (items.filter (fun t => t.DeletedAt.IsZero)) id).or (m.get? id) := by
  induction items with
  | nil => intro m id; simp [addTenants, lastTenantWithID]
  | cons t rest ih =>
    intro m id
    have hstep : addTenants m (t :: rest)
        = addTenants (if t.DeletedAt.IsZero then m.set t.ID t else m) rest := rfl
    rw [hstep, ih]
    by_cases hz : t.DeletedAt.IsZero = true
    · simp only [hz, if_true, List.filter_cons, lastTenantWithID_cons, GoMap.get?_set]
      cases lastTenantWithID (rest.filter (fun t => t.DeletedAt.IsZero)) id with
      | some a => simp
      | none =>
        by_cases h : id = t.ID
        · simp [h]
        · have h2 : ¬ t.ID = id := fun e => h e.symm
          simp [h, h2]
    · simp [hz]

theorem get?_addUsers (items : List User) :
    ∀ (m : GoMap User) (id : String),
      (addUsers m items).get? id
        = (lastUserWithID (items.filter (fun u => u.DeletedAt.IsZero && u.ID != "")) id).or
            (m.get? id) := by
  induction items with
  | nil => intro m id; simp [addUsers, lastUserWithID]
  | cons t rest ih =>
    intro m id
    have hstep : addUsers m (t :: rest)
        = addUsers (if t.DeletedAt.IsZero && t.ID != "" then m.set t.ID t else m) rest := rfl
    rw [hstep, ih]
    by_cases hz : (t.DeletedAt.IsZero && t.ID != "") = true
    · simp only [hz, if_true, List.filter_cons, lastUserWithID_cons, GoMap.get?_set]
      cases lastUserWithID (rest.filter (fun u => u.DeletedAt.IsZero && u.ID != "")) id with
      | some a => simp
      | none =>
        by_cases h : id = t.ID
        · simp [h]
        · have h2 : ¬ t.ID = id := fun e => h e.symm
          simp [h, h2]
    · simp [hz]

theorem addTenants_append (m : GoMap Tenant) (a b : List Tenant) :
    addTenants (addTenants m a) b = addTenants m (a ++ b) := by
  simp [addTenants, List.foldl_append]

theorem addUsers_append (m : GoMap User) (a b : List User) :
    addUsers (addUsers m a) b = addUsers m (a ++ b) := by
  simp [addUsers, List.foldl_append]

theorem lastTenantWithID_isSome (items : List Tenant) (id : String) :
    (∃ t, lastTenantWithID items id = some t) ↔ ∃ t ∈ items, t.ID = id := by
  constructor
  · rintro ⟨t, ht⟩
    refine ⟨t, ?_, ?_⟩
    · exact List.mem_reverse.1 (List.mem_of_find?_eq_some ht)
    · simpa using List.find?_some ht
  · rintro ⟨t, ht, hid⟩
    cases h : lastTenantWithID items id with
    | some a => exact ⟨a, rfl⟩
    | none =>
      have := List.find?_eq_none.1 h t (List.mem_reverse.2 ht)
      simp [hid] at this

theorem lastUserWithID_isSome (items : List User) (id : String) :
    (∃ t, lastUserWithID items id = some t) ↔ ∃ t ∈ items, t.ID = id := by
  constructor
  · rintro ⟨t, ht⟩
    refine ⟨t, ?_, ?_⟩
    · exact List.mem_reverse.1 (List.mem_of_find?_eq_some ht)
    · simpa using List.find?_some ht
  · rintro ⟨t, ht, hid⟩
    cases h : lastUserWithID items id with
    | some a => exact ⟨a, rfl⟩
    | none =>
      have := List.find?_eq_none.1 h t (List.mem_reverse.2 ht)
      simp [hid] at this

theorem tenantsRestPages_chain (loop : ReconciliationLoop σ) (ts : Time)
    {s s1 : σ} {page : TenantGetResponse} {rest : List TenantGetResponse}
    (h : TenantPagesFrom loop.accClient s page rest s1) :
    ∀ (fuel : Nat) (acc : GoMap Tenant) (tr : List (Event σ)), rest.length < fuel →
      (loop.traced.tenantsRestPages ts fuel page acc (s, tr)).1
        = some (addTenants acc (rest.flatMap (fun p => p.Items)), ts, none) ∧
      (loop.traced.tenantsRestPages ts fuel page acc (s, tr)).2.1 = s1 ∧
      calls (loop.traced.tenantsRestPages ts fuel page acc (s, tr)).2
        = tr.map Event.call
          ++ (page :: rest).dropLast.map (fun p => Call.GetTenants { After := p.After }) := by
  induction h with
  | last s page hafter =>
    intro fuel acc tr hf
    obtain ⟨f, rfl⟩ : ∃ f, fuel = f + 1 := ⟨fuel - 1, by omega⟩
    simp [ReconciliationLoop.tenantsRestPages, Client.GetTenantsNextPage, hafter, addTenants]
  | next s s1 s2 page nxt rest hafter hget _ ih =>
    intro fuel acc tr hf
    obtain ⟨f, rfl⟩ : ∃ f, fuel = f + 1 := ⟨fuel - 1, by omega⟩
    have hf2 : rest.length < f := by simpa using hf
    have := ih f (addTenants acc nxt.Items) (tr ++ [⟨.GetTenants { After := page.After }, s⟩]) hf2
    simpa [ReconciliationLoop.tenantsRestPages, Client.GetTenantsNextPage, hafter, hget,
      addTenants_append, calls] using this

theorem usersRestPages_chain (loop : ReconciliationLoop σ) (ts : Time)
    {s s1 : σ} {page : UserGetResponse} {rest : List UserGetResponse}
    (h : UserPagesFrom loop.accClient s page rest s1) :
    ∀ (fuel : Nat) (acc : GoMap User) (tr : List (Event σ)), rest.length < fuel →
      (loop.traced.usersRestPages ts fuel page acc (s, tr)).1
        = some (addUsers acc (rest.flatMap (fun p => p.Items)), ts, none) ∧
      (loop.traced.usersRestPages ts fuel page acc (s, tr)).2.1 = s1 ∧
      calls (loop.traced.usersRestPages ts fuel page acc (s, tr)).2
        = tr.map Event.call
          ++ (page :: rest).dropLast.map (fun p => Call.GetUsers { After := p.After }) := by
  induction h with
  | last s page hafter =>
    intro fuel acc tr hf
    obtain ⟨f, rfl⟩ : ∃ f, fuel = f + 1 := ⟨fuel - 1, by omega⟩
    simp [ReconciliationLoop.usersRestPages, Client.GetUsersNextPage, hafter, addUsers]
  | next s s1 s2 page nxt rest hafter hget _ ih =>
    intro fuel acc tr hf
    obtain ⟨f, rfl⟩ : ∃ f, fuel = f + 1 := ⟨fuel - 1, by omega⟩
    have hf2 : rest.length < f := by simpa using hf
    have := ih f (addUsers acc nxt.Items) (tr ++ [⟨.GetUsers { After := page.After }, s⟩]) hf2
    simpa [ReconciliationLoop.usersRestPages, Client.GetUsersNextPage, hafter, hget,
      addUsers_append, calls] using this

theorem getACCTenants_chain (loop : ReconciliationLoop σ) (fuel : Nat) (s s1 s2 : σ)
    (first : TenantGetResponse) (rest : List TenantGetResponse)
    (h0 : loop.accClient.GetTenants loop.tenantsRequest s = (.ok first, s1))
    (hch : TenantPagesFrom loop.accClient s1 first rest s2) (hf : rest.length < fuel) :
    ∃ m : GoMap Tenant,
      (loop.traced.getACCTenantsAndOfferingItemsForReconciliation fuel (s, [])).1
        = some (m, first.Timestamp, none) ∧
      (loop.traced.getACCTenantsAndOfferingItemsForReconciliation fuel (s, [])).2.1 = s2 ∧
      calls (loop.traced.getACCTenantsAndOfferingItemsForReconciliation fuel (s, [])).2
        = Call.GetTenants loop.tenantsRequest
          :: (first :: rest).dropLast.map (fun p => Call.GetTenants { After := p.After }) ∧
      (∀ id, m.get? id = lastTenantWithID (accumulatedTenants (first :: rest)) id) ∧
      ∀ id, id ∈ m.keys ↔ ∃ t ∈ accumulatedTenants (first :: rest), t.ID = id := by
  have hget : ∀ id, (addTenants {} (first.Items ++ rest.flatMap (fun p => p.Items))).get? id
      = lastTenantWithID (accumulatedTenants (first :: rest)) id := by
    intro id
    rw [get?_addTenants]
    have : ({} : GoMap Tenant).get? id = none := rfl
    rw [this, Option.or_none]
    rfl
  have hrun :
      (loop.traced.getACCTenantsAndOfferingItemsForReconciliation fuel (s, [])).1
        = some (addTenants {} (first.Items ++ rest.flatMap (fun p => p.Items)),
            first.Timestamp, none) ∧
      (loop.traced.getACCTenantsAndOfferingItemsForReconciliation fuel (s, [])).2.1 = s2 ∧
      calls (loop.traced.getACCTenantsAndOfferingItemsForReconciliation fuel (s, [])).2
        = Call.GetTenants loop.tenantsRequest
          :: (first :: rest).dropLast.map (fun p => Call.GetTenants { After := p.After }) := by
    simp only [ReconciliationLoop.tenantsRequest] at h0
    cases hch with
    | last _ _ hafter =>
      simp [ReconciliationLoop.getACCTenantsAndOfferingItemsForReconciliation, h0, hafter, calls,
        ReconciliationLoop.tenantsRequest]
    | next _ s3 _ _ nxt rest1 hafter hnext hrest =>
      have h := tenantsRestPages_chain loop first.Timestamp
        (TenantPagesFrom.next s1 s3 s2 first nxt rest1 hafter hnext hrest) fuel
        (addTenants {} first.Items) [⟨.GetTenants loop.tenantsRequest, s⟩] hf
      simpa [ReconciliationLoop.getACCTenantsAndOfferingItemsForReconciliation, h0, hafter,
        addTenants_append, calls, ReconciliationLoop.tenantsRequest] using h
  refine ⟨addTenants {} (first.Items ++ rest.flatMap (fun p => p.Items)), hrun.1, hrun.2.1,
    hrun.2.2, hget, ?_⟩
  intro id
  rw [GoMap.mem_keys_iff, hget, lastTenantWithID_isSome]

theorem getACCUsers_chain (loop : ReconciliationLoop σ) (fuel : Nat) (s s1 s2 : σ)
    (first : UserGetResponse) (rest : List UserGetResponse)
    (h0 : loop.accClient.GetUsers loop.usersRequest s = (.ok first, s1))
    (hch : UserPagesFrom loop.accClient s1 first rest s2) (hf : rest.length < fuel) :
    ∃ m : GoMap User,
      (loop.traced.getACCUsersAndAccessPoliciesForReconciliation fuel (s, [])).1
        = some (m, first.Timestamp, none) ∧
      (loop.traced.getACCUsersAndAccessPoliciesForReconciliation fuel (s, [])).2.1 = s2 ∧
      calls (loop.traced.getACCUsersAndAccessPoliciesForReconciliation fuel (s, [])).2
        = Call.GetUsers loop.usersRequest
          :: (first :: rest).dropLast.map (fun p => Call.GetUsers { After := p.After }) ∧
      (∀ id, m.get? id = lastUserWithID (accumulatedUsers (first :: rest)) id) ∧
      ∀ id, id ∈ m.keys ↔ ∃ u ∈ accumulatedUsers (first :: rest), u.ID = id := by
  have hget : ∀ id, (addUsers {} (first.Items ++ rest.flatMap (fun p => p.Items))).get? id
      = lastUserWithID (accumulatedUsers (first :: rest)) id := by
    intro id
    rw [get?_addUsers]
    have : ({} : GoMap User).get? id = none := rfl
    rw [this, Option.or_none]
    rfl
  have hrun :
      (loop.traced.getACCUsersAndAccessPoliciesForReconciliation fuel (s, [])).1
        = some (addUsers {} (first.Items ++ rest.flatMap (fun p => p.Items)),
            first.Timestamp, none) ∧
      (loop.traced.getACCUsersAndAccessPoliciesForReconciliation fuel (s, [])).2.1 = s2 ∧
      calls (loop.traced.getACCUsersAndAccessPoliciesForReconciliation fuel (s, [])).2
        = Call.GetUsers loop.usersRequest
          :: (first :: rest).dropLast.map (fun p => Call.GetUsers { After := p.After }) := by
    simp only [ReconciliationLoop.usersRequest] at h0
    cases hch with
    | last _ _ hafter =>
      simp [ReconciliationLoop.getACCUsersAndAccessPoliciesForReconciliation, h0, hafter, calls,
        ReconciliationLoop.usersRequest]
    | next _ s3 _ _ nxt rest1 hafter hnext hrest =>
      have h := usersRestPages_chain loop first.Timestamp
        (UserPagesFrom.next s1 s3 s2 first nxt rest1 hafter hnext hrest) fuel
        (addUsers {} first.Items) [⟨.GetUsers loop.usersRequest, s⟩] hf
      simpa [ReconciliationLoop.getACCUsersAndAccessPoliciesForReconciliation, h0, hafter,
        addUsers_append, calls, ReconciliationLoop.usersRequest] using h
  refine ⟨addUsers {} (first.Items ++ rest.flatMap (fun p => p.Items)), hrun.1, hrun.2.1,
    hrun.2.2, hget, ?_⟩
  intro id
  rw [GoMap.mem_keys_iff, hget, lastUserWithID_isSome]

/-- C13, evaluated at the failing input. The cloud answers the tenants reader
of the reconciliation with one page that holds an item with an empty id, a zero
`deleted_at` and one offering item: the reader files the item under the empty
string, which is then the one key of its map. The users reader, given a page
with a user of the same shape, skips it and returns an empty map. -/
theorem reconcile_tenants_reader_keeps_the_empty_id :
    ((ReconciliationLoop.getACCTenantsAndOfferingItemsForReconciliation
        (demoReconciliationLoop
          [{ ID := "", ParentID := "", DeletedAt := 0,
             OfferingItems := [{ Name := "x", TenantID := "T1", Status := 1 }] }] [] 7) 3
        {}).1.map (fun r => (r.1.keys, r.2.2))) = some ([""], none) ∧
    ((ReconciliationLoop.getACCUsersAndAccessPoliciesForReconciliation
        (demoReconciliationLoop []
          [{ ID := "", TenantID := "", DeletedAt := 0,
             AccessPolicies := [{ ID := "p", TrusteeID := "U1", DeletedAt := none }] }] 7) 3
        {}).1.map (fun r => (r.1.keys, r.2.2))) = some ([], none) := by
  decide

/-- C14 (paged cloud read). For every cloud and every finite chain of pages,
the first the answer to the first request of the reader, each next one the
answer to the request with the `after` cursor of the page before it, the last
one with an empty cursor: given a budget above the number of pages, the
reconciliation cloud reader (of tenants, and of users alike) returns without
error, its requests are exactly the first request followed by one request per
non-empty cursor, in page order, so every page is fetched exactly once, and the
map it returns has as keys the ids of the accumulated items of all pages, each
id mapped to the last accumulated item with that id in page order. -/
theorem cloud_reader_fetches_each_page_once_last_write_wins (loop : ReconciliationLoop σ)
    (fuel : Nat) (s s1 s2 : σ) :
    (∀ (first : TenantGetResponse) (rest : List TenantGetResponse),
      loop.accClient.GetTenants loop.tenantsRequest s = (.ok first, s1) →
      TenantPagesFrom loop.accClient s1 first rest s2 → rest.length < fuel →
      ∃ m : GoMap Tenant,
        (loop.traced.getACCTenantsAndOfferingItemsForReconciliation fuel (s, [])).1
          = some (m, first.Timestamp, none) ∧
        (loop.traced.getACCTenantsAndOfferingItemsForReconciliation fuel (s, [])).2.1 = s2 ∧
        calls (loop.traced.getACCTenantsAndOfferingItemsForReconciliation fuel (s, [])).2
          = Call.GetTenants loop.tenantsRequest
            :: (first :: rest).dropLast.map (fun p => Call.GetTenants { After := p.After }) ∧
        (∀ id, m.get? id = lastTenantWithID (accumulatedTenants (first :: rest)) id) ∧
        ∀ id, id ∈ m.keys ↔ ∃ t ∈ accumulatedTenants (first :: rest), t.ID = id) ∧
    (∀ (first : UserGetResponse) (rest : List UserGetResponse),
      loop.accClient.GetUsers loop.usersRequest s = (.ok first, s1) →
      UserPagesFrom loop.accClient s1 first rest s2 → rest.length < fuel →
      ∃ m : GoMap User,
        (loop.traced.getACCUsersAndAccessPoliciesForReconciliation fuel (s, [])).1
          = some (m, first.Timestamp, none) ∧
        (loop.traced.getACCUsersAndAccessPoliciesForReconciliation fuel (s, [])).2.1 = s2 ∧
        calls (loop.traced.getACCUsersAndAccessPoliciesForReconciliation fuel (s, [])).2
          = Call.GetUsers loop.usersRequest
            :: (first :: rest).dropLast.map (fun p => Call.GetUsers { After := p.After }) ∧
        (∀ id, m.get? id = lastUserWithID (accumulatedUsers (first :: rest)) id) ∧
        ∀ id, id ∈ m.keys ↔ ∃ u ∈ accumulatedUsers (first :: rest), u.ID = id) :=
  ⟨fun first rest h0 hch hf => getACCTenants_chain loop fuel s s1 s2 first rest h0 hch hf,
   fun first rest h0 hch hf => getACCUsers_chain loop fuel s s1 s2 first rest h0 hch hf⟩

/-- Two pages: the first holds `A` (under the root `R`) and `B`, the second,
reached by the cursor `c1`, holds `A` again, now under `B`, and a deleted `C`.
The reader asks for both pages once, and its map holds the second `A`. -/
theorem cloud_reader_fetches_each_page_once_last_write_wins_witness :
    ∃ m : GoMap Tenant,
      (ReconciliationLoop.getACCTenantsAndOfferingItemsForReconciliation
        (ReconciliationLoop.traced
          { demoReconciliationLoop [] [] 0 with
            accClient := pagedCloud
              [("", { After := "c1", Timestamp := 7,
                      Items := [{ ID := "A", ParentID := "R", DeletedAt := 0, OfferingItems := [] },
                                { ID := "B", ParentID := "R", DeletedAt := 0,
                                  OfferingItems := [] }] }),
               ("c1", { After := "", Timestamp := 9,
                        Items := [{ ID := "A", ParentID := "B", DeletedAt := 0,
                                    OfferingItems := [] },
                                  { ID := "C", ParentID := "R", DeletedAt := 5,
                                    OfferingItems := [] }] })] [] })
        2 ({}, [])).1 = some (m, 7, none) ∧
      m.get? "A" = some { ID := "A", ParentID := "B", DeletedAt := 0, OfferingItems := [] } ∧
      m.get? "C" = none := by
  obtain ⟨m, h1, -, -, hget, -⟩ :=
    (cloud_reader_fetches_each_page_once_last_write_wins
      ({ demoReconciliationLoop [] [] 0 with
            accClient := pagedCloud
              [("", { After := "c1", Timestamp := 7,
                      Items := [{ ID := "A", ParentID := "R", DeletedAt := 0, OfferingItems := [] },
                                { ID := "B", ParentID := "R", DeletedAt := 0,
                                  OfferingItems := [] }] }),
               ("c1", { After := "", Timestamp := 9,
                        Items := [{ ID := "A", ParentID := "B", DeletedAt := 0,
                                    OfferingItems := [] },
                                  { ID := "C", ParentID := "R", DeletedAt := 5,
                                    OfferingItems := [] }] })] [] } : ReconciliationLoop Store)
      2 {} {} {}).1 _ _ rfl
      (TenantPagesFrom.next _ _ _ _ _ _ (by decide) rfl (TenantPagesFrom.last _ _ rfl))
      (by decide)
  exact ⟨m, h1, by rw [hget]; decide, by rw [hget]; decide⟩

end CloudReader

section ExternalReaders

variable {σ : Type}

theorem GoMap.mem_keys_set {V : Type} (m : GoMap V) (k x : String) (v : V) :
    x ∈ (m.set k v).keys ↔ x = k ∨ x ∈ m.keys := by
  rw [GoMap.mem_keys_iff, GoMap.mem_keys_iff, GoMap.get?_set]
  by_cases h : x = k
  · simp [h]
  · simp [h]

theorem mem_keys_addIDs (page : List String) :
    ∀ (m : GoMap Unit) (x : String), x ∈ (addIDs m page).keys ↔ x ∈ m.keys ∨ x ∈ page := by
  induction page with
  | nil => intro m x; simp [addIDs]
  | cons id rest ih =>
    intro m x
    have hstep : addIDs m (id :: rest) = addIDs (m.set id ()) rest := rfl
    rw [hstep, ih, GoMap.mem_keys_set]
    simp only [List.mem_cons]
    tauto

theorem mem_keys_addIDs_pages (pages : List (List String)) :
    ∀ (m : GoMap Unit) (x : String),
      x ∈ (pages.foldl addIDs m).keys ↔ x ∈ m.keys ∨ x ∈ pages.flatten := by
  induction pages with
  | nil => intro m x; simp
  | cons page rest ih =>
    intro m x
    rw [List.foldl_cons, ih, mem_keys_addIDs]
    simp only [List.flatten_cons, List.mem_append]
    tauto

theorem foldl_append_pages {I : Type} (pages : List (List I)) :
    ∀ acc : List I, pages.foldl (fun acc page => acc ++ page) acc = acc ++ pages.flatten := by
  induction pages with
  | nil => intro acc; simp
  | cons page rest ih => intro acc; simp [ih]

theorem pageRequests_from (mk : Nat → Nat → Call) (offset n : Nat) :
    (List.range (n + 1 + 1)).map (fun i => mk (offset + 100 * i) 100)
      = mk offset 100 :: (List.range (n + 1)).map (fun i => mk (offset + 100 + 100 * i) 100) := by
  rw [List.range_succ_eq_map, List.map_cons, List.map_map]
  simp only [Nat.mul_zero, Nat.add_zero, List.cons.injEq, true_and]
  apply List.map_congr_left
  intro i _
  simp only [Function.comp, Nat.succ_eq_add_one]
  congr 1
  omega

/-- The run of the loop shared by the external readers along a walk. -/
theorem externalPages_walk {I A : Type} (fetch : Nat → Nat → σ → Except String (List I) × σ)
    (mk : Nat → Nat → Call) (add : A → List I → A) (empty : A) (msg : String)
    {offset : Nat} {s s1 : σ} {full : List (List I)} {last : Except String (List I)}
    (h : PageWalk fetch offset s full last s1) :
    ∀ (fuel : Nat) (acc : A) (tr : List (Event σ)), full.length < fuel →
      (externalPages (fun o l => record (mk o l) (fetch o l)) add empty msg fuel offset acc
          (s, tr)).1
        = some (walkResult add empty msg acc full last) ∧
      (externalPages (fun o l => record (mk o l) (fetch o l)) add empty msg fuel offset acc
          (s, tr)).2.1 = s1 ∧
      calls (externalPages (fun o l => record (mk o l) (fetch o l)) add empty msg fuel offset acc
          (s, tr)).2
        = tr.map Event.call
          ++ (List.range (full.length + 1)).map (fun i => mk (offset + 100 * i) 100) := by
  induction h with
  | short offset s s1 page hfetch hlen =>
    intro fuel acc tr hf
    obtain ⟨f, rfl⟩ : ∃ f, fuel = f + 1 := ⟨fuel - 1, by omega⟩
    simp [externalPages, externalSystemPageSize, hfetch, hlen, calls, walkResult,
      List.range_succ]
  | failed offset s s1 err hfetch =>
    intro fuel acc tr hf
    obtain ⟨f, rfl⟩ : ∃ f, fuel = f + 1 := ⟨fuel - 1, by omega⟩
    simp [externalPages, externalSystemPageSize, hfetch, calls, walkResult, List.range_succ]
  | full offset s s1 s2 page rest last hfetch hlen _ ih =>
    intro fuel acc tr hf
    obtain ⟨f, rfl⟩ : ∃ f, fuel = f + 1 := ⟨fuel - 1, by omega⟩
    have hf2 : rest.length < f := by simpa using hf
    have := ih f (add acc page) (tr ++ [⟨mk offset 100, s⟩]) hf2
    rw [List.length_cons, pageRequests_from]
    have hres : walkResult add empty msg acc (page :: rest) last
        = walkResult add empty msg (add acc page) rest last := by
      cases last <;> rfl
    rw [hres]
    simpa [externalPages, externalSystemPageSize, hfetch, hlen, calls] using this

/-- The readers of ids along a walk. -/
theorem idsReader_walk (fetch : Nat → Nat → σ → Except String (List String) × σ)
    (mk : Nat → Nat → Call) (msg : String) (fuel : Nat) {s s1 : σ} {full : List (List String)}
    {last : Except String (List String)} (h : PageWalk fetch 0 s full last s1)
    (hf : full.length < fuel) :
    calls (externalPages (fun o l => record (mk o l) (fetch o l)) addIDs {} msg fuel 0 {}
        (s, [])).2 = pageRequests mk full.length ∧
    (externalPages (fun o l => record (mk o l) (fetch o l)) addIDs {} msg fuel 0 {}
        (s, [])).2.1 = s1 ∧
    ∃ (m : GoMap Unit) (err : Option String),
      (externalPages (fun o l => record (mk o l) (fetch o l)) addIDs {} msg fuel 0 {}
        (s, [])).1 = some (m, err) ∧
      (∀ page, last = .ok page →
        err = none ∧ ∀ id, id ∈ m.keys ↔ id ∈ (full ++ [page]).flatten) ∧
      ∀ e, last = .error e → err = some (msg ++ e) ∧ m.keys = [] := by
  obtain ⟨h1, h2, h3⟩ := externalPages_walk fetch mk addIDs {} msg h fuel {} [] hf
  refine ⟨by simpa [pageRequests] using h3, h2, ?_⟩
  cases last with
  | ok page =>
    refine ⟨_, _, h1, fun page1 hp => ?_, fun e he => by cases he⟩
    cases hp
    refine ⟨rfl, fun id => ?_⟩
    rw [mem_keys_addIDs, mem_keys_addIDs_pages]
    simp only [List.flatten_append, List.mem_append, List.flatten_cons, List.flatten_nil,
      List.append_nil]
    have : id ∉ ({} : GoMap Unit).keys := by simp [GoMap.keys, EmptyCollection.emptyCollection,
      GoMap.empty]
    tauto
  | error e =>
    refine ⟨_, _, h1, fun page hp => (by cases hp), fun e1 he => ?_⟩
    cases he
    exact ⟨rfl, rfl⟩

/-- The reader of offering items along a walk. -/
theorem itemsReader_walk (fetch : Nat → Nat → σ → Except String (List OfferingItemID) × σ)
    (mk : Nat → Nat → Call) (msg : String) (fuel : Nat) {s s1 : σ}
    {full : List (List OfferingItemID)} {last : Except String (List OfferingItemID)}
    (h : PageWalk fetch 0 s full last s1) (hf : full.length < fuel) :
    calls (externalPages (fun o l => record (mk o l) (fetch o l))
        (fun acc page => acc ++ page) [] msg fuel 0 [] (s, [])).2 = pageRequests mk full.length ∧
    (externalPages (fun o l => record (mk o l) (fetch o l))
        (fun acc page => acc ++ page) [] msg fuel 0 [] (s, [])).2.1 = s1 ∧
    ∃ (items : List OfferingItemID) (err : Option String),
      (externalPages (fun o l => record (mk o l) (fetch o l))
        (fun acc page => acc ++ page) [] msg fuel 0 [] (s, [])).1 = some (items, err) ∧
      (∀ page, last = .ok page → err = none ∧ items = (full ++ [page]).flatten) ∧
      ∀ e, last = .error e → err = some (msg ++ e) ∧ items = [] := by
  obtain ⟨h1, h2, h3⟩ := externalPages_walk fetch mk (fun acc page => acc ++ page) [] msg h
    fuel [] [] hf
  refine ⟨by simpa [pageRequests] using h3, h2, ?_⟩
  cases last with
  | ok page =>
    refine ⟨_, _, h1, fun page1 hp => ?_, fun e he => by cases he⟩
    cases hp
    refine ⟨rfl, ?_⟩
    simp [foldl_append_pages]
  | error e =>
    refine ⟨_, _, h1, fun page hp => (by cases hp), fun e1 he => ?_⟩
    cases he
    exact ⟨rfl, rfl⟩

/-- C15 (external paged readers). For every external system and each of the
four readers: if the requests with limit 100 at the offsets 0, 100, 200, ...
are answered with pages of at least 100 entries and then with a page of fewer
than 100 entries or with a failure, then, given a budget above the number of
pages, the reader makes exactly these requests, in this order, and stops; after
a last page it returns no error and exactly the entries of all the pages
fetched (as a set of ids, or, for the offering items, as the list of the pages
one after the other); after a failure it returns the error, prefixed, and no
entries. -/
theorem external_readers_walk_by_hundred (loop : ReconciliationLoop σ) (fuel : Nat) (s s1 : σ) :
    (∀ (full : List (List String)) (last : Except String (List String)),
      PageWalk loop.extClient.GetActiveTenantIDs 0 s full last s1 → full.length < fuel →
      calls (loop.traced.getExternalSystemTenantIDs fuel (s, [])).2
        = pageRequests .GetActiveTenantIDs full.length ∧
      (loop.traced.getExternalSystemTenantIDs fuel (s, [])).2.1 = s1 ∧
      ∃ (m : GoMap Unit) (err : Option String),
        (loop.traced.getExternalSystemTenantIDs fuel (s, [])).1 = some (m, err) ∧
        (∀ page, last = .ok page →
          err = none ∧ ∀ id, id ∈ m.keys ↔ id ∈ (full ++ [page]).flatten) ∧
        ∀ e, last = .error e → err = some ("failed to get tenants from external system: " ++ e) ∧ m.keys = []) ∧
    (∀ (full : List (List String)) (last : Except String (List String)),
      PageWalk loop.extClient.GetActiveUserIDs 0 s full last s1 → full.length < fuel →
      calls (loop.traced.getExternalSystemUserIDs fuel (s, [])).2
        = pageRequests .GetActiveUserIDs full.length ∧
      (loop.traced.getExternalSystemUserIDs fuel (s, [])).2.1 = s1 ∧
      ∃ (m : GoMap Unit) (err : Option String),
        (loop.traced.getExternalSystemUserIDs fuel (s, [])).1 = some (m, err) ∧
        (∀ page, last = .ok page →
          err = none ∧ ∀ id, id ∈ m.keys ↔ id ∈ (full ++ [page]).flatten) ∧
        ∀ e, last = .error e → err = some ("failed to get users from external system: " ++ e) ∧ m.keys = []) ∧
    (∀ (full : List (List String)) (last : Except String (List String)),
      PageWalk loop.extClient.GetActiveAccessPolicyIDs 0 s full last s1 → full.length < fuel →
      calls (loop.traced.getExternalSystemAccessPolicies fuel (s, [])).2
        = pageRequests .GetActiveAccessPolicyIDs full.length ∧
      (loop.traced.getExternalSystemAccessPolicies fuel (s, [])).2.1 = s1 ∧
      ∃ (m : GoMap Unit) (err : Option String),
        (loop.traced.getExternalSystemAccessPolicies fuel (s, [])).1 = some (m, err) ∧
        (∀ page, last = .ok page →
          err = none ∧ ∀ id, id ∈ m.keys ↔ id ∈ (full ++ [page]).flatten) ∧
        ∀ e, last = .error e → err = some ("failed to get users from external system: " ++ e) ∧ m.keys = []) ∧
    (∀ (full : List (List OfferingItemID)) (last : Except String (List OfferingItemID)),
      PageWalk loop.extClient.GetActiveOfferingItemIDs 0 s full last s1 → full.length < fuel →
      calls (loop.traced.getExternalSystemOfferingItems fuel (s, [])).2
        = pageRequests .GetActiveOfferingItemIDs full.length ∧
      (loop.traced.getExternalSystemOfferingItems fuel (s, [])).2.1 = s1 ∧
      ∃ (items : List OfferingItemID) (err : Option String),
        (loop.traced.getExternalSystemOfferingItems fuel (s, [])).1 = some (items, err) ∧
        (∀ page, last = .ok page → err = none ∧ items = (full ++ [page]).flatten) ∧
        ∀ e, last = .error e → err = some ("failed to get tenants from external system: " ++ e) ∧ items = []) :=
  ⟨fun _ _ h hf => idsReader_walk _ _ _ fuel h hf,
   fun _ _ h hf => idsReader_walk _ _ _ fuel h hf,
   fun _ _ h hf => idsReader_walk _ _ _ fuel h hf,
   fun _ _ h hf => itemsReader_walk _ _ _ fuel h hf⟩

/-- The external system holds 100 tenants `a` and one tenant `b`: the reader
of tenant ids asks for the offsets 0 and 100 and stops. It fails to list its
users beyond the first page: the reader of user ids returns an error. -/
theorem external_readers_walk_by_hundred_witness :
    calls ((ReconciliationLoop.traced
        { demoReconciliationLoop [] [] 0 with extClient := twoPagesExt })
      |>.getExternalSystemTenantIDs 5 ({}, [])).2
      = [.GetActiveTenantIDs 0 100, .GetActiveTenantIDs 100 100] ∧
    ∃ m, ((ReconciliationLoop.traced
        { demoReconciliationLoop [] [] 0 with extClient := twoPagesExt })
      |>.getExternalSystemUserIDs 5 ({}, [])).1
      = some (m, some "failed to get users from external system: unavailable") ∧
      m.keys = [] := by
  have h := external_readers_walk_by_hundred
      ({ demoReconciliationLoop [] [] 0 with extClient := twoPagesExt } :
        ReconciliationLoop Store) 5 {} {}
  refine ⟨(h.1 [List.replicate 100 "a"] (.ok ["b"])
    (PageWalk.full 0 ({} : Store) {} {} (List.replicate 100 "a") [] (.ok ["b"]) rfl (by decide)
      (PageWalk.short 100 ({} : Store) {} ["b"] rfl (by decide)))
    (by decide)).1, ?_⟩
  obtain ⟨-, -, m, err, hrun, -, herr⟩ := h.2.1 [List.replicate 100 "u"] (.error "unavailable")
    (PageWalk.full 0 ({} : Store) {} {} (List.replicate 100 "u") [] (.error "unavailable") rfl
      (by decide) (PageWalk.failed 100 ({} : Store) {} "unavailable" rfl))
    (by decide)
  obtain ⟨rfl, hm⟩ := herr "unavailable" rfl
  exact ⟨m, hrun, hm⟩

end ExternalReaders

section ReturnedWatermark

variable {σ : Type}

theorem upsertTenants_result (rt : Runtime σ) (loop : ReconciliationLoop σ) (fuel : Nat)
    (st : TenantsVars × σ) :
    (∀ t, (loop.upsertTenantsAndOfferingItems rt fuel st).1 = some t →
      t = st.1.nextUpdateTimestamp) ∧
    (∀ s4 r5 st5,
      loop.createOrUpdateTenants rt fuel (rt.rangeOrder 1 st.1.accTenants.entries) st.2
        = (some (), s4) →
      retryHelper rt.sleepOnWorld (loop.readExternalOIs fuel) (st.1, s4) = (some r5, st5) →
      (loop.upsertTenantsAndOfferingItems rt fuel st).1 = some st.1.nextUpdateTimestamp) := by
  rcases st with ⟨v, s⟩
  have hbody : ∀ s4, loop.createOrUpdateTenants rt fuel (rt.rangeOrder 1 v.accTenants.entries) s
        = (some (), s4) →
      ((loop.upsertTenantsAndOfferingItems rt fuel (v, s)).1 = none ∧
        (retryHelper rt.sleepOnWorld (loop.readExternalOIs fuel) (v, s4)).1 = none) ∨
      ((loop.upsertTenantsAndOfferingItems rt fuel (v, s)).1 = some v.nextUpdateTimestamp ∧
        ∃ r5, (retryHelper rt.sleepOnWorld (loop.readExternalOIs fuel) (v, s4)).1 = some r5) := by
    intro s4 h4
    have k5 := retried_keeps_tenants rt _ (readExternalOIs_keeps loop fuel) (v, s4)
    rcases h5 : retryHelper rt.sleepOnWorld (loop.readExternalOIs fuel) (v, s4)
      with ⟨r5, v5, s5⟩
    rw [h5] at k5
    simp only at k5
    rcases r5 with _ | _ | e
    · left
      simp [ReconciliationLoop.upsertTenantsAndOfferingItems, h4, h5]
    · right
      have h6 := deleteInactiveOfferingItems_total loop v5.accTenants v5.externalOIs s5
      have h7 := updateOfferingItemsOfTenants_total loop (rt.rangeOrder 2 v5.accTenants.entries)
        (loop.deleteInactiveOfferingItems v5.accTenants v5.externalOIs s5).2
      refine ⟨?_, _, rfl⟩
      simp only [ReconciliationLoop.upsertTenantsAndOfferingItems,
        ReconciliationLoop.updateOfferingItemsOnExternalSystem, M.bind_apply, M.onWorld_apply,
        M.getVars_apply, M.pure_apply, h4, h5, h6, h7, k5.2]
    · right
      refine ⟨?_, _, rfl⟩
      simp only [ReconciliationLoop.upsertTenantsAndOfferingItems, M.bind_apply, M.onWorld_apply,
        M.getVars_apply, M.pure_apply, h4, h5, k5.2]
  constructor
  · intro t ht
    rcases h4 : loop.createOrUpdateTenants rt fuel (rt.rangeOrder 1 v.accTenants.entries) s
      with ⟨r4, s4⟩
    rcases r4 with _ | _
    · simp [ReconciliationLoop.upsertTenantsAndOfferingItems, h4] at ht
    · rcases hbody s4 h4 with ⟨h, -⟩ | ⟨h, -⟩
      · rw [h] at ht; cases ht
      · rw [h] at ht; exact (Option.some.inj ht).symm
  · intro s4 r5 st5 h4 h5
    rcases hbody s4 h4 with ⟨-, h⟩ | ⟨h, -⟩
    · rw [h5] at h; cases h
    · exact h

theorem upsertUsers_result (rt : Runtime σ) (loop : ReconciliationLoop σ) (fuel : Nat)
    (st : UsersVars × σ) :
    (∀ t, (loop.upsertUsersAndAccessPolicies rt fuel st).1 = some t →
      t = st.1.nextUpdateTimestamp) ∧
    (∀ s4 r5 st5,
      loop.createOrUpdateUsers rt fuel (rt.rangeOrder 7 st.1.accUsers.entries) st.2
        = (some (), s4) →
      retryHelper rt.sleepOnWorld (loop.readExternalAPs fuel) (st.1, s4) = (some r5, st5) →
      (loop.upsertUsersAndAccessPolicies rt fuel st).1 = some st.1.nextUpdateTimestamp) := by
  rcases st with ⟨v, s⟩
  have hbody : ∀ s4, loop.createOrUpdateUsers rt fuel (rt.rangeOrder 7 v.accUsers.entries) s
        = (some (), s4) →
      ((loop.upsertUsersAndAccessPolicies rt fuel (v, s)).1 = none ∧
        (retryHelper rt.sleepOnWorld (loop.readExternalAPs fuel) (v, s4)).1 = none) ∨
      ((loop.upsertUsersAndAccessPolicies rt fuel (v, s)).1 = some v.nextUpdateTimestamp ∧
        ∃ r5, (retryHelper rt.sleepOnWorld (loop.readExternalAPs fuel) (v, s4)).1 = some r5) := by
    intro s4 h4
    have k5 := retried_keeps_users rt _ (readExternalAPs_keeps loop fuel) (v, s4)
    rcases h5 : retryHelper rt.sleepOnWorld (loop.readExternalAPs fuel) (v, s4)
      with ⟨r5, v5, s5⟩
    rw [h5] at k5
    simp only at k5
    rcases r5 with _ | _ | e
    · left
      simp [ReconciliationLoop.upsertUsersAndAccessPolicies, h4, h5]
    · right
      have h6 : ∀ x, (loop.deleteInactiveAccessPolicies rt v5.accUsers v5.externalAPs x).1
          = some () := fun x => deleteAccessPolicies_total loop _ x
      have h7 := updateAccessPoliciesOfUsers_total loop (rt.rangeOrder 5 v5.accUsers.entries)
        (loop.deleteInactiveAccessPolicies rt v5.accUsers v5.externalAPs s5).2
      refine ⟨?_, _, rfl⟩
      simp only [ReconciliationLoop.upsertUsersAndAccessPolicies,
        ReconciliationLoop.updateAccessPoliciesOnExternalSystem, M.bind_apply, M.onWorld_apply,
        M.getVars_apply, M.pure_apply, h4, h5, h6, h7, k5.2]
    · right
      refine ⟨?_, _, rfl⟩
      simp only [ReconciliationLoop.upsertUsersAndAccessPolicies, M.bind_apply, M.onWorld_apply,
        M.getVars_apply, M.pure_apply, h4, h5, k5.2]
  constructor
  · intro t ht
    rcases h4 : loop.createOrUpdateUsers rt fuel (rt.rangeOrder 7 v.accUsers.entries) s
      with ⟨r4, s4⟩
    rcases r4 with _ | _
    · simp [ReconciliationLoop.upsertUsersAndAccessPolicies, h4] at ht
    · rcases hbody s4 h4 with ⟨h, -⟩ | ⟨h, -⟩
      · rw [h] at ht; cases ht
      · rw [h] at ht; exact (Option.some.inj ht).symm
  · intro s4 r5 st5 h4 h5
    rcases hbody s4 h4 with ⟨-, h⟩ | ⟨h, -⟩
    · rw [h5] at h; cases h
    · exact h

/-- A tenants cycle after its cloud read: what it returns. -/
theorem reconcileTenants_result (rt : Runtime σ) (loop : ReconciliationLoop σ) (fuel : Nat)
    (s : σ) (v1 : TenantsVars) (s1 : σ)
    (h1 : retryHelper rt.sleepOnWorld (loop.readACCTenants fuel) ({}, s) = (some none, (v1, s1))) :
    (∀ t, (loop.reconcileTenantsAndOfferingItems rt fuel s).1 = some t →
      t = v1.nextUpdateTimestamp) ∧
    ∀ r2 v2 s2,
      retryHelper rt.sleepOnWorld (loop.readExternalTenantIDs fuel) (v1, s1)
        = (some r2, (v2, s2)) →
      (r2 ≠ none →
        (loop.reconcileTenantsAndOfferingItems rt fuel s).1 = some v1.nextUpdateTimestamp) ∧
      (r2 = none → ∀ s4 r5 st5,
        loop.createOrUpdateTenants rt fuel (rt.rangeOrder 1 v2.accTenants.entries)
          (loop.removeNonExistingTenants v2.accTenants
            ((rt.rangeOrder 0 v2.externalTenantIDs.entries).map Prod.fst) s2).2 = (some (), s4) →
        retryHelper rt.sleepOnWorld (loop.readExternalOIs fuel) (v2, s4) = (some r5, st5) →
        (loop.reconcileTenantsAndOfferingItems rt fuel s).1 = some v1.nextUpdateTimestamp) := by
  have k2 := retried_keeps_tenants rt _ (readExternalTenantIDs_keeps loop fuel) (v1, s1)
  have hrun : ∀ v2 s2, retryHelper rt.sleepOnWorld (loop.readExternalTenantIDs fuel) (v1, s1)
        = (some none, (v2, s2)) →
      (loop.reconcileTenantsAndOfferingItems rt fuel s).1
        = (loop.upsertTenantsAndOfferingItems rt fuel
            (v2, (loop.removeNonExistingTenants v2.accTenants
              ((rt.rangeOrder 0 v2.externalTenantIDs.entries).map Prod.fst) s2).2)).1 := by
    intro v2 s2 h2
    have h3 := removeNonExistingTenants_total loop v2.accTenants
      ((rt.rangeOrder 0 v2.externalTenantIDs.entries).map Prod.fst) s2
    simp only [ReconciliationLoop.reconcileTenantsAndOfferingItems,
      ReconciliationLoop.reconcileTenantsBody, ReconciliationLoop.applyTenants,
      M.withVars_apply, M.bind_apply, M.onWorld_apply, M.getVars_apply, M.pure_apply, h1, h2, h3]
  constructor
  · intro t ht
    rcases h2 : retryHelper rt.sleepOnWorld (loop.readExternalTenantIDs fuel) (v1, s1)
      with ⟨r2, v2, s2⟩
    rw [h2] at k2
    simp only at k2
    rcases r2 with _ | _ | e
    · simp [ReconciliationLoop.reconcileTenantsAndOfferingItems,
        ReconciliationLoop.reconcileTenantsBody, h1, h2] at ht
    · rw [hrun v2 s2 h2] at ht
      exact ((upsertTenants_result rt loop fuel _).1 t ht).trans k2.2
    · simp only [ReconciliationLoop.reconcileTenantsAndOfferingItems,
        ReconciliationLoop.reconcileTenantsBody, M.withVars_apply, M.bind_apply,
        M.getVars_apply, M.pure_apply, h1, h2, Option.some.injEq] at ht
      rw [← ht]
      exact k2.2
  · intro r2 v2 s2 h2
    rw [h2] at k2
    simp only at k2
    constructor
    · intro hne
      rcases r2 with _ | e
      · exact absurd rfl hne
      · simp only [ReconciliationLoop.reconcileTenantsAndOfferingItems,
          ReconciliationLoop.reconcileTenantsBody, M.withVars_apply, M.bind_apply,
          M.getVars_apply, M.pure_apply, h1, h2, k2.2]
    · rintro rfl s4 r5 st5 h4 h5
      rw [hrun v2 s2 h2, ← k2.2]
      exact (upsertTenants_result rt loop fuel _).2 s4 r5 st5 h4 h5

/-- A users cycle after its cloud read: what it returns. -/
theorem reconcileUsers_result (rt : Runtime σ) (loop : ReconciliationLoop σ) (fuel : Nat)
    (s : σ) (v1 : UsersVars) (s1 : σ)
    (h1 : retryHelper rt.sleepOnWorld (loop.readACCUsers fuel) ({}, s) = (some none, (v1, s1))) :
    (∀ t, (loop.reconcileUsersAndAccessPolicies rt fuel s).1 = some t →
      t = v1.nextUpdateTimestamp) ∧
    ∀ r2 v2 s2,
      retryHelper rt.sleepOnWorld (loop.readExternalUserIDs fuel) (v1, s1)
        = (some r2, (v2, s2)) →
      (r2 ≠ none →
        (loop.reconcileUsersAndAccessPolicies rt fuel s).1 = some v1.nextUpdateTimestamp) ∧
      (r2 = none → ∀ s4 r5 st5,
        loop.createOrUpdateUsers rt fuel (rt.rangeOrder 7 v2.accUsers.entries)
          (loop.removeNonExistingUsers v2.accUsers
            ((rt.rangeOrder 6 v2.externalUserIDs.entries).map Prod.fst) s2).2 = (some (), s4) →
        retryHelper rt.sleepOnWorld (loop.readExternalAPs fuel) (v2, s4) = (some r5, st5) →
        (loop.reconcileUsersAndAccessPolicies rt fuel s).1 = some v1.nextUpdateTimestamp) := by
  have k2 := retried_keeps_users rt _ (readExternalUserIDs_keeps loop fuel) (v1, s1)
  have hrun : ∀ v2 s2, retryHelper rt.sleepOnWorld (loop.readExternalUserIDs fuel) (v1, s1)
        = (some none, (v2, s2)) →
      (loop.reconcileUsersAndAccessPolicies rt fuel s).1
        = (loop.upsertUsersAndAccessPolicies rt fuel
            (v2, (loop.removeNonExistingUsers v2.accUsers
              ((rt.rangeOrder 6 v2.externalUserIDs.entries).map Prod.fst) s2).2)).1 := by
    intro v2 s2 h2
    have h3 := removeNonExistingUsers_total loop v2.accUsers
      ((rt.rangeOrder 6 v2.externalUserIDs.entries).map Prod.fst) s2
    simp only [ReconciliationLoop.reconcileUsersAndAccessPolicies,
      ReconciliationLoop.reconcileUsersBody, ReconciliationLoop.applyUsers,
      M.withVars_apply, M.bind_apply, M.onWorld_apply, M.getVars_apply, M.pure_apply, h1, h2, h3]
  constructor
  · intro t ht
    rcases h2 : retryHelper rt.sleepOnWorld (loop.readExternalUserIDs fuel) (v1, s1)
      with ⟨r2, v2, s2⟩
    rw [h2] at k2
    simp only at k2
    rcases r2 with _ | _ | e
    · simp [ReconciliationLoop.reconcileUsersAndAccessPolicies,
        ReconciliationLoop.reconcileUsersBody, h1, h2] at ht
    · rw [hrun v2 s2 h2] at ht
      exact ((upsertUsers_result rt loop fuel _).1 t ht).trans k2.2
    · simp only [ReconciliationLoop.reconcileUsersAndAccessPolicies,
        ReconciliationLoop.reconcileUsersBody, M.withVars_apply, M.bind_apply,
        M.getVars_apply, M.pure_apply, h1, h2, Option.some.injEq] at ht
      rw [← ht]
      exact k2.2
  · intro r2 v2 s2 h2
    rw [h2] at k2
    simp only at k2
    constructor
    · intro hne
      rcases r2 with _ | e
      · exact absurd rfl hne
      · simp only [ReconciliationLoop.reconcileUsersAndAccessPolicies,
          ReconciliationLoop.reconcileUsersBody, M.withVars_apply, M.bind_apply,
          M.getVars_apply, M.pure_apply, h1, h2, k2.2]
    · rintro rfl s4 r5 st5 h4 h5
      rw [hrun v2 s2 h2, ← k2.2]
      exact (upsertUsers_result rt loop fuel _).2 s4 r5 st5 h4 h5

/-- A retried operation that ends in success ends with a successful
attempt. -/
theorem retryLoop_success {τ : Type} (sleep : Duration → τ → τ)
    (userFunction : M τ (Option String)) :
    ∀ (n i : Nat) (b : Duration) (err : Option String) (s s1 : τ),
      retryLoop sleep userFunction n i b err s = (some none, s1) →
      ∃ s0, userFunction s0 = (some none, s1) := by
  intro n
  induction n with
  | zero => intro i b err s s1 h; simp [retryLoop] at h
  | succ n ih =>
    intro i b err s s1 h
    simp only [retryLoop, M.bind_apply] at h
    rcases hrun : userFunction s with ⟨r, s2⟩
    rw [hrun] at h
    rcases r with _ | _ | e
    · simp at h
    · simp only [M.pure_apply, Prod.mk.injEq, true_and] at h
      exact ⟨s, by rw [hrun, h]⟩
    · simp only at h
      split at h
      · simp at h
      · exact ih _ _ _ _ _ h

theorem tenantsRestPages_timestamp (loop : ReconciliationLoop σ) (ts : Time) :
    ∀ (pages : Nat) (resp : TenantGetResponse) (acc : GoMap Tenant) (s : σ)
      (r : GoMap Tenant × Time × Option String),
      (loop.tenantsRestPages ts pages resp acc s).1 = some r → r.2.2 = none → r.2.1 = ts := by
  intro pages
  induction pages with
  | zero => intro resp acc s r h; simp [ReconciliationLoop.tenantsRestPages] at h
  | succ n ih =>
    intro resp acc s r h hr
    simp only [ReconciliationLoop.tenantsRestPages, M.bind_apply] at h
    rcases hnext : loop.accClient.GetTenantsNextPage resp s with ⟨q, s1⟩
    rw [hnext] at h
    rcases q with _ | _ | _ | next
    · simp at h
    · simp only [M.pure_apply, Option.some.injEq] at h
      subst h
      simp at hr
    · simp only [M.pure_apply, Option.some.injEq] at h
      subst h
      rfl
    · exact ih _ _ _ _ h hr

theorem usersRestPages_timestamp (loop : ReconciliationLoop σ) (ts : Time) :
    ∀ (pages : Nat) (resp : UserGetResponse) (acc : GoMap User) (s : σ)
      (r : GoMap User × Time × Option String),
      (loop.usersRestPages ts pages resp acc s).1 = some r → r.2.2 = none → r.2.1 = ts := by
  intro pages
  induction pages with
  | zero => intro resp acc s r h; simp [ReconciliationLoop.usersRestPages] at h
  | succ n ih =>
    intro resp acc s r h hr
    simp only [ReconciliationLoop.usersRestPages, M.bind_apply] at h
    rcases hnext : loop.accClient.GetUsersNextPage resp s with ⟨q, s1⟩
    rw [hnext] at h
    rcases q with _ | _ | _ | next
    · simp at h
    · simp only [M.pure_apply, Option.some.injEq] at h
      subst h
      simp at hr
    · simp only [M.pure_apply, Option.some.injEq] at h
      subst h
      rfl
    · exact ih _ _ _ _ h hr

theorem GetTenantsNextPage_emits_later (acc : Client σ) (req : TenantGetRequest)
    (hreq : req.After = "") (page : TenantGetResponse) :
    Emits worldTrace (fun c => c ≠ .GetTenants req) (acc.traced.GetTenantsNextPage page) := by
  unfold Client.GetTenantsNextPage
  split
  · rename_i hafter
    refine Emits.bind (Emits.record _ _ ?_) (fun r => ?_)
    · intro h
      injection h with h
      rw [← h] at hreq
      exact hafter hreq
    · split <;> exact Emits.pure _
  · exact Emits.pure _

theorem GetUsersNextPage_emits_later (acc : Client σ) (req : UserGetRequest)
    (hreq : req.After = "") (page : UserGetResponse) :
    Emits worldTrace (fun c => c ≠ .GetUsers req) (acc.traced.GetUsersNextPage page) := by
  unfold Client.GetUsersNextPage
  split
  · rename_i hafter
    refine Emits.bind (Emits.record _ _ ?_) (fun r => ?_)
    · intro h
      injection h with h
      rw [← h] at hreq
      exact hafter hreq
    · split <;> exact Emits.pure _
  · exact Emits.pure _

theorem tenantsRestPages_emits_later (loop : ReconciliationLoop σ) (ts : Time) :
    ∀ (pages : Nat) (resp : TenantGetResponse) (acc : GoMap Tenant),
      Emits worldTrace (fun c => c ≠ .GetTenants loop.tenantsRequest)
        (loop.traced.tenantsRestPages ts pages resp acc) := by
  intro pages
  induction pages with
  | zero => intro _ _; exact Emits.outOfFuel
  | succ n ih =>
    intro resp acc
    unfold ReconciliationLoop.tenantsRestPages
    refine Emits.bind (GetTenantsNextPage_emits_later _ _ rfl _) (fun r => ?_)
    repeat' first
      | exact Emits.pure _
      | exact ih _ _
      | split

theorem usersRestPages_emits_later (loop : ReconciliationLoop σ) (ts : Time) :
    ∀ (pages : Nat) (resp : UserGetResponse) (acc : GoMap User),
      Emits worldTrace (fun c => c ≠ .GetUsers loop.usersRequest)
        (loop.traced.usersRestPages ts pages resp acc) := by
  intro pages
  induction pages with
  | zero => intro _ _; exact Emits.outOfFuel
  | succ n ih =>
    intro resp acc
    unfold ReconciliationLoop.usersRestPages
    refine Emits.bind (GetUsersNextPage_emits_later _ _ rfl _) (fun r => ?_)
    repeat' first
      | exact Emits.pure _
      | exact ih _ _
      | split

/-- A successful read of the cloud tenants starts with the request for the
first page and returns the timestamp of the answer. -/
theorem getACCTenants_first_page (loop : ReconciliationLoop σ) (fuel : Nat) (w w1 : Traced σ)
    (m : GoMap Tenant) (ts : Time)
    (h : loop.traced.getACCTenantsAndOfferingItemsForReconciliation fuel w
      = (some (m, ts, none), w1)) :
    ∃ (post : List (Event σ)) (resp : TenantGetResponse),
      w1.2 = w.2 ++ ⟨.GetTenants loop.tenantsRequest, w.1⟩ :: post ∧
      (∀ ev ∈ post, ev.call ≠ .GetTenants loop.tenantsRequest) ∧
      (loop.accClient.GetTenants loop.tenantsRequest w.1).1 = .ok resp ∧
      ts = resp.Timestamp := by
  rcases hget : loop.accClient.GetTenants loop.tenantsRequest w.1 with ⟨r, s1⟩
  have hget2 := hget
  simp only [ReconciliationLoop.tenantsRequest] at hget2
  rcases r with err | resp
  · simp [ReconciliationLoop.getACCTenantsAndOfferingItemsForReconciliation, hget2] at h
  · by_cases hafter : resp.After = ""
    · simp only [ReconciliationLoop.getACCTenantsAndOfferingItemsForReconciliation,
        ReconciliationLoop.traced_accClient, Client.traced_GetTenants, M.bind_apply,
        M.lift_apply, record_fst, record_snd, hget2, hafter, if_true, M.pure_apply,
        ReconciliationLoop.traced_tenantID, Prod.mk.injEq, Option.some.injEq] at h
      obtain ⟨⟨-, hts, -⟩, hw⟩ := h
      exact ⟨[], resp, by rw [← hw]; rfl, by simp, rfl, hts.symm⟩
    · simp only [ReconciliationLoop.getACCTenantsAndOfferingItemsForReconciliation,
        ReconciliationLoop.traced_accClient, Client.traced_GetTenants, M.bind_apply,
        M.lift_apply, record_fst, record_snd, hget2, hafter, if_false,
        ReconciliationLoop.traced_tenantID] at h
      have h2 : loop.traced.tenantsRestPages resp.Timestamp fuel resp (addTenants {} resp.Items)
          (s1, w.2 ++ [⟨.GetTenants loop.tenantsRequest, w.1⟩]) = (some (m, ts, none), w1) := h
      obtain ⟨post, hpost, hp⟩ := tenantsRestPages_emits_later loop resp.Timestamp fuel resp
        (addTenants {} resp.Items)
        (s1, w.2 ++ [⟨.GetTenants loop.tenantsRequest, w.1⟩])
      have hts := tenantsRestPages_timestamp loop.traced resp.Timestamp fuel resp
        (addTenants {} resp.Items) (s1, w.2 ++ [⟨.GetTenants loop.tenantsRequest, w.1⟩])
        (m, ts, none) (by rw [h2]) rfl
      rw [h2] at hpost
      simp only [worldTrace, List.append_assoc, List.singleton_append] at hpost
      exact ⟨post, resp, hpost, hp, rfl, hts⟩

/-- A successful read of the cloud users starts with the request for the
first page and returns the timestamp of the answer. -/
theorem getACCUsers_first_page (loop : ReconciliationLoop σ) (fuel : Nat) (w w1 : Traced σ)
    (m : GoMap User) (ts : Time)
    (h : loop.traced.getACCUsersAndAccessPoliciesForReconciliation fuel w
      = (some (m, ts, none), w1)) :
    ∃ (post : List (Event σ)) (resp : UserGetResponse),
      w1.2 = w.2 ++ ⟨.GetUsers loop.usersRequest, w.1⟩ :: post ∧
      (∀ ev ∈ post, ev.call ≠ .GetUsers loop.usersRequest) ∧
      (loop.accClient.GetUsers loop.usersRequest w.1).1 = .ok resp ∧
      ts = resp.Timestamp := by
  rcases hget : loop.accClient.GetUsers loop.usersRequest w.1 with ⟨r, s1⟩
  have hget2 := hget
  simp only [ReconciliationLoop.usersRequest] at hget2
  rcases r with err | resp
  · simp [ReconciliationLoop.getACCUsersAndAccessPoliciesForReconciliation, hget2] at h
  · by_cases hafter : resp.After = ""
    · simp only [ReconciliationLoop.getACCUsersAndAccessPoliciesForReconciliation,
        ReconciliationLoop.traced_accClient, Client.traced_GetUsers, M.bind_apply,
        M.lift_apply, record_fst, record_snd, hget2, hafter, if_true, M.pure_apply,
        ReconciliationLoop.traced_tenantID, Prod.mk.injEq, Option.some.injEq] at h
      obtain ⟨⟨-, hts, -⟩, hw⟩ := h
      exact ⟨[], resp, by rw [← hw]; rfl, by simp, rfl, hts.symm⟩
    · simp only [ReconciliationLoop.getACCUsersAndAccessPoliciesForReconciliation,
        ReconciliationLoop.traced_accClient, Client.traced_GetUsers, M.bind_apply,
        M.lift_apply, record_fst, record_snd, hget2, hafter, if_false,
        ReconciliationLoop.traced_tenantID] at h
      have h2 : loop.traced.usersRestPages resp.Timestamp fuel resp (addUsers {} resp.Items)
          (s1, w.2 ++ [⟨.GetUsers loop.usersRequest, w.1⟩]) = (some (m, ts, none), w1) := h
      obtain ⟨post, hpost, hp⟩ := usersRestPages_emits_later loop resp.Timestamp fuel resp
        (addUsers {} resp.Items)
        (s1, w.2 ++ [⟨.GetUsers loop.usersRequest, w.1⟩])
      have hts := usersRestPages_timestamp loop.traced resp.Timestamp fuel resp
        (addUsers {} resp.Items) (s1, w.2 ++ [⟨.GetUsers loop.usersRequest, w.1⟩])
        (m, ts, none) (by rw [h2]) rfl
      rw [h2] at hpost
      simp only [worldTrace, List.append_assoc, List.singleton_append] at hpost
      exact ⟨post, resp, hpost, hp, rfl, hts⟩

theorem readACCTenants_success (loop : ReconciliationLoop σ) (fuel : Nat)
    (v0 v1 : TenantsVars) (w0 w1 : σ)
    (h : loop.readACCTenants fuel (v0, w0) = (some none, (v1, w1))) :
    loop.getACCTenantsAndOfferingItemsForReconciliation fuel w0
      = (some (v1.accTenants, v1.nextUpdateTimestamp, none), w1) := by
  simp only [ReconciliationLoop.readACCTenants, M.bind_apply, M.onWorld_apply] at h
  rcases hrun : loop.getACCTenantsAndOfferingItemsForReconciliation fuel w0 with ⟨r, w2⟩
  rw [hrun] at h
  rcases r with _ | ⟨m, ts, e⟩
  · simp at h
  · simp only [M.modifyVars_apply, M.pure_apply, Prod.mk.injEq, Option.some.injEq] at h
    obtain ⟨he, hv, hw⟩ := h
    subst he hv hw
    rfl

theorem readACCUsers_success (loop : ReconciliationLoop σ) (fuel : Nat)
    (v0 v1 : UsersVars) (w0 w1 : σ)
    (h : loop.readACCUsers fuel (v0, w0) = (some none, (v1, w1))) :
    loop.getACCUsersAndAccessPoliciesForReconciliation fuel w0
      = (some (v1.accUsers, v1.nextUpdateTimestamp, none), w1) := by
  simp only [ReconciliationLoop.readACCUsers, M.bind_apply, M.onWorld_apply] at h
  rcases hrun : loop.getACCUsersAndAccessPoliciesForReconciliation fuel w0 with ⟨r, w2⟩
  rw [hrun] at h
  rcases r with _ | ⟨m, ts, e⟩
  · simp at h
  · simp only [M.modifyVars_apply, M.pure_apply, Prod.mk.injEq, Option.some.injEq] at h
    obtain ⟨he, hv, hw⟩ := h
    subst he hv hw
    rfl

/-- C16 (returned watermark). For every reconciliation cycle, of tenants and
of users alike, whatever the collaborators answer: if the retried cloud read
succeeds, then (1) its last request for a first page was answered with a page
whose timestamp is the watermark the read left, whatever the later pages
carry; (2) whatever the cycle returns is this watermark; (3) the cycle does
return it when the external id read fails, and when that read succeeds, step 4
returns and the external child read returns, with or without an error: no
failure of a later read, delete or upsert changes the watermark. -/
theorem reconcile_returns_first_page_timestamp (rt : Runtime σ) (loop : ReconciliationLoop σ)
    (fuel : Nat) (s : σ) :
    (∀ (v1 : TenantsVars) (w1 : Traced σ),
      retryHelper rt.traced.sleepOnWorld (loop.traced.readACCTenants fuel) ({}, (s, []))
        = (some none, (v1, w1)) →
      (∃ (pre post : List (Event σ)) (s0 : σ) (resp : TenantGetResponse),
        w1.2 = pre ++ ⟨.GetTenants loop.tenantsRequest, s0⟩ :: post ∧
        (∀ ev ∈ post, ev.call ≠ .GetTenants loop.tenantsRequest) ∧
        (loop.accClient.GetTenants loop.tenantsRequest s0).1 = .ok resp ∧
        v1.nextUpdateTimestamp = resp.Timestamp) ∧
      (∀ t, (loop.traced.reconcileTenantsAndOfferingItems rt.traced fuel (s, [])).1 = some t →
        t = v1.nextUpdateTimestamp) ∧
      ∀ r2 v2 w2,
        retryHelper rt.traced.sleepOnWorld (loop.traced.readExternalTenantIDs fuel) (v1, w1)
          = (some r2, (v2, w2)) →
        (r2 ≠ none →
          (loop.traced.reconcileTenantsAndOfferingItems rt.traced fuel (s, [])).1
            = some v1.nextUpdateTimestamp) ∧
        (r2 = none → ∀ w4 r5 st5,
          loop.traced.createOrUpdateTenants rt.traced fuel
            (rt.rangeOrder 1 v2.accTenants.entries)
            (loop.traced.removeNonExistingTenants v2.accTenants
              ((rt.rangeOrder 0 v2.externalTenantIDs.entries).map Prod.fst) w2).2
            = (some (), w4) →
          retryHelper rt.traced.sleepOnWorld (loop.traced.readExternalOIs fuel) (v2, w4)
            = (some r5, st5) →
          (loop.traced.reconcileTenantsAndOfferingItems rt.traced fuel (s, [])).1
            = some v1.nextUpdateTimestamp)) ∧
    (∀ (v1 : UsersVars) (w1 : Traced σ),
      retryHelper rt.traced.sleepOnWorld (loop.traced.readACCUsers fuel) ({}, (s, []))
        = (some none, (v1, w1)) →
      (∃ (pre post : List (Event σ)) (s0 : σ) (resp : UserGetResponse),
        w1.2 = pre ++ ⟨.GetUsers loop.usersRequest, s0⟩ :: post ∧
        (∀ ev ∈ post, ev.call ≠ .GetUsers loop.usersRequest) ∧
        (loop.accClient.GetUsers loop.usersRequest s0).1 = .ok resp ∧
        v1.nextUpdateTimestamp = resp.Timestamp) ∧
      (∀ t, (loop.traced.reconcileUsersAndAccessPolicies rt.traced fuel (s, [])).1 = some t →
        t = v1.nextUpdateTimestamp) ∧
      ∀ r2 v2 w2,
        retryHelper rt.traced.sleepOnWorld (loop.traced.readExternalUserIDs fuel) (v1, w1)
          = (some r2, (v2, w2)) →
        (r2 ≠ none →
          (loop.traced.reconcileUsersAndAccessPolicies rt.traced fuel (s, [])).1
            = some v1.nextUpdateTimestamp) ∧
        (r2 = none → ∀ w4 r5 st5,
          loop.traced.createOrUpdateUsers rt.traced fuel
            (rt.rangeOrder 7 v2.accUsers.entries)
            (loop.traced.removeNonExistingUsers v2.accUsers
              ((rt.rangeOrder 6 v2.externalUserIDs.entries).map Prod.fst) w2).2
            = (some (), w4) →
          retryHelper rt.traced.sleepOnWorld (loop.traced.readExternalAPs fuel) (v2, w4)
            = (some r5, st5) →
          (loop.traced.reconcileUsersAndAccessPolicies rt.traced fuel (s, [])).1
            = some v1.nextUpdateTimestamp)) := by
  constructor
  · intro v1 w1 h1
    refine ⟨?_, reconcileTenants_result rt.traced loop.traced fuel (s, []) v1 w1 h1⟩
    obtain ⟨⟨v0, w0⟩, h0⟩ := retryLoop_success _ _ _ _ _ _ _ _ h1
    obtain ⟨post, resp, hw, hp, hr, hts⟩ := getACCTenants_first_page loop fuel w0 w1 _ _
      (readACCTenants_success loop.traced fuel v0 v1 w0 w1 h0)
    exact ⟨w0.2, post, w0.1, resp, hw, hp, hr, hts⟩
  · intro v1 w1 h1
    refine ⟨?_, reconcileUsers_result rt.traced loop.traced fuel (s, []) v1 w1 h1⟩
    obtain ⟨⟨v0, w0⟩, h0⟩ := retryLoop_success _ _ _ _ _ _ _ _ h1
    obtain ⟨post, resp, hw, hp, hr, hts⟩ := getACCUsers_first_page loop fuel w0 w1 _ _
      (readACCUsers_success loop.traced fuel v0 v1 w0 w1 h0)
    exact ⟨w0.2, post, w0.1, resp, hw, hp, hr, hts⟩

/-- The cloud answers with two pages, stamped 7 and 9, and the external
system cannot list its offering items: the cycle stops after step 5 and
returns 7. -/
theorem reconcile_returns_first_page_timestamp_witness :
    (ReconciliationLoop.reconcileTenantsAndOfferingItems plainRuntime.traced
      (ReconciliationLoop.traced
        { demoReconciliationLoop [] [] 0 with
          accClient := pagedCloud
            [("", { After := "c1", Timestamp := 7,
                    Items := [{ ID := "A", ParentID := "A", DeletedAt := 0,
                                OfferingItems := [] }] }),
             ("c1", { After := "", Timestamp := 9,
                      Items := [{ ID := "B", ParentID := "A", DeletedAt := 0,
                                  OfferingItems := [] }] })] []
          extClient := childReadsDown })
      3 ({}, [])).1 = some 7 :=
  ((((reconcile_returns_first_page_timestamp plainRuntime
      ({ demoReconciliationLoop [] [] 0 with
          accClient := pagedCloud
            [("", { After := "c1", Timestamp := 7,
                    Items := [{ ID := "A", ParentID := "A", DeletedAt := 0,
                                OfferingItems := [] }] }),
             ("c1", { After := "", Timestamp := 9,
                      Items := [{ ID := "B", ParentID := "A", DeletedAt := 0,
                                  OfferingItems := [] }] })] []
          extClient := childReadsDown } : ReconciliationLoop Store) 3 {}).1
      _ _ (Prod.ext (by decide) rfl)).2.2 _ _ _ (Prod.ext (by decide) rfl)).2 rfl
      _ _ _ (Prod.ext (by decide) rfl) (Prod.ext (by decide) rfl))

end ReturnedWatermark

section DeletesFirst

variable {τ σ α β L : Type} {tr : τ → List (Event σ)} {R : Call → Call → Prop}
  {P A B : Call → Prop}

theorem emitsOrdered_of_emits {m : M τ α} (hm : Emits tr P m)
    (hR : ∀ x y, P x → P y → R x y) : EmitsOrdered tr R P m := by
  intro w
  obtain ⟨evs, he, hp⟩ := hm w
  refine ⟨evs, he, hp, ?_⟩
  rw [List.pairwise_map]
  exact List.Pairwise.imp_of_mem (fun {a b} ha hb _ => hR _ _ (hp a ha) (hp b hb))
    (List.pairwise_of_forall (R := fun _ _ => True) (fun _ _ => trivial))

theorem emitsOrdered_pure (a : α) : EmitsOrdered tr R P (pure a : M τ α) :=
  fun _ => ⟨[], by simp, by simp, by simp⟩

theorem emitsOrdered_bind {m : M τ α} {f : α → M τ β} (hm : EmitsOrdered tr R A m)
    (hf : ∀ a, EmitsOrdered tr R B (f a)) (hx : ∀ x y, A x → B y → R x y)
    (h1 : ∀ c, A c → P c) (h2 : ∀ c, B c → P c) : EmitsOrdered tr R P (m >>= f) := by
  intro w
  obtain ⟨evs, he, hp, hr⟩ := hm w
  rcases hrun : m w with ⟨r, w1⟩
  rw [hrun] at he
  cases r with
  | none => exact ⟨evs, by simpa [hrun] using he, fun ev hev => h1 _ (hp ev hev), hr⟩
  | some a =>
    obtain ⟨evs2, he2, hp2, hr2⟩ := hf a w1
    refine ⟨evs ++ evs2, ?_, ?_, ?_⟩
    · simp only [M.bind_apply, hrun]
      rw [he2, he, List.append_assoc]
    · intro ev hev
      rcases List.mem_append.1 hev with h | h
      · exact h1 _ (hp ev h)
      · exact h2 _ (hp2 ev h)
    · rw [List.map_append, List.pairwise_append]
      refine ⟨hr, hr2, ?_⟩
      intro x hx1 y hy1
      obtain ⟨ev1, hev1, rfl⟩ := List.mem_map.1 hx1
      obtain ⟨ev2, hev2, rfl⟩ := List.mem_map.1 hy1
      exact hx _ _ (hp ev1 hev1) (hp2 ev2 hev2)

theorem writesInOrder_of_notUpsert {x y : Call} (h : x.notUpsert) : writesInOrder x y := by
  cases x <;> simp_all [Call.notUpsert, writesInOrder, Call.isUpsertTenant, Call.isUpsertUser,
    Call.isUpsertOfferingItem, Call.isUpsertAccessPolicy]

theorem writesInOrder_of_notDelete {x y : Call} (h : y.notDelete) : writesInOrder x y := by
  cases y <;> simp_all [Call.notDelete, writesInOrder, Call.isDeleteTenant, Call.isDeleteUser,
    Call.isDeleteOfferingItem, Call.isDeleteAccessPolicy]

theorem writesInOrder_of_entity_child {x y : Call} (hx : x.notChildUpsert)
    (hy : y.notEntityDelete) : writesInOrder x y := by
  cases x <;> cases y <;> simp_all [Call.notChildUpsert, Call.notEntityDelete, writesInOrder,
    Call.isDeleteTenant, Call.isDeleteUser, Call.isDeleteOfferingItem,
    Call.isDeleteAccessPolicy, Call.isUpsertTenant, Call.isUpsertUser,
    Call.isUpsertOfferingItem, Call.isUpsertAccessPolicy]

theorem precedes_of_pairwise {A B : Call → Prop} {l : List Call}
    (h : l.Pairwise (fun a b => ¬ (B a ∧ A b))) (hAB : ∀ c, A c → ¬ B c) : Precedes A B l := by
  intro i j hi hj ha hb
  rcases Nat.lt_trichotomy i j with hlt | heq | hgt
  · exact hlt
  · subst heq
    exact absurd hb (hAB _ ha)
  · exact absurd ⟨hb, ha⟩ (List.pairwise_iff_getElem.1 h j i hj hi hgt)

theorem emitsOrdered_of_silent {m : M τ α} (hm : Emits tr (fun _ => False) m) :
    EmitsOrdered tr R P m := by
  intro w
  obtain ⟨evs, he, hp⟩ := hm w
  have : evs = [] := by
    cases evs with
    | nil => rfl
    | cons ev rest => exact (hp ev (List.mem_cons_self _ _)).elim
  subst this
  exact ⟨[], he, by simp, by simp⟩

theorem ofRetriedRead_notUpsert {c : Call} (h : c.ofRetriedRead) : c.notUpsert := by
  cases c <;> simp_all [Call.ofRetriedRead, Call.notUpsert]

theorem isDeleteTenant_notUpsert {c : Call} (h : c.isDeleteTenant) : c.notUpsert := by
  cases c <;> simp_all [Call.isDeleteTenant, Call.notUpsert]

theorem isDeleteUser_notUpsert {c : Call} (h : c.isDeleteUser) : c.notUpsert := by
  cases c <;> simp_all [Call.isDeleteUser, Call.notUpsert]

theorem isDeleteOfferingItem_notUpsert {c : Call} (h : c.isDeleteOfferingItem) :
    c.notUpsert := by
  cases c <;> simp_all [Call.isDeleteOfferingItem, Call.notUpsert]

theorem isDeleteAccessPolicy_notUpsert {c : Call} (h : c.isDeleteAccessPolicy) :
    c.notUpsert := by
  cases c <;> simp_all [Call.isDeleteAccessPolicy, Call.notUpsert]

theorem isUpsertOfferingItem_notDelete {c : Call} (h : c.isUpsertOfferingItem) :
    c.notDelete := by
  cases c <;> simp_all [Call.isUpsertOfferingItem, Call.notDelete]

theorem isUpsertAccessPolicy_notDelete {c : Call} (h : c.isUpsertAccessPolicy) :
    c.notDelete := by
  cases c <;> simp_all [Call.isUpsertAccessPolicy, Call.notDelete]

theorem ofTenantUpsert_notChildUpsert {c : Call} (h : c.ofTenantUpsert) : c.notChildUpsert := by
  cases c <;> simp_all [Call.ofTenantUpsert, Call.notChildUpsert]

theorem ofUserUpsert_notChildUpsert {c : Call} (h : c.ofUserUpsert) : c.notChildUpsert := by
  cases c <;> simp_all [Call.ofUserUpsert, Call.notChildUpsert]

theorem isUpsertOfferingItem_notEntityDelete {c : Call} (h : c.isUpsertOfferingItem) :
    c.notEntityDelete := by
  cases c <;> simp_all [Call.isUpsertOfferingItem, Call.notEntityDelete]

theorem isDeleteOfferingItem_notEntityDelete {c : Call} (h : c.isDeleteOfferingItem) :
    c.notEntityDelete := by
  cases c <;> simp_all [Call.isDeleteOfferingItem, Call.notEntityDelete]

theorem isUpsertAccessPolicy_notEntityDelete {c : Call} (h : c.isUpsertAccessPolicy) :
    c.notEntityDelete := by
  cases c <;> simp_all [Call.isUpsertAccessPolicy, Call.notEntityDelete]

theorem isDeleteAccessPolicy_notEntityDelete {c : Call} (h : c.isDeleteAccessPolicy) :
    c.notEntityDelete := by
  cases c <;> simp_all [Call.isDeleteAccessPolicy, Call.notEntityDelete]

/-- The end of a cycle: `return nextUpdateTimestamp`. -/
theorem returnTimestamp_ordered {V : Type} (f : V → Time) :
    EmitsOrdered (varsTrace (L := V) (σ := σ)) R P
      (M.getVars >>= fun v => (pure (f v) : M (V × Traced σ) Time)) :=
  emitsOrdered_of_silent (Emits.bind Emits.getVars (fun _ => Emits.pure _))

theorem upsertTenants_ordered (rt : Runtime σ) (loop : ReconciliationLoop σ) (fuel : Nat) :
    EmitsOrdered varsTrace writesInOrder Call.notEntityDelete
      (loop.traced.upsertTenantsAndOfferingItems rt.traced fuel) := by
  unfold ReconciliationLoop.upsertTenantsAndOfferingItems
  refine emitsOrdered_bind (A := fun _ => False) (B := Call.notEntityDelete)
    (emitsOrdered_of_silent Emits.getVars) (fun v => ?_) (fun _ _ h => h.elim)
    (fun _ h => h.elim) (fun _ h => h)
  refine emitsOrdered_bind (A := Call.ofTenantUpsert)
    (B := fun c => c.ofRetriedRead ∨ c.isDeleteOfferingItem ∨ c.isUpsertOfferingItem)
    (emitsOrdered_of_emits (createOrUpdateTenants_emits rt loop fuel _).onWorld
      (fun _ _ hx hy => writesInOrder_of_entity_child (ofTenantUpsert_notChildUpsert hx)
        (ofTenantUpsert_notEntityDelete hy)))
    (fun _ => ?_)
    (fun _ _ hx hy => writesInOrder_of_entity_child (ofTenantUpsert_notChildUpsert hx)
      (hy.elim ofRetriedRead_notEntityDelete
        (fun h => h.elim isDeleteOfferingItem_notEntityDelete
          isUpsertOfferingItem_notEntityDelete)))
    (fun _ h => ofTenantUpsert_notEntityDelete h)
    (fun _ h => h.elim ofRetriedRead_notEntityDelete
        (fun h => h.elim isDeleteOfferingItem_notEntityDelete
          isUpsertOfferingItem_notEntityDelete))
  refine emitsOrdered_bind (A := Call.ofRetriedRead)
    (B := fun c => c.isDeleteOfferingItem ∨ c.isUpsertOfferingItem)
    (emitsOrdered_of_emits (retriedRead_emits rt _ (readExternalOIs_emits loop fuel))
      (fun _ _ hx _ => writesInOrder_of_notUpsert (ofRetriedRead_notUpsert hx)))
    (fun err => ?_)
    (fun _ _ hx _ => writesInOrder_of_notUpsert (ofRetriedRead_notUpsert hx))
    (fun _ h => Or.inl h) (fun _ h => Or.inr h)
  split
  · exact returnTimestamp_ordered _
  · refine emitsOrdered_bind (A := fun _ => False)
      (B := fun c => c.isDeleteOfferingItem ∨ c.isUpsertOfferingItem)
      (emitsOrdered_of_silent Emits.getVars) (fun v => ?_) (fun _ _ h => h.elim)
      (fun _ h => h.elim) (fun _ h => h)
    refine emitsOrdered_bind (A := Call.isDeleteOfferingItem)
      (B := Call.isUpsertOfferingItem)
      (emitsOrdered_of_emits (deleteInactiveOfferingItems_emits_deletes loop _ _).onWorld
        (fun _ _ hx _ => writesInOrder_of_notUpsert (isDeleteOfferingItem_notUpsert hx)))
      (fun _ => ?_)
      (fun _ _ hx _ => writesInOrder_of_notUpsert (isDeleteOfferingItem_notUpsert hx))
      (fun _ h => Or.inl h) (fun _ h => Or.inr h)
    refine emitsOrdered_bind (A := Call.isUpsertOfferingItem) (B := fun _ => False)
      (emitsOrdered_of_emits (updateOfferingItemsOfTenants_emits_upserts loop _).onWorld
        (fun _ _ _ hy => writesInOrder_of_notDelete (isUpsertOfferingItem_notDelete hy)))
      (fun _ => emitsOrdered_pure _) (fun _ _ _ h => h.elim) (fun _ h => h) (fun _ h => h.elim)

theorem reconcileTenantsBody_ordered (rt : Runtime σ) (loop : ReconciliationLoop σ)
    (fuel : Nat) :
    EmitsOrdered varsTrace writesInOrder (fun _ => True)
      (loop.traced.reconcileTenantsBody rt.traced fuel) := by
  have happly : EmitsOrdered varsTrace writesInOrder (fun _ => True)
      (loop.traced.applyTenants rt.traced fuel) := by
    unfold ReconciliationLoop.applyTenants
    refine emitsOrdered_bind (A := fun _ => False) (B := fun _ => True)
      (emitsOrdered_of_silent Emits.getVars) (fun v => ?_) (fun _ _ h => h.elim)
      (fun _ _ => trivial) (fun _ _ => trivial)
    exact emitsOrdered_bind (A := Call.isDeleteTenant) (B := Call.notEntityDelete)
      (emitsOrdered_of_emits (removeNonExistingTenants_emits loop _ _).onWorld
        (fun _ _ hx _ => writesInOrder_of_notUpsert (isDeleteTenant_notUpsert hx)))
      (fun _ => upsertTenants_ordered rt loop fuel)
      (fun _ _ hx _ => writesInOrder_of_notUpsert (isDeleteTenant_notUpsert hx))
      (fun _ _ => trivial) (fun _ _ => trivial)
  unfold ReconciliationLoop.reconcileTenantsBody
  refine emitsOrdered_bind (A := Call.ofRetriedRead) (B := fun _ => True)
    (emitsOrdered_of_emits (retriedRead_emits rt _ (readACCTenants_emits loop fuel))
      (fun _ _ hx _ => writesInOrder_of_notUpsert (ofRetriedRead_notUpsert hx)))
    (fun err => ?_)
    (fun _ _ hx _ => writesInOrder_of_notUpsert (ofRetriedRead_notUpsert hx))
    (fun _ _ => trivial) (fun _ _ => trivial)
  split
  · exact returnTimestamp_ordered _
  · refine emitsOrdered_bind (A := Call.ofRetriedRead) (B := fun _ => True)
      (emitsOrdered_of_emits (retriedRead_emits rt _ (readExternalTenantIDs_emits loop fuel))
        (fun _ _ hx _ => writesInOrder_of_notUpsert (ofRetriedRead_notUpsert hx)))
      (fun err => ?_)
      (fun _ _ hx _ => writesInOrder_of_notUpsert (ofRetriedRead_notUpsert hx))
      (fun _ _ => trivial) (fun _ _ => trivial)
    split
    · exact returnTimestamp_ordered _
    · exact happly

theorem upsertUsers_ordered (rt : Runtime σ) (loop : ReconciliationLoop σ) (fuel : Nat) :
    EmitsOrdered varsTrace writesInOrder Call.notEntityDelete
      (loop.traced.upsertUsersAndAccessPolicies rt.traced fuel) := by
  unfold ReconciliationLoop.upsertUsersAndAccessPolicies
  refine emitsOrdered_bind (A := fun _ => False) (B := Call.notEntityDelete)
    (emitsOrdered_of_silent Emits.getVars) (fun v => ?_) (fun _ _ h => h.elim)
    (fun _ h => h.elim) (fun _ h => h)
  refine emitsOrdered_bind (A := Call.ofUserUpsert)
    (B := fun c => c.ofRetriedRead ∨ c.isDeleteAccessPolicy ∨ c.isUpsertAccessPolicy)
    (emitsOrdered_of_emits (createOrUpdateUsers_emits rt loop fuel _).onWorld
      (fun _ _ hx hy => writesInOrder_of_entity_child (ofUserUpsert_notChildUpsert hx)
        (ofUserUpsert_notEntityDelete hy)))
    (fun _ => ?_)
    (fun _ _ hx hy => writesInOrder_of_entity_child (ofUserUpsert_notChildUpsert hx)
      (hy.elim ofRetriedRead_notEntityDelete
        (fun h => h.elim isDeleteAccessPolicy_notEntityDelete
          isUpsertAccessPolicy_notEntityDelete)))
    (fun _ h => ofUserUpsert_notEntityDelete h)
    (fun _ h => h.elim ofRetriedRead_notEntityDelete
        (fun h => h.elim isDeleteAccessPolicy_notEntityDelete
          isUpsertAccessPolicy_notEntityDelete))
  refine emitsOrdered_bind (A := Call.ofRetriedRead)
    (B := fun c => c.isDeleteAccessPolicy ∨ c.isUpsertAccessPolicy)
    (emitsOrdered_of_emits (retriedRead_emits rt _ (readExternalAPs_emits loop fuel))
      (fun _ _ hx _ => writesInOrder_of_notUpsert (ofRetriedRead_notUpsert hx)))
    (fun err => ?_)
    (fun _ _ hx _ => writesInOrder_of_notUpsert (ofRetriedRead_notUpsert hx))
    (fun _ h => Or.inl h) (fun _ h => Or.inr h)
  split
  · exact returnTimestamp_ordered _
  · refine emitsOrdered_bind (A := fun _ => False)
      (B := fun c => c.isDeleteAccessPolicy ∨ c.isUpsertAccessPolicy)
      (emitsOrdered_of_silent Emits.getVars) (fun v => ?_) (fun _ _ h => h.elim)
      (fun _ h => h.elim) (fun _ h => h)
    refine emitsOrdered_bind (A := Call.isDeleteAccessPolicy)
      (B := Call.isUpsertAccessPolicy)
      (emitsOrdered_of_emits (Emits.onWorld (deleteAccessPolicies_emits_deletes loop _))
        (fun _ _ hx _ => writesInOrder_of_notUpsert (isDeleteAccessPolicy_notUpsert hx)))
      (fun _ => ?_)
      (fun _ _ hx _ => writesInOrder_of_notUpsert (isDeleteAccessPolicy_notUpsert hx))
      (fun _ h => Or.inl h) (fun _ h => Or.inr h)
    refine emitsOrdered_bind (A := Call.isUpsertAccessPolicy) (B := fun _ => False)
      (emitsOrdered_of_emits (updateAccessPoliciesOfUsers_emits_upserts loop _).onWorld
        (fun _ _ _ hy => writesInOrder_of_notDelete (isUpsertAccessPolicy_notDelete hy)))
      (fun _ => emitsOrdered_pure _) (fun _ _ _ h => h.elim) (fun _ h => h) (fun _ h => h.elim)

theorem reconcileUsersBody_ordered (rt : Runtime σ) (loop : ReconciliationLoop σ)
    (fuel : Nat) :
    EmitsOrdered varsTrace writesInOrder (fun _ => True)
      (loop.traced.reconcileUsersBody rt.traced fuel) := by
  have happly : EmitsOrdered varsTrace writesInOrder (fun _ => True)
      (loop.traced.applyUsers rt.traced fuel) := by
    unfold ReconciliationLoop.applyUsers
    refine emitsOrdered_bind (A := fun _ => False) (B := fun _ => True)
      (emitsOrdered_of_silent Emits.getVars) (fun v => ?_) (fun _ _ h => h.elim)
      (fun _ _ => trivial) (fun _ _ => trivial)
    exact emitsOrdered_bind (A := Call.isDeleteUser) (B := Call.notEntityDelete)
      (emitsOrdered_of_emits (removeNonExistingUsers_emits loop _ _).onWorld
        (fun _ _ hx _ => writesInOrder_of_notUpsert (isDeleteUser_notUpsert hx)))
      (fun _ => upsertUsers_ordered rt loop fuel)
      (fun _ _ hx _ => writesInOrder_of_notUpsert (isDeleteUser_notUpsert hx))
      (fun _ _ => trivial) (fun _ _ => trivial)
  unfold ReconciliationLoop.reconcileUsersBody
  refine emitsOrdered_bind (A := Call.ofRetriedRead) (B := fun _ => True)
    (emitsOrdered_of_emits (retriedRead_emits rt _ (readACCUsers_emits loop fuel))
      (fun _ _ hx _ => writesInOrder_of_notUpsert (ofRetriedRead_notUpsert hx)))
    (fun err => ?_)
    (fun _ _ hx _ => writesInOrder_of_notUpsert (ofRetriedRead_notUpsert hx))
    (fun _ _ => trivial) (fun _ _ => trivial)
  split
  · exact returnTimestamp_ordered _
  · refine emitsOrdered_bind (A := Call.ofRetriedRead) (B := fun _ => True)
      (emitsOrdered_of_emits (retriedRead_emits rt _ (readExternalUserIDs_emits loop fuel))
        (fun _ _ hx _ => writesInOrder_of_notUpsert (ofRetriedRead_notUpsert hx)))
      (fun err => ?_)
      (fun _ _ hx _ => writesInOrder_of_notUpsert (ofRetriedRead_notUpsert hx))
      (fun _ _ => trivial) (fun _ _ => trivial)
    split
    · exact returnTimestamp_ordered _
    · exact happly

/-- C17 (deletes before upserts). For every reconciliation cycle, of tenants
and of users alike, whatever the collaborators answer, whatever order `range`
follows and wherever the cycle stops: in the trace of its calls every
`DeleteTenant` precedes every `CreateOrUpdateTenant`, every `DeleteUser`
precedes every `CreateOrUpdateUser`, every `DeleteOfferingItem` precedes every
`CreateOrUpdateOfferingItem` and every `DeleteAccessPolicy` precedes every
`CreateOrUpdateAccessPolicy`. -/
theorem reconcile_deletes_precede_upserts (rt : Runtime σ) (loop : ReconciliationLoop σ)
    (fuel : Nat) (s : σ) :
    (Precedes Call.isDeleteTenant Call.isUpsertTenant
        (calls (loop.traced.reconcileTenantsAndOfferingItems rt.traced fuel (s, [])).2) ∧
      Precedes Call.isDeleteOfferingItem Call.isUpsertOfferingItem
        (calls (loop.traced.reconcileTenantsAndOfferingItems rt.traced fuel (s, [])).2)) ∧
    (Precedes Call.isDeleteUser Call.isUpsertUser
        (calls (loop.traced.reconcileUsersAndAccessPolicies rt.traced fuel (s, [])).2) ∧
      Precedes Call.isDeleteTenant Call.isUpsertTenant
        (calls (loop.traced.reconcileUsersAndAccessPolicies rt.traced fuel (s, [])).2) ∧
      Precedes Call.isDeleteAccessPolicy Call.isUpsertAccessPolicy
        (calls (loop.traced.reconcileUsersAndAccessPolicies rt.traced fuel (s, [])).2)) := by
  obtain ⟨evs, he, -, hr⟩ := reconcileTenantsBody_ordered rt loop fuel
    (({} : TenantsVars), ((s, []) : Traced σ))
  obtain ⟨evs2, he2, -, hr2⟩ := reconcileUsersBody_ordered rt loop fuel
    (({} : UsersVars), ((s, []) : Traced σ))
  simp only [varsTrace, List.nil_append] at he he2
  have hc : calls (loop.traced.reconcileTenantsAndOfferingItems rt.traced fuel (s, [])).2
      = evs.map Event.call := by
    simp only [ReconciliationLoop.reconcileTenantsAndOfferingItems, M.withVars_apply, calls, he]
  have hc2 : calls (loop.traced.reconcileUsersAndAccessPolicies rt.traced fuel (s, [])).2
      = evs2.map Event.call := by
    simp only [ReconciliationLoop.reconcileUsersAndAccessPolicies, M.withVars_apply, calls, he2]
  rw [hc, hc2]
  refine ⟨⟨?_, ?_⟩, ?_, ?_, ?_⟩
  · exact precedes_of_pairwise (hr.imp (fun h => h.1))
      (fun c h1 h2 => by cases c <;> simp_all [Call.isDeleteTenant, Call.isUpsertTenant])
  · exact precedes_of_pairwise (hr.imp (fun h => h.2.2.1))
      (fun c h1 h2 => by
        cases c <;> simp_all [Call.isDeleteOfferingItem, Call.isUpsertOfferingItem])
  · exact precedes_of_pairwise (hr2.imp (fun h => h.2.1))
      (fun c h1 h2 => by cases c <;> simp_all [Call.isDeleteUser, Call.isUpsertUser])
  · exact precedes_of_pairwise (hr2.imp (fun h => h.1))
      (fun c h1 h2 => by cases c <;> simp_all [Call.isDeleteTenant, Call.isUpsertTenant])
  · exact precedes_of_pairwise (hr2.imp (fun h => h.2.2.2))
      (fun c h1 h2 => by
        cases c <;> simp_all [Call.isDeleteAccessPolicy, Call.isUpsertAccessPolicy])

end DeletesFirst

section EmptyParent

variable {σ : Type}

/-- C18 (empty parent response). For every tenant `T` that is not its own
parent, every external system that answers the check of `T.parent_id` with
"does not exist" and every cloud that answers the request for `T.parent_id`
with an empty list of items: with any positive budget, `createOrUpdateTenant`
returns the error "empty tenant response for " followed by `T.parent_id`, and
its calls are the check and the request, so `CreateOrUpdateTenant` is called
neither for `T` nor for any other tenant. -/
theorem createOrUpdateTenant_empty_parent_response (rt : Runtime σ)
    (ext : ExternalSystemClient σ) (acc : Client σ) (fuel : Nat) (T : Tenant) (s s1 s2 : σ)
    (resp : TenantGetResponse) (hroot : T.ParentID ≠ T.ID)
    (hcheck : ext.CheckTenantExist T.ParentID s = (.ok false, s1))
    (hget : acc.GetTenants { UUIDs := [T.ParentID] } s1 = (.ok resp, s2))
    (hempty : resp.Items = []) :
    (createOrUpdateTenant rt.traced ext.traced acc.traced (fuel + 1) T (s, [])).1
      = some (some ("empty tenant response for " ++ T.ParentID)) ∧
    calls (createOrUpdateTenant rt.traced ext.traced acc.traced (fuel + 1) T (s, [])).2
      = [.CheckTenantExist T.ParentID, .GetTenants { UUIDs := [T.ParentID] }] ∧
    ∀ X, Call.CreateOrUpdateTenant X ∉
      calls (createOrUpdateTenant rt.traced ext.traced acc.traced (fuel + 1) T (s, [])).2 := by
  have hrun : createOrUpdateTenant rt.traced ext.traced acc.traced (fuel + 1) T (s, [])
      = (some (some ("empty tenant response for " ++ T.ParentID)),
          (s2, [⟨.CheckTenantExist T.ParentID, s⟩,
                ⟨.GetTenants { UUIDs := [T.ParentID] }, s1⟩])) := by
    simp [createOrUpdateTenant, getTenantsByUUIDs, hroot, hcheck, hget, hempty]
  rw [hrun]
  refine ⟨rfl, rfl, fun X hX => ?_⟩
  simp [calls] at hX

/-- The external system is empty and the cloud knows no tenant `P`: the
upsert of `T`, a child of `P`, fails with the message of the claim. -/
theorem createOrUpdateTenant_empty_parent_response_witness :
    (createOrUpdateTenant (plainRuntime (σ := Store)).traced memExt.traced
      (fixedCloud [] [] 0 : Client Store).traced 1
      { ID := "T", ParentID := "P", DeletedAt := 0, OfferingItems := [] } ({}, [])).1
      = some (some "empty tenant response for P") :=
  (createOrUpdateTenant_empty_parent_response plainRuntime memExt (fixedCloud [] [] 0) 0
    { ID := "T", ParentID := "P", DeletedAt := 0, OfferingItems := [] } {} {} {}
    { After := "", Timestamp := 0, Items := [] } (by decide) rfl rfl rfl).1

end EmptyParent

section InMemory

theorem retryHelper_first_success {τ : Type} (sleep : Duration → τ → τ)
    (userFunction : M τ (Option String)) (s s1 : τ) (h : userFunction s = (some none, s1)) :
    retryHelper sleep userFunction s = (some none, s1) := by
  simp [retryHelper, defaultMaxRetries, retryLoop, h]

/-- The reader of ids over a store that answers with slices of the list `l`. -/
theorem externalPages_ids_of_list {σ : Type} (l : List String)
    (fetch : Nat → Nat → σ → Except String (List String) × σ) (s : σ)
    (hfetch : ∀ o n, fetch o n s = (.ok ((l.drop o).take n), s)) (msg : String) :
    ∀ (fuel o : Nat) (acc : GoMap Unit), (l.length - o) / 100 < fuel →
      ∃ m : GoMap Unit, externalPages fetch addIDs {} msg fuel o acc s = (some (m, none), s) ∧
        ∀ x, x ∈ m.keys ↔ x ∈ acc.keys ∨ x ∈ l.drop o := by
  intro fuel
  induction fuel with
  | zero => intro o acc h; omega
  | succ f ih =>
    intro o acc hf
    by_cases hlen : l.length - o < 100
    · refine ⟨addIDs acc ((l.drop o).take 100), ?_, fun x => ?_⟩
      · simp [externalPages, externalSystemPageSize, hfetch, hlen]
      · rw [mem_keys_addIDs]
        have : (l.drop o).take 100 = l.drop o := by
          apply List.take_of_length_le
          simp only [List.length_drop]
          omega
        rw [this]
    · have hlen2 : 100 ≤ l.length - o := by omega
      obtain ⟨m, hm, hk⟩ := ih (o + 100) (addIDs acc ((l.drop o).take 100)) (by omega)
      refine ⟨m, ?_, fun x => ?_⟩
      · simpa [externalPages, externalSystemPageSize, hfetch, hlen] using hm
      · rw [hk, mem_keys_addIDs]
        have hsplit : l.drop o = (l.drop o).take 100 ++ l.drop (o + 100) := by
          rw [← List.drop_drop, List.take_append_drop]
        constructor
        · rintro ((h | h) | h)
          · exact Or.inl h
          · exact Or.inr (by rw [hsplit]; exact List.mem_append_left _ h)
          · exact Or.inr (by rw [hsplit]; exact List.mem_append_right _ h)
        · rintro (h | h)
          · exact Or.inl (Or.inl h)
          · rw [hsplit] at h
            rcases List.mem_append.1 h with h | h
            · exact Or.inl (Or.inr h)
            · exact Or.inr h

/-- The reader of offering items over a store that answers with slices of the
list `l`. -/
theorem externalPages_items_of_list {σ I : Type} (l : List I)
    (fetch : Nat → Nat → σ → Except String (List I) × σ) (s : σ)
    (hfetch : ∀ o n, fetch o n s = (.ok ((l.drop o).take n), s)) (msg : String) :
    ∀ (fuel o : Nat) (acc : List I), (l.length - o) / 100 < fuel →
      externalPages fetch (fun acc page => acc ++ page) [] msg fuel o acc s
        = (some (acc ++ l.drop o, none), s) := by
  intro fuel
  induction fuel with
  | zero => intro o acc h; omega
  | succ f ih =>
    intro o acc hf
    by_cases hlen : l.length - o < 100
    · have : (l.drop o).take 100 = l.drop o := by
        apply List.take_of_length_le
        simp only [List.length_drop]
        omega
      simp [externalPages, externalSystemPageSize, hfetch, hlen, this]
    · have hlen2 : 100 ≤ l.length - o := by omega
      have h := ih (o + 100) (acc ++ (l.drop o).take 100) (by omega)
      have hsplit : (l.drop o).take 100 ++ l.drop (o + 100) = l.drop o := by
        rw [← List.drop_drop, List.take_append_drop]
      simp only [externalPages, externalSystemPageSize, M.bind_apply, M.lift_apply, hfetch,
        List.length_take, List.length_drop]
      rw [if_neg (by omega), h, List.append_assoc, hsplit]

theorem mem_addOnce {α : Type} [DecidableEq α] (l : List α) (a x : α) :
    x ∈ addOnce l a ↔ x ∈ l ∨ x = a := by
  unfold addOnce
  split
  · rename_i h
    constructor
    · exact Or.inl
    · rintro (h1 | rfl)
      · exact h1
      · exact h
  · simp

theorem demoReconciliationLoop_extClient (tenants : List Tenant) (users : List User)
    (ts : Time) : (demoReconciliationLoop tenants users ts).extClient = memExt := rfl

theorem demoReconciliationLoop_accClient (tenants : List Tenant) (users : List User)
    (ts : Time) :
    (demoReconciliationLoop tenants users ts).accClient = fixedCloud tenants users ts := rfl

theorem memExt_DeleteTenant (id : String) (s : Store) :
    memExt.DeleteTenant id s
      = (none, { s with tenants := s.tenants.filter (fun x => x != id) }) := rfl

theorem memExt_CreateOrUpdateTenant (t : Tenant) (s : Store) :
    memExt.CreateOrUpdateTenant t s
      = (.ok (decide (t.ID ∉ s.tenants)), { s with tenants := addOnce s.tenants t.ID }) := rfl

theorem memExt_CheckTenantExist (id : String) (s : Store) :
    memExt.CheckTenantExist id s = (.ok (decide (id ∈ s.tenants)), s) := rfl

theorem memExt_DeleteOfferingItem (id : OfferingItemID) (s : Store) :
    memExt.DeleteOfferingItem id s
      = (none, { s with offeringItems := s.offeringItems.filter (fun x => x != id) }) := rfl

theorem memExt_CreateOrUpdateOfferingItem (i : OfferingItem) (s : Store) :
    memExt.CreateOrUpdateOfferingItem i s
      = (.ok (decide (i.externalID ∉ s.offeringItems)),
          { s with offeringItems := addOnce s.offeringItems i.externalID }) := rfl

theorem memExt_removeNonExistingTenants (tenants : List Tenant) (users : List User)
    (ts : Time) (accTenants : GoMap Tenant) :
    ∀ (ids : List String) (s : Store),
      (∀ x, x ∈ ((demoReconciliationLoop tenants users ts).removeNonExistingTenants
            accTenants ids s).2.tenants
          ↔ x ∈ s.tenants ∧ ¬ (x ∈ ids ∧ x ∉ accTenants.keys)) ∧
      Store.EqOffTenants
        ((demoReconciliationLoop tenants users ts).removeNonExistingTenants accTenants ids s).2
        s := by
  intro ids
  induction ids with
  | nil => intro s; simp [ReconciliationLoop.removeNonExistingTenants, Store.EqOffTenants]
  | cons id rest ih =>
    intro s
    by_cases h : id ∈ accTenants.keys
    · have hn : (accTenants.get? id).isNone = false := by
        cases hc : (accTenants.get? id).isNone
        · rfl
        · exact absurd h ((GoMap.get?_isNone_iff _ _).1 hc)
      obtain ⟨h1, h2⟩ := ih s
      simp only [ReconciliationLoop.removeNonExistingTenants, hn, Bool.false_eq_true, if_false,
        M.bind_apply, M.pure_apply]
      refine ⟨fun x => ?_, h2⟩
      rw [h1]
      simp only [List.mem_cons]
      constructor
      · rintro ⟨hx, hr⟩
        refine ⟨hx, ?_⟩
        rintro ⟨rfl | hx2, hk⟩
        · exact hk h
        · exact hr ⟨hx2, hk⟩
      · rintro ⟨hx, hr⟩
        exact ⟨hx, fun ⟨hx2, hk⟩ => hr ⟨Or.inr hx2, hk⟩⟩
    · have hn : (accTenants.get? id).isNone = true := (GoMap.get?_isNone_iff _ _).2 h
      obtain ⟨h1, h2⟩ := ih { s with tenants := s.tenants.filter (fun x => x != id) }
      simp only [ReconciliationLoop.removeNonExistingTenants, hn, if_true, M.bind_apply,
        M.lift_apply, M.pure_apply, demoReconciliationLoop_extClient, memExt_DeleteTenant]
      refine ⟨fun x => ?_, h2⟩
      rw [h1]
      simp only [List.mem_filter, bne_iff_ne, ne_eq, List.mem_cons]
      constructor
      · rintro ⟨⟨hx, hne⟩, hr⟩
        refine ⟨hx, ?_⟩
        rintro ⟨rfl | hx2, hk⟩
        · exact hne rfl
        · exact hr ⟨hx2, hk⟩
      · rintro ⟨hx, hr⟩
        refine ⟨⟨hx, ?_⟩, fun ⟨hx2, hk⟩ => hr ⟨Or.inr hx2, hk⟩⟩
        rintro rfl
        exact hr ⟨Or.inl rfl, h⟩

theorem fixedCloud_lookup (tenants : List Tenant) (users : List User) (ts : Time)
    (uuid : String) (s : Store) :
    (fixedCloud tenants users ts).GetTenants { UUIDs := [uuid] } s
      = (.ok { After := "", Timestamp := ts,
               Items := tenants.filter (fun t => decide (t.ID = uuid)) }, s) := by
  simp [fixedCloud]

/-- The upsert helper between the in-memory external system and a cloud it
can climb: it succeeds, and adds the tenant and, at most, tenants of the
cloud. -/
theorem memExt_createOrUpdateTenant (rt : Runtime Store) (tenants : List Tenant)
    (users : List User) (ts : Time) (height : Tenant → Nat)
    (hforest : ClosedForest tenants height) :
    ∀ (fuel : Nat) (T : Tenant) (s : Store), T ∈ tenants → height T < fuel →
      (createOrUpdateTenant rt memExt (fixedCloud tenants users ts) fuel T s).1 = some none ∧
      T.ID ∈ (createOrUpdateTenant rt memExt (fixedCloud tenants users ts) fuel T s).2.tenants ∧
      (∀ x ∈ s.tenants,
        x ∈ (createOrUpdateTenant rt memExt (fixedCloud tenants users ts) fuel T s).2.tenants) ∧
      (∀ x ∈ (createOrUpdateTenant rt memExt (fixedCloud tenants users ts) fuel T s).2.tenants,
        x ∈ s.tenants ∨ ∃ t ∈ tenants, t.ID = x) ∧
      Store.EqOffTenants
        (createOrUpdateTenant rt memExt (fixedCloud tenants users ts) fuel T s).2 s := by
  intro fuel
  induction fuel with
  | zero => intro T s _ h; omega
  | succ f ih =>
    intro T s hT hh
    by_cases hroot : T.ParentID = T.ID
    · -- a root: the upsert alone
      have hrun : createOrUpdateTenant rt memExt (fixedCloud tenants users ts) (f + 1) T s
          = (some none, { s with tenants := addOnce s.tenants T.ID }) := by
        simp [createOrUpdateTenant, hroot, memExt_CreateOrUpdateTenant]
      rw [hrun]
      refine ⟨rfl, ?_, ?_, ?_, ⟨rfl, rfl, rfl, rfl⟩⟩
      · exact (mem_addOnce _ _ _).2 (Or.inr rfl)
      · exact fun x hx => (mem_addOnce _ _ _).2 (Or.inl hx)
      · intro x hx
        rcases (mem_addOnce _ _ _).1 hx with h | h
        · exact Or.inl h
        · exact Or.inr ⟨T, hT, h.symm⟩
    · by_cases hin : T.ParentID ∈ s.tenants
      · -- the parent is there: the check, then the upsert
        have hrun : createOrUpdateTenant rt memExt (fixedCloud tenants users ts) (f + 1) T s
            = (some none, { s with tenants := addOnce s.tenants T.ID }) := by
          simp [createOrUpdateTenant, hroot, hin, memExt_CreateOrUpdateTenant,
            memExt_CheckTenantExist]
        rw [hrun]
        refine ⟨rfl, ?_, ?_, ?_, ⟨rfl, rfl, rfl, rfl⟩⟩
        · exact (mem_addOnce _ _ _).2 (Or.inr rfl)
        · exact fun x hx => (mem_addOnce _ _ _).2 (Or.inl hx)
        · intro x hx
          rcases (mem_addOnce _ _ _).1 hx with h | h
          · exact Or.inl h
          · exact Or.inr ⟨T, hT, h.symm⟩
      · -- the parent is missing: climb
        rcases hfl : tenants.filter (fun t => decide (t.ID = T.ParentID)) with _ | ⟨parent, more⟩
        · rcases hforest.parent T hT with h | ⟨p, hp, hpid⟩
          · exact absurd h hroot
          · have : p ∈ tenants.filter (fun t => decide (t.ID = T.ParentID)) :=
              List.mem_filter.2 ⟨hp, by simpa using hpid⟩
            rw [hfl] at this
            cases this
        · have hpm : parent ∈ tenants.filter (fun t => decide (t.ID = T.ParentID)) := by
            rw [hfl]; exact List.mem_cons_self _ _
          obtain ⟨hp, hpid⟩ := List.mem_filter.1 hpm
          have hpid : parent.ID = T.ParentID := by simpa using hpid
          have hlt : height parent < f := by
            have := hforest.climbs T hT parent hp hroot hpid
            omega
          obtain ⟨i1, i2, i3, i4, i5⟩ := ih parent s hp hlt
          rcases hpar : createOrUpdateTenant rt memExt (fixedCloud tenants users ts) f parent s
            with ⟨r, s1⟩
          rw [hpar] at i1 i2 i3 i4 i5
          simp only at i1 i2 i3 i4 i5
          subst i1
          have hrun : createOrUpdateTenant rt memExt (fixedCloud tenants users ts) (f + 1) T s
              = (some none, { s1 with tenants := addOnce s1.tenants T.ID }) := by
            simp [createOrUpdateTenant, hroot, hin, memExt_CreateOrUpdateTenant,
              memExt_CheckTenantExist, getTenantsByUUIDs, fixedCloud_lookup, hfl, hpar]
          rw [hrun]
          refine ⟨rfl, ?_, ?_, ?_, i5⟩
          · exact (mem_addOnce _ _ _).2 (Or.inr rfl)
          · exact fun x hx => (mem_addOnce _ _ _).2 (Or.inl (i3 x hx))
          · intro x hx
            rcases (mem_addOnce _ _ _).1 hx with h | h
            · exact i4 x h
            · exact Or.inr ⟨T, hT, h.symm⟩

theorem memExt_createOrUpdateTenants (rt : Runtime Store) (tenants : List Tenant)
    (users : List User) (ts : Time) (height : Tenant → Nat)
    (hforest : ClosedForest tenants height) (fuel : Nat)
    (hfuel : ∀ t ∈ tenants, height t < fuel) :
    ∀ (es : List (String × Tenant)) (s : Store), (∀ e ∈ es, e.2 ∈ tenants) →
      ((demoReconciliationLoop tenants users ts).createOrUpdateTenants rt fuel es s).1
        = some () ∧
      (∀ e ∈ es, e.2.ID ∈
        ((demoReconciliationLoop tenants users ts).createOrUpdateTenants rt fuel es s).2.tenants) ∧
      (∀ x ∈ s.tenants, x ∈
        ((demoReconciliationLoop tenants users ts).createOrUpdateTenants rt fuel es s).2.tenants) ∧
      (∀ x ∈
        ((demoReconciliationLoop tenants users ts).createOrUpdateTenants rt fuel es s).2.tenants,
        x ∈ s.tenants ∨ ∃ t ∈ tenants, t.ID = x) ∧
      Store.EqOffTenants
        ((demoReconciliationLoop tenants users ts).createOrUpdateTenants rt fuel es s).2 s := by
  intro es
  induction es with
  | nil =>
    intro s _
    exact ⟨rfl, fun e he => (by cases he), fun x hx => hx, fun x hx => Or.inl hx,
      ⟨rfl, rfl, rfl, rfl⟩⟩
  | cons e rest ih =>
    intro s hes
    obtain ⟨a1, a2, a3, a4, a5⟩ := memExt_createOrUpdateTenant rt tenants users ts height hforest
      fuel e.2 s (hes e (List.mem_cons_self _ _)) (hfuel _ (hes e (List.mem_cons_self _ _)))
    rcases hrun : createOrUpdateTenant rt memExt (fixedCloud tenants users ts) fuel e.2 s
      with ⟨r, s1⟩
    rw [hrun] at a1 a2 a3 a4 a5
    simp only at a1 a2 a3 a4 a5
    subst a1
    obtain ⟨b1, b2, b3, b4, b5⟩ := ih s1 (fun x hx => hes x (List.mem_cons_of_mem _ hx))
    have hstep : (demoReconciliationLoop tenants users ts).createOrUpdateTenants rt fuel
        (e :: rest) s
        = (demoReconciliationLoop tenants users ts).createOrUpdateTenants rt fuel rest s1 := by
      rcases e with ⟨k, v⟩
      simp only [ReconciliationLoop.createOrUpdateTenants, M.bind_apply,
        demoReconciliationLoop_extClient, demoReconciliationLoop_accClient]
      simp only at hrun
      rw [hrun]
    rw [hstep]
    refine ⟨b1, ?_, fun x hx => b3 x (a3 x hx), ?_, ?_⟩
    · intro x hx
      rcases List.mem_cons.1 hx with rfl | h
      · exact b3 _ a2
      · exact b2 x h
    · intro x hx
      rcases b4 x hx with h | h
      · exact a4 x h
      · exact Or.inr h
    · exact ⟨b5.1.trans a5.1, b5.2.1.trans a5.2.1, b5.2.2.1.trans a5.2.2.1,
        b5.2.2.2.trans a5.2.2.2⟩

theorem addTenants_entries (Q : String × Tenant → Prop) (items : List Tenant)
    (hitems : ∀ t ∈ items, Q (t.ID, t)) :
    ∀ m : GoMap Tenant, (∀ e ∈ m.entries, Q e) → ∀ e ∈ (addTenants m items).entries, Q e := by
  induction items with
  | nil => intro m hm; simpa [addTenants] using hm
  | cons t rest ih =>
    intro m hm
    have hstep : addTenants m (t :: rest)
        = addTenants (if t.DeletedAt.IsZero then m.set t.ID t else m) rest := rfl
    rw [hstep]
    apply ih (fun x hx => hitems x (List.mem_cons_of_mem _ hx))
    split
    · intro e he
      rcases List.mem_cons.1 he with rfl | h
      · exact hitems t (List.mem_cons_self _ _)
      · exact hm e (List.mem_filter.1 h).1
    · exact hm

theorem mem_keys_addTenants (tenants : List Tenant) (hlive : ∀ t ∈ tenants, t.DeletedAt = 0)
    (id : String) :
    id ∈ (addTenants {} tenants).keys ↔ ∃ t ∈ tenants, t.ID = id := by
  rw [GoMap.mem_keys_iff, get?_addTenants]
  have h0 : ({} : GoMap Tenant).get? id = none := rfl
  rw [h0, Option.or_none, lastTenantWithID_isSome]
  have hall : tenants.filter (fun t => t.DeletedAt.IsZero) = tenants :=
    List.filter_eq_self.2 (fun t ht => (Time.IsZero_iff _).2 (hlive t ht))
  rw [hall]

theorem memExt_deleteInactiveOfferingItems (tenants : List Tenant) (users : List User)
    (ts : Time) (accTenants : GoMap Tenant) :
    ∀ (ois : List OfferingItemID) (s : Store),
      (∀ e, e ∈ ((demoReconciliationLoop tenants users ts).deleteInactiveOfferingItems
            accTenants ois s).2.offeringItems
          ↔ e ∈ s.offeringItems ∧ ¬ (e ∈ ois ∧ OrphanOfferingItem accTenants e)) ∧
      Store.EqOffOfferingItems
        ((demoReconciliationLoop tenants users ts).deleteInactiveOfferingItems accTenants ois s).2
        s := by
  intro ois
  induction ois with
  | nil =>
    intro s
    simp [ReconciliationLoop.deleteInactiveOfferingItems, Store.EqOffOfferingItems]
  | cons o rest ih =>
    intro s
    by_cases h : OrphanOfferingItem accTenants o
    · have hd := (deleteOI_iff accTenants o).2 h
      obtain ⟨h1, h2⟩ := ih { s with offeringItems := s.offeringItems.filter (fun x => x != o) }
      simp only [ReconciliationLoop.deleteInactiveOfferingItems, hd, if_true, M.bind_apply,
        M.lift_apply, M.pure_apply, demoReconciliationLoop_extClient, memExt_DeleteOfferingItem]
      refine ⟨fun e => ?_, h2⟩
      rw [h1]
      simp only [List.mem_filter, bne_iff_ne, ne_eq, List.mem_cons]
      constructor
      · rintro ⟨⟨hx, hne⟩, hr⟩
        refine ⟨hx, ?_⟩
        rintro ⟨rfl | hx2, hk⟩
        · exact hne rfl
        · exact hr ⟨hx2, hk⟩
      · rintro ⟨hx, hr⟩
        refine ⟨⟨hx, ?_⟩, fun ⟨hx2, hk⟩ => hr ⟨Or.inr hx2, hk⟩⟩
        rintro rfl
        exact hr ⟨Or.inl rfl, h⟩
    · have hd : ReconciliationLoop.deleteOI accTenants o = false := by
        cases hc : ReconciliationLoop.deleteOI accTenants o
        · rfl
        · exact absurd ((deleteOI_iff accTenants o).1 hc) h
      obtain ⟨h1, h2⟩ := ih s
      simp only [ReconciliationLoop.deleteInactiveOfferingItems, hd, Bool.false_eq_true,
        if_false, M.bind_apply, M.pure_apply]
      refine ⟨fun e => ?_, h2⟩
      rw [h1]
      simp only [List.mem_cons]
      constructor
      · rintro ⟨hx, hr⟩
        refine ⟨hx, ?_⟩
        rintro ⟨rfl | hx2, hk⟩
        · exact h hk
        · exact hr ⟨hx2, hk⟩
      · rintro ⟨hx, hr⟩
        exact ⟨hx, fun ⟨hx2, hk⟩ => hr ⟨Or.inr hx2, hk⟩⟩

theorem memExt_updateOfferingItemsOfTenant (tenants : List Tenant) (users : List User)
    (ts : Time) :
    ∀ (items : List OfferingItem) (s : Store),
      ((demoReconciliationLoop tenants users ts).updateOfferingItemsOfTenant items s).1
        = some () ∧
      (∀ e, e ∈ ((demoReconciliationLoop tenants users ts).updateOfferingItemsOfTenant
            items s).2.offeringItems
          ↔ e ∈ s.offeringItems ∨ ∃ i ∈ items, i.Status > 0 ∧ i.externalID = e) ∧
      Store.EqOffOfferingItems
        ((demoReconciliationLoop tenants users ts).updateOfferingItemsOfTenant items s).2 s := by
  intro items
  induction items with
  | nil =>
    intro s
    simp [ReconciliationLoop.updateOfferingItemsOfTenant, Store.EqOffOfferingItems]
  | cons i rest ih =>
    intro s
    by_cases h : i.Status > 0
    · obtain ⟨h0, h1, h2⟩ := ih { s with offeringItems := addOnce s.offeringItems i.externalID }
      simp only [ReconciliationLoop.updateOfferingItemsOfTenant, h, if_true, M.bind_apply,
        M.lift_apply, M.pure_apply, demoReconciliationLoop_extClient,
        memExt_CreateOrUpdateOfferingItem]
      refine ⟨h0, fun e => ?_, h2⟩
      rw [h1]
      simp only [mem_addOnce, List.mem_cons, exists_eq_or_imp]
      constructor
      · rintro ((hx | rfl) | hx)
        · exact Or.inl hx
        · exact Or.inr (Or.inl ⟨h, rfl⟩)
        · exact Or.inr (Or.inr hx)
      · rintro (hx | ⟨-, rfl⟩ | hx)
        · exact Or.inl (Or.inl hx)
        · exact Or.inl (Or.inr rfl)
        · exact Or.inr hx
    · obtain ⟨h0, h1, h2⟩ := ih s
      simp only [ReconciliationLoop.updateOfferingItemsOfTenant, h, if_false, M.bind_apply,
        M.pure_apply]
      refine ⟨h0, fun e => ?_, h2⟩
      rw [h1]
      simp only [List.mem_cons, exists_eq_or_imp]
      constructor
      · rintro (hx | hx)
        · exact Or.inl hx
        · exact Or.inr (Or.inr hx)
      · rintro (hx | ⟨h3, -⟩ | hx)
        · exact Or.inl hx
        · exact absurd h3 h
        · exact Or.inr hx

theorem memExt_updateOfferingItemsOfTenants (tenants : List Tenant) (users : List User)
    (ts : Time) :
    ∀ (entries : List (String × Tenant)) (s : Store),
      (∀ e, e ∈ ((demoReconciliationLoop tenants users ts).updateOfferingItemsOfTenants
            entries s).2.offeringItems
          ↔ e ∈ s.offeringItems ∨
            ∃ en ∈ entries, ∃ i ∈ en.2.OfferingItems, i.Status > 0 ∧ i.externalID = e) ∧
      Store.EqOffOfferingItems
        ((demoReconciliationLoop tenants users ts).updateOfferingItemsOfTenants entries s).2
        s := by
  intro entries
  induction entries with
  | nil =>
    intro s
    simp [ReconciliationLoop.updateOfferingItemsOfTenants, Store.EqOffOfferingItems]
  | cons en rest ih =>
    intro s
    obtain ⟨a0, a1, a2⟩ := memExt_updateOfferingItemsOfTenant tenants users ts
      en.2.OfferingItems s
    rcases hrun : (demoReconciliationLoop tenants users ts).updateOfferingItemsOfTenant
      en.2.OfferingItems s with ⟨r, s1⟩
    rw [hrun] at a0 a1 a2
    simp only at a0 a1 a2
    subst a0
    obtain ⟨b1, b2⟩ := ih s1
    have hstep : (demoReconciliationLoop tenants users ts).updateOfferingItemsOfTenants
        (en :: rest) s
        = (demoReconciliationLoop tenants users ts).updateOfferingItemsOfTenants rest s1 := by
      rcases en with ⟨k, v⟩
      simp only [ReconciliationLoop.updateOfferingItemsOfTenants, M.bind_apply]
      simp only at hrun
      rw [hrun]
    rw [hstep]
    refine ⟨fun e => ?_, ⟨b2.1.trans a2.1, b2.2.1.trans a2.2.1, b2.2.2.1.trans a2.2.2.1,
        b2.2.2.2.trans a2.2.2.2⟩⟩
    rw [b1, a1]
    constructor
    · rintro ((hx | hx) | ⟨en1, h1, hx⟩)
      · exact Or.inl hx
      · exact Or.inr ⟨en, List.mem_cons_self _ _, hx⟩
      · exact Or.inr ⟨en1, List.mem_cons_of_mem _ h1, hx⟩
    · rintro (hx | ⟨en1, hen, hi⟩)
      · exact Or.inl (Or.inl hx)
      · rcases List.mem_cons.1 hen with rfl | h
        · exact Or.inl (Or.inr hi)
        · exact Or.inr ⟨en1, h, hi⟩

/-- What one tenants reconciliation cycle does to the in-memory external
system, between it and a cloud the upsert helper can climb. -/
theorem memExt_reconcileTenants (rt : Runtime Store) (tenants : List Tenant)
    (users : List User) (ts : Time) (height : Tenant → Nat) (fuel : Nat) (s : Store)
    (hforest : ClosedForest tenants height) (hfuel : ∀ t ∈ tenants, height t < fuel)
    (hpagesT : s.tenants.length / 100 < fuel)
    (hpagesOI : s.offeringItems.length / 100 < fuel) :
    ((demoReconciliationLoop tenants users ts).reconcileTenantsAndOfferingItems rt fuel s).1
      = some ts ∧
    (∀ id, id ∈ ((demoReconciliationLoop tenants users ts).reconcileTenantsAndOfferingItems
          rt fuel s).2.tenants ↔ id ∈ (addTenants {} tenants).keys) ∧
    (∀ e, e ∈ ((demoReconciliationLoop tenants users ts).reconcileTenantsAndOfferingItems
          rt fuel s).2.offeringItems
      ↔ (e ∈ s.offeringItems ∧ ¬ OrphanOfferingItem (addTenants {} tenants) e) ∨
        ∃ i ∈ activeOfferingItems (addTenants {} tenants), i.externalID = e) ∧
    ((demoReconciliationLoop tenants users ts).reconcileTenantsAndOfferingItems
          rt fuel s).2.users = s.users ∧
    ((demoReconciliationLoop tenants users ts).reconcileTenantsAndOfferingItems
          rt fuel s).2.accessPolicies = s.accessPolicies ∧
    ((demoReconciliationLoop tenants users ts).reconcileTenantsAndOfferingItems
          rt fuel s).2.usages = s.usages := by
  -- 1. the cloud read
  have h1 : retryHelper rt.sleepOnWorld
      ((demoReconciliationLoop tenants users ts).readACCTenants fuel) ({}, s)
      = (some none,
          (({ accTenants := addTenants {} tenants, nextUpdateTimestamp := ts } : TenantsVars),
            s)) := by
    apply retryHelper_first_success
    simp [ReconciliationLoop.readACCTenants,
      ReconciliationLoop.getACCTenantsAndOfferingItemsForReconciliation,
      demoReconciliationLoop_accClient, fixedCloud]
  -- 2. the external id read
  obtain ⟨m, hm, hk⟩ := externalPages_ids_of_list s.tenants memExt.GetActiveTenantIDs s
    (fun _ _ => rfl) "failed to get tenants from external system: " fuel 0 {}
    (by simpa using hpagesT)
  have hk2 : ∀ x, x ∈ m.keys ↔ x ∈ s.tenants := by
    intro x
    rw [hk]
    have : x ∉ ({} : GoMap Unit).keys := by
      simp [GoMap.keys, EmptyCollection.emptyCollection, GoMap.empty]
    simp [this]
  have h2 : retryHelper rt.sleepOnWorld
      ((demoReconciliationLoop tenants users ts).readExternalTenantIDs fuel)
      (({ accTenants := addTenants {} tenants, nextUpdateTimestamp := ts } : TenantsVars), s)
      = (some none,
          (({ accTenants := addTenants {} tenants, nextUpdateTimestamp := ts,
              externalTenantIDs := m } : TenantsVars), s)) := by
    apply retryHelper_first_success
    simp only [ReconciliationLoop.readExternalTenantIDs,
      ReconciliationLoop.getExternalSystemTenantIDs, demoReconciliationLoop_extClient,
      M.bind_apply, M.onWorld_apply, hm, M.modifyVars_apply, M.pure_apply]
  -- 3. the orphans go
  obtain ⟨r1, r2⟩ := memExt_removeNonExistingTenants tenants users ts (addTenants {} tenants)
    ((rt.rangeOrder 0 m.entries).map Prod.fst) s
  have hids : ∀ x, x ∈ (rt.rangeOrder 0 m.entries).map Prod.fst ↔ x ∈ s.tenants := by
    intro x
    rw [← hk2]
    exact ((rt.rangeOrder_perm 0 m.entries).map Prod.fst).mem_iff
  -- 4. the tenants of the cloud map come
  have hent : ∀ e ∈ rt.rangeOrder 1 (addTenants {} tenants).entries,
      e.2 ∈ tenants ∧ e.2.ID = e.1 := by
    intro e he
    have he2 := (rt.rangeOrder_perm 1 _).mem_iff.1 he
    exact addTenants_entries (fun e => e.2 ∈ tenants ∧ e.2.ID = e.1) tenants
      (fun t ht => ⟨ht, rfl⟩) {} (fun e he => by cases he) e he2
  obtain ⟨c1, c2, c3, c4, c5⟩ := memExt_createOrUpdateTenants rt tenants users ts height hforest
    fuel hfuel (rt.rangeOrder 1 (addTenants {} tenants).entries)
    ((demoReconciliationLoop tenants users ts).removeNonExistingTenants (addTenants {} tenants)
      ((rt.rangeOrder 0 m.entries).map Prod.fst) s).2 (fun e he => (hent e he).1)
  rcases h4 : (demoReconciliationLoop tenants users ts).createOrUpdateTenants rt fuel
    (rt.rangeOrder 1 (addTenants {} tenants).entries)
    ((demoReconciliationLoop tenants users ts).removeNonExistingTenants (addTenants {} tenants)
      ((rt.rangeOrder 0 m.entries).map Prod.fst) s).2 with ⟨r4, s4⟩
  rw [h4] at c1 c2 c3 c4 c5
  simp only at c1 c2 c3 c4 c5
  subst c1
  -- 5. the external offering items
  have hoi : s4.offeringItems = s.offeringItems := c5.1.trans r2.1
  have h5 : retryHelper rt.sleepOnWorld
      ((demoReconciliationLoop tenants users ts).readExternalOIs fuel)
      (({ accTenants := addTenants {} tenants, nextUpdateTimestamp := ts,
          externalTenantIDs := m } : TenantsVars), s4)
      = (some none,
          (({ accTenants := addTenants {} tenants, nextUpdateTimestamp := ts,
              externalTenantIDs := m, externalOIs := s4.offeringItems } : TenantsVars),
            s4)) := by
    apply retryHelper_first_success
    have := externalPages_items_of_list s4.offeringItems memExt.GetActiveOfferingItemIDs s4
      (fun _ _ => rfl) "failed to get tenants from external system: " fuel 0 []
      (by rw [hoi]; simpa using hpagesOI)
    simp only [List.nil_append, List.drop_zero] at this
    simp only [ReconciliationLoop.readExternalOIs,
      ReconciliationLoop.getExternalSystemOfferingItems, demoReconciliationLoop_extClient,
      M.bind_apply, M.onWorld_apply, this, M.modifyVars_apply, M.pure_apply]
  obtain ⟨-, -, hrun⟩ := reconcileTenants_run rt (demoReconciliationLoop tenants users ts) fuel s
    _ _ _ s s s4 s4 h1 h2 h4 h5
  rw [hrun]
  -- 6. and 7. the offering items
  obtain ⟨d1, d2⟩ := memExt_deleteInactiveOfferingItems tenants users ts (addTenants {} tenants)
    s4.offeringItems s4
  obtain ⟨u1, u2⟩ := memExt_updateOfferingItemsOfTenants tenants users ts
    (rt.rangeOrder 2 (addTenants {} tenants).entries)
    ((demoReconciliationLoop tenants users ts).deleteInactiveOfferingItems
      (addTenants {} tenants) s4.offeringItems s4).2
  simp only [ReconciliationLoop.updateOfferingItemsOnExternalSystem]
  refine ⟨trivial, fun id => ?_, fun e => ?_, ?_, ?_, ?_⟩
  · rw [u2.1, d2.1, mem_keys_addTenants tenants hforest.live]
    constructor
    · intro hx
      rcases c4 id hx with h | h
      · have := (r1 id).1 h
        have hin : id ∈ (addTenants {} tenants).keys := by
          by_contra hn
          exact this.2 ⟨(hids id).2 this.1, hn⟩
        exact (mem_keys_addTenants tenants hforest.live id).1 hin
      · exact h
    · intro hx
      have hin := (mem_keys_addTenants tenants hforest.live id).2 hx
      obtain ⟨e, he, hek⟩ := List.mem_map.1 hin
      have he2 := (rt.rangeOrder_perm 1 _).mem_iff.2 he
      have := c2 e he2
      rw [(hent e he2).2, hek] at this
      exact this
  · rw [u1, d1, hoi]
    have hact : (∃ en ∈ rt.rangeOrder 2 (addTenants {} tenants).entries,
          ∃ i ∈ en.2.OfferingItems, i.Status > 0 ∧ i.externalID = e)
        ↔ ∃ i ∈ activeOfferingItems (addTenants {} tenants), i.externalID = e := by
      simp only [activeOfferingItems, List.mem_flatMap, List.mem_filter, decide_eq_true_eq,
        (rt.rangeOrder_perm 2 (addTenants {} tenants).entries).mem_iff]
      constructor
      · rintro ⟨en, hen, i, hi, hs, he⟩
        exact ⟨i, ⟨en, hen, hi, hs⟩, he⟩
      · rintro ⟨i, ⟨en, hen, hi, hs⟩, he⟩
        exact ⟨en, hen, i, hi, hs, he⟩
    rw [hact]
    constructor
    · rintro (⟨hx, hn⟩ | hx)
      · exact Or.inl ⟨hx, fun ho => hn ⟨hx, ho⟩⟩
      · exact Or.inr hx
    · rintro (⟨hx, hn⟩ | hx)
      · exact Or.inl ⟨hx, fun ho => hn ho.2⟩
      · exact Or.inr hx
  · rw [u2.2.1, d2.2.1, c5.2.1, r2.2.1]
  · rw [u2.2.2.1, d2.2.2.1, c5.2.2.1, r2.2.2.1]
  · rw [u2.2.2.2, d2.2.2.2, c5.2.2.2, r2.2.2.2]

end InMemory

section SetEquality

/-- C19, as the claim states it, fails: the cloud holds one tenant `X`, whose
parent `P` it does not know, and the in-memory external system is empty. The
reconciliation cycle returns, the cloud map has the key `X`, and the external
system still holds no tenant: the upsert of `X` stops at "empty tenant response
for P". -/
theorem inMemory_reconcile_leaves_out_tenant_of_unknown_parent :
    ((demoReconciliationLoop
        [{ ID := "X", ParentID := "P", DeletedAt := 0, OfferingItems := [] }] [] 7
      |>.getACCTenantsAndOfferingItemsForReconciliation 3 {}).1.map (fun r => r.1.keys))
      = some ["X"] ∧
    (demoReconciliationLoop
        [{ ID := "X", ParentID := "P", DeletedAt := 0, OfferingItems := [] }] [] 7
      |>.reconcileTenantsAndOfferingItems plainRuntime 3 {}).1 = some 7 ∧
    (demoReconciliationLoop
        [{ ID := "X", ParentID := "P", DeletedAt := 0, OfferingItems := [] }] [] 7
      |>.reconcileTenantsAndOfferingItems plainRuntime 3 {}).2.tenants = [] := by
  decide

/-- C19 (external tenants after a cycle), amended. The external system is
the in-memory store and the cloud answers with one page of tenants. Provided
every tenant of the cloud is live and is its own parent or has its parent among
the tenants of the cloud, the chain of parents of every tenant reaches a root
in fewer steps than the budget, and the budget covers the pages of the external
readers: whatever order `range` follows, the cloud reader returns the cloud
map, the tenants reconciliation cycle returns, and after it the external system
holds a tenant id if and only if it is a key of the cloud map. With external
tenants `A`, `B`, `C` and cloud tenants `A` (a root) and `B` (under `A`), the
tenant writes of the cycle are one `DeleteTenant C` and the upserts of `B` and
`A`, and the external system is left with `A` and `B`. -/
theorem inMemory_reconcile_external_tenants_are_the_cloud_map (rt : Runtime Store)
    (tenants : List Tenant) (users : List User) (ts : Time) (height : Tenant → Nat)
    (fuel : Nat) (s : Store)
    (hforest : ClosedForest tenants height) (hfuel : ∀ t ∈ tenants, height t < fuel)
    (hpagesT : s.tenants.length / 100 < fuel)
    (hpagesOI : s.offeringItems.length / 100 < fuel) :
    ((demoReconciliationLoop tenants users ts).getACCTenantsAndOfferingItemsForReconciliation
        fuel s).1 = some (addTenants {} tenants, ts, none) ∧
    ((demoReconciliationLoop tenants users ts).reconcileTenantsAndOfferingItems rt fuel s).1
      = some ts ∧
    (∀ id, id ∈ ((demoReconciliationLoop tenants users ts).reconcileTenantsAndOfferingItems
          rt fuel s).2.tenants ↔ id ∈ (addTenants {} tenants).keys) ∧
    ((calls ((demoReconciliationLoop
          [{ ID := "A", ParentID := "A", DeletedAt := 0, OfferingItems := [] },
           { ID := "B", ParentID := "A", DeletedAt := 0, OfferingItems := [] }] [] 7).traced
        |>.reconcileTenantsAndOfferingItems plainRuntime.traced 3
          ({ tenants := ["A", "B", "C"] }, [])).2).filter Call.isTenantWrite
      = [.DeleteTenant "C",
         .CreateOrUpdateTenant { ID := "B", ParentID := "A", DeletedAt := 0, OfferingItems := [] },
         .CreateOrUpdateTenant { ID := "A", ParentID := "A", DeletedAt := 0, OfferingItems := [] }]
      ∧
      ((demoReconciliationLoop
          [{ ID := "A", ParentID := "A", DeletedAt := 0, OfferingItems := [] },
           { ID := "B", ParentID := "A", DeletedAt := 0, OfferingItems := [] }] [] 7).traced
        |>.reconcileTenantsAndOfferingItems plainRuntime.traced 3
          ({ tenants := ["A", "B", "C"] }, [])).2.1.tenants = ["A", "B"]) := by
  obtain ⟨h1, h2, -⟩ := memExt_reconcileTenants rt tenants users ts height fuel s hforest hfuel
    hpagesT hpagesOI
  refine ⟨?_, h1, h2, by decide⟩
  simp [ReconciliationLoop.getACCTenantsAndOfferingItemsForReconciliation,
    demoReconciliationLoop_accClient, fixedCloud]

/-- The cloud holds the root `R`, `P` under `R` and `T` under `P`; the
external system holds `T` and a tenant `Z` the cloud does not know: after the
cycle it holds `R`, `P` and `T`, and not `Z`. -/
theorem inMemory_reconcile_external_tenants_are_the_cloud_map_witness :
    (demoReconciliationLoop
        [{ ID := "T", ParentID := "P", DeletedAt := 0, OfferingItems := [] },
         { ID := "P", ParentID := "R", DeletedAt := 0, OfferingItems := [] },
         { ID := "R", ParentID := "R", DeletedAt := 0, OfferingItems := [] }] [] 7
      |>.reconcileTenantsAndOfferingItems plainRuntime 4 { tenants := ["T", "Z"] }).1 = some 7 ∧
    "R" ∈ (demoReconciliationLoop
        [{ ID := "T", ParentID := "P", DeletedAt := 0, OfferingItems := [] },
         { ID := "P", ParentID := "R", DeletedAt := 0, OfferingItems := [] },
         { ID := "R", ParentID := "R", DeletedAt := 0, OfferingItems := [] }] [] 7
      |>.reconcileTenantsAndOfferingItems plainRuntime 4 { tenants := ["T", "Z"] }).2.tenants ∧
    "Z" ∉ (demoReconciliationLoop
        [{ ID := "T", ParentID := "P", DeletedAt := 0, OfferingItems := [] },
         { ID := "P", ParentID := "R", DeletedAt := 0, OfferingItems := [] },
         { ID := "R", ParentID := "R", DeletedAt := 0, OfferingItems := [] }] [] 7
      |>.reconcileTenantsAndOfferingItems plainRuntime 4 { tenants := ["T", "Z"] }).2.tenants := by
  have h := inMemory_reconcile_external_tenants_are_the_cloud_map plainRuntime
    [{ ID := "T", ParentID := "P", DeletedAt := 0, OfferingItems := [] },
     { ID := "P", ParentID := "R", DeletedAt := 0, OfferingItems := [] },
     { ID := "R", ParentID := "R", DeletedAt := 0, OfferingItems := [] }] [] 7
    (fun t => if t.ID = "R" then 0 else if t.ID = "P" then 1 else 2) 4 { tenants := ["T", "Z"] }
    ⟨by decide, by decide, by decide⟩ (by decide) (by decide) (by decide)
  exact ⟨h.2.1, (h.2.2.1 "R").2 (by decide), fun hz => absurd ((h.2.2.1 "Z").1 hz) (by decide)⟩

end SetEquality

section UsageCycle

variable {σ : Type}

theorem usagePages_failed (loop : UsageLoop σ) (fuel offset : Nat) (s s1 : σ) (err : String)
    (tr : List (Event σ)) (hget : loop.extClient.GetUsages offset 100 s = (.error err, s1)) :
    loop.traced.usagePages (fuel + 1) offset (s, tr)
      = (some (), (s1, tr ++ [⟨.GetUsages offset 100, s⟩])) := by
  simp [UsageLoop.usagePages, externalSystemPageSize, hget]

theorem usagePages_empty (loop : UsageLoop σ) (fuel offset : Nat) (s s1 : σ)
    (tr : List (Event σ)) (hget : loop.extClient.GetUsages offset 100 s = (.ok [], s1)) :
    loop.traced.usagePages (fuel + 1) offset (s, tr)
      = (some (), (s1, tr ++ [⟨.GetUsages offset 100, s⟩])) := by
  simp [UsageLoop.usagePages, externalSystemPageSize, hget]

theorem usagePages_page (loop : UsageLoop σ) (fuel offset : Nat) (s s1 : σ) (page : List Usage)
    (tr : List (Event σ)) (hget : loop.extClient.GetUsages offset 100 s = (.ok page, s1))
    (hne : page ≠ []) :
    loop.traced.usagePages (fuel + 1) offset (s, tr)
      = if page.length < 100 then
          (some (), ((loop.accClient.UpdateUsages { Items := page } s1).2,
            tr ++ [⟨.GetUsages offset 100, s⟩, ⟨.UpdateUsages { Items := page }, s1⟩]))
        else
          loop.traced.usagePages fuel (offset + 100)
            ((loop.accClient.UpdateUsages { Items := page } s1).2,
              tr ++ [⟨.GetUsages offset 100, s⟩, ⟨.UpdateUsages { Items := page }, s1⟩]) := by
  rcases hput : loop.accClient.UpdateUsages { Items := page } s1 with ⟨r, s2⟩
  by_cases hlt : page.length < 100 <;> cases r <;>
    simp [UsageLoop.usagePages, UsageLoop.sendACCUsageReport, externalSystemPageSize, hget,
      hne, hlt, hput]

theorem usagePages_run (loop : UsageLoop σ) :
    ∀ (evs : List (Event σ)) (offset : Nat) (s s1 : σ),
      UsageCycleRun loop.extClient loop.accClient offset s evs s1 →
      ∀ (fuel : Nat) (tr : List (Event σ)), usageReads evs ≤ fuel →
        loop.traced.usagePages fuel offset (s, tr) = (some (), (s1, tr ++ evs)) := by
  intro evs offset s s1 h
  induction h with
  | failed offset s s1 err hget =>
    intro fuel tr hf
    cases fuel with
    | zero => simp [usageReads] at hf
    | succ fuel => exact usagePages_failed loop fuel offset s s1 err tr hget
  | empty offset s s1 hget =>
    intro fuel tr hf
    cases fuel with
    | zero => simp [usageReads] at hf
    | succ fuel => exact usagePages_empty loop fuel offset s s1 tr hget
  | short offset s s1 page hget hne hlt =>
    intro fuel tr hf
    cases fuel with
    | zero => simp [usageReads] at hf
    | succ fuel => rw [usagePages_page loop fuel offset s s1 page tr hget hne, if_pos hlt]
  | full offset s s1 s2 page rest hget hge _ ih =>
    intro fuel tr hf
    cases fuel with
    | zero => simp [usageReads] at hf
    | succ fuel =>
      have hne : page ≠ [] := by
        intro h
        simp [h] at hge
      have hf2 : usageReads rest ≤ fuel := by
        simp [usageReads, List.filter_cons] at hf ⊢
        omega
      rw [usagePages_page loop fuel offset s s1 page tr hget hne, if_neg hge, ih fuel _ hf2]
      simp

theorem usagePages_sound (loop : UsageLoop σ) :
    ∀ (fuel offset : Nat) (s : σ) (tr : List (Event σ)),
      (loop.traced.usagePages fuel offset (s, tr)).1 = some () →
      ∃ evs, (loop.traced.usagePages fuel offset (s, tr)).2.2 = tr ++ evs ∧
        UsageCycleRun loop.extClient loop.accClient offset s evs
          (loop.traced.usagePages fuel offset (s, tr)).2.1 := by
  intro fuel
  induction fuel with
  | zero => intro offset s tr h; simp [UsageLoop.usagePages] at h
  | succ fuel ih =>
    intro offset s tr h
    rcases hget : loop.extClient.GetUsages offset 100 s with ⟨r, s1⟩
    cases r with
    | error err =>
      rw [usagePages_failed loop fuel offset s s1 err tr hget]
      exact ⟨_, rfl, UsageCycleRun.failed offset s s1 err hget⟩
    | ok page =>
      by_cases hne : page = []
      · subst hne
        rw [usagePages_empty loop fuel offset s s1 tr hget]
        exact ⟨_, rfl, UsageCycleRun.empty offset s s1 hget⟩
      · rw [usagePages_page loop fuel offset s s1 page tr hget hne] at h ⊢
        by_cases hlt : page.length < 100
        · rw [if_pos hlt]
          exact ⟨_, rfl, UsageCycleRun.short offset s s1 page hget hne hlt⟩
        · rw [if_neg hlt] at h ⊢
          obtain ⟨evs, he, hrun⟩ := ih _ _ _ h
          refine ⟨_ :: _ :: evs, by simpa using he, ?_⟩
          exact UsageCycleRun.full offset s s1 _ page evs hget hlt hrun

theorem usageCycleRun_facts (ext : ExternalSystemClient σ) (acc : Client σ) :
    ∀ (evs : List (Event σ)) (offset : Nat) (s s1 : σ), UsageCycleRun ext acc offset s evs s1 →
      (∃ n, usageReadCalls evs
        = (List.range (n + 1)).map (fun i => Call.GetUsages (offset + 100 * i) 100)) ∧
      usageBatches evs = usagePagesRead ext evs := by
  intro evs offset s s1 h
  induction h with
  | failed offset s s1 err hget =>
    exact ⟨⟨0, by simp [usageReadCalls, List.range_succ]⟩, by simp [usageBatches, usagePagesRead, hget]⟩
  | empty offset s s1 hget =>
    exact ⟨⟨0, by simp [usageReadCalls, List.range_succ]⟩, by simp [usageBatches, usagePagesRead, hget]⟩
  | short offset s s1 page hget hne _ =>
    exact ⟨⟨0, by simp [usageReadCalls, List.range_succ]⟩, by simp [usageBatches, usagePagesRead, hget, hne]⟩
  | full offset s s1 s2 page rest hget hge _ ih =>
    have hne : page ≠ [] := by
      intro h
      simp [h] at hge
    obtain ⟨⟨n, hn⟩, hb⟩ := ih
    refine ⟨⟨n + 1, ?_⟩, ?_⟩
    · have : usageReadCalls
          (⟨.GetUsages offset 100, s⟩ :: ⟨.UpdateUsages { Items := page }, s1⟩ :: rest)
          = .GetUsages offset 100 :: usageReadCalls rest := by
        simp [usageReadCalls, List.filter_cons]
      rw [this, hn, List.range_succ_eq_map (n + 1)]
      simp only [List.map_cons, List.map_map, Nat.mul_zero, Nat.add_zero, List.cons.injEq,
        true_and]
      apply List.map_congr_left
      intro i _
      simp only [Function.comp, Call.GetUsages.injEq, and_true]
      omega
    · simp only [usageBatches, usagePagesRead, List.filterMap_cons, hget, hne, if_false] at hb ⊢
      rw [hb]

/-- C21 (usage-push cycle). For every external system, every cloud and every
state: a usage-push cycle that ends has made exactly the calls of the run the
spec describes, and every such run is what the cycle does, given a budget of
at least its number of reads. That run reads the external usages at the offsets
0, 100, 200, ... with limit 100; after a read that fails or yields an empty page
it stops without a submission; after each non-empty page it submits that page
to the cloud once, as one batch of exactly the usages of the page, and,
whatever the cloud answers (a failure included), reads the next page unless the
page had fewer than 100 usages. In particular the reads of the cycle are the
requests at 0, 100, 200, ... with limit 100, and the batches submitted are, one
for one and in order, the non-empty pages read. -/
theorem usage_cycle_submits_each_page_once (loop : UsageLoop σ) (fuel : Nat) (w : Traced σ) :
    ((loop.traced.usageCycle fuel w).1 = some () →
      ∃ evs, (loop.traced.usageCycle fuel w).2.2 = w.2 ++ evs ∧
        UsageCycleRun loop.extClient loop.accClient 0 w.1 evs
          (loop.traced.usageCycle fuel w).2.1 ∧
        (∃ n, usageReadCalls evs = pageRequests .GetUsages n) ∧
        usageBatches evs = usagePagesRead loop.extClient evs) ∧
    ∀ evs s1, UsageCycleRun loop.extClient loop.accClient 0 w.1 evs s1 →
      usageReads evs ≤ fuel →
      loop.traced.usageCycle fuel w = (some (), (s1, w.2 ++ evs)) := by
  refine ⟨fun h => ?_, fun evs s1 h hf => usagePages_run loop evs 0 w.1 s1 h fuel w.2 hf⟩
  obtain ⟨evs, he, hrun⟩ := usagePages_sound loop fuel 0 w.1 w.2 h
  obtain ⟨⟨n, hn⟩, hb⟩ := usageCycleRun_facts _ _ evs 0 w.1 _ hrun
  exact ⟨evs, he, hrun, ⟨n, by simpa [pageRequests] using hn⟩, hb⟩

/-- The external system holds 101 usages and the cloud refuses every report:
the cycle reads the first page, submits its 100 usages, reads the second page
all the same and submits its one usage. -/
theorem usage_cycle_submits_each_page_once_witness :
    calls ((UsageLoop.traced
        { accClient := usagesRefused, extClient := memExt, updateInterval := 21600 }).usageCycle 5
      ({ usages := List.replicate 100 (usageOf "a") ++ [usageOf "b"] }, [])).2
      = [.GetUsages 0 100, .UpdateUsages { Items := List.replicate 100 (usageOf "a") },
         .GetUsages 100 100, .UpdateUsages { Items := [usageOf "b"] }] := by
  have h := (usage_cycle_submits_each_page_once
      ({ accClient := usagesRefused, extClient := memExt, updateInterval := 21600 } :
        UsageLoop Store) 5
      ({ usages := List.replicate 100 (usageOf "a") ++ [usageOf "b"] }, [])).2 _ _
    (UsageCycleRun.full 0 _ _ _ (List.replicate 100 (usageOf "a")) _ rfl (by decide)
      (UsageCycleRun.short 100 _ _ [usageOf "b"] rfl (by decide) (by decide)))
    (by decide)
  rw [h]
  rfl

end UsageCycle

section CloudErrors

variable {σ : Type}

open accclient

theorem Do_status_error (lib : Lib) (c : accclient.Client σ) (method url : String)
    (reader : Option String) (headers : List (String × String)) (s s1 : σ) (resp : HTTPResponse)
    (hreq : lib.NewRequestError method url = none)
    (hresp : c.HTTPClient { Method := method, URL := url, Body := reader, Header := headers } s
      = (.ok resp, s1))
    (hstatus : 400 ≤ resp.StatusCode) :
    c.Do lib method url (reader.map .ok) headers s
      = (.error (some resp, .accError { Code := toString resp.StatusCode }), s1) := by
  have hge : resp.StatusCode ≥ 400 := hstatus
  cases reader <;> simp [accclient.Client.Do, hreq, hresp, hge, makeError]

theorem parsed_error {α : Type} (name : String) (decode : String → Except GoError α)
    (resp : Option HTTPResponse) (err : GoError) (s1 : σ) :
    accclient.Client.parsed name decode (.error (resp, err), s1)
      = (.error (none, .wrap ("error in http request " ++ name ++ ". ") err), s1) := rfl

/-- C22 (error envelope of the cloud). For every transport, every library and
every state: when the transport answers the request with a response of status
`s >= 400`, `Client.Do` returns that response together with an error, and
`GetTenants`, `GetUsers`, `GetOfferingItems` and `UpdateUsages`, which send
their request through `Do`, return no value and an error; in each case
`errors.As` recovers from the error an `accclient.Error` whose `Code` is `s`
written in decimal. -/
theorem cloud_status_error_carries_code (lib : Lib) (c : accclient.Client σ) (s s1 : σ)
    (resp : HTTPResponse) (hstatus : 400 ≤ resp.StatusCode) :
    (∀ method url reader headers, lib.NewRequestError method url = none →
      c.HTTPClient { Method := method, URL := url, Body := reader, Header := headers } s
        = (.ok resp, s1) →
      ∃ err e, (c.Do lib method url (reader.map .ok) headers s).1 = .error (some resp, err) ∧
        err.asError = some e ∧ e.Code = toString resp.StatusCode) ∧
    (∀ getReq, lib.NewRequestError "GET" (c.tenantsPath lib getReq) = none →
      c.HTTPClient { Method := "GET", URL := c.tenantsPath lib getReq, Body := none, Header := [] }
        s = (.ok resp, s1) →
      ∃ err e, (c.GetTenants lib getReq s).1 = .error (none, err) ∧
        err.asError = some e ∧ e.Code = toString resp.StatusCode) ∧
    (∀ getReq, lib.NewRequestError "GET" (c.usersPath lib getReq) = none →
      c.HTTPClient { Method := "GET", URL := c.usersPath lib getReq, Body := none, Header := [] }
        s = (.ok resp, s1) →
      ∃ err e, (c.GetUsers lib getReq s).1 = .error (none, err) ∧
        err.asError = some e ∧ e.Code = toString resp.StatusCode) ∧
    (∀ getReq, lib.NewRequestError "GET" (c.offeringItemsPath lib getReq) = none →
      c.HTTPClient
        { Method := "GET", URL := c.offeringItemsPath lib getReq, Body := none, Header := [] }
        s = (.ok resp, s1) →
      ∃ err e, (c.GetOfferingItems lib getReq s).1 = .error (none, err) ∧
        err.asError = some e ∧ e.Code = toString resp.StatusCode) ∧
    (∀ usages reqBody, lib.MarshalUsages usages = .ok reqBody →
      lib.NewRequestError "PUT" (c.APIURL ++ "/tenants/usages") = none →
      c.HTTPClient
        { Method := "PUT", URL := c.APIURL ++ "/tenants/usages", Body := some reqBody,
          Header := [] }
        s = (.ok resp, s1) →
      ∃ err e, (c.UpdateUsages lib usages s).1 = .error (none, err) ∧
        err.asError = some e ∧ e.Code = toString resp.StatusCode) := by
  refine ⟨?_, ?_, ?_, ?_, ?_⟩
  · intro method url reader headers hreq hresp
    rw [Do_status_error lib c method url reader headers s s1 resp hreq hresp hstatus]
    exact ⟨_, _, rfl, rfl, rfl⟩
  · intro getReq hreq hresp
    have h := Do_status_error lib c "GET" _ none [] s s1 resp hreq hresp hstatus
    simp only [Option.map_none'] at h
    rw [accclient.Client.GetTenants, accclient.Client.DoGet, h, parsed_error]
    exact ⟨_, _, rfl, rfl, rfl⟩
  · intro getReq hreq hresp
    have h := Do_status_error lib c "GET" _ none [] s s1 resp hreq hresp hstatus
    simp only [Option.map_none'] at h
    rw [accclient.Client.GetUsers, accclient.Client.DoGet, h, parsed_error]
    exact ⟨_, _, rfl, rfl, rfl⟩
  · intro getReq hreq hresp
    have h := Do_status_error lib c "GET" _ none [] s s1 resp hreq hresp hstatus
    simp only [Option.map_none'] at h
    rw [accclient.Client.GetOfferingItems, accclient.Client.DoGet, h, parsed_error]
    exact ⟨_, _, rfl, rfl, rfl⟩
  · intro usages reqBody hbody hreq hresp
    have h := Do_status_error lib c "PUT" _ (some reqBody) [] s s1 resp hreq hresp hstatus
    simp only [Option.map_some'] at h
    rw [accclient.Client.UpdateUsages, accclient.Client.DoPut, hbody, h, parsed_error]
    exact ⟨_, _, rfl, rfl, rfl⟩

/-- The cloud answers every request with the status 500: `GetTenants` returns
an error whose message is the chain of wrapped messages and from which
`errors.As` recovers an `accclient.Error` with the code "500". -/
theorem cloud_status_error_carries_code_witness :
    ∃ err e, ((statusCloud 500).GetTenants plainLib { SubTreeRootID := "root" } []).1
        = .error (none, err) ∧
      err.asError = some e ∧ e.Code = "500" ∧
      err.message
        = "error in http request GetTenants. accclient error: domain: null, reason: 500" :=
  have h := (cloud_status_error_carries_code plainLib (statusCloud 500) [] _
      { StatusCode := 500 } (by decide)).2.1 { SubTreeRootID := "root" } rfl rfl
  by
    obtain ⟨err, e, h1, h2, h3⟩ := h
    refine ⟨err, e, h1, h2, h3, ?_⟩
    rw [accclient.Client.GetTenants] at h1
    cases h1
    decide

end CloudErrors

section ActiveOfferingItems

variable {σ : Type}

open external

theorem foldl_append_active (page : List external.OfferingItem) (acc : List OfferingItemID) :
    page.foldl
      (fun OIs item =>
        if item.Status > 0 then
          OIs ++ [({ OfferingItemName := item.Name, TenantID := item.TenantID } : OfferingItemID)]
        else OIs)
      acc = acc ++ activePairs page := by
  induction page generalizing acc with
  | nil => simp [activePairs]
  | cons item rest ih =>
    rw [List.foldl_cons, ih]
    by_cases h : item.Status > 0 <;> simp [activePairs, List.filter_cons, h]

/-- C23, evaluated on the code. For every page the external system returns,
`GetActiveOfferingItemIDs` returns as many pairs with an empty name and an
empty tenant id as the page has items, followed by the pairs of the active
items; so on a page of one active item `x` of the tenant `T1` it returns two
entries, the pair `("", "")` and the pair `("x", "T1")`, a result longer than
the page. The reader of tenant ids, given a page of one tenant, returns one
entry. -/
theorem getActiveOfferingItemIDs_prepends_zero_values :
    (∀ (ext : SampleExternalSystem σ) (offset limit : Nat) (s s1 : σ)
        (page : List external.OfferingItem),
      ext.GetOfferingItems offset limit s = (.ok page, s1) →
      ext.GetActiveOfferingItemIDs offset limit s
        = (.ok (List.replicate page.length { OfferingItemName := "", TenantID := "" }
            ++ activePairs page), s1)) ∧
    ((fixedPages [] [{ Name := "x", TenantID := "T1", Status := 1 }]).GetActiveOfferingItemIDs
        0 100 ()).1
      = .ok [{ OfferingItemName := "", TenantID := "" },
             { OfferingItemName := "x", TenantID := "T1" }] ∧
    ((fixedPages [{ IDNo := "T1" }] []).GetActiveTenantIDs 0 100 ()).1 = .ok ["T1"] := by
  refine ⟨?_, rfl, rfl⟩
  intro ext offset limit s s1 page h
  simp only [SampleExternalSystem.GetActiveOfferingItemIDs, h, foldl_append_active]

end ActiveOfferingItems

section CustomTimeParsing

theorem rdropWhile_append_rest {α : Type} (p : α → Bool) (l : List α) :
    ∃ t, l = l.rdropWhile p ++ t ∧ ∀ x ∈ t, p x = true := by
  refine ⟨l.rtakeWhile p, ?_, fun x hx => List.mem_rtakeWhile_imp hx⟩
  have h := List.takeWhile_append_dropWhile p l.reverse
  have h2 := congrArg List.reverse h
  simp only [List.reverse_append, List.reverse_reverse] at h2
  simpa [List.rdropWhile, List.rtakeWhile] using h2.symm

theorem trimQuotes_eq_null (b : String) (hj : JSONValue b) (h : trimQuotes b = nullString) :
    b = "null" ∨ b = quoted "null" := by
  have hd : (b.data.dropWhile (fun c => c == quote)).rdropWhile (fun c => c == quote)
      = nullString.data := congrArg String.data h
  rcases hj with ⟨inner, hb, hesc⟩ | ⟨hhead, hlast⟩
  · right
    apply String.ext
    rw [hb] at hd ⊢
    cases inner with
    | nil =>
      exfalso
      revert hd
      decide
    | cons c rest =>
      have hc : c ≠ quote := by
        intro hc
        have := hesc [] rest (by simp [hc])
        simp at this
      have hdrop : (quote :: (c :: rest) ++ [quote]).dropWhile (fun c => c == quote)
          = (c :: rest) ++ [quote] := by
        simp [List.dropWhile_cons, hc]
      rw [hdrop, List.rdropWhile_concat_pos _ _ _ (by simp)] at hd
      obtain ⟨t, ht, hq⟩ := rdropWhile_append_rest (fun c => c == quote) (c :: rest)
      rw [hd] at ht
      cases t with
      | nil =>
        rw [ht]
        simp [quoted, nullString]
      | cons x t =>
        exfalso
        have hx : x = quote := by simpa using hq x (List.mem_cons_self _ _)
        have := hesc nullString.data t (by rw [ht, hx])
        revert this
        decide
  · left
    apply String.ext
    have h1 : b.data.dropWhile (fun c => c == quote) = b.data := by
      cases hb : b.data with
      | nil => rfl
      | cons c rest =>
        have hc : c ≠ quote := by
          intro hc
          apply hhead
          simp [hb, hc]
        simp [List.dropWhile_cons, hc]
    have h2 : b.data.rdropWhile (fun c => c == quote) = b.data := by
      rw [List.rdropWhile_eq_self_iff]
      intro hl hp
      apply hlast
      rw [List.getLast?_eq_getLast _ hl]
      simpa using hp
    rw [h1, h2] at hd
    exact hd

/-- C24 (custom time parsing). Whatever `time.Parse` does: `UnmarshalJSON`
maps the JSON value `null` and the JSON string "null" to the zero time with no
error; every input is first stripped of its surrounding double quotes and,
unless what is left is `null`, parsed as RFC3339 and, if that fails, as
`YYYY-MM-DDTHH:MM:SS`, so that an error is returned exactly when both parses
fail; and among JSON values only `null` and the string "null" are left as
`null`, so every other JSON value goes through the two layouts. -/
theorem customTime_unmarshal_null_then_layouts (parse : String → String → Time × Option String) :
    CustomTime.UnmarshalJSON parse "null" = (0, none) ∧
    CustomTime.UnmarshalJSON parse (quoted "null") = (0, none) ∧
    (∀ b, JSONValue b → b ≠ "null" → b ≠ quoted "null" →
      CustomTime.UnmarshalJSON parse b = parsedByLayouts parse (trimQuotes b) ∧
      ((CustomTime.UnmarshalJSON parse b).2 ≠ none ↔
        (parse RFC3339 (trimQuotes b)).2 ≠ none ∧ (parse customLayout (trimQuotes b)).2 ≠ none)) ∧
    (∀ b, trimQuotes b ≠ "null" →
      CustomTime.UnmarshalJSON parse b = parsedByLayouts parse (trimQuotes b)) := by
  have hany : ∀ b, trimQuotes b ≠ "null" →
      CustomTime.UnmarshalJSON parse b = parsedByLayouts parse (trimQuotes b) := by
    intro b hb
    have hb2 : ¬ trimQuotes b = nullString := hb
    simp only [CustomTime.UnmarshalJSON, parsedByLayouts, hb2, if_false]
    rcases hp : parse RFC3339 (trimQuotes b) with ⟨t, _ | e⟩ <;> simp
  have hnull : trimQuotes "null" = nullString := by decide
  have hquoted : trimQuotes (quoted "null") = nullString := by decide
  refine ⟨by simp [CustomTime.UnmarshalJSON, hnull], by simp [CustomTime.UnmarshalJSON, hquoted],
    ?_, hany⟩
  intro b hj h1 h2
  have hb : trimQuotes b ≠ "null" := by
    intro h
    rcases trimQuotes_eq_null b hj h with h | h
    · exact h1 h
    · exact h2 h
  refine ⟨hany b hb, ?_⟩
  rw [hany b hb, parsedByLayouts]
  by_cases hp : (parse RFC3339 (trimQuotes b)).2 = none <;> simp [hp]

/-- With a parser that knows one instant in each layout: the string
"2021-03-04T05:06:07Z" is read as RFC3339, the string "2021-03-04T05:06:07" is
read in the custom layout after RFC3339 failed, and the number 12 yields the
error of the second parse. -/
theorem customTime_unmarshal_null_then_layouts_witness :
    CustomTime.UnmarshalJSON toyParse (quoted "2021-03-04T05:06:07Z") = (1614834367, none) ∧
    CustomTime.UnmarshalJSON toyParse (quoted "2021-03-04T05:06:07") = (1614834367, none) ∧
    CustomTime.UnmarshalJSON toyParse "12"
      = (0, some "parsing time 12 as 2006-01-02T15:04:05") := by
  have h := (customTime_unmarshal_null_then_layouts toyParse).2.2.2
  refine ⟨?_, ?_, ?_⟩
  · rw [h _ (by decide)]; decide
  · rw [h _ (by decide)]; decide
  · rw [h _ (by decide)]; decide

end CustomTimeParsing

section ConfigValidation

theorem trimRightSlashes_idem (s : String) :
    trimRightSlashes (trimRightSlashes s) = trimRightSlashes s := by
  simp [trimRightSlashes, List.rdropWhile_idempotent]

/-- C25 (configuration check). Whatever `url.ParseRequestURI` accepts:
`Validate` returns an error exactly when the log level is not one of trace,
debug, info, warn, error, fatal, panic, or the base URL without its trailing
slashes does not parse; the base URL without its trailing slashes is the input
cut before a run of slashes that reaches its end, and does not end in a slash
itself; after a `Validate` that returns `nil` the stored base URL is the input
without its trailing slashes and nothing else has changed; and a second
`Validate` returns `nil` again and leaves the configuration as it is. -/
theorem config_validate_level_and_url (parseRequestURI : String → Option String) (c : Config) :
    ((c.Validate parseRequestURI).1 ≠ none ↔
      (c.LogSettings.LogLevel ∉ ["trace", "debug", "info", "warn", "error", "fatal", "panic"] ∨
       parseRequestURI (trimRightSlashes c.APIServerSettings.BaseURL) ≠ none)) ∧
    ((∃ k, c.APIServerSettings.BaseURL.data
        = (trimRightSlashes c.APIServerSettings.BaseURL).data ++ List.replicate k slash) ∧
      (trimRightSlashes c.APIServerSettings.BaseURL).data.getLast? ≠ some slash) ∧
    ((c.Validate parseRequestURI).1 = none →
      (c.Validate parseRequestURI).2
        = { c with APIServerSettings :=
              { BaseURL := trimRightSlashes c.APIServerSettings.BaseURL } } ∧
      Config.Validate parseRequestURI (c.Validate parseRequestURI).2
        = (none, (c.Validate parseRequestURI).2)) := by
  refine ⟨?_, ⟨?_, ?_⟩, ?_⟩
  · by_cases hl : c.LogSettings.LogLevel ∈ logLevels
    · have hl2 : c.LogSettings.LogLevel
          ∈ ["trace", "debug", "info", "warn", "error", "fatal", "panic"] := hl
      rcases hp : parseRequestURI (trimRightSlashes c.APIServerSettings.BaseURL) with _ | e <;>
        simp [Config.Validate, hl, hl2, hp]
    · have hl2 : c.LogSettings.LogLevel
          ∉ ["trace", "debug", "info", "warn", "error", "fatal", "panic"] := hl
      simp only [Config.Validate, hl, if_false]
      exact ⟨fun _ => Or.inl hl2, fun _ => by simp⟩
  · obtain ⟨t, ht, hq⟩ := rdropWhile_append_rest (fun c => c == slash)
      c.APIServerSettings.BaseURL.data
    refine ⟨t.length, ?_⟩
    have : t = List.replicate t.length slash := by
      apply List.eq_replicate_of_mem
      intro x hx
      simpa using hq x hx
    rw [← this]
    exact ht
  · intro h
    have hne : (trimRightSlashes c.APIServerSettings.BaseURL).data ≠ [] := by
      intro h0
      rw [h0] at h
      simp at h
    have := List.rdropWhile_last_not (fun c => c == slash) c.APIServerSettings.BaseURL.data
      (by simpa [trimRightSlashes] using hne)
    rw [List.getLast?_eq_getLast _ hne] at h
    simp only [Option.some.injEq] at h
    apply this
    simpa [trimRightSlashes] using h
  · intro h
    by_cases hl : c.LogSettings.LogLevel ∈ logLevels
    · rcases hp : parseRequestURI (trimRightSlashes c.APIServerSettings.BaseURL) with _ | e
      · simp [Config.Validate, hl, hp, trimRightSlashes_idem]
      · simp [Config.Validate, hl, hp] at h
    · simp [Config.Validate, hl] at h

/-- The default configuration with the base URL `https://cloud//`: `Validate`
returns `nil` and stores `https://cloud`; with the log level `verbose` it
returns an error. -/
theorem config_validate_level_and_url_witness :
    ((Config.Validate nonEmptyURI
        { NewDefaultConfig with APIServerSettings := { BaseURL := "https://cloud//" } }).2
      ).APIServerSettings.BaseURL = "https://cloud" ∧
    (Config.Validate nonEmptyURI
        { NewDefaultConfig with
          LogSettings := { LoggingLib := "logrus", WithJSONFormatter := true,
                           LogLevel := "verbose" } }).1
      = some "invalid logging level: verbose" := by
  have h := (config_validate_level_and_url nonEmptyURI
      { NewDefaultConfig with APIServerSettings := { BaseURL := "https://cloud//" } }).2.2
    (by decide)
  refine ⟨?_, by decide⟩
  rw [h.1]
  decide

end ConfigValidation

section DefaultIntervals

variable {σ : Type}

/-- C26, as the claim states it, fails: `NewReconciliationLoop` called without
options returns a loop whose reconciliation interval is 3 600 s, not
86 400 s. -/
theorem newReconciliationLoop_without_options_is_not_86400 :
    (NewReconciliationLoop (fixedCloud [] [] 0) "root" memExt []).reconciliationInterval = 3600 ∧
    (NewReconciliationLoop (fixedCloud [] [] 0) "root" memExt []).reconciliationInterval
      ≠ 86400 := by
  decide

/-- C26 (default intervals), amended. For all collaborators: `NewDefaultConfig`
yields an update interval of 5 s, a reconciliation interval of 86 400 s and a
usage report interval of 21 600 s; called without options, `NewSyncLoop`
yields an update interval of 5 s, `NewUsageLoop` a usage report interval of
21 600 s and `NewReconciliationLoop` a reconciliation interval of 3 600 s;
called with its interval option, each constructor yields the interval given;
and the loops that `NewUpdater` builds from a configuration run with the three
intervals of that configuration, so with 5 s, 86 400 s and 21 600 s from the
default configuration. -/
theorem default_intervals_of_config_and_constructors (accClient : Client σ) (tenantID : String)
    (extClient : ExternalSystemClient σ) (config : Config) (interval : Nat) :
    (NewDefaultConfig.UpdateInterval = 5 ∧ NewDefaultConfig.ReconciliationInterval = 86400 ∧
      NewDefaultConfig.UsageReportInterval = 21600) ∧
    ((NewSyncLoop accClient tenantID extClient []).1.updateInterval = 5 ∧
      (NewUsageLoop accClient extClient []).updateInterval = 21600 ∧
      (NewReconciliationLoop accClient tenantID extClient []).reconciliationInterval = 3600) ∧
    ((NewSyncLoop accClient tenantID extClient [WithUpdateInterval interval]).1.updateInterval
        = interval ∧
      (NewUsageLoop accClient extClient [WithUsageUpdateInterval interval]).updateInterval
        = interval ∧
      (NewReconciliationLoop accClient tenantID extClient
          [WithReconciliationInterval interval]).reconciliationInterval = interval) ∧
    ((NewUpdaterLoops config accClient tenantID extClient).1.1.updateInterval
        = config.UpdateInterval ∧
      (NewUpdaterLoops config accClient tenantID extClient).2.1.reconciliationInterval
        = config.ReconciliationInterval ∧
      (NewUpdaterLoops config accClient tenantID extClient).2.2.updateInterval
        = config.UsageReportInterval) ∧
    ((NewUpdaterLoops NewDefaultConfig accClient tenantID extClient).1.1.updateInterval = 5 ∧
      (NewUpdaterLoops NewDefaultConfig accClient tenantID extClient).2.1.reconciliationInterval
        = 86400 ∧
      (NewUpdaterLoops NewDefaultConfig accClient tenantID extClient).2.2.updateInterval
        = 21600) :=
  ⟨⟨rfl, rfl, rfl⟩, ⟨rfl, rfl, rfl⟩, ⟨rfl, rfl, rfl⟩, ⟨rfl, rfl, rfl⟩, ⟨rfl, rfl, rfl⟩⟩

end DefaultIntervals

section UpsertTermination

variable {σ : Type}

theorem tenantUpserts_append (a b : List (Event σ)) :
    tenantUpserts (a ++ b) = tenantUpserts a + tenantUpserts b := by
  simp [tenantUpserts, List.filter_append]

end UpsertTermination

section NextPageQuery

variable {σ : Type}

open accclient

/-- C28, evaluated on the code. For every cursor `c` that is not empty, the
request that `GetTenantsNextPage` and `GetUsersNextPage` build holds the
cursor only, and `getQueryParam` turns it into two parameters: `after=c` and
`allow_deleted=false`. The first request of the incremental loops carries
`allow_deleted=true`, so the next-page request of these loops sends a value of
`allow_deleted` that differs from the one of the first request. At the cursor
`c1`, against a cloud at `https://cloud`, the requests sent for the next page
of tenants and of users end in `?after=c1&allow_deleted=false`; the request for
the next page of offering items, whose `getQueryParam` knows no
`allow_deleted`, ends in `?after=c1`. -/
theorem next_page_request_sends_allow_deleted_false :
    (∀ (format : Time → String) (c : String), c ≠ "" →
      (TenantGetRequest.getQueryParam format { After := c }).entries
        = [("allow_deleted", "false"), ("after", c)] ∧
      (UserGetRequest.getQueryParam format { After := c }).entries
        = [("allow_deleted", "false"), ("after", c)]) ∧
    (∀ (format : Time → String) (loop : SyncLoopImpl σ) (vars : SyncVars),
      (TenantGetRequest.getQueryParam format (loop.tenantsRequest vars)).get? "allow_deleted"
        = some "true" ∧
      (UserGetRequest.getQueryParam format (loop.usersRequest vars)).get? "allow_deleted"
        = some "true") ∧
    (((statusCloud 200).engine plainLib).GetTenantsNextPage
        { After := "c1", Timestamp := 0, Items := [] } []).2
      = [{ Method := "GET", URL := "https://cloud/api/2/tenants?after=c1&allow_deleted=false",
           Body := none, Header := [] }] ∧
    (((statusCloud 200).engine plainLib).GetUsersNextPage
        { After := "c1", Timestamp := 0, Items := [] } []).2
      = [{ Method := "GET", URL := "https://cloud/api/2/users?after=c1&allow_deleted=false",
           Body := none, Header := [] }] ∧
    ((statusCloud 200).GetOfferingItemsNextPage plainLib
        { After := "c1", Timestamp := 0, Items := [] } []).2
      = [{ Method := "GET", URL := "https://cloud/api/2/tenants/offering_items?after=c1",
           Body := none, Header := [] }] := by
  refine ⟨?_, ?_, by decide, by decide, by decide⟩
  · intro format c hc
    constructor
    · simp only [TenantGetRequest.getQueryParam, setIf, setIfSome, List.length_nil, gt_iff_lt,
        lt_self_iff_false, if_false, ne_eq, not_true_eq_false, hc, not_false_eq_true, if_true,
        GoMap.set, GoMap.without]
      rfl
    · simp only [UserGetRequest.getQueryParam, setIf, setIfSome, List.length_nil, gt_iff_lt,
        lt_self_iff_false, if_false, ne_eq, not_true_eq_false, hc, not_false_eq_true, if_true,
        GoMap.set, GoMap.without]
      rfl
  · intro format loop vars
    exact ⟨by rw [TenantGetRequest.getQueryParam, GoMap.get?_set, if_pos rfl]; rfl,
      by rw [UserGetRequest.getQueryParam, GoMap.get?_set, if_pos rfl]; rfl⟩

end NextPageQuery

section FailedReads

variable {σ : Type}

theorem retryLoop_failure {τ : Type} (sleep : Duration → τ → τ)
    (userFunction : M τ (Option String)) :
    ∀ (n i : Nat) (b : Duration) (err : Option String) (s s1 : τ) (e : String),
      0 < n → i + n = defaultMaxRetries →
      retryLoop sleep userFunction n i b err s = (some (some e), s1) →
      ∃ s0 e0, userFunction s0 = (some (some e0), s1) := by
  intro n
  induction n with
  | zero => intro i b err s s1 e h; omega
  | succ n ih =>
    intro i b err s s1 e _ hi h
    simp only [retryLoop, M.bind_apply] at h
    rcases hrun : userFunction s with ⟨r, s2⟩
    rw [hrun] at h
    rcases r with _ | _ | e2
    · simp at h
    · simp at h
    · by_cases hlast : i + 1 ≥ defaultMaxRetries
      · simp only [hlast, if_true, M.pure_apply, Prod.mk.injEq] at h
        exact ⟨s, e2, by rw [hrun, h.2]⟩
      · simp only [hlast, if_false, M.bind_apply, M.lift_apply] at h
        exact ih (i + 1) (b * 2) (some e2) _ s1 e (by omega) (by omega) h

theorem retryHelper_failure {τ : Type} (sleep : Duration → τ → τ)
    (userFunction : M τ (Option String)) (s s1 : τ) (e : String)
    (h : retryHelper sleep userFunction s = (some (some e), s1)) :
    ∃ s0 e0, userFunction s0 = (some (some e0), s1) :=
  retryLoop_failure sleep userFunction _ _ _ _ s s1 e (by decide) (by decide) h

theorem tenantsRestPages_failure (loop : ReconciliationLoop σ) (ts : Time) :
    ∀ (pages : Nat) (resp : TenantGetResponse) (acc : GoMap Tenant) (s s1 : σ)
      (m : GoMap Tenant) (t : Time) (e : String),
      loop.tenantsRestPages ts pages resp acc s = (some (m, t, some e), s1) → t = 0 := by
  intro pages
  induction pages with
  | zero => intro resp acc s s1 m t e h; simp [ReconciliationLoop.tenantsRestPages] at h
  | succ pages ih =>
    intro resp acc s s1 m t e h
    simp only [ReconciliationLoop.tenantsRestPages, M.bind_apply] at h
    rcases hnext : loop.accClient.GetTenantsNextPage resp s with ⟨r, s2⟩
    rw [hnext] at h
    rcases r with _ | err | _ | next
    · simp at h
    · simp only [M.pure_apply, Prod.mk.injEq, Option.some.injEq] at h
      exact h.1.2.1.symm
    · simp at h
    · exact ih _ _ _ _ _ _ _ h

theorem usersRestPages_failure (loop : ReconciliationLoop σ) (ts : Time) :
    ∀ (pages : Nat) (resp : UserGetResponse) (acc : GoMap User) (s s1 : σ)
      (m : GoMap User) (t : Time) (e : String),
      loop.usersRestPages ts pages resp acc s = (some (m, t, some e), s1) → t = 0 := by
  intro pages
  induction pages with
  | zero => intro resp acc s s1 m t e h; simp [ReconciliationLoop.usersRestPages] at h
  | succ pages ih =>
    intro resp acc s s1 m t e h
    simp only [ReconciliationLoop.usersRestPages, M.bind_apply] at h
    rcases hnext : loop.accClient.GetUsersNextPage resp s with ⟨r, s2⟩
    rw [hnext] at h
    rcases r with _ | err | _ | next
    · simp at h
    · simp only [M.pure_apply, Prod.mk.injEq, Option.some.injEq] at h
      exact h.1.2.1.symm
    · simp at h
    · exact ih _ _ _ _ _ _ _ h

theorem readACCTenants_failure (loop : ReconciliationLoop σ) (fuel : Nat)
    (st st1 : TenantsVars × σ) (e : String)
    (h : loop.readACCTenants fuel st = (some (some e), st1)) :
    st1.1.nextUpdateTimestamp = 0 := by
  simp only [ReconciliationLoop.readACCTenants, M.bind_apply, M.onWorld_apply] at h
  rcases hrun : loop.getACCTenantsAndOfferingItemsForReconciliation fuel st.2 with ⟨r, w2⟩
  rw [hrun] at h
  rcases r with _ | ⟨m, ts, e2⟩
  · simp at h
  · simp only [M.modifyVars_apply, M.pure_apply, Prod.mk.injEq, Option.some.injEq] at h
    obtain ⟨he, hst⟩ := h
    subst he hst
    simp only
    simp only [ReconciliationLoop.getACCTenantsAndOfferingItemsForReconciliation, M.bind_apply,
      M.lift_apply] at hrun
    rcases hget : (loop.accClient.GetTenants
      { SubTreeRootID := loop.tenantID, Limit := some accPageSize, WithContacts := some true,
        WithOfferingItems := some true, AllowDeleted := false } st.2).1 with err | resp
    · rw [hget] at hrun
      simp only [M.pure_apply, Prod.mk.injEq, Option.some.injEq] at hrun
      exact hrun.1.2.1.symm
    · rw [hget] at hrun
      by_cases hafter : resp.After = ""
      · simp [hafter] at hrun
      · simp only [hafter, if_false] at hrun
        exact tenantsRestPages_failure loop _ _ _ _ _ _ _ _ _ hrun

theorem readACCUsers_failure (loop : ReconciliationLoop σ) (fuel : Nat)
    (st st1 : UsersVars × σ) (e : String)
    (h : loop.readACCUsers fuel st = (some (some e), st1)) :
    st1.1.nextUpdateTimestamp = 0 := by
  simp only [ReconciliationLoop.readACCUsers, M.bind_apply, M.onWorld_apply] at h
  rcases hrun : loop.getACCUsersAndAccessPoliciesForReconciliation fuel st.2 with ⟨r, w2⟩
  rw [hrun] at h
  rcases r with _ | ⟨m, ts, e2⟩
  · simp at h
  · simp only [M.modifyVars_apply, M.pure_apply, Prod.mk.injEq, Option.some.injEq] at h
    obtain ⟨he, hst⟩ := h
    subst he hst
    simp only
    simp only [ReconciliationLoop.getACCUsersAndAccessPoliciesForReconciliation, M.bind_apply,
      M.lift_apply] at hrun
    rcases hget : (loop.accClient.GetUsers
      { SubTreeRootTenantID := loop.tenantID, WithAccessPolicies := some true,
        Limit := some accPageSize } st.2).1 with err | resp
    · rw [hget] at hrun
      simp only [M.pure_apply, Prod.mk.injEq, Option.some.injEq] at hrun
      exact hrun.1.2.1.symm
    · rw [hget] at hrun
      by_cases hafter : resp.After = ""
      · simp [hafter] at hrun
      · simp only [hafter, if_false] at hrun
        exact usersRestPages_failure loop _ _ _ _ _ _ _ _ _ hrun

theorem ofCloudRead_retriedCloud {c : Call} (h : c.ofCloudRead) : c.ofRetriedCloudRead := by
  cases c <;> simp_all [Call.ofCloudRead, Call.ofRetriedCloudRead]

theorem ofRetriedCloudRead_notExternal {c : Call} (h : c.ofRetriedCloudRead) :
    ¬ c.onExternalSystem := by
  cases c <;> simp_all [Call.ofRetriedCloudRead, Call.onExternalSystem]

theorem ofRetriedRead_notDelete {c : Call} (h : c.ofRetriedRead) : c.notDelete := by
  cases c <;> simp_all [Call.ofRetriedRead, Call.notDelete]

theorem retriedCloudRead_emits {L : Type} (rt : Runtime σ)
    (op : M (L × Traced σ) (Option String)) (hop : Emits varsTrace Call.ofRetriedCloudRead op) :
    Emits varsTrace Call.ofRetriedCloudRead (retryHelper rt.traced.sleepOnWorld op) :=
  Emits.retryHelper _ _ hop (fun d => Emits.sleepOnWorld rt d (by trivial))

theorem readACCTenants_emits_cloud (loop : ReconciliationLoop σ) (fuel : Nat) :
    Emits varsTrace Call.ofRetriedCloudRead (loop.traced.readACCTenants fuel) := by
  unfold ReconciliationLoop.readACCTenants
  exact Emits.bind
    ((getACCTenants_emits loop fuel).mono (fun _ h => ofCloudRead_retriedCloud h)).onWorld
    (fun _ => Emits.bind (Emits.modifyVars _) (fun _ => Emits.pure _))

theorem readACCUsers_emits_cloud (loop : ReconciliationLoop σ) (fuel : Nat) :
    Emits varsTrace Call.ofRetriedCloudRead (loop.traced.readACCUsers fuel) := by
  unfold ReconciliationLoop.readACCUsers
  exact Emits.bind
    ((getACCUsers_emits loop fuel).mono (fun _ h => ofCloudRead_retriedCloud h)).onWorld
    (fun _ => Emits.bind (Emits.modifyVars _) (fun _ => Emits.pure _))

theorem reconcileTenants_cloud_read_failed (rt : Runtime σ) (loop : ReconciliationLoop σ)
    (fuel : Nat) (s : σ) (err : String) (st1 : TenantsVars × σ)
    (h1 : retryHelper rt.sleepOnWorld (loop.readACCTenants fuel) ({}, s)
      = (some (some err), st1)) :
    loop.reconcileTenantsAndOfferingItems rt fuel s = (some 0, st1.2) := by
  obtain ⟨s0, e0, h0⟩ := retryHelper_failure _ _ _ _ _ h1
  have hz := readACCTenants_failure loop fuel s0 st1 e0 h0
  simp [ReconciliationLoop.reconcileTenantsAndOfferingItems,
    ReconciliationLoop.reconcileTenantsBody, h1, hz]

theorem reconcileUsers_cloud_read_failed (rt : Runtime σ) (loop : ReconciliationLoop σ)
    (fuel : Nat) (s : σ) (err : String) (st1 : UsersVars × σ)
    (h1 : retryHelper rt.sleepOnWorld (loop.readACCUsers fuel) ({}, s)
      = (some (some err), st1)) :
    loop.reconcileUsersAndAccessPolicies rt fuel s = (some 0, st1.2) := by
  obtain ⟨s0, e0, h0⟩ := retryHelper_failure _ _ _ _ _ h1
  have hz := readACCUsers_failure loop fuel s0 st1 e0 h0
  simp [ReconciliationLoop.reconcileUsersAndAccessPolicies,
    ReconciliationLoop.reconcileUsersBody, h1, hz]

theorem reconcileTenants_id_read_failed (rt : Runtime σ) (loop : ReconciliationLoop σ)
    (fuel : Nat) (s : σ) (err : String) (st1 st2 : TenantsVars × σ)
    (h1 : retryHelper rt.sleepOnWorld (loop.readACCTenants fuel) ({}, s) = (some none, st1))
    (h2 : retryHelper rt.sleepOnWorld (loop.readExternalTenantIDs fuel) st1
      = (some (some err), st2)) :
    (loop.reconcileTenantsAndOfferingItems rt fuel s).2 = st2.2 := by
  simp [ReconciliationLoop.reconcileTenantsAndOfferingItems,
    ReconciliationLoop.reconcileTenantsBody, h1, h2]

theorem reconcileUsers_id_read_failed (rt : Runtime σ) (loop : ReconciliationLoop σ)
    (fuel : Nat) (s : σ) (err : String) (st1 st2 : UsersVars × σ)
    (h1 : retryHelper rt.sleepOnWorld (loop.readACCUsers fuel) ({}, s) = (some none, st1))
    (h2 : retryHelper rt.sleepOnWorld (loop.readExternalUserIDs fuel) st1
      = (some (some err), st2)) :
    (loop.reconcileUsersAndAccessPolicies rt fuel s).2 = st2.2 := by
  simp [ReconciliationLoop.reconcileUsersAndAccessPolicies,
    ReconciliationLoop.reconcileUsersBody, h1, h2]

theorem two_reads_emit {L : Type} (rt : Runtime σ) (op1 op2 : M (L × Traced σ) (Option String))
    (hop1 : Emits varsTrace Call.ofRetriedRead op1) (hop2 : Emits varsTrace Call.ofRetriedRead op2)
    (st st1 st2 : L × Traced σ) (r1 r2 : Option (Option String))
    (h1 : retryHelper rt.traced.sleepOnWorld op1 st = (r1, st1))
    (h2 : retryHelper rt.traced.sleepOnWorld op2 st1 = (r2, st2)) :
    ∃ evs, st2.2.2 = st.2.2 ++ evs ∧ ∀ ev ∈ evs, ev.call.notDelete ∧ ev.call.notUpsert := by
  obtain ⟨evs1, he1, hp1⟩ := retriedRead_emits rt op1 hop1 st
  obtain ⟨evs2, he2, hp2⟩ := retriedRead_emits rt op2 hop2 st1
  rw [h1] at he1
  rw [h2] at he2
  simp only [varsTrace] at he1 he2
  refine ⟨evs1 ++ evs2, by rw [he2, he1, List.append_assoc], ?_⟩
  intro ev hev
  rcases List.mem_append.1 hev with h | h
  · exact ⟨ofRetriedRead_notDelete (hp1 ev h), ofRetriedRead_notUpsert (hp1 ev h)⟩
  · exact ⟨ofRetriedRead_notDelete (hp2 ev h), ofRetriedRead_notUpsert (hp2 ev h)⟩

/-- C29 (failed reads of a reconciliation cycle). For all collaborators and
every state, in the cycle of tenants and in the cycle of users alike: if the
retried cloud read ends with an error, which it does when its five attempts
have failed, the cycle returns the zero time and has made, from its start, only
requests to the cloud and sleeps, so no call at all on the external system; if
the retried cloud read succeeds and the retried read of the external ids ends
with an error, the cycle ends there and none of the calls it has made is a
delete or a create-or-update. -/
theorem reconcile_failed_read_leaves_external_untouched (rt : Runtime σ)
    (loop : ReconciliationLoop σ) (fuel : Nat) (w : Traced σ) :
    ((∀ err st1,
        retryHelper rt.traced.sleepOnWorld (loop.traced.readACCTenants fuel) ({}, w)
          = (some (some err), st1) →
        loop.traced.reconcileTenantsAndOfferingItems rt.traced fuel w = (some 0, st1.2) ∧
        ∃ evs, st1.2.2 = w.2 ++ evs ∧ ∀ ev ∈ evs, ¬ ev.call.onExternalSystem) ∧
     (∀ err st1 st2,
        retryHelper rt.traced.sleepOnWorld (loop.traced.readACCTenants fuel) ({}, w)
          = (some none, st1) →
        retryHelper rt.traced.sleepOnWorld (loop.traced.readExternalTenantIDs fuel) st1
          = (some (some err), st2) →
        (loop.traced.reconcileTenantsAndOfferingItems rt.traced fuel w).2 = st2.2 ∧
        ∃ evs, st2.2.2 = w.2 ++ evs ∧ ∀ ev ∈ evs, ev.call.notDelete ∧ ev.call.notUpsert)) ∧
    ((∀ err st1,
        retryHelper rt.traced.sleepOnWorld (loop.traced.readACCUsers fuel) ({}, w)
          = (some (some err), st1) →
        loop.traced.reconcileUsersAndAccessPolicies rt.traced fuel w = (some 0, st1.2) ∧
        ∃ evs, st1.2.2 = w.2 ++ evs ∧ ∀ ev ∈ evs, ¬ ev.call.onExternalSystem) ∧
     (∀ err st1 st2,
        retryHelper rt.traced.sleepOnWorld (loop.traced.readACCUsers fuel) ({}, w)
          = (some none, st1) →
        retryHelper rt.traced.sleepOnWorld (loop.traced.readExternalUserIDs fuel) st1
          = (some (some err), st2) →
        (loop.traced.reconcileUsersAndAccessPolicies rt.traced fuel w).2 = st2.2 ∧
        ∃ evs, st2.2.2 = w.2 ++ evs ∧ ∀ ev ∈ evs, ev.call.notDelete ∧ ev.call.notUpsert)) := by
  refine ⟨⟨?_, ?_⟩, ⟨?_, ?_⟩⟩
  · intro err st1 h1
    refine ⟨reconcileTenants_cloud_read_failed rt.traced loop.traced fuel w err st1 h1, ?_⟩
    obtain ⟨evs, he, hp⟩ :=
      retriedCloudRead_emits rt _ (readACCTenants_emits_cloud loop fuel) (({} : TenantsVars), w)
    rw [h1] at he
    exact ⟨evs, he, fun ev hev => ofRetriedCloudRead_notExternal (hp ev hev)⟩
  · intro err st1 st2 h1 h2
    exact ⟨reconcileTenants_id_read_failed rt.traced loop.traced fuel w err st1 st2 h1 h2,
      two_reads_emit rt _ _ (readACCTenants_emits loop fuel)
        (readExternalTenantIDs_emits loop fuel) _ _ _ _ _ h1 h2⟩
  · intro err st1 h1
    refine ⟨reconcileUsers_cloud_read_failed rt.traced loop.traced fuel w err st1 h1, ?_⟩
    obtain ⟨evs, he, hp⟩ :=
      retriedCloudRead_emits rt _ (readACCUsers_emits_cloud loop fuel) (({} : UsersVars), w)
    rw [h1] at he
    exact ⟨evs, he, fun ev hev => ofRetriedCloudRead_notExternal (hp ev hev)⟩
  · intro err st1 st2 h1 h2
    exact ⟨reconcileUsers_id_read_failed rt.traced loop.traced fuel w err st1 st2 h1 h2,
      two_reads_emit rt _ _ (readACCUsers_emits loop fuel)
        (readExternalUserIDs_emits loop fuel) _ _ _ _ _ h1 h2⟩

/-- The cloud is down: the cycle of tenants makes five requests to the cloud,
with sleeps of 1, 2, 4 and 8 s between them, and returns the zero time. The
cloud answers and the external system fails to list its tenant ids: the cycle
makes one request to the cloud and five reads of ids with the same sleeps, and
nothing else. -/
theorem reconcile_failed_read_leaves_external_untouched_witness :
    (ReconciliationLoop.reconcileTenantsAndOfferingItems (plainRuntime (σ := Store)).traced
        (ReconciliationLoop.traced { demoReconciliationLoop [] [] 7 with accClient := cloudDown })
        3 ({}, [])).1 = some 0 ∧
    calls (ReconciliationLoop.reconcileTenantsAndOfferingItems
        (plainRuntime (σ := Store)).traced
        (ReconciliationLoop.traced { demoReconciliationLoop [] [] 7 with accClient := cloudDown })
        3 ({}, [])).2
      = [.GetTenants (demoReconciliationLoop [] [] 7).tenantsRequest, .Sleep (1 * Second),
         .GetTenants (demoReconciliationLoop [] [] 7).tenantsRequest, .Sleep (2 * Second),
         .GetTenants (demoReconciliationLoop [] [] 7).tenantsRequest, .Sleep (4 * Second),
         .GetTenants (demoReconciliationLoop [] [] 7).tenantsRequest, .Sleep (8 * Second),
         .GetTenants (demoReconciliationLoop [] [] 7).tenantsRequest] ∧
    calls (ReconciliationLoop.reconcileTenantsAndOfferingItems
        (plainRuntime (σ := Store)).traced
        (ReconciliationLoop.traced { demoReconciliationLoop [] [] 7 with extClient := idReadsDown })
        3 ({}, [])).2
      = [.GetTenants (demoReconciliationLoop [] [] 7).tenantsRequest,
         .GetActiveTenantIDs 0 100, .Sleep (1 * Second),
         .GetActiveTenantIDs 0 100, .Sleep (2 * Second),
         .GetActiveTenantIDs 0 100, .Sleep (4 * Second),
         .GetActiveTenantIDs 0 100, .Sleep (8 * Second),
         .GetActiveTenantIDs 0 100] :=
  ⟨congrArg Prod.fst
      ((reconcile_failed_read_leaves_external_untouched (plainRuntime (σ := Store))
        { demoReconciliationLoop [] [] 7 with accClient := cloudDown } 3 ({}, [])).1.1
        "max 5 retries reached: unavailable" _ rfl).1,
    by decide, by decide⟩

end FailedReads

section SeedWatermark

variable {σ : Type}

theorem extends_of_bind {τ α β : Type} {T : τ → List (Event σ)} (m : M τ α) (f : α → M τ β)
    (hf : ∀ a, Emits T (fun _ => True) (f a)) (st : τ) (pre : List (Event σ))
    (hm : ∃ evs, T (m st).2 = pre ++ evs) :
    ∃ evs, T ((m >>= f) st).2 = pre ++ evs := by
  obtain ⟨evs, he⟩ := hm
  simp only [M.bind_apply]
  rcases hrun : m st with ⟨r, st1⟩
  rw [hrun] at he
  cases r with
  | none => exact ⟨evs, he⟩
  | some a =>
    obtain ⟨evs2, he2, -⟩ := hf a st1
    exact ⟨evs ++ evs2, by simp only [he2, he, List.append_assoc]⟩

theorem tenantsCycle_appends (rt : Runtime σ) (loop : SyncLoopImpl σ) (fuel : Nat) :
    Emits varsTrace (fun _ => True) (loop.traced.tenantsCycle rt.traced fuel) := by
  intro st
  obtain ⟨evs, he⟩ := tenantsCycle_first_call rt loop fuel st.1 st.2
  exact ⟨_ :: evs, he, fun _ _ => trivial⟩

theorem usersCycle_appends (rt : Runtime σ) (loop : SyncLoopImpl σ) (fuel : Nat) :
    Emits varsTrace (fun _ => True) (loop.traced.usersCycle rt.traced fuel) := by
  intro st
  obtain ⟨evs, he⟩ := usersCycle_first_call rt loop fuel st.1 st.2
  exact ⟨_ :: evs, he, fun _ _ => trivial⟩

theorem tenantsCycles_appends (rt : Runtime σ) (loop : SyncLoopImpl σ) (fuel : Nat) :
    ∀ n, Emits varsTrace (fun _ => True) (loop.traced.tenantsCycles rt.traced fuel n) := by
  intro n
  induction n with
  | zero => exact Emits.pure _
  | succ n ih =>
    unfold SyncLoopImpl.tenantsCycles
    exact Emits.bind (tenantsCycle_appends rt loop fuel)
      (fun _ => Emits.bind (Emits.sleepOnWorld rt _ trivial) (fun _ => ih))

theorem usersCycles_appends (rt : Runtime σ) (loop : SyncLoopImpl σ) (fuel : Nat) :
    ∀ n, Emits varsTrace (fun _ => True) (loop.traced.usersCycles rt.traced fuel n) := by
  intro n
  induction n with
  | zero => exact Emits.pure _
  | succ n ih =>
    unfold SyncLoopImpl.usersCycles
    exact Emits.bind (usersCycle_appends rt loop fuel)
      (fun _ => Emits.bind (Emits.sleepOnWorld rt _ trivial) (fun _ => ih))

theorem tenantsCycles_first_call (rt : Runtime σ) (loop : SyncLoopImpl σ) (fuel n : Nat)
    (vars : SyncVars) (w : Traced σ) :
    ∃ evs, varsTrace (loop.traced.tenantsCycles rt.traced fuel (n + 1) (vars, w)).2
      = w.2 ++ ⟨.GetTenants (loop.tenantsRequest vars), w.1⟩ :: evs := by
  unfold SyncLoopImpl.tenantsCycles
  obtain ⟨evs, he⟩ := tenantsCycle_first_call rt loop fuel vars w
  have := extends_of_bind (T := varsTrace) (loop.traced.tenantsCycle rt.traced fuel)
    (fun _ => (M.lift (fun w => ((), rt.traced.sleepOnWorld
        (secondsOf loop.traced.updateInterval) w))) >>=
      fun _ => loop.traced.tenantsCycles rt.traced fuel n)
    (fun _ => Emits.bind (Emits.sleepOnWorld rt _ trivial)
      (fun _ => tenantsCycles_appends rt loop fuel n))
    (vars, w) (w.2 ++ [⟨.GetTenants (loop.tenantsRequest vars), w.1⟩]) ⟨evs, by simp [he]⟩
  obtain ⟨evs2, he2⟩ := this
  exact ⟨evs2, by simpa using he2⟩

theorem usersCycles_first_call (rt : Runtime σ) (loop : SyncLoopImpl σ) (fuel n : Nat)
    (vars : SyncVars) (w : Traced σ) :
    ∃ evs, varsTrace (loop.traced.usersCycles rt.traced fuel (n + 1) (vars, w)).2
      = w.2 ++ ⟨.GetUsers (loop.usersRequest vars), w.1⟩ :: evs := by
  unfold SyncLoopImpl.usersCycles
  obtain ⟨evs, he⟩ := usersCycle_first_call rt loop fuel vars w
  have := extends_of_bind (T := varsTrace) (loop.traced.usersCycle rt.traced fuel)
    (fun _ => (M.lift (fun w => ((), rt.traced.sleepOnWorld
        (secondsOf loop.traced.updateInterval) w))) >>=
      fun _ => loop.traced.usersCycles rt.traced fuel n)
    (fun _ => Emits.bind (Emits.sleepOnWorld rt _ trivial)
      (fun _ => usersCycles_appends rt loop fuel n))
    (vars, w) (w.2 ++ [⟨.GetUsers (loop.usersRequest vars), w.1⟩]) ⟨evs, by simp [he]⟩
  obtain ⟨evs2, he2⟩ := this
  exact ⟨evs2, by simpa using he2⟩

theorem get?_setIf_ne (c : Prop) [Decidable c] (key value x : String) (params : GoMap String)
    (h : x ≠ key) : (setIf c key value params).get? x = params.get? x := by
  unfold setIf
  split
  · rw [GoMap.get?_set, if_neg h]
  · rfl

theorem get?_setIfSome_ne {α : Type} (p : Option α) (key x : String) (render : α → String)
    (params : GoMap String) (h : x ≠ key) :
    (setIfSome p key render params).get? x = params.get? x := by
  cases p with
  | none => rfl
  | some a => simp only [setIfSome]; rw [GoMap.get?_set, if_neg h]

theorem get?_setIfSome_self {α : Type} (p : Option α) (key : String) (render : α → String)
    (params : GoMap String) (h : params.get? key = none) :
    (setIfSome p key render params).get? key = p.map render := by
  cases p with
  | none => exact h
  | some a => simp only [setIfSome]; rw [GoMap.get?_set, if_pos rfl]; rfl

theorem tenants_query_updated_since (format : Time → String) (r : TenantGetRequest) :
    (r.getQueryParam format).get? "updated_since" = r.UpdatedSince.map format := by
  unfold TenantGetRequest.getQueryParam
  rw [GoMap.get?_set, if_neg (by decide), get?_setIfSome_ne _ _ _ _ _ (by decide),
    get?_setIfSome_ne _ _ _ _ _ (by decide), get?_setIf_ne _ _ _ _ _ (by decide),
    get?_setIf_ne _ _ _ _ _ (by decide), get?_setIfSome_ne _ _ _ _ _ (by decide),
    get?_setIfSome_self]
  rw [get?_setIf_ne _ _ _ _ _ (by decide), get?_setIf_ne _ _ _ _ _ (by decide),
    get?_setIf_ne _ _ _ _ _ (by decide)]
  rfl

theorem users_query_updated_since (format : Time → String) (r : UserGetRequest) :
    (r.getQueryParam format).get? "updated_since" = r.UpdatedSince.map format := by
  unfold UserGetRequest.getQueryParam
  rw [GoMap.get?_set, if_neg (by decide), get?_setIfSome_ne _ _ _ _ _ (by decide),
    get?_setIf_ne _ _ _ _ _ (by decide), get?_setIf_ne _ _ _ _ _ (by decide),
    get?_setIfSome_ne _ _ _ _ _ (by decide), get?_setIfSome_self]
  rw [get?_setIf_ne _ _ _ _ _ (by decide), get?_setIf_ne _ _ _ _ _ (by decide),
    get?_setIf_ne _ _ _ _ _ (by decide), get?_setIf_ne _ _ _ _ _ (by decide)]
  rfl

theorem updateTenants_start (rt : Runtime σ) (loop : SyncLoopImpl σ) (fuel n : Nat)
    (firstUpdatedSince : Time) (vars : SyncVars) (w : Traced σ) :
    loop.traced.UpdateTenantsAndOfferingItems rt.traced fuel firstUpdatedSince n (vars, w)
      = loop.traced.tenantsCycles rt.traced fuel n
          (if firstUpdatedSince = 0 then vars
            else { vars with tenantsLoopUpdatedSince := some firstUpdatedSince }, w) := by
  by_cases h : firstUpdatedSince = 0
  · simp [SyncLoopImpl.UpdateTenantsAndOfferingItems, Time.IsZero, h]
  · simp [SyncLoopImpl.UpdateTenantsAndOfferingItems, Time.IsZero, h]

theorem updateUsers_start (rt : Runtime σ) (loop : SyncLoopImpl σ) (fuel n : Nat)
    (firstUpdatedSince : Time) (vars : SyncVars) (w : Traced σ) :
    loop.traced.UpdateUsersAndAccessPolicies rt.traced fuel firstUpdatedSince n (vars, w)
      = loop.traced.usersCycles rt.traced fuel n
          (if firstUpdatedSince = 0 then vars
            else { vars with usersLoopUpdatedSince := some firstUpdatedSince }, w) := by
  by_cases h : firstUpdatedSince = 0
  · simp [SyncLoopImpl.UpdateUsersAndAccessPolicies, Time.IsZero, h]
  · simp [SyncLoopImpl.UpdateUsersAndAccessPolicies, Time.IsZero, h]

/-- C30 (seeding watermark). For all collaborators, every state and every
seed, when the watermarks of the loop are unset at the start, as `NewSyncLoop`
leaves them: the first call of `UpdateTenantsAndOfferingItems`, and of
`UpdateUsersAndAccessPolicies` alike, is the request of the loop to the cloud,
whose `UpdatedSince` is `nil` if the seed is the zero time and the seed
otherwise; and the query of that request has no `updated_since` parameter in
the first case and the seed, formatted, in the second. -/
theorem incremental_first_request_carries_seed (rt : Runtime σ) (loop : SyncLoopImpl σ)
    (fuel n : Nat) (firstUpdatedSince : Time) (vars : SyncVars) (w : Traced σ)
    (hfresh : vars.tenantsLoopUpdatedSince = none ∧ vars.usersLoopUpdatedSince = none) :
    (∃ evs,
      varsTrace (loop.traced.UpdateTenantsAndOfferingItems rt.traced fuel firstUpdatedSince
          (n + 1) (vars, w)).2
        = w.2 ++ ⟨.GetTenants (firstTenantsRequest loop.tenantID
            (if firstUpdatedSince = 0 then none else some firstUpdatedSince)), w.1⟩ :: evs) ∧
    (∃ evs,
      varsTrace (loop.traced.UpdateUsersAndAccessPolicies rt.traced fuel firstUpdatedSince
          (n + 1) (vars, w)).2
        = w.2 ++ ⟨.GetUsers (firstUsersRequest loop.tenantID
            (if firstUpdatedSince = 0 then none else some firstUpdatedSince)), w.1⟩ :: evs) ∧
    ∀ format : Time → String,
      ((firstTenantsRequest loop.tenantID
          (if firstUpdatedSince = 0 then none else some firstUpdatedSince)).getQueryParam
            format).get? "updated_since"
        = (if firstUpdatedSince = 0 then none else some (format firstUpdatedSince)) ∧
      ((firstUsersRequest loop.tenantID
          (if firstUpdatedSince = 0 then none else some firstUpdatedSince)).getQueryParam
            format).get? "updated_since"
        = (if firstUpdatedSince = 0 then none else some (format firstUpdatedSince)) := by
  obtain ⟨ht, hu⟩ := hfresh
  refine ⟨?_, ?_, ?_⟩
  · rw [updateTenants_start]
    obtain ⟨evs, he⟩ := tenantsCycles_first_call rt loop fuel n
      (if firstUpdatedSince = 0 then vars
        else { vars with tenantsLoopUpdatedSince := some firstUpdatedSince }) w
    refine ⟨evs, ?_⟩
    rw [he]
    by_cases h : firstUpdatedSince = 0
    · simp [h, SyncLoopImpl.tenantsRequest, firstTenantsRequest, ht]
    · simp [h, SyncLoopImpl.tenantsRequest, firstTenantsRequest]
  · rw [updateUsers_start]
    obtain ⟨evs, he⟩ := usersCycles_first_call rt loop fuel n
      (if firstUpdatedSince = 0 then vars
        else { vars with usersLoopUpdatedSince := some firstUpdatedSince }) w
    refine ⟨evs, ?_⟩
    rw [he]
    by_cases h : firstUpdatedSince = 0
    · simp [h, SyncLoopImpl.usersRequest, firstUsersRequest, hu]
    · simp [h, SyncLoopImpl.usersRequest, firstUsersRequest]
  · intro format
    rw [tenants_query_updated_since, users_query_updated_since]
    by_cases h : firstUpdatedSince = 0 <;> simp [h, firstTenantsRequest, firstUsersRequest]

/-- A loop made by `NewSyncLoop`, against a cloud that is down. Seeded with the
zero time, its first call is a request with no `UpdatedSince`; seeded with the
instant 42, a request with `UpdatedSince` 42. -/
theorem incremental_first_request_carries_seed_witness :
    (calls ((NewSyncLoop cloudDown "root" memExt []).1.traced.UpdateTenantsAndOfferingItems
        (plainRuntime (σ := Store)).traced 3 0 1
        ((NewSyncLoop cloudDown "root" memExt []).2, ({}, []))).2.2).head?
      = some (.GetTenants (firstTenantsRequest "root" none)) ∧
    (calls ((NewSyncLoop cloudDown "root" memExt []).1.traced.UpdateTenantsAndOfferingItems
        (plainRuntime (σ := Store)).traced 3 42 1
        ((NewSyncLoop cloudDown "root" memExt []).2, ({}, []))).2.2).head?
      = some (.GetTenants (firstTenantsRequest "root" (some 42))) := by
  obtain ⟨evs0, h0⟩ := (incremental_first_request_carries_seed (plainRuntime (σ := Store))
    (NewSyncLoop cloudDown "root" memExt []).1 3 0 0 (NewSyncLoop cloudDown "root" memExt []).2
    ({}, []) ⟨rfl, rfl⟩).1
  obtain ⟨evs1, h1⟩ := (incremental_first_request_carries_seed (plainRuntime (σ := Store))
    (NewSyncLoop cloudDown "root" memExt []).1 3 0 42 (NewSyncLoop cloudDown "root" memExt []).2
    ({}, []) ⟨rfl, rfl⟩).1
  simp only [varsTrace] at h0 h1
  constructor
  · rw [calls, h0]; rfl
  · rw [calls, h1]; rfl

end SeedWatermark

section Climbing

variable {tenants E : List Tenant} {σ σ1 σ2 A B K : Set String} {T : Tenant}

theorem cloudTenant_id {id : String} {t : Tenant} (h : cloudTenant tenants id = some t) :
    t.ID = id := by
  unfold cloudTenant at h
  have hm := List.mem_of_mem_head? h
  simpa using (List.mem_filter.1 hm).2

theorem parentOK_mono {x : String} (h : ParentOK tenants σ x) (hs : σ ⊆ σ1) :
    ParentOK tenants σ1 x := by
  obtain ⟨t, ht, h⟩ := h
  exact ⟨t, ht, h.imp id (fun h => hs h)⟩

theorem ClimbFails.not_root (h : ClimbFails tenants σ T) : T.ParentID ≠ T.ID := by
  cases h <;> assumption

theorem ClimbFails.parent_not_mem (h : ClimbFails tenants σ T) : T.ParentID ∉ σ := by
  cases h <;> assumption

theorem ClimbFails.anti (h : ClimbFails tenants σ T) (hs : σ1 ⊆ σ) : ClimbFails tenants σ1 T := by
  induction h with
  | unknown T h1 h2 h3 => exact .unknown T h1 (fun h => h2 (hs h)) h3
  | parent T P h1 h2 h3 _ ih => exact .parent T P h1 (fun h => h2 (hs h)) h3 ih

theorem Climbs.subset (h : Climbs tenants σ T σ1) : σ ⊆ σ1 := by
  induction h with
  | here T _ => exact Set.subset_insert _ _
  | parent T P σ1 _ _ _ _ ih => exact ih.trans (Set.subset_insert _ _)

theorem Climbs.id_mem (h : Climbs tenants σ T σ1) : T.ID ∈ σ1 := by
  cases h <;> exact Set.mem_insert _ _

theorem Climbs.parent_mem (h : Climbs tenants σ T σ1) :
    T.ParentID = T.ID ∨ T.ParentID ∈ σ1 := by
  cases h with
  | here _ h => exact h.imp id (fun h => Set.mem_insert_of_mem _ h)
  | parent _ P σ1 _ _ h3 h4 =>
    refine Or.inr (Set.mem_insert_of_mem _ ?_)
    rw [← cloudTenant_id h3]
    exact h4.id_mem

theorem Climbs.justified (h : Climbs tenants σ T σ1) :
    ∀ x ∈ σ1, x ∈ σ ∨ x = T.ID ∨ ParentOK tenants σ1 x := by
  induction h with
  | here T _ =>
    intro x hx
    rcases Set.mem_insert_iff.1 hx with h | h
    · exact Or.inr (Or.inl h)
    · exact Or.inl h
  | parent T P σ1 _ _ h3 h4 ih =>
    intro x hx
    rcases Set.mem_insert_iff.1 hx with h | h
    · exact Or.inr (Or.inl h)
    · rcases ih x h with h | h | h
      · exact Or.inl h
      · refine Or.inr (Or.inr ⟨P, ?_, h4.parent_mem.imp id (fun h => Set.mem_insert_of_mem _ h)⟩)
        rw [h, cloudTenant_id h3]
        exact h3
      · exact Or.inr (Or.inr (parentOK_mono h (Set.subset_insert _ _)))

theorem Climbs.not_fails (h : Climbs tenants σ T σ1) : ¬ ClimbFails tenants σ T := by
  induction h with
  | here T h =>
    intro hf
    rcases h with h | h
    · exact hf.not_root h
    · exact hf.parent_not_mem h
  | parent T P σ1 _ _ h3 _ ih =>
    intro hf
    cases hf with
    | unknown _ _ _ h => rw [h3] at h; cases h
    | parent _ P2 _ _ h hP =>
      rw [h3] at h
      cases h
      exact ih hP

theorem Climbs.of_present (h : Climbs tenants σ T σ1) (hp : T.ParentID = T.ID ∨ T.ParentID ∈ σ) :
    σ1 = insert T.ID σ := by
  cases h with
  | here _ _ => rfl
  | parent _ P σ1 h1 h2 _ _ =>
    rcases hp with h | h
    · exact absurd h h1
    · exact absurd h h2

theorem Climbs.ancestry (h : Climbs tenants σ T σ1)
    (hT : T.ParentID ≠ T.ID → Ancestry tenants E T.ParentID) :
    ∀ x ∈ σ1, x ∈ σ ∨ x = T.ID ∨ Ancestry tenants E x := by
  induction h with
  | here T _ =>
    intro x hx
    rcases Set.mem_insert_iff.1 hx with h | h
    · exact Or.inr (Or.inl h)
    · exact Or.inl h
  | parent T P σ1 h1 _ h3 _ ih =>
    intro x hx
    rcases Set.mem_insert_iff.1 hx with h | h
    · exact Or.inr (Or.inl h)
    · rcases ih (fun hn => .up _ P (hT h1) h3 hn) x h with h | h | h
      · exact Or.inl h
      · refine Or.inr (Or.inr ?_)
        rw [h, cloudTenant_id h3]
        exact hT h1
      · exact Or.inr (Or.inr h)

/-- A failure of the helper persists as long as the ids of the ancestry that
come are added under a parent that is there. -/
theorem ClimbFails.persist
    (hsub : ∀ x, Ancestry tenants E x → x ∈ σ1 → x ∈ σ ∨ ParentOK tenants σ1 x)
    (h : ClimbFails tenants σ T) (hT : T.ParentID ≠ T.ID → Ancestry tenants E T.ParentID) :
    ClimbFails tenants σ1 T := by
  induction h with
  | unknown T h1 h2 h3 =>
    refine .unknown T h1 (fun hin => ?_) h3
    rcases hsub _ (hT h1) hin with h | ⟨t, ht, _⟩
    · exact h2 h
    · rw [h3] at ht
      cases ht
  | parent T P h1 h2 h3 _ ih =>
    have hP := ih (fun hn => .up _ P (hT h1) h3 hn)
    refine .parent T P h1 (fun hin => ?_) h3 hP
    rcases hsub _ (hT h1) hin with h | ⟨t, ht, hok⟩
    · exact h2 h
    · rw [h3] at ht
      cases ht
      rcases hok with h | h
      · exact hP.not_root h
      · exact hP.parent_not_mem h

end Climbing

section ReconcileSets

variable {tenants E : List Tenant} {σ σ1 σ2 A B K : Set String} {T : Tenant}

theorem parentOK_of_known
    (hk : ∃ c, cloudTenant tenants T.ID = some c ∧ c.ParentID = T.ParentID)
    (h : T.ParentID = T.ID ∨ T.ParentID ∈ σ) : ParentOK tenants σ T.ID := by
  obtain ⟨c, hc, hp⟩ := hk
  refine ⟨c, hc, ?_⟩
  rcases h with h | h
  · exact Or.inl (by rw [hp, h, cloudTenant_id hc])
  · exact Or.inr (by rw [hp]; exact h)

theorem Climbs.built (h : Climbs tenants σ T σ1) :
    σ1 ⊆ A → (T.ParentID ≠ T.ID → T.ParentID ∈ A → Built tenants E A T.ParentID) →
    (T.ParentID ≠ T.ID → Ancestry tenants E T.ParentID) →
    ∀ x ∈ σ1, x ∈ σ ∨ x = T.ID ∨ Built tenants E A x := by
  induction h with
  | here T _ =>
    intro _ _ _ x hx
    rcases Set.mem_insert_iff.1 hx with h | h
    · exact Or.inr (Or.inl h)
    · exact Or.inl h
  | parent T P σ1 h1 _ h3 h4 ih =>
    intro hA hlink hanc x hx
    have hA1 : σ1 ⊆ A := (Set.subset_insert _ _).trans hA
    have hPid : P.ID = T.ParentID := cloudTenant_id h3
    have hPA : T.ParentID ∈ A := by
      rw [← hPid]
      exact hA1 h4.id_mem
    have hbP : Built tenants E A P.ID := by
      rw [hPid]
      exact hlink h1 hPA
    have h3b : cloudTenant tenants P.ID = some P := by
      rw [hPid]
      exact h3
    have hancP : Ancestry tenants E P.ID := by
      rw [hPid]
      exact hanc h1
    rcases Set.mem_insert_iff.1 hx with h | h
    · exact Or.inr (Or.inl h)
    · rcases ih hA1 (fun hn hin => .up P.ID P hbP (hA1 h4.id_mem) hancP h3b hn hin)
          (fun hn => .up P.ID P hancP h3b hn) x h with h | h | h
      · exact Or.inl h
      · exact Or.inr (Or.inr (by rw [h]; exact hbP))
      · exact Or.inr (Or.inr h)

/-- What a run of upserts of tenants of `E` leaves. -/
theorem Runs.upserts_post (hcanon : AncestorsKnown tenants E) {ops : List TenantOp}
    (h : Runs tenants ops σ A) :
    (∀ op ∈ ops, ∃ T ∈ E, op = .upsert T) →
    σ ⊆ A ∧
    (∀ x ∈ A, x ∈ σ ∨ (∃ T ∈ E, T.ID = x) ∨ ParentOK tenants A x) ∧
    (∀ x ∈ A, Ancestry tenants E x → x ∈ σ ∨ ParentOK tenants A x) ∧
    (∀ x ∈ A, x ∈ σ ∨ (∃ T ∈ E, T.ID = x) ∨ Built tenants E A x) ∧
    (∀ T, TenantOp.upsert T ∈ ops →
      (T.ID ∈ A ∧ (T.ParentID = T.ID ∨ T.ParentID ∈ A)) ∨ ClimbFails tenants A T) := by
  induction h with
  | nil σ =>
    intro _
    exact ⟨subset_rfl, fun x hx => Or.inl hx, fun x hx _ => Or.inl hx, fun x hx => Or.inl hx,
      fun T hT => by cases hT⟩
  | fails T ops σ σ1 hf _ ih =>
    intro hops
    obtain ⟨T0, hTE, hT0⟩ := hops _ (List.mem_cons_self _ _)
    cases hT0
    obtain ⟨m, j, ja, b, d⟩ := ih (fun op hop => hops op (List.mem_cons_of_mem _ hop))
    refine ⟨m, j, ja, b, fun T2 hT2 => ?_⟩
    rcases List.mem_cons.1 hT2 with h | h
    · cases h
      exact Or.inr (hf.persist (fun x ha hx => ja x hx ha) (fun hn => .parent _ hTE hn))
    · exact d T2 h
  | climbs T ops σ σ1 σ2 hc _ ih =>
    intro hops
    obtain ⟨T0, hTE, hT0⟩ := hops _ (List.mem_cons_self _ _)
    cases hT0
    obtain ⟨m, j, ja, b, d⟩ := ih (fun op hop => hops op (List.mem_cons_of_mem _ hop))
    refine ⟨hc.subset.trans m, fun x hx => ?_, fun x hx hanc => ?_, fun x hx => ?_,
      fun T2 hT2 => ?_⟩
    · rcases j x hx with h | h | h
      · rcases hc.justified x h with h | h | h
        · exact Or.inl h
        · exact Or.inr (Or.inl ⟨_, hTE, h.symm⟩)
        · exact Or.inr (Or.inr (parentOK_mono h m))
      · exact Or.inr (Or.inl h)
      · exact Or.inr (Or.inr h)
    · rcases ja x hx hanc with h | h
      · rcases hc.justified x h with h | h | h
        · exact Or.inl h
        · subst h
          exact Or.inr (parentOK_of_known (hcanon _ hTE hanc)
            (hc.parent_mem.imp id (fun h => m h)))
        · exact Or.inr (parentOK_mono h m)
      · exact Or.inr h
    · rcases b x hx with h | h | h
      · rcases hc.built m (fun hn hin => .parentOfEntry _ hTE (m hc.id_mem) hn hin)
            (fun hn => .parent _ hTE hn) x h with h | h | h
        · exact Or.inl h
        · exact Or.inr (Or.inl ⟨_, hTE, h.symm⟩)
        · exact Or.inr (Or.inr h)
      · exact Or.inr (Or.inl h)
      · exact Or.inr (Or.inr h)
    · rcases List.mem_cons.1 hT2 with h | h
      · cases h
        exact Or.inl ⟨m hc.id_mem, hc.parent_mem.imp id (fun h => m h)⟩
      · exact d T2 h
  | delete d ops σ σ1 _ _ =>
    intro hops
    obtain ⟨T0, _, hT0⟩ := hops _ (List.mem_cons_self _ _)
    cases hT0

theorem ClimbFails.not_within (hj : ∀ x ∈ A, x ∈ K ∨ ParentOK tenants A x) (hs : A ∩ K ⊆ σ)
    (h : ClimbFails tenants σ T) : ¬ (T.ParentID = T.ID ∨ T.ParentID ∈ A) := by
  induction h with
  | unknown T h1 h2 h3 =>
    rintro (h | h)
    · exact h1 h
    · rcases hj _ h with hk | ⟨t, ht, _⟩
      · exact h2 (hs ⟨h, hk⟩)
      · rw [h3] at ht
        cases ht
  | parent T P h1 h2 h3 _ ih =>
    rintro (h | h)
    · exact h1 h
    · rcases hj _ h with hk | ⟨t, ht, hok⟩
      · exact h2 (hs ⟨h, hk⟩)
      · rw [h3] at ht
        cases ht
        exact ih hok

theorem Climbs.within (hj : ∀ x ∈ A, x ∈ K ∨ ParentOK tenants A x) (hs : A ∩ K ⊆ σ)
    (h : Climbs tenants σ T σ1) :
    σ ⊆ A → T.ID ∈ A → (T.ParentID = T.ID ∨ T.ParentID ∈ A) → σ1 ⊆ A := by
  induction h with
  | here T _ =>
    intro hsA hid _
    exact Set.insert_subset hid hsA
  | parent T P σ1 h1 h2 h3 _ ih =>
    intro hsA hid hp
    have hpA : T.ParentID ∈ A := hp.resolve_left h1
    have hPid : P.ID = T.ParentID := cloudTenant_id h3
    rcases hj _ hpA with hk | ⟨t, ht, hok⟩
    · exact absurd (hs ⟨hpA, hk⟩) h2
    · rw [h3] at ht
      cases ht
      exact Set.insert_subset hid (ih hsA (by rw [hPid]; exact hpA) hok)

/-- A second run of the upserts, from within what the first run left. -/
theorem Runs.upserts_within (hj : ∀ x ∈ A, x ∈ K ∨ ParentOK tenants A x)
    (hd : ∀ T ∈ E, (T.ID ∈ A ∧ (T.ParentID = T.ID ∨ T.ParentID ∈ A)) ∨ ClimbFails tenants A T)
    {ops : List TenantOp} (h : Runs tenants ops σ B) :
    (∀ op ∈ ops, ∃ T ∈ E, op = .upsert T) → A ∩ K ⊆ σ → σ ⊆ A →
    σ ⊆ B ∧ B ⊆ A ∧
    (∀ x ∈ B, x ∈ σ ∨ (∃ T ∈ E, T.ID = x) ∨ ParentOK tenants B x) ∧
    (∀ T, TenantOp.upsert T ∈ ops → T.ID ∈ A → (T.ParentID = T.ID ∨ T.ParentID ∈ A) →
      T.ParentID = T.ID ∨ T.ParentID ∈ B) := by
  induction h with
  | nil σ =>
    intro _ _ hsA
    exact ⟨subset_rfl, hsA, fun x hx => Or.inl hx, fun T hT => by cases hT⟩
  | fails T ops σ σ1 hf _ ih =>
    intro hops hs hsA
    obtain ⟨m, w, j, e⟩ := ih (fun op hop => hops op (List.mem_cons_of_mem _ hop)) hs hsA
    refine ⟨m, w, j, fun T2 hT2 hid hp => ?_⟩
    rcases List.mem_cons.1 hT2 with h | h
    · cases h
      exact absurd hp (hf.not_within hj hs)
    · exact e T2 h hid hp
  | climbs T ops σ σ1 σ2 hc _ ih =>
    intro hops hs hsA
    obtain ⟨T0, hTE, hT0⟩ := hops _ (List.mem_cons_self _ _)
    cases hT0
    have hgood : T.ID ∈ A ∧ (T.ParentID = T.ID ∨ T.ParentID ∈ A) := by
      rcases hd _ hTE with h | h
      · exact h
      · exact absurd (h.anti hsA) hc.not_fails
    have hs1A : σ1 ⊆ A := hc.within hj hs hsA hgood.1 hgood.2
    obtain ⟨m, w, j, e⟩ := ih (fun op hop => hops op (List.mem_cons_of_mem _ hop))
      (hs.trans hc.subset) hs1A
    refine ⟨hc.subset.trans m, w, fun x hx => ?_, fun T2 hT2 hid hp => ?_⟩
    · rcases j x hx with h | h | h
      · rcases hc.justified x h with h | h | h
        · exact Or.inl h
        · exact Or.inr (Or.inl ⟨_, hTE, h.symm⟩)
        · exact Or.inr (Or.inr (parentOK_mono h m))
      · exact Or.inr (Or.inl h)
      · exact Or.inr (Or.inr h)
    · rcases List.mem_cons.1 hT2 with h | h
      · cases h
        exact hc.parent_mem.imp id (fun h => m h)
      · exact e T2 h hid hp
  | delete d ops σ σ1 _ _ =>
    intro hops
    obtain ⟨T0, _, hT0⟩ := hops _ (List.mem_cons_self _ _)
    cases hT0

theorem Built.mem (hcanon : AncestorsKnown tenants E) (hK : ∀ y ∈ K, ∃ T ∈ E, T.ID = y)
    (hj : ∀ x ∈ B, x ∈ K ∨ ParentOK tenants B x)
    (he : ∀ T ∈ E, T.ID ∈ A → (T.ParentID = T.ID ∨ T.ParentID ∈ A) →
      T.ParentID = T.ID ∨ T.ParentID ∈ B)
    {x : String} (h : Built tenants E A x) : x ∈ B := by
  induction h with
  | parentOfEntry T hTE hid hn hp => exact (he T hTE hid (Or.inr hp)).resolve_left hn
  | up y t _ hyA hanc ht hn hp ih =>
    rcases hj y ih with hk | ⟨t2, ht2, hok⟩
    · obtain ⟨Ty, hTyE, hTy⟩ := hK y hk
      subst hTy
      obtain ⟨c, hc, hcp⟩ := hcanon Ty hTyE hanc
      rw [ht] at hc
      cases hc
      have hti : t.ID = Ty.ID := cloudTenant_id ht
      rcases he Ty hTyE hyA (Or.inr (by rw [← hcp]; exact hp)) with h | h
      · exact absurd (by rw [hcp, h, hti]) hn
      · rw [hcp]
        exact h
    · rw [ht] at ht2
      cases ht2
      exact hok.resolve_left hn

/-- The upserts of a reconciliation cycle, run again after the orphans of what
they left are removed, leave the same tenants. -/
theorem Runs.upserts_twice (hcanon : AncestorsKnown tenants E)
    (hK : ∀ y ∈ K, ∃ T ∈ E, T.ID = y) (hE : ∀ T ∈ E, T.ID ∈ K) {ops ops2 : List TenantOp}
    (hops : ∀ op, op ∈ ops ↔ ∃ T ∈ E, op = .upsert T)
    (hops2 : ∀ op, op ∈ ops2 ↔ ∃ T ∈ E, op = .upsert T)
    (hσ : σ ⊆ K) (h1 : Runs tenants ops σ A) (h2 : Runs tenants ops2 (A ∩ K) B) : B = A := by
  obtain ⟨m, j, _, b, d⟩ := h1.upserts_post hcanon (fun op hop => (hops op).1 hop)
  have hjA : ∀ x ∈ A, x ∈ K ∨ ParentOK tenants A x := by
    intro x hx
    rcases j x hx with h | ⟨T, hT, rfl⟩ | h
    · exact Or.inl (hσ h)
    · exact Or.inl (hE T hT)
    · exact Or.inr h
  have hdE : ∀ T ∈ E, (T.ID ∈ A ∧ (T.ParentID = T.ID ∨ T.ParentID ∈ A)) ∨
      ClimbFails tenants A T := fun T hT => d T ((hops _).2 ⟨T, hT, rfl⟩)
  obtain ⟨m2, w2, j2, e2⟩ := h2.upserts_within hjA hdE (fun op hop => (hops2 op).1 hop)
    subset_rfl Set.inter_subset_left
  have hjB : ∀ x ∈ B, x ∈ K ∨ ParentOK tenants B x := by
    intro x hx
    rcases j2 x hx with h | ⟨T, hT, rfl⟩ | h
    · exact Or.inl h.2
    · exact Or.inl (hE T hT)
    · exact Or.inr h
  refine Set.Subset.antisymm w2 (fun x hx => ?_)
  rcases b x hx with h | ⟨T, hT, rfl⟩ | h
  · exact m2 ⟨hx, hσ h⟩
  · exact m2 ⟨hx, hE T hT⟩
  · exact h.mem hcanon hK hjB (fun T hT => e2 T ((hops2 _).2 ⟨T, hT, rfl⟩))

end ReconcileSets

section PageSets

variable {tenants E : List Tenant} {σ σ1 σ2 A B : Set String} {T : Tenant}

theorem Later.refl : Later tenants E σ σ :=
  ⟨fun _ _ h => h, fun _ _ h => Or.inl h⟩

theorem Later.trans (h1 : Later tenants E σ σ1) (h2 : Later tenants E σ1 σ2) :
    Later tenants E σ σ2 := by
  refine ⟨fun x ha hx => h2.1 x ha (h1.1 x ha hx), fun x ha hx => ?_⟩
  rcases h2.2 x ha hx with h | h
  · rcases h1.2 x ha h with h | ⟨t, ht, hok⟩
    · exact Or.inl h
    · refine Or.inr ⟨t, ht, ?_⟩
      by_cases hr : t.ParentID = t.ID
      · exact Or.inl hr
      · exact Or.inr (h2.1 _ (.up x t ha ht hr) (hok.resolve_left hr))
  · exact Or.inr h

theorem Later.of_delete {d : String} (hd : ¬ Ancestry tenants E d) :
    Later tenants E σ (σ \ {d}) := by
  refine ⟨fun x ha hx => ⟨hx, fun h => ?_⟩, fun x _ hx => Or.inl hx.1⟩
  rw [Set.mem_singleton_iff] at h
  exact hd (h ▸ ha)

theorem Later.of_climbs (hcanon : AncestorsKnown tenants E) (hTE : T ∈ E)
    (hc : Climbs tenants σ T σ1) : Later tenants E σ σ1 := by
  refine ⟨fun x _ hx => hc.subset hx, fun x ha hx => ?_⟩
  rcases hc.justified x hx with h | h | h
  · exact Or.inl h
  · subst h
    exact Or.inr (parentOK_of_known (hcanon _ hTE ha) hc.parent_mem)
  · exact Or.inr h

theorem Runs.later (hcanon : AncestorsKnown tenants E) {ops : List TenantOp}
    (h : Runs tenants ops σ A) :
    (∀ T, TenantOp.upsert T ∈ ops → T ∈ E) →
    (∀ d, TenantOp.delete d ∈ ops → ¬ Ancestry tenants E d) → Later tenants E σ A := by
  induction h with
  | nil σ => exact fun _ _ => Later.refl
  | fails T ops σ σ1 _ _ ih =>
    exact fun hup hdel => ih (fun T h => hup T (List.mem_cons_of_mem _ h))
      (fun d h => hdel d (List.mem_cons_of_mem _ h))
  | climbs T ops σ σ1 σ2 hc _ ih =>
    exact fun hup hdel => (Later.of_climbs hcanon (hup T (List.mem_cons_self _ _)) hc).trans
      (ih (fun T h => hup T (List.mem_cons_of_mem _ h))
        (fun d h => hdel d (List.mem_cons_of_mem _ h)))
  | delete d ops σ σ1 _ ih =>
    exact fun hup hdel => (Later.of_delete (hdel d (List.mem_cons_self _ _))).trans
      (ih (fun T h => hup T (List.mem_cons_of_mem _ h))
        (fun d h => hdel d (List.mem_cons_of_mem _ h)))

theorem Climbs.not_fails_later (hc : Climbs tenants σ T σ1) (hl : Later tenants E σ1 A)
    (hT : T.ParentID ≠ T.ID → Ancestry tenants E T.ParentID) : ¬ ClimbFails tenants A T := by
  intro hf
  rcases hc.parent_mem with h | h
  · exact hf.not_root h
  · exact hf.parent_not_mem (hl.1 _ (hT hf.not_root) h)

theorem Touched.cons_iff {op : TenantOp} {ops : List TenantOp} {x : String} :
    Touched tenants A (op :: ops) x ↔
      (op = .delete x ∨ ∃ T, op = .upsert T ∧ T.ID = x ∧ ¬ ClimbFails tenants A T) ∨
        Touched tenants A ops x := by
  unfold Touched
  constructor
  · rintro ⟨o, ho, h⟩
    rcases List.mem_cons.1 ho with rfl | ho
    · exact Or.inl h
    · exact Or.inr ⟨o, ho, h⟩
  · rintro (h | ⟨o, ho, h⟩)
    · exact ⟨op, List.mem_cons_self _ _, h⟩
    · exact ⟨o, List.mem_cons_of_mem _ ho, h⟩

/-- What a run of writes leaves of an id that no write decides on. -/
theorem Runs.untouched (hcanon : AncestorsKnown tenants E) {ops : List TenantOp}
    (h : Runs tenants ops σ A) :
    (∀ T, TenantOp.upsert T ∈ ops → T ∈ E) →
    (∀ d, TenantOp.delete d ∈ ops → ¬ Ancestry tenants E d) →
    (∀ x, (∀ op ∈ ops, op ≠ .delete x) → x ∈ σ → x ∈ A) ∧
    (∀ x, ¬ Ancestry tenants E x → ¬ Touched tenants A ops x → x ∈ A → x ∈ σ) := by
  induction h with
  | nil σ => exact fun _ _ => ⟨fun x _ hx => hx, fun x _ _ hx => hx⟩
  | fails T ops σ σ1 _ _ ih =>
    intro hup hdel
    obtain ⟨i1, i2⟩ := ih (fun T h => hup T (List.mem_cons_of_mem _ h))
      (fun d h => hdel d (List.mem_cons_of_mem _ h))
    exact ⟨fun x hx => i1 x (fun op hop => hx op (List.mem_cons_of_mem _ hop)),
      fun x ha ht => i2 x ha (fun h => ht (Touched.cons_iff.2 (Or.inr h)))⟩
  | climbs T ops σ σ1 σ2 hc hr ih =>
    intro hup hdel
    have hup2 : ∀ T, TenantOp.upsert T ∈ ops → T ∈ E := fun T h => hup T (List.mem_cons_of_mem _ h)
    have hdel2 : ∀ d, TenantOp.delete d ∈ ops → ¬ Ancestry tenants E d :=
      fun d h => hdel d (List.mem_cons_of_mem _ h)
    have hTE := hup T (List.mem_cons_self _ _)
    obtain ⟨i1, i2⟩ := ih hup2 hdel2
    refine ⟨fun x hx hin => i1 x (fun op hop => hx op (List.mem_cons_of_mem _ hop))
        (hc.subset hin), fun x ha ht hin => ?_⟩
    have h1 := i2 x ha (fun h => ht (Touched.cons_iff.2 (Or.inr h))) hin
    rcases hc.ancestry (fun hn => .parent T hTE hn) x h1 with h | h | h
    · exact h
    · refine absurd (Touched.cons_iff.2 (Or.inl (Or.inr ⟨T, rfl, h.symm, ?_⟩))) ht
      exact hc.not_fails_later (hr.later hcanon hup2 hdel2) (fun hn => .parent T hTE hn)
    · exact absurd h ha
  | delete d ops σ σ1 _ ih =>
    intro hup hdel
    obtain ⟨i1, i2⟩ := ih (fun T h => hup T (List.mem_cons_of_mem _ h))
      (fun d h => hdel d (List.mem_cons_of_mem _ h))
    refine ⟨fun x hx hin => i1 x (fun op hop => hx op (List.mem_cons_of_mem _ hop))
        ⟨hin, fun h => ?_⟩,
      fun x ha ht hin => (i2 x ha (fun h => ht (Touched.cons_iff.2 (Or.inr h))) hin).1⟩
    rw [Set.mem_singleton_iff] at h
    exact hx _ (List.mem_cons_self _ _) (by rw [h])

/-- The writes of a page, run on what a first run of theirs left and on any
later state: the ids they decide on end as after the first run, the others are
left as they are. -/
theorem Runs.again (hcanon : AncestorsKnown tenants E) {ops : List TenantOp}
    (h : Runs tenants ops σ A) :
    (∀ T, TenantOp.upsert T ∈ ops → T ∈ E) →
    (∀ d, TenantOp.delete d ∈ ops → ¬ Ancestry tenants E d) →
    ∀ σ2 B, Runs tenants ops σ2 B → Later tenants E A σ2 →
      ∀ x, x ∈ B ↔ (x ∈ A ∧ Touched tenants A ops x) ∨ (x ∈ σ2 ∧ ¬ Touched tenants A ops x) := by
  induction h with
  | nil σ =>
    intro _ _ σ2 B h2 _ x
    cases h2
    simp [Touched]
  | fails T ops σ σ1 hf hr ih =>
    intro hup hdel σ2 B h2 hl x
    have hup2 : ∀ T, TenantOp.upsert T ∈ ops → T ∈ E := fun T h => hup T (List.mem_cons_of_mem _ h)
    have hdel2 : ∀ d, TenantOp.delete d ∈ ops → ¬ Ancestry tenants E d :=
      fun d h => hdel d (List.mem_cons_of_mem _ h)
    have hTE := hup T (List.mem_cons_self _ _)
    have hl1 := hr.later hcanon hup2 hdel2
    have hfA : ClimbFails tenants σ1 T := hf.persist hl1.2 (fun hn => .parent T hTE hn)
    have ht : Touched tenants σ1 (.upsert T :: ops) x ↔ Touched tenants σ1 ops x := by
      rw [Touched.cons_iff]
      constructor
      · rintro ((h | ⟨T2, h, _, hnf⟩) | h)
        · cases h
        · cases h
          exact absurd hfA hnf
        · exact h
      · exact fun h => Or.inr h
    rw [ht]
    cases h2 with
    | fails _ _ _ _ _ h2 => exact ih hup2 hdel2 σ2 B h2 hl x
    | climbs _ _ _ σ3 _ hc2 _ =>
      exact absurd (hf.persist (hl1.trans hl).2 (fun hn => .parent T hTE hn)) hc2.not_fails
  | climbs T ops σ σ1 σ2' hc hr ih =>
    intro hup hdel σ2 B h2 hl x
    have hup2 : ∀ T, TenantOp.upsert T ∈ ops → T ∈ E := fun T h => hup T (List.mem_cons_of_mem _ h)
    have hdel2 : ∀ d, TenantOp.delete d ∈ ops → ¬ Ancestry tenants E d :=
      fun d h => hdel d (List.mem_cons_of_mem _ h)
    have hTE := hup T (List.mem_cons_self _ _)
    have hl1 := hr.later hcanon hup2 hdel2
    have hnf : ¬ ClimbFails tenants σ2' T := hc.not_fails_later hl1 (fun hn => .parent T hTE hn)
    have hp2 : T.ParentID = T.ID ∨ T.ParentID ∈ σ2 := by
      by_cases hroot : T.ParentID = T.ID
      · exact Or.inl hroot
      · exact Or.inr ((hl1.trans hl).1 _ (.parent T hTE hroot)
          (hc.parent_mem.resolve_left hroot))
    have ht : Touched tenants σ2' (.upsert T :: ops) x ↔ T.ID = x ∨ Touched tenants σ2' ops x := by
      rw [Touched.cons_iff]
      constructor
      · rintro ((h | ⟨T2, h, hid, _⟩) | h)
        · cases h
        · cases h
          exact Or.inl hid
        · exact Or.inr h
      · rintro (h | h)
        · exact Or.inl (Or.inr ⟨T, rfl, h, hnf⟩)
        · exact Or.inr h
    rw [ht]
    cases h2 with
    | fails _ _ _ _ hf2 _ =>
      rcases hp2 with h | h
      · exact absurd h hf2.not_root
      · exact absurd h hf2.parent_not_mem
    | climbs _ _ _ σ3 _ hc2 h2 =>
      have h3 := hc2.of_present hp2
      subst h3
      have hi := ih hup2 hdel2 _ B h2 (hl.trans (Later.of_climbs hcanon hTE hc2)) x
      rw [hi]
      by_cases hx : T.ID = x
      · subst hx
        by_cases htt : Touched tenants σ2' ops T.ID
        · simp [htt]
        · have hA : T.ID ∈ σ2' := (hr.untouched hcanon hup2 hdel2).1 T.ID
            (fun op hop h => htt ⟨op, hop, Or.inl h⟩) hc.id_mem
          simp [htt, hA]
      · have : x ∈ insert T.ID σ2 ↔ x ∈ σ2 := by
          rw [Set.mem_insert_iff]
          exact ⟨fun h => h.resolve_left (fun h => hx h.symm), Or.inr⟩
        simp [hx, this]
  | delete d ops σ σ1 hr ih =>
    intro hup hdel σ2 B h2 hl x
    have hup2 : ∀ T, TenantOp.upsert T ∈ ops → T ∈ E := fun T h => hup T (List.mem_cons_of_mem _ h)
    have hdel2 : ∀ d, TenantOp.delete d ∈ ops → ¬ Ancestry tenants E d :=
      fun d h => hdel d (List.mem_cons_of_mem _ h)
    have hd := hdel d (List.mem_cons_self _ _)
    have ht : Touched tenants σ1 (.delete d :: ops) x ↔ d = x ∨ Touched tenants σ1 ops x := by
      rw [Touched.cons_iff]
      constructor
      · rintro ((h | ⟨T2, h, _, _⟩) | h)
        · cases h
          exact Or.inl rfl
        · cases h
        · exact Or.inr h
      · rintro (h | h)
        · exact Or.inl (Or.inl (by rw [h]))
        · exact Or.inr h
    rw [ht]
    cases h2 with
    | delete _ _ _ _ h2 =>
      have hi := ih hup2 hdel2 _ B h2 (hl.trans (Later.of_delete hd)) x
      rw [hi]
      by_cases hx : d = x
      · subst hx
        by_cases htt : Touched tenants σ1 ops d
        · simp [htt]
        · have hA : d ∉ σ1 := fun hin =>
            ((hr.untouched hcanon hup2 hdel2).2 d hd htt hin).2 rfl
          simp [htt, hA]
      · have : x ∈ σ2 \ {d} ↔ x ∈ σ2 := by
          rw [Set.mem_diff, Set.mem_singleton_iff]
          exact ⟨fun h => h.1, fun h => ⟨h, fun h => hx h.symm⟩⟩
        simp [hx, this]

/-- The writes of a page that deletes no tenant of the ancestry of those it
upserts, run twice in a row, leave the tenants they leave when run once. -/
theorem Runs.page_twice (hcanon : AncestorsKnown tenants E) {ops : List TenantOp}
    (hup : ∀ T, TenantOp.upsert T ∈ ops → T ∈ E)
    (hdel : ∀ d, TenantOp.delete d ∈ ops → ¬ Ancestry tenants E d)
    (h1 : Runs tenants ops σ A) (h2 : Runs tenants ops A B) : B = A := by
  ext x
  rw [h1.again hcanon hup hdel A B h2 Later.refl x]
  by_cases h : Touched tenants A ops x <;> simp [h]

end PageSets

section IdempotenceRuns

theorem cloudTenant_of_filter_nil {tenants : List Tenant} {id : String}
    (h : tenants.filter (fun t => decide (t.ID = id)) = []) : cloudTenant tenants id = none := by
  simp [cloudTenant, h]

theorem cloudTenant_of_filter_cons {tenants : List Tenant} {id : String} {P : Tenant}
    {more : List Tenant} (h : tenants.filter (fun t => decide (t.ID = id)) = P :: more) :
    cloudTenant tenants id = some P := by
  simp [cloudTenant, h]

theorem tenantSet_addOnce (s : Store) (id : String) :
    tenantSet { s with tenants := addOnce s.tenants id } = insert id (tenantSet s) := by
  ext x
  simp only [tenantSet, Set.mem_setOf_eq, mem_addOnce, Set.mem_insert_iff]
  exact Or.comm

/-- The upsert helper between the in-memory external system and the fixed
cloud, within the budget: it returns, with an error and nothing upserted or
with `nil` and the tenants that `Climbs` tells. -/
theorem memExt_createOrUpdateTenant_climbs (rt : Runtime Store) (tenants : List Tenant)
    (users : List User) (ts : Time) (E : List Tenant) (hgt : String → Nat)
    (hdesc : ∀ id t, Ancestry tenants E id → cloudTenant tenants id = some t →
      t.ParentID ≠ t.ID → hgt t.ParentID < hgt id) :
    ∀ (fuel : Nat) (T : Tenant) (s : Store), 0 < fuel →
      (T.ParentID ≠ T.ID → Ancestry tenants E T.ParentID ∧ hgt T.ParentID + 1 < fuel) →
      ∃ r s1, createOrUpdateTenant rt memExt (fixedCloud tenants users ts) fuel T s
          = (some r, s1) ∧
        Store.EqOffTenants s1 s ∧
        ((r ≠ none ∧ s1 = s ∧ ClimbFails tenants (tenantSet s) T) ∨
          (r = none ∧ Climbs tenants (tenantSet s) T (tenantSet s1))) := by
  intro fuel
  induction fuel with
  | zero => exact fun _ _ h => absurd h (Nat.lt_irrefl 0)
  | succ f ih =>
    intro T s _ hT
    by_cases hroot : T.ParentID = T.ID
    · refine ⟨none, { s with tenants := addOnce s.tenants T.ID }, ?_, ⟨rfl, rfl, rfl, rfl⟩,
        Or.inr ⟨rfl, ?_⟩⟩
      · simp [createOrUpdateTenant, hroot, memExt_CreateOrUpdateTenant]
      · rw [tenantSet_addOnce]
        exact .here T (Or.inl hroot)
    · by_cases hin : T.ParentID ∈ s.tenants
      · refine ⟨none, { s with tenants := addOnce s.tenants T.ID }, ?_, ⟨rfl, rfl, rfl, rfl⟩,
          Or.inr ⟨rfl, ?_⟩⟩
        · simp [createOrUpdateTenant, hroot, hin, memExt_CreateOrUpdateTenant,
            memExt_CheckTenantExist]
        · rw [tenantSet_addOnce]
          exact .here T (Or.inr hin)
      · have hnin : T.ParentID ∉ tenantSet s := hin
        rcases hfl : tenants.filter (fun t => decide (t.ID = T.ParentID)) with _ | ⟨P, more⟩
        · refine ⟨some ("empty tenant response for " ++ T.ParentID), s, ?_, ⟨rfl, rfl, rfl, rfl⟩,
            Or.inl ⟨by simp, rfl, .unknown T hroot hnin (cloudTenant_of_filter_nil hfl)⟩⟩
          simp [createOrUpdateTenant, hroot, hin, memExt_CheckTenantExist, getTenantsByUUIDs,
            fixedCloud_lookup, hfl]
        · have hP := cloudTenant_of_filter_cons hfl
          obtain ⟨hanc, hlt⟩ := hT hroot
          obtain ⟨r, s1, hrun, heq, hres⟩ := ih P s (by omega) (fun hn =>
            ⟨.up _ P hanc hP hn, by
              have := hdesc _ P hanc hP hn
              omega⟩)
          rcases hres with ⟨hr, hs1, hf⟩ | ⟨hr, hc⟩
          · subst hs1
            obtain ⟨err, rfl⟩ := Option.ne_none_iff_exists'.1 hr
            refine ⟨some ("failed to create parent tenant with ID " ++ rt.fmtTenant P ++ ": "
                ++ err), s1, ?_, ⟨rfl, rfl, rfl, rfl⟩,
              Or.inl ⟨by simp, rfl, .parent T P hroot hnin hP hf⟩⟩
            simp [createOrUpdateTenant, hroot, hin, memExt_CheckTenantExist, getTenantsByUUIDs,
              fixedCloud_lookup, hfl, hrun]
          · subst hr
            refine ⟨none, { s1 with tenants := addOnce s1.tenants T.ID }, ?_, heq,
              Or.inr ⟨rfl, ?_⟩⟩
            · simp [createOrUpdateTenant, hroot, hin, memExt_CreateOrUpdateTenant,
                memExt_CheckTenantExist, getTenantsByUUIDs, fixedCloud_lookup, hfl, hrun]
            · rw [tenantSet_addOnce]
              exact .parent T P _ hroot hnin hP hc

theorem demoSyncLoop_extClient (tenants : List Tenant) (users : List User) (ts : Time) :
    (demoSyncLoop tenants users ts).extClient = memExt := rfl

theorem Verdict.holds_or (a b : Option Bool) (before : Prop) :
    Verdict.holds (a.or b) before ↔ Verdict.holds a (Verdict.holds b before) := by
  unfold Verdict.holds
  rcases a with _ | _ | _ <;> rcases b with _ | _ | _ <;> simp

theorem Verdict.holds_idem (v : Option Bool) (before : Prop) :
    Verdict.holds v (Verdict.holds v before) ↔ Verdict.holds v before := by
  unfold Verdict.holds
  rcases v with _ | _ | _ <;> simp

theorem memExt_processOfferingItemsChanges (tenants : List Tenant) (users : List User)
    (ts : Time) :
    ∀ (items : List OfferingItem) (s : Store),
      ((demoSyncLoop tenants users ts).processOfferingItemsChanges items s).1 = some () ∧
      (∀ e, e ∈ ((demoSyncLoop tenants users ts).processOfferingItemsChanges items
            s).2.offeringItems
          ↔ Verdict.holds (offeringItemVerdictOfItems items e) (e ∈ s.offeringItems)) ∧
      Store.EqOffOfferingItems
        ((demoSyncLoop tenants users ts).processOfferingItemsChanges items s).2 s := by
  intro items
  induction items with
  | nil =>
    intro s
    simp [SyncLoopImpl.processOfferingItemsChanges, Store.EqOffOfferingItems,
      offeringItemVerdictOfItems, Verdict.holds]
  | cons i rest ih =>
    intro s
    by_cases h : i.Status = 0
    · obtain ⟨h0, h1, h2⟩ := ih
        { s with offeringItems := s.offeringItems.filter (fun x => x != i.externalID) }
      simp only [SyncLoopImpl.processOfferingItemsChanges, h, if_true, M.bind_apply,
        M.lift_apply, M.pure_apply, demoSyncLoop_extClient, memExt_DeleteOfferingItem]
      refine ⟨h0, fun e => ?_, h2⟩
      have h1e := h1 e
      simp only [OfferingItem.externalID] at h1e
      rw [h1e, offeringItemVerdictOfItems, Verdict.holds_or]
      simp only [List.mem_filter, bne_iff_ne, ne_eq, h, not_true_eq_false, decide_False]
      unfold Verdict.holds
      by_cases he : i.externalID = e
      · simp [he, ← he, OfferingItem.externalID]
      · have he2 : ¬ e = i.externalID := fun x => he x.symm
        simp only [OfferingItem.externalID] at he he2
        simp [he, he2, OfferingItem.externalID]
    · obtain ⟨h0, h1, h2⟩ := ih
        { s with offeringItems := addOnce s.offeringItems i.externalID }
      simp only [SyncLoopImpl.processOfferingItemsChanges, h, if_false, M.bind_apply,
        M.lift_apply, M.pure_apply, demoSyncLoop_extClient, memExt_CreateOrUpdateOfferingItem]
      refine ⟨h0, fun e => ?_, h2⟩
      rw [h1, offeringItemVerdictOfItems, Verdict.holds_or]
      simp only [mem_addOnce, ne_eq, h, not_false_eq_true, decide_True]
      unfold Verdict.holds
      by_cases he : i.externalID = e
      · simp [he]
      · have he2 : ¬ e = i.externalID := fun x => he x.symm
        simp [he, he2]


theorem demoSyncLoop_accClient (tenants : List Tenant) (users : List User) (ts : Time) :
    (demoSyncLoop tenants users ts).accClient = fixedCloud (σ := Store) tenants users ts := rfl

theorem tenantSet_delete (s : Store) (id : String) :
    tenantSet { s with tenants := s.tenants.filter (fun x => x != id) } = tenantSet s \ {id} := by
  ext x
  simp [tenantSet]

theorem tenantSet_congr {a b : Store} (h : a.tenants = b.tenants) : tenantSet a = tenantSet b := by
  simp [tenantSet, h]

/-- The upserts of a reconciliation cycle between the in-memory external
system and the fixed cloud, within the budget: the loop ends, and the tenants
it leaves are those that `Runs` tells. -/
theorem memExt_createOrUpdateTenants_runs (rt : Runtime Store) (tenants : List Tenant)
    (users : List User) (ts : Time) (E : List Tenant) (hgt : String → Nat) (fuel : Nat)
    (hd : AncestryDescends tenants E hgt fuel) :
    ∀ (es : List (String × Tenant)) (s : Store), (∀ e ∈ es, e.2 ∈ E) →
      ∃ s1, (demoReconciliationLoop tenants users ts).createOrUpdateTenants rt fuel es s
          = (some (), s1) ∧
        Store.EqOffTenants s1 s ∧
        Runs tenants (es.map (fun e => TenantOp.upsert e.2)) (tenantSet s) (tenantSet s1) := by
  intro es
  induction es with
  | nil =>
    intro s _
    exact ⟨s, rfl, ⟨rfl, rfl, rfl, rfl⟩, .nil _⟩
  | cons e rest ih =>
    intro s hes
    have heE := hes e (List.mem_cons_self _ _)
    have hb := hd.budget _ heE
    obtain ⟨r, s1, hrun, heq, hres⟩ := memExt_createOrUpdateTenant_climbs rt tenants users ts E
      hgt hd.descends fuel e.2 s (by omega) (fun hn => ⟨.parent _ heE hn, hb⟩)
    obtain ⟨s2, hrest, heq2, hruns⟩ := ih s1 (fun x hx => hes x (List.mem_cons_of_mem _ hx))
    have hstep : (demoReconciliationLoop tenants users ts).createOrUpdateTenants rt fuel
        (e :: rest) s
        = (demoReconciliationLoop tenants users ts).createOrUpdateTenants rt fuel rest s1 := by
      rcases e with ⟨k, v⟩
      simp only [ReconciliationLoop.createOrUpdateTenants, M.bind_apply,
        demoReconciliationLoop_extClient, demoReconciliationLoop_accClient]
      simp only at hrun
      rw [hrun]
    refine ⟨s2, hstep.trans hrest, ⟨heq2.1.trans heq.1, heq2.2.1.trans heq.2.1,
      heq2.2.2.1.trans heq.2.2.1, heq2.2.2.2.trans heq.2.2.2⟩, ?_⟩
    rcases hres with ⟨_, hs1, hf⟩ | ⟨_, hc⟩
    · subst hs1
      exact .fails _ _ _ _ hf hruns
    · exact .climbs _ _ _ _ _ hc hruns


/-- One item of a tenants page, on the in-memory external system and within
the budget: the rest of the page goes on from a state reached by the writes of
tenants that the item decides on. -/
theorem memExt_processTenants_item_runs (rt : Runtime Store) (tenants : List Tenant)
    (users : List User) (ts : Time) (E : List Tenant) (hgt : String → Nat) (fuel : Nat)
    (hd : AncestryDescends tenants E hgt fuel) (item : Tenant) (rest : List Tenant) (s : Store)
    (hitem : item.ID ≠ "" → item.DeletedAt.IsZero = true → item ∈ E) :
    ∃ s1 : Store,
      (demoSyncLoop tenants users ts).processTenantsAndOfferingItemsChanges rt fuel
          (item :: rest) s
        = (demoSyncLoop tenants users ts).processTenantsAndOfferingItemsChanges rt fuel rest s1 ∧
      (∀ σ1, Runs tenants (tenantOpsOfPage rest) (tenantSet s1) σ1 →
        Runs tenants (tenantOpsOfPage (item :: rest)) (tenantSet s) σ1) ∧
      (∀ e, e ∈ s1.offeringItems
        ↔ Verdict.holds (offeringItemVerdictOfItems item.OfferingItems e)
            (e ∈ s.offeringItems)) ∧
      s1.users = s.users ∧ s1.accessPolicies = s.accessPolicies ∧ s1.usages = s.usages := by
  by_cases hid : item.ID = ""
  · -- a carrier
    obtain ⟨o0, o1, o2⟩ := memExt_processOfferingItemsChanges tenants users ts
      item.OfferingItems s
    rcases hrun : (demoSyncLoop tenants users ts).processOfferingItemsChanges
      item.OfferingItems s with ⟨r, s2⟩
    rw [hrun] at o0 o1 o2
    simp only at o0 o1 o2
    subst o0
    by_cases hdel : deleteTenantIDOf item = ""
    · refine ⟨s2, ?_, fun σ1 h => ?_, o1, o2.2.1, o2.2.2.1, o2.2.2.2⟩
      · have hd2 := hdel
        simp only [deleteTenantIDOf, hid, ne_eq, not_true_eq_false, if_false] at hd2
        rcases hoi : item.OfferingItems with _ | ⟨first, more⟩
        · rw [hoi] at hrun
          simp [SyncLoopImpl.processTenantsAndOfferingItemsChanges, hid, hoi, hrun]
        · rw [hoi] at hd2 hrun
          simp only at hd2
          simp [SyncLoopImpl.processTenantsAndOfferingItemsChanges, hid, hoi, hrun, hd2]
      · rw [tenantSet_congr o2.1] at h
        simpa [tenantOpsOfPage, hid, hdel] using h
    · refine ⟨{ s2 with tenants := s2.tenants.filter (fun x => x != deleteTenantIDOf item) },
        ?_, fun σ1 h => ?_, o1, o2.2.1, o2.2.2.1, o2.2.2.2⟩
      · have hd2 := hdel
        simp only [deleteTenantIDOf, hid, ne_eq, not_true_eq_false, if_false] at hd2 ⊢
        rcases hoi : item.OfferingItems with _ | ⟨first, more⟩
        · rw [hoi] at hd2
          simp at hd2
        · rw [hoi] at hd2 hrun
          simp only at hd2
          simp [SyncLoopImpl.processTenantsAndOfferingItemsChanges, hid, hoi, hrun, hd2,
            demoSyncLoop_extClient, memExt_DeleteTenant]
      · rw [tenantSet_delete, tenantSet_congr o2.1] at h
        simpa [tenantOpsOfPage, hid, hdel] using Runs.delete _ _ _ _ h
  · by_cases hz : item.DeletedAt.IsZero = true
    · -- an upsert
      have hiE := hitem hid hz
      have hb := hd.budget _ hiE
      obtain ⟨r, sa, hup, heq, hres⟩ := memExt_createOrUpdateTenant_climbs rt tenants users ts E
        hgt hd.descends fuel item s (by omega) (fun hn => ⟨.parent _ hiE hn, hb⟩)
      obtain ⟨o0, o1, o2⟩ := memExt_processOfferingItemsChanges tenants users ts
        item.OfferingItems sa
      rcases hrun : (demoSyncLoop tenants users ts).processOfferingItemsChanges
        item.OfferingItems sa with ⟨r2, s2⟩
      rw [hrun] at o0 o1 o2
      simp only at o0 o1 o2
      subst o0
      have hdel : deleteTenantIDOf item = "" := by simp [deleteTenantIDOf, hid, hz]
      refine ⟨s2, ?_, fun σ1 h => ?_, fun e => ?_, o2.2.1.trans heq.2.1,
        o2.2.2.1.trans heq.2.2.1, o2.2.2.2.trans heq.2.2.2⟩
      · have hup2 : createOrUpdateTenant rt (demoSyncLoop tenants users ts).extClient
            (demoSyncLoop tenants users ts).accClient fuel item s = (some r, sa) := hup
        simp [SyncLoopImpl.processTenantsAndOfferingItemsChanges, hid, hz, hup2, hrun]
      · rw [tenantSet_congr o2.1] at h
        have hops : tenantOpsOfPage (item :: rest)
            = TenantOp.upsert item :: tenantOpsOfPage rest := by
          simp [tenantOpsOfPage, hid, hz, hdel]
        rw [hops]
        rcases hres with ⟨_, hs1, hf⟩ | ⟨_, hc⟩
        · subst hs1
          exact .fails _ _ _ _ hf h
        · exact .climbs _ _ _ _ _ hc h
      · rw [o1 e, heq.1]
    · -- a tombstone
      obtain ⟨o0, o1, o2⟩ := memExt_processOfferingItemsChanges tenants users ts
        item.OfferingItems s
      rcases hrun : (demoSyncLoop tenants users ts).processOfferingItemsChanges
        item.OfferingItems s with ⟨r, s2⟩
      rw [hrun] at o0 o1 o2
      simp only at o0 o1 o2
      subst o0
      have hdel : deleteTenantIDOf item = item.ID := by simp [deleteTenantIDOf, hid, hz]
      refine ⟨{ s2 with tenants := s2.tenants.filter (fun x => x != item.ID) },
        ?_, fun σ1 h => ?_, o1, o2.2.1, o2.2.2.1, o2.2.2.2⟩
      · simp [SyncLoopImpl.processTenantsAndOfferingItemsChanges, hid, hz, hrun,
          demoSyncLoop_extClient, memExt_DeleteTenant]
      · rw [tenantSet_delete, tenantSet_congr o2.1] at h
        have hops : tenantOpsOfPage (item :: rest)
            = TenantOp.delete item.ID :: tenantOpsOfPage rest := by
          simp [tenantOpsOfPage, hid, hz, hdel]
        rw [hops]
        exact .delete _ _ _ _ h

theorem mem_upsertedTenants_cons {item T : Tenant} {rest : List Tenant}
    (h : T ∈ upsertedTenants rest) : T ∈ upsertedTenants (item :: rest) := by
  unfold upsertedTenants at h ⊢
  exact List.mem_filter.2 ⟨List.mem_cons_of_mem _ (List.mem_filter.1 h).1, (List.mem_filter.1 h).2⟩

/-- A tenants page, on the in-memory external system and within the budget:
the loop ends, the tenants it leaves are those that `Runs` tells for the writes
the page decides on, and every offering item is in or out by the verdict of
the page. -/
theorem memExt_processTenants_runs (rt : Runtime Store) (tenants : List Tenant)
    (users : List User) (ts : Time) (E : List Tenant) (hgt : String → Nat) (fuel : Nat)
    (hd : AncestryDescends tenants E hgt fuel) :
    ∀ (page : List Tenant) (s : Store), (∀ T ∈ upsertedTenants page, T ∈ E) →
      ∃ s1 : Store,
        (demoSyncLoop tenants users ts).processTenantsAndOfferingItemsChanges rt fuel page s
          = (some (), s1) ∧
        Runs tenants (tenantOpsOfPage page) (tenantSet s) (tenantSet s1) ∧
        (∀ e, e ∈ s1.offeringItems
          ↔ Verdict.holds (offeringItemVerdict page e) (e ∈ s.offeringItems)) ∧
        s1.users = s.users ∧ s1.accessPolicies = s.accessPolicies ∧ s1.usages = s.usages := by
  intro page
  induction page with
  | nil =>
    intro s _
    refine ⟨s, rfl, .nil _, fun e => ?_, rfl, rfl, rfl⟩
    simp [offeringItemVerdict, Verdict.holds]
  | cons item rest ih =>
    intro s hE
    obtain ⟨s1, hstep, hruns, o1, u1, a1, g1⟩ := memExt_processTenants_item_runs rt tenants users
      ts E hgt fuel hd item rest s (fun hid hz => hE item (by
        unfold upsertedTenants
        exact List.mem_filter.2 ⟨List.mem_cons_self _ _, by simp [hid, hz]⟩))
    obtain ⟨s2, hrest, hr2, o2, u2, a2, g2⟩ := ih s1 (fun T hT => hE T (mem_upsertedTenants_cons hT))
    refine ⟨s2, hstep.trans hrest, hruns _ hr2, fun e => ?_, u2.trans u1, a2.trans a1,
      g2.trans g1⟩
    rw [o2, offeringItemVerdict, Verdict.holds_or]
    unfold Verdict.holds
    rw [o1]
    rfl


/-- What one tenants reconciliation cycle does to the in-memory external
system, between it and the fixed cloud, within the budget: the cycle returns;
the orphans go, and the tenants it leaves are those that `Runs` tells for the
upserts of the tenants of the cloud map. -/
theorem memExt_reconcileTenants_runs (rt : Runtime Store) (tenants : List Tenant)
    (users : List User) (ts : Time) (hgt : String → Nat) (fuel : Nat) (s : Store)
    (hd : AncestryDescends tenants (cloudMapTenants tenants) hgt fuel)
    (hpagesT : s.tenants.length / 100 < fuel)
    (hpagesOI : s.offeringItems.length / 100 < fuel) :
    ∃ s3 s4 : Store,
      (∀ x, x ∈ s3.tenants ↔ x ∈ s.tenants ∧ x ∈ (addTenants {} tenants).keys) ∧
      Runs tenants
        ((rt.rangeOrder 1 (addTenants {} tenants).entries).map (fun e => TenantOp.upsert e.2))
        (tenantSet s3) (tenantSet s4) ∧
      ((demoReconciliationLoop tenants users ts).reconcileTenantsAndOfferingItems rt fuel s).1
        = some ts ∧
      ((demoReconciliationLoop tenants users ts).reconcileTenantsAndOfferingItems
          rt fuel s).2.tenants = s4.tenants ∧
      (∀ e, e ∈ ((demoReconciliationLoop tenants users ts).reconcileTenantsAndOfferingItems
            rt fuel s).2.offeringItems
        ↔ (e ∈ s.offeringItems ∧ ¬ OrphanOfferingItem (addTenants {} tenants) e) ∨
          ∃ i ∈ activeOfferingItems (addTenants {} tenants), i.externalID = e) ∧
      ((demoReconciliationLoop tenants users ts).reconcileTenantsAndOfferingItems
            rt fuel s).2.users = s.users ∧
      ((demoReconciliationLoop tenants users ts).reconcileTenantsAndOfferingItems
            rt fuel s).2.accessPolicies = s.accessPolicies ∧
      ((demoReconciliationLoop tenants users ts).reconcileTenantsAndOfferingItems
            rt fuel s).2.usages = s.usages := by
  -- 1. the cloud read
  have h1 : retryHelper rt.sleepOnWorld
      ((demoReconciliationLoop tenants users ts).readACCTenants fuel) ({}, s)
      = (some none,
          (({ accTenants := addTenants {} tenants, nextUpdateTimestamp := ts } : TenantsVars),
            s)) := by
    apply retryHelper_first_success
    simp [ReconciliationLoop.readACCTenants,
      ReconciliationLoop.getACCTenantsAndOfferingItemsForReconciliation,
      demoReconciliationLoop_accClient, fixedCloud]
  -- 2. the external id read
  obtain ⟨m, hm, hk⟩ := externalPages_ids_of_list s.tenants memExt.GetActiveTenantIDs s
    (fun _ _ => rfl) "failed to get tenants from external system: " fuel 0 {}
    (by simpa using hpagesT)
  have hk2 : ∀ x, x ∈ m.keys ↔ x ∈ s.tenants := by
    intro x
    rw [hk]
    have : x ∉ ({} : GoMap Unit).keys := by
      simp [GoMap.keys, EmptyCollection.emptyCollection, GoMap.empty]
    simp [this]
  have h2 : retryHelper rt.sleepOnWorld
      ((demoReconciliationLoop tenants users ts).readExternalTenantIDs fuel)
      (({ accTenants := addTenants {} tenants, nextUpdateTimestamp := ts } : TenantsVars), s)
      = (some none,
          (({ accTenants := addTenants {} tenants, nextUpdateTimestamp := ts,
              externalTenantIDs := m } : TenantsVars), s)) := by
    apply retryHelper_first_success
    simp only [ReconciliationLoop.readExternalTenantIDs,
      ReconciliationLoop.getExternalSystemTenantIDs, demoReconciliationLoop_extClient,
      M.bind_apply, M.onWorld_apply, hm, M.modifyVars_apply, M.pure_apply]
  -- 3. the orphans go
  obtain ⟨r1, r2⟩ := memExt_removeNonExistingTenants tenants users ts (addTenants {} tenants)
    ((rt.rangeOrder 0 m.entries).map Prod.fst) s
  have hids : ∀ x, x ∈ (rt.rangeOrder 0 m.entries).map Prod.fst ↔ x ∈ s.tenants := by
    intro x
    rw [← hk2]
    exact ((rt.rangeOrder_perm 0 m.entries).map Prod.fst).mem_iff
  -- 4. the tenants of the cloud map come
  obtain ⟨s4, h4, c5, hruns⟩ := memExt_createOrUpdateTenants_runs rt tenants users ts
    (cloudMapTenants tenants) hgt fuel hd (rt.rangeOrder 1 (addTenants {} tenants).entries)
    ((demoReconciliationLoop tenants users ts).removeNonExistingTenants (addTenants {} tenants)
      ((rt.rangeOrder 0 m.entries).map Prod.fst) s).2
    (fun e he => List.mem_map.2 ⟨e, (rt.rangeOrder_perm 1 _).mem_iff.1 he, rfl⟩)
  -- 5. the external offering items
  have hoi : s4.offeringItems = s.offeringItems := c5.1.trans r2.1
  have h5 : retryHelper rt.sleepOnWorld
      ((demoReconciliationLoop tenants users ts).readExternalOIs fuel)
      (({ accTenants := addTenants {} tenants, nextUpdateTimestamp := ts,
          externalTenantIDs := m } : TenantsVars), s4)
      = (some none,
          (({ accTenants := addTenants {} tenants, nextUpdateTimestamp := ts,
              externalTenantIDs := m, externalOIs := s4.offeringItems } : TenantsVars),
            s4)) := by
    apply retryHelper_first_success
    have := externalPages_items_of_list s4.offeringItems memExt.GetActiveOfferingItemIDs s4
      (fun _ _ => rfl) "failed to get tenants from external system: " fuel 0 []
      (by rw [hoi]; simpa using hpagesOI)
    simp only [List.nil_append, List.drop_zero] at this
    simp only [ReconciliationLoop.readExternalOIs,
      ReconciliationLoop.getExternalSystemOfferingItems, demoReconciliationLoop_extClient,
      M.bind_apply, M.onWorld_apply, this, M.modifyVars_apply, M.pure_apply]
  obtain ⟨-, -, hrun⟩ := reconcileTenants_run rt (demoReconciliationLoop tenants users ts) fuel s
    _ _ _ s s s4 s4 h1 h2 h4 h5
  rw [hrun]
  -- 6. and 7. the offering items
  obtain ⟨d1, d2⟩ := memExt_deleteInactiveOfferingItems tenants users ts (addTenants {} tenants)
    s4.offeringItems s4
  obtain ⟨u1, u2⟩ := memExt_updateOfferingItemsOfTenants tenants users ts
    (rt.rangeOrder 2 (addTenants {} tenants).entries)
    ((demoReconciliationLoop tenants users ts).deleteInactiveOfferingItems
      (addTenants {} tenants) s4.offeringItems s4).2
  simp only [ReconciliationLoop.updateOfferingItemsOnExternalSystem]
  refine ⟨_, s4, fun x => ?_, hruns, trivial, ?_, fun e => ?_, ?_, ?_, ?_⟩
  · rw [r1, hids]
    constructor
    · rintro ⟨hx, hn⟩
      refine ⟨hx, ?_⟩
      by_contra hk
      exact hn ⟨hx, hk⟩
    · rintro ⟨hx, hk⟩
      exact ⟨hx, fun h => h.2 hk⟩
  · rw [u2.1, d2.1]
  · rw [u1, d1, hoi]
    have hact : (∃ en ∈ rt.rangeOrder 2 (addTenants {} tenants).entries,
          ∃ i ∈ en.2.OfferingItems, i.Status > 0 ∧ i.externalID = e)
        ↔ ∃ i ∈ activeOfferingItems (addTenants {} tenants), i.externalID = e := by
      simp only [activeOfferingItems, List.mem_flatMap, List.mem_filter, decide_eq_true_eq,
        (rt.rangeOrder_perm 2 (addTenants {} tenants).entries).mem_iff]
      constructor
      · rintro ⟨en, hen, i, hi, hs, he⟩
        exact ⟨i, ⟨en, hen, hi, hs⟩, he⟩
      · rintro ⟨i, ⟨en, hen, hi, hs⟩, he⟩
        exact ⟨en, hen, i, hi, hs, he⟩
    rw [hact]
    constructor
    · rintro (⟨hx, hn⟩ | hx)
      · exact Or.inl ⟨hx, fun ho => hn ⟨hx, ho⟩⟩
      · exact Or.inr hx
    · rintro (⟨hx, hn⟩ | hx)
      · exact Or.inl ⟨hx, fun ho => hn ho.2⟩
      · exact Or.inr hx
  · rw [u2.2.1, d2.2.1, c5.2.1, r2.2.1]
  · rw [u2.2.2.1, d2.2.2.1, c5.2.2.1, r2.2.2.1]
  · rw [u2.2.2.2, d2.2.2.2, c5.2.2.2, r2.2.2.2]


theorem ancestry_mem_of_closed {tenants E : List Tenant} (L : List String)
    (h1 : ∀ T ∈ E, T.ParentID ≠ T.ID → T.ParentID ∈ L)
    (h2 : ∀ y ∈ L, ∀ t ∈ cloudTenant tenants y, t.ParentID ≠ t.ID → t.ParentID ∈ L)
    {x : String} (h : Ancestry tenants E x) : x ∈ L := by
  induction h with
  | parent T hT hn => exact h1 T hT hn
  | up y t _ ht hn ih => exact h2 y ih t ht hn

theorem not_ancestry_of_closed {tenants E : List Tenant} (L : List String)
    (h1 : ∀ T ∈ E, T.ParentID ≠ T.ID → T.ParentID ∈ L)
    (h2 : ∀ y ∈ L, ∀ t ∈ cloudTenant tenants y, t.ParentID ≠ t.ID → t.ParentID ∈ L)
    {x : String} (hx : x ∉ L) : ¬ Ancestry tenants E x :=
  fun ha => hx (ancestry_mem_of_closed L h1 h2 ha)

/-- The ancestry of `E` lies in the list `L`, along which the height decreases:
it can be climbed. -/
theorem ancestryDescends_of_closed {tenants E : List Tenant} {hgt : String → Nat} {fuel : Nat}
    (L : List String) (h1 : ∀ T ∈ E, T.ParentID ≠ T.ID → T.ParentID ∈ L)
    (h2 : ∀ y ∈ L, ∀ t ∈ cloudTenant tenants y, t.ParentID ≠ t.ID → t.ParentID ∈ L)
    (h3 : ∀ y ∈ L, ∀ t ∈ cloudTenant tenants y, t.ParentID ≠ t.ID → hgt t.ParentID < hgt y)
    (h4 : ∀ T ∈ E, hgt T.ParentID + 1 < fuel) : AncestryDescends tenants E hgt fuel :=
  ⟨fun id t ha ht hn => h3 id (ancestry_mem_of_closed L h1 h2 ha) t ht hn, h4⟩

/-- The ancestry of `E` lies in the list `L`, and the cloud knows the tenants
of `E` whose id is in `L`. -/
theorem ancestorsKnown_of_closed {tenants E : List Tenant} (L : List String)
    (h1 : ∀ T ∈ E, T.ParentID ≠ T.ID → T.ParentID ∈ L)
    (h2 : ∀ y ∈ L, ∀ t ∈ cloudTenant tenants y, t.ParentID ≠ t.ID → t.ParentID ∈ L)
    (h3 : ∀ T ∈ E, T.ID ∈ L → ∃ c ∈ cloudTenant tenants T.ID, c.ParentID = T.ParentID) :
    AncestorsKnown tenants E := by
  intro T hT ha
  obtain ⟨c, hc, hp⟩ := h3 T hT (ancestry_mem_of_closed L h1 h2 ha)
  exact ⟨c, hc, hp⟩

theorem mem_tenantOpsOfPage_upsert {T : Tenant} :
    ∀ {page : List Tenant}, TenantOp.upsert T ∈ tenantOpsOfPage page → T ∈ upsertedTenants page
  | [], h => by simp [tenantOpsOfPage] at h
  | item :: rest, h => by
    simp only [tenantOpsOfPage, List.mem_append] at h
    rcases h with (h | h) | h
    · split at h
      · rename_i hl
        simp only [List.mem_singleton, TenantOp.upsert.injEq] at h
        subst h
        unfold upsertedTenants
        exact List.mem_filter.2 ⟨List.mem_cons_self _ _, by simp [hl.1, hl.2]⟩
      · cases h
    · split at h
      · simp at h
      · cases h
    · exact mem_upsertedTenants_cons (mem_tenantOpsOfPage_upsert h)

theorem mem_tenantOpsOfPage_delete {d : String} :
    ∀ {page : List Tenant}, TenantOp.delete d ∈ tenantOpsOfPage page →
      ∃ item ∈ page, deleteTenantIDOf item ≠ "" ∧ deleteTenantIDOf item = d
  | [], h => by simp [tenantOpsOfPage] at h
  | item :: rest, h => by
    simp only [tenantOpsOfPage, List.mem_append] at h
    rcases h with (h | h) | h
    · split at h
      · simp at h
      · cases h
    · split at h
      · rename_i hl
        simp only [List.mem_singleton, TenantOp.delete.injEq] at h
        exact ⟨item, List.mem_cons_self _ _, hl, h.symm⟩
      · cases h
    · obtain ⟨i, hi, h⟩ := mem_tenantOpsOfPage_delete h
      exact ⟨i, List.mem_cons_of_mem _ hi, h⟩

theorem mem_cloudMapTenants {tenants : List Tenant} {T : Tenant}
    (h : T ∈ cloudMapTenants tenants) : T.ID ∈ (addTenants {} tenants).keys := by
  obtain ⟨e, he, rfl⟩ := List.mem_map.1 h
  have := addTenants_entries (fun e => e.2 ∈ tenants ∧ e.2.ID = e.1) tenants
    (fun t ht => ⟨ht, rfl⟩) {} (fun e he => by cases he) e he
  rw [this.2]
  exact List.mem_map.2 ⟨e, he, rfl⟩

theorem exists_cloudMapTenant {tenants : List Tenant} {y : String}
    (h : y ∈ (addTenants {} tenants).keys) : ∃ T ∈ cloudMapTenants tenants, T.ID = y := by
  obtain ⟨e, he, rfl⟩ := List.mem_map.1 h
  have := addTenants_entries (fun e => e.2 ∈ tenants ∧ e.2.ID = e.1) tenants
    (fun t ht => ⟨ht, rfl⟩) {} (fun e he => by cases he) e he
  exact ⟨e.2, List.mem_map.2 ⟨e, he, rfl⟩, this.2⟩

theorem mem_upsertOps (rt : Runtime Store) (tenants : List Tenant) (op : TenantOp) :
    op ∈ (rt.rangeOrder 1 (addTenants {} tenants).entries).map (fun e => TenantOp.upsert e.2)
      ↔ ∃ T ∈ cloudMapTenants tenants, op = .upsert T := by
  simp only [List.mem_map, cloudMapTenants, (rt.rangeOrder_perm 1 _).mem_iff]
  constructor
  · rintro ⟨e, he, rfl⟩
    exact ⟨e.2, ⟨e, he, rfl⟩, rfl⟩
  · rintro ⟨T, ⟨e, he, rfl⟩, rfl⟩
    exact ⟨e, he, rfl⟩

end IdempotenceRuns

section Idempotence

/-- C20, as the claim states it, fails for an incremental page. The cloud
holds the root `R`, `P` under `R` and `T` under `P`, and the in-memory external
system holds `P` alone. The page holds `T` and a carrier row for an offering
item of `P`. Applied once, the page upserts `T` under the `P` that is there and
then deletes `P`: the external system holds `T`. Applied again, the upsert of
`T` misses `P` and repairs it, creating `R` and `P`, and the carrier deletes
`P` again: the external system holds `T` and `R`. -/
theorem incremental_page_twice_differs_from_once :
    ((demoSyncLoop
        [{ ID := "R", ParentID := "R", DeletedAt := 0, OfferingItems := [] },
         { ID := "P", ParentID := "R", DeletedAt := 0, OfferingItems := [] },
         { ID := "T", ParentID := "P", DeletedAt := 0, OfferingItems := [] }] [] 7
      |>.processTenantsAndOfferingItemsChanges plainRuntime 3
        [{ ID := "T", ParentID := "P", DeletedAt := 0, OfferingItems := [] },
         { ID := "", ParentID := "", DeletedAt := 0,
           OfferingItems := [{ Name := "x", TenantID := "P", Status := 1 }] }]
        { tenants := ["P"] }).2.tenants) = ["T"] ∧
    ((demoSyncLoop
        [{ ID := "R", ParentID := "R", DeletedAt := 0, OfferingItems := [] },
         { ID := "P", ParentID := "R", DeletedAt := 0, OfferingItems := [] },
         { ID := "T", ParentID := "P", DeletedAt := 0, OfferingItems := [] }] [] 7
      |>.processTenantsAndOfferingItemsChanges plainRuntime 3
        [{ ID := "T", ParentID := "P", DeletedAt := 0, OfferingItems := [] },
         { ID := "", ParentID := "", DeletedAt := 0,
           OfferingItems := [{ Name := "x", TenantID := "P", Status := 1 }] }]
        ((demoSyncLoop
            [{ ID := "R", ParentID := "R", DeletedAt := 0, OfferingItems := [] },
             { ID := "P", ParentID := "R", DeletedAt := 0, OfferingItems := [] },
             { ID := "T", ParentID := "P", DeletedAt := 0, OfferingItems := [] }] [] 7
          |>.processTenantsAndOfferingItemsChanges plainRuntime 3
            [{ ID := "T", ParentID := "P", DeletedAt := 0, OfferingItems := [] },
             { ID := "", ParentID := "", DeletedAt := 0,
               OfferingItems := [{ Name := "x", TenantID := "P", Status := 1 }] }]
            { tenants := ["P"] }).2)).2.tenants) = ["T", "R"] := by
  decide

/-- Why the provisos of C20, as amended, are there. (1) Ancestors known: the
cloud holds a deleted tenant `a` under an unknown parent and then a live root
`a`, and `T` under `a`; a first reconciliation cycle on the empty external
system fails to upsert `T` (the cloud answers the request for `a` with the
deleted tenant) and leaves `a`, a second one finds `a` there and leaves `a` and
`T`. (2) Ancestors known: a page upserts `X` under `P`, `P` under `U` and the
root `U`, which the cloud does not know; applied once to the empty external
system it leaves `U`, applied again it leaves `U`, `P` and `X`. (3) No
deletion on the ancestry: a page upserts `T`, deletes the root `R` and upserts
`T2`, both below `R`; applied once to the empty external system it leaves `R`,
repaired for `T2`, applied again it leaves no `R`. -/
theorem idempotence_provisos_are_needed :
    ((demoReconciliationLoop
        [{ ID := "a", ParentID := "u", DeletedAt := 5, OfferingItems := [] },
         { ID := "a", ParentID := "a", DeletedAt := 0, OfferingItems := [] },
         { ID := "T", ParentID := "a", DeletedAt := 0, OfferingItems := [] }] [] 7
      |>.reconcileTenantsAndOfferingItems plainRuntime 5 {}).2.tenants = ["a"] ∧
     (demoReconciliationLoop
        [{ ID := "a", ParentID := "u", DeletedAt := 5, OfferingItems := [] },
         { ID := "a", ParentID := "a", DeletedAt := 0, OfferingItems := [] },
         { ID := "T", ParentID := "a", DeletedAt := 0, OfferingItems := [] }] [] 7
      |>.reconcileTenantsAndOfferingItems plainRuntime 5 { tenants := ["a"] }).2.tenants
        = ["a", "T"]) ∧
    ((demoSyncLoop
        [{ ID := "X", ParentID := "P", DeletedAt := 0, OfferingItems := [] },
         { ID := "P", ParentID := "U", DeletedAt := 0, OfferingItems := [] }] [] 7
      |>.processTenantsAndOfferingItemsChanges plainRuntime 5
        [{ ID := "X", ParentID := "P", DeletedAt := 0, OfferingItems := [] },
         { ID := "P", ParentID := "U", DeletedAt := 0, OfferingItems := [] },
         { ID := "U", ParentID := "U", DeletedAt := 0, OfferingItems := [] }] {}).2.tenants
        = ["U"] ∧
     (demoSyncLoop
        [{ ID := "X", ParentID := "P", DeletedAt := 0, OfferingItems := [] },
         { ID := "P", ParentID := "U", DeletedAt := 0, OfferingItems := [] }] [] 7
      |>.processTenantsAndOfferingItemsChanges plainRuntime 5
        [{ ID := "X", ParentID := "P", DeletedAt := 0, OfferingItems := [] },
         { ID := "P", ParentID := "U", DeletedAt := 0, OfferingItems := [] },
         { ID := "U", ParentID := "U", DeletedAt := 0, OfferingItems := [] }]
        { tenants := ["U"] }).2.tenants = ["U", "P", "X"]) ∧
    ((demoSyncLoop
        [{ ID := "R", ParentID := "R", DeletedAt := 0, OfferingItems := [] },
         { ID := "P", ParentID := "R", DeletedAt := 0, OfferingItems := [] },
         { ID := "T", ParentID := "P", DeletedAt := 0, OfferingItems := [] },
         { ID := "P2", ParentID := "R", DeletedAt := 0, OfferingItems := [] },
         { ID := "T2", ParentID := "P2", DeletedAt := 0, OfferingItems := [] }] [] 7
      |>.processTenantsAndOfferingItemsChanges plainRuntime 5
        [{ ID := "T", ParentID := "P", DeletedAt := 0, OfferingItems := [] },
         { ID := "R", ParentID := "R", DeletedAt := 5, OfferingItems := [] },
         { ID := "T2", ParentID := "P2", DeletedAt := 0, OfferingItems := [] }] {}).2.tenants
        = ["P", "T", "R", "P2", "T2"] ∧
     (demoSyncLoop
        [{ ID := "R", ParentID := "R", DeletedAt := 0, OfferingItems := [] },
         { ID := "P", ParentID := "R", DeletedAt := 0, OfferingItems := [] },
         { ID := "T", ParentID := "P", DeletedAt := 0, OfferingItems := [] },
         { ID := "P2", ParentID := "R", DeletedAt := 0, OfferingItems := [] },
         { ID := "T2", ParentID := "P2", DeletedAt := 0, OfferingItems := [] }] [] 7
      |>.processTenantsAndOfferingItemsChanges plainRuntime 5
        [{ ID := "T", ParentID := "P", DeletedAt := 0, OfferingItems := [] },
         { ID := "R", ParentID := "R", DeletedAt := 5, OfferingItems := [] },
         { ID := "T2", ParentID := "P2", DeletedAt := 0, OfferingItems := [] }]
        { tenants := ["P", "T", "R", "P2", "T2"] }).2.tenants = ["P", "T", "P2", "T2"]) := by
  decide

/-- C20 (idempotence), amended. The external system is the in-memory store
and the answers of the cloud do not change; the state of the external system
is read as the sets of ids it holds. The ancestry of the tenants a cycle
upserts is made of their parents and, along the answers of the cloud to a
request by id, of the parents of these. Provided that this ancestry can be
climbed (the height `hgt` decreases along it, so that it holds no circle, and
the budget exceeds it), and that a tenant that is upserted and is on the
ancestry of another is known to the cloud under its id with the same parent:
(1) a tenants reconciliation cycle, the budget covering the pages of the
external readers before the first run and before the second: whatever order
`range` follows in either run, both runs return, and the second leaves the
external system with the same tenants, offering items, users, access policies
and usages as the first; (2) one incremental page of tenants, provided no item
of the page deletes a tenant of the ancestry of the tenants the page upserts:
both applications end, and the second leaves the external system with the same
tenants, offering items, users, access policies and usages as the first. -/
theorem inMemory_twice_is_once (rt rt2 : Runtime Store) (tenants : List Tenant)
    (users : List User) (ts : Time) (fuel : Nat) (s : Store) (hgt : String → Nat) :
    (AncestryDescends tenants (cloudMapTenants tenants) hgt fuel →
      AncestorsKnown tenants (cloudMapTenants tenants) →
      s.tenants.length / 100 < fuel → s.offeringItems.length / 100 < fuel →
      ((demoReconciliationLoop tenants users ts).reconcileTenantsAndOfferingItems
          rt fuel s).2.tenants.length / 100 < fuel →
      ((demoReconciliationLoop tenants users ts).reconcileTenantsAndOfferingItems
          rt fuel s).2.offeringItems.length / 100 < fuel →
      ((demoReconciliationLoop tenants users ts).reconcileTenantsAndOfferingItems
          rt fuel s).1 = some ts ∧
      ((demoReconciliationLoop tenants users ts).reconcileTenantsAndOfferingItems rt2 fuel
          ((demoReconciliationLoop tenants users ts).reconcileTenantsAndOfferingItems
            rt fuel s).2).1 = some ts ∧
      (∀ id, id ∈ ((demoReconciliationLoop tenants users ts).reconcileTenantsAndOfferingItems
            rt2 fuel ((demoReconciliationLoop tenants users ts).reconcileTenantsAndOfferingItems
              rt fuel s).2).2.tenants
          ↔ id ∈ ((demoReconciliationLoop tenants users ts).reconcileTenantsAndOfferingItems
              rt fuel s).2.tenants) ∧
      (∀ e, e ∈ ((demoReconciliationLoop tenants users ts).reconcileTenantsAndOfferingItems
            rt2 fuel ((demoReconciliationLoop tenants users ts).reconcileTenantsAndOfferingItems
              rt fuel s).2).2.offeringItems
          ↔ e ∈ ((demoReconciliationLoop tenants users ts).reconcileTenantsAndOfferingItems
              rt fuel s).2.offeringItems) ∧
      ((demoReconciliationLoop tenants users ts).reconcileTenantsAndOfferingItems
            rt2 fuel ((demoReconciliationLoop tenants users ts).reconcileTenantsAndOfferingItems
              rt fuel s).2).2.users
        = ((demoReconciliationLoop tenants users ts).reconcileTenantsAndOfferingItems
              rt fuel s).2.users ∧
      ((demoReconciliationLoop tenants users ts).reconcileTenantsAndOfferingItems
            rt2 fuel ((demoReconciliationLoop tenants users ts).reconcileTenantsAndOfferingItems
              rt fuel s).2).2.accessPolicies
        = ((demoReconciliationLoop tenants users ts).reconcileTenantsAndOfferingItems
              rt fuel s).2.accessPolicies ∧
      ((demoReconciliationLoop tenants users ts).reconcileTenantsAndOfferingItems
            rt2 fuel ((demoReconciliationLoop tenants users ts).reconcileTenantsAndOfferingItems
              rt fuel s).2).2.usages
        = ((demoReconciliationLoop tenants users ts).reconcileTenantsAndOfferingItems
              rt fuel s).2.usages) ∧
    (∀ page : List Tenant,
      AncestryDescends tenants (upsertedTenants page) hgt fuel →
      AncestorsKnown tenants (upsertedTenants page) →
      (∀ item ∈ page, deleteTenantIDOf item ≠ "" →
        ¬ Ancestry tenants (upsertedTenants page) (deleteTenantIDOf item)) →
      ((demoSyncLoop tenants users ts).processTenantsAndOfferingItemsChanges rt fuel
          page s).1 = some () ∧
      ((demoSyncLoop tenants users ts).processTenantsAndOfferingItemsChanges rt2 fuel page
          ((demoSyncLoop tenants users ts).processTenantsAndOfferingItemsChanges rt fuel
            page s).2).1 = some () ∧
      (∀ id, id ∈ ((demoSyncLoop tenants users ts).processTenantsAndOfferingItemsChanges rt2
            fuel page
            ((demoSyncLoop tenants users ts).processTenantsAndOfferingItemsChanges rt fuel
              page s).2).2.tenants
          ↔ id ∈ ((demoSyncLoop tenants users ts).processTenantsAndOfferingItemsChanges rt
              fuel page s).2.tenants) ∧
      (∀ e, e ∈ ((demoSyncLoop tenants users ts).processTenantsAndOfferingItemsChanges rt2
            fuel page
            ((demoSyncLoop tenants users ts).processTenantsAndOfferingItemsChanges rt fuel
              page s).2).2.offeringItems
          ↔ e ∈ ((demoSyncLoop tenants users ts).processTenantsAndOfferingItemsChanges rt
              fuel page s).2.offeringItems) ∧
      ((demoSyncLoop tenants users ts).processTenantsAndOfferingItemsChanges rt2
            fuel page
            ((demoSyncLoop tenants users ts).processTenantsAndOfferingItemsChanges rt fuel
              page s).2).2.users
        = ((demoSyncLoop tenants users ts).processTenantsAndOfferingItemsChanges rt
              fuel page s).2.users ∧
      ((demoSyncLoop tenants users ts).processTenantsAndOfferingItemsChanges rt2
            fuel page
            ((demoSyncLoop tenants users ts).processTenantsAndOfferingItemsChanges rt fuel
              page s).2).2.accessPolicies
        = ((demoSyncLoop tenants users ts).processTenantsAndOfferingItemsChanges rt
              fuel page s).2.accessPolicies ∧
      ((demoSyncLoop tenants users ts).processTenantsAndOfferingItemsChanges rt2
            fuel page
            ((demoSyncLoop tenants users ts).processTenantsAndOfferingItemsChanges rt fuel
              page s).2).2.usages
        = ((demoSyncLoop tenants users ts).processTenantsAndOfferingItemsChanges rt
              fuel page s).2.usages) := by
  constructor
  · intro hd hcanon hT hOI hT2 hOI2
    obtain ⟨s3, s4, hs3, hr1, a1, at1, a3, a4, a5, a6⟩ := memExt_reconcileTenants_runs rt tenants
      users ts hgt fuel s hd hT hOI
    obtain ⟨s3b, s4b, hs3b, hr2, b1, bt1, b3, b4, b5, b6⟩ := memExt_reconcileTenants_runs rt2
      tenants users ts hgt fuel
      ((demoReconciliationLoop tenants users ts).reconcileTenantsAndOfferingItems rt fuel s).2
      hd hT2 hOI2
    have hstart : tenantSet s3b = tenantSet s4 ∩ {x | x ∈ (addTenants {} tenants).keys} := by
      ext x
      simp only [tenantSet, Set.mem_setOf_eq, Set.mem_inter_iff, hs3b x, at1]
    rw [hstart] at hr2
    have hB : tenantSet s4b = tenantSet s4 :=
      Runs.upserts_twice hcanon (fun y hy => exists_cloudMapTenant hy)
        (fun T hT => mem_cloudMapTenants hT) (mem_upsertOps rt tenants)
        (mem_upsertOps rt2 tenants) (fun x hx => ((hs3 x).1 hx).2) hr1 hr2
    refine ⟨a1, b1, fun id => ?_, fun e => ?_, b4, b5, b6⟩
    · rw [bt1, at1]
      exact Set.ext_iff.1 hB id
    · rw [b3, a3]
      constructor
      · rintro (⟨h, -⟩ | h)
        · exact h
        · exact Or.inr h
      · rintro (⟨h, hn⟩ | h)
        · exact Or.inl ⟨Or.inl ⟨h, hn⟩, hn⟩
        · exact Or.inr h
  · intro page hd hcanon hdel
    obtain ⟨s1, h1, hr1, o1, u1, p1, g1⟩ := memExt_processTenants_runs rt tenants users ts
      (upsertedTenants page) hgt fuel hd page s (fun T h => h)
    rw [h1]
    obtain ⟨s2, h2, hr2, o2, u2, p2, g2⟩ := memExt_processTenants_runs rt2 tenants users ts
      (upsertedTenants page) hgt fuel hd page s1 (fun T h => h)
    rw [h2]
    have hB : tenantSet s2 = tenantSet s1 :=
      Runs.page_twice hcanon (fun T h => mem_tenantOpsOfPage_upsert h)
        (fun d h => by
          obtain ⟨item, hi, hne, rfl⟩ := mem_tenantOpsOfPage_delete h
          exact hdel item hi hne) hr1 hr2
    refine ⟨rfl, rfl, fun id => Set.ext_iff.1 hB id, fun e => ?_, u2, p2, g2⟩
    simp only
    rw [o2, o1, Verdict.holds_idem]

/-- (1) The cloud holds `sampleTenants`; the external system holds `T`, `Y`,
a tenant `Z` the cloud does not know and an offering item `y` of `Z`. Two
reconciliation cycles in a row leave `Z` out and the deleted ancestor `D` in,
as one does. (2) The external system holds `Z`. A page that upserts `T`, two
levels below the root `R`, and deletes `Z`, applied twice, leaves the repaired
ancestor `R` in and `Z` out, as applied once. -/
theorem inMemory_twice_is_once_witness :
    ("Z" ∉ (demoReconciliationLoop sampleTenants [] 7
        |>.reconcileTenantsAndOfferingItems plainRuntime 3
          (demoReconciliationLoop sampleTenants [] 7
            |>.reconcileTenantsAndOfferingItems plainRuntime 3
              { tenants := ["T", "Y", "Z"],
                offeringItems := [{ OfferingItemName := "y", TenantID := "Z" }] }).2).2.tenants ∧
      "D" ∈ (demoReconciliationLoop sampleTenants [] 7
        |>.reconcileTenantsAndOfferingItems plainRuntime 3
          (demoReconciliationLoop sampleTenants [] 7
            |>.reconcileTenantsAndOfferingItems plainRuntime 3
              { tenants := ["T", "Y", "Z"],
                offeringItems := [{ OfferingItemName := "y", TenantID := "Z" }] }).2).2.tenants) ∧
    ("R" ∈ (demoSyncLoop sampleTenants [] 7
        |>.processTenantsAndOfferingItemsChanges plainRuntime 3 samplePage
          (demoSyncLoop sampleTenants [] 7
            |>.processTenantsAndOfferingItemsChanges plainRuntime 3 samplePage
              { tenants := ["Z"] }).2).2.tenants ∧
      "Z" ∉ (demoSyncLoop sampleTenants [] 7
        |>.processTenantsAndOfferingItemsChanges plainRuntime 3 samplePage
          (demoSyncLoop sampleTenants [] 7
            |>.processTenantsAndOfferingItemsChanges plainRuntime 3 samplePage
              { tenants := ["Z"] }).2).2.tenants) := by
  have h := (inMemory_twice_is_once plainRuntime plainRuntime sampleTenants [] 7 3
    { tenants := ["T", "Y", "Z"],
      offeringItems := [{ OfferingItemName := "y", TenantID := "Z" }] }
    (fun id => if id = "P" then 1 else 0)).1
    (ancestryDescends_of_closed ["R", "P", "D", "U"] (by decide) (by decide) (by decide)
      (by decide))
    (ancestorsKnown_of_closed ["R", "P", "D", "U"] (by decide) (by decide) (by decide))
    (by decide) (by decide) (by decide) (by decide)
  have h2 := (inMemory_twice_is_once plainRuntime plainRuntime sampleTenants [] 7 3
    { tenants := ["Z"] } (fun id => if id = "P" then 1 else 0)).2 samplePage
    (ancestryDescends_of_closed ["P", "R"] (by decide) (by decide) (by decide) (by decide))
    (ancestorsKnown_of_closed ["P", "R"] (by decide) (by decide) (by decide))
    (fun item hi hne => not_ancestry_of_closed ["P", "R"] (by decide) (by decide)
      ((by decide : ∀ item ∈ samplePage, deleteTenantIDOf item ≠ "" →
        deleteTenantIDOf item ∉ ["P", "R"]) item hi hne))
  exact ⟨⟨fun hz => absurd ((h.2.2.1 "Z").1 hz) (by decide), (h.2.2.1 "D").2 (by decide)⟩,
    ⟨(h2.2.2.1 "R").2 (by decide), fun hz => absurd ((h2.2.2.1 "Z").1 hz) (by decide)⟩⟩

end Idempotence

end Connector
